import Mathlib

/-!
# The statistics engine of icecast (`src/stats.c`)

A shallow embedding of the stats core: the global store, the source store, the
list of event listeners with their frame queues, and the event processor.

Conventions of the embedding.

* A C string is the list of its bytes (`CStr`); a nullable `char *` is an
  `Option CStr`.
* The AVL trees of `avl/avl.h` are kept as lists in ascending key order
  (`strcmp` order); a pointer to a tree entry is the entry's key.
* A function of the C code that can run into undefined behaviour (`strdup`,
  `strcmp`, `atoll` or `%s` on a null pointer, a dangling handle) returns an
  `Option`: `none` is undefined behaviour, `some` a normal return.
* Locks are not modelled: every function is one atomic step.
* `int` flag sets are the natural number of their bit pattern.
-/

namespace Icecast

/-! ## C strings -/

/-- A C string: its bytes, the terminating NUL left out. -/
abbrev CStr := List Nat

/-- The bytes of an ASCII literal. -/
def cstr (s : String) : CStr := s.toList.map Char.toNat

/-- The function `strcmp` of libc: negative, zero or positive as the first string is below,
equal to or above the second in byte order. -/
def strcmp : CStr → CStr → Int
  | [], [] => 0
  | [], _ :: _ => -1
  | _ :: _, [] => 1
  | a :: as, b :: bs => if a < b then -1 else if b < a then 1 else strcmp as bs

/-- The value of `x & ~h` on bit patterns: the bits of `h` cleared in `x`. -/
def andNot (x h : Nat) : Nat := x ^^^ (x &&& h)

/-! ## Decimal text and `atoll` -/

/-- The least `int64_t`. -/
def INT64_MIN : Int := -(2 ^ 63)

/-- The greatest `int64_t`. -/
def INT64_MAX : Int := 2 ^ 63 - 1

/-- Two's complement wrap of an integer into the `int64_t` range. -/
def wrap64 (x : Int) : Int := (x + 2 ^ 63) % 2 ^ 64 - 2 ^ 63

/-- Digits of `n` in base ten, most significant first, put in front of `acc`; `fuel` bounds
the number of digits. -/
def utoa_aux : Nat → Nat → CStr → CStr
  | 0, _, acc => acc
  | fuel + 1, n, acc =>
    if n < 10 then (48 + n) :: acc else utoa_aux fuel (n / 10) ((48 + n % 10) :: acc)

/-- The text `printf ("%lu")` gives for `n`. -/
def utoa (n : Nat) : CStr := utoa_aux (n + 1) n []

/-- The text `snprintf (.., "%" PRId64, value)` gives: a minus sign for a negative value,
then the decimal digits. -/
def itoa (value : Int) : CStr :=
  if value < 0 then 45 :: utoa value.natAbs else utoa value.natAbs

/-- The test `isspace` of the C locale. -/
def isspace (c : Nat) : Bool := c = 32 || (9 ≤ c && c ≤ 13)

/-- The test `isdigit`. -/
def isdigit (c : Nat) : Bool := 48 ≤ c && c ≤ 57

/-- The number read from the leading decimal digits of a string, `acc` being the value of
the digits read so far. -/
def atoll_digits : CStr → Nat → Nat
  | [], acc => acc
  | c :: cs, acc => if isdigit c then atoll_digits cs (acc * 10 + (c - 48)) else acc

/-- The part of `atoll` after the white space: an optional sign, then the digits. -/
def atoll_signed : CStr → Int
  | [] => 0
  | c :: cs =>
    if c = 45 then -(atoll_digits cs 0 : Int)
    else if c = 43 then (atoll_digits cs 0 : Int)
    else (atoll_digits (c :: cs) 0 : Int)

/-- Leading white space dropped. -/
def skip_space : CStr → CStr
  | [] => []
  | c :: cs => if isspace c then skip_space cs else c :: cs

/-- The function `atoll` of libc (`strtoll (nptr, NULL, 10)`): leading white space is
skipped, an optional sign and the decimal digits that follow are read, text with no number
gives 0, and a value outside `int64_t` is clamped to the nearest bound. -/
def atoll (s : CStr) : Int :=
  max INT64_MIN (min INT64_MAX (atoll_signed (skip_space s)))

/-! ## Constants -/

/-- Size of the scratch buffers for numbers. -/
def VAL_BUFSIZE : Nat := 30

/-- Frame flag: a frame of the connection set-up. -/
def STATS_BLOCK_CONNECTION : Nat := 1

/-- Event action: set. -/
def STATS_EVENT_SET : Nat := 0

/-- Event action: increment. -/
def STATS_EVENT_INC : Nat := 1

/-- Event action: decrement. -/
def STATS_EVENT_DEC : Nat := 2

/-- Event action: add. -/
def STATS_EVENT_ADD : Nat := 3

/-- Event action: subtract. -/
def STATS_EVENT_SUB : Nat := 4

/-- Event action: remove. -/
def STATS_EVENT_REMOVE : Nat := 5

/-- Event action bit: the event carries flags. -/
def STATS_EVENT_HIDDEN : Nat := 0x80

/-- The `STATS_*` flag constants, which `stats.h` defines; that header is not part of the
sources at hand, so the engine takes them as a parameter. -/
structure stats_flags where
  /-- Public-visibility subset. -/
  STATS_PUBLIC : Nat
  /-- Replicated to relay slaves. -/
  STATS_SLAVE : Nat
  /-- General information. -/
  STATS_GENERAL : Nat
  /-- Live counter. -/
  STATS_COUNTERS : Nat
  /-- Throttled counter. -/
  STATS_REGULAR : Nat
  /-- Admin only. -/
  STATS_HIDDEN : Nat
  deriving DecidableEq, Repr

/-- One assignment of distinct bits to the flags, with `STATS_PUBLIC` the general and
counter bits together; used where a concrete run is evaluated. -/
def flags0 : stats_flags :=
  { STATS_PUBLIC := 12, STATS_SLAVE := 2, STATS_GENERAL := 4, STATS_COUNTERS := 8,
    STATS_REGULAR := 16, STATS_HIDDEN := 1 }

/-! ## Data model -/

/-- A leaf stat (`stats_node_t`). -/
structure stats_node_t where
  /-- Name of the stat, the key in its tree. -/
  name : CStr
  /-- Value text; a null pointer is `none`. -/
  value : Option CStr
  /-- Time of the last periodic report. -/
  last_reported : Int
  /-- Flag set. -/
  flags : Nat
  deriving DecidableEq, Repr

/-- An event (`stats_event_t`). -/
structure stats_event_t where
  /-- Mount, or null for the global store. -/
  source : Option CStr
  /-- Stat name, or null for the whole source. -/
  name : Option CStr
  /-- Value, or null. -/
  value : Option CStr
  /-- Flag set. -/
  flags : Nat
  /-- Action code, possibly with `STATS_EVENT_HIDDEN`. -/
  action : Nat
  deriving DecidableEq, Repr

/-- The stats of one mount (`stats_source_t`). -/
structure stats_source_t where
  /-- Mount name, the key in the source tree. -/
  source : CStr
  /-- Flag set. -/
  flags : Nat
  /-- Expiry time. -/
  updated : Int
  /-- Child stats in ascending name order. -/
  stats_tree : List stats_node_t
  deriving DecidableEq, Repr

/-- A frame of queued text (`refbuf_t`): `data` is the first `len` bytes of the buffer. -/
structure refbuf_t where
  /-- The bytes held. -/
  data : CStr
  /-- Frame flags. -/
  flags : Nat
  deriving DecidableEq, Repr

/-- Length of a frame (`refbuf->len`). -/
def refbuf_t.len (r : refbuf_t) : Nat := r.data.length

/-- The fields of `client_t` the stats engine uses. -/
structure client_t where
  /-- Chain of frames still to be written (`client->refbuf` and the `next` links). -/
  refbuf : List refbuf_t
  /-- Bytes of the first frame already written. -/
  pos : Nat
  /-- Whether `client->worker` is set. -/
  worker : Bool
  /-- Clock of the worker in ms (`worker->time_ms`). -/
  time_ms : Nat
  /-- Clock of the worker in s (`worker->current_time.tv_sec`). -/
  current_time : Int
  /-- Start of the connection (`connection.con_time`). -/
  con_time : Int
  /-- Error mark of the connection (`connection.error`). -/
  error : Nat
  /-- Time of the next run. -/
  schedule_ms : Nat
  deriving DecidableEq, Repr

/-- A subscriber (`event_listener_t`) together with its client. `recent_block`, a pointer
into the chain of frames, is the position of the frame it points to. -/
structure event_listener_t where
  /-- Subscription mask. -/
  mask : Nat
  /-- Bytes queued (`unsigned int`). -/
  content_len : Nat
  /-- Position in `client.refbuf` of the most recent frame, or null. -/
  recent_block : Option Nat
  /-- The client of the subscriber. -/
  client : client_t
  deriving DecidableEq, Repr

/-- The singleton `_stats`. -/
structure stats_t where
  /-- Global stats in ascending name order. -/
  global_tree : List stats_node_t
  /-- Sources in ascending mount order. -/
  source_tree : List stats_source_t
  /-- Subscribers, most recent first. -/
  event_listeners : List event_listener_t
  deriving DecidableEq, Repr

/-! ## Ordered trees -/

/-- Modelled from the spec: the search of the AVL library (`avl/avl.h`, not under src/) as
`_find_node` and `_find_source` use it, on a map ordered by key: the entry whose key
compares equal. -/
def avl_find {α : Type} (key : α → CStr) (name : CStr) : List α → Option α
  | [] => none
  | x :: xs => if strcmp name (key x) = 0 then some x else avl_find key name xs

/-- Modelled from the spec: `avl_insert` of the AVL library (not under src/) on a map
ordered by key: the entry is put before the first entry with a greater key. -/
def avl_insert {α : Type} (key : α → CStr) (x : α) : List α → List α
  | [] => [x]
  | y :: ys => if strcmp (key x) (key y) < 0 then x :: y :: ys else y :: avl_insert key x ys

/-- Modelled from the spec: `avl_delete` of the AVL library (not under src/): the entry
whose key compares equal is taken out. -/
def avl_delete {α : Type} (key : α → CStr) (name : CStr) : List α → List α
  | [] => []
  | x :: xs => if strcmp name (key x) = 0 then xs else x :: avl_delete key name xs

/-- A write through a pointer to a tree entry: the entry with the key `name` becomes `x`. -/
def avl_store {α : Type} (key : α → CStr) (name : CStr) (x : α) : List α → List α
  | [] => []
  | y :: ys => if strcmp name (key y) = 0 then x :: ys else y :: avl_store key name x ys

/-! ## Frames and the queue of a subscriber -/

/-- Modelled from the spec: `refbuf_new` of `refbuf.c` (not under src/), with the
`r->len = 0` that follows each call in `stats.c`: an empty frame without flags. -/
def refbuf_new : refbuf_t := { data := [], flags := 0 }

/-- Modelled from the spec: `refbuf_appendv` of `refbuf.c` (not under src/), a formatted
write at the end of a frame of capacity `cap` that returns a negative number on overflow.
`line` is the formatted text; the result is the frame after the call and the returned
count. -/
def refbuf_appendv (r : refbuf_t) (cap : Nat) (line : CStr) : refbuf_t × Int :=
  if r.len + line.length ≤ cap then ({ r with data := r.data ++ line }, (line.length : Int))
  else (r, -1)

/-- The bytes of a chain of frames, in order. -/
def queue_bytes (q : List refbuf_t) : CStr := (q.map refbuf_t.data).flatten

/-- The sum of the lengths of the frames of a chain. -/
def queue_len (q : List refbuf_t) : Nat := (q.map refbuf_t.len).sum

/-- The value of an `unsigned int` after a sum. -/
def u32 (x : Nat) : Nat := x % 2 ^ 32

/-- The frame `listener->recent_block` points to. -/
def recent_frame (listener : event_listener_t) : Option (Nat × refbuf_t) :=
  match listener.recent_block with
  | none => none
  | some i =>
    match listener.client.refbuf.get? i with
    | none => none
    | some r => some (i, r)

/-- Linking of a new frame at the tail (`_add_node_to_stats_client`): an empty frame is
not linked; with a recent block the frame becomes its `next`, without one it becomes the
head of the chain. -/
def _add_node_to_stats_client (listener : event_listener_t) (refbuf : refbuf_t) :
    event_listener_t :=
  if refbuf.len ≠ 0 then
    match listener.recent_block with
    | some i =>
      let chain := listener.client.refbuf.take (i + 1) ++ [refbuf]
      { listener with
        client := { listener.client with refbuf := chain }
        recent_block := some (chain.length - 1)
        content_len := u32 (listener.content_len + refbuf.len) }
    | none =>
      { listener with
        client := { listener.client with refbuf := [refbuf] }
        recent_block := some 0
        content_len := u32 (listener.content_len + refbuf.len) }
  else listener

/-- The second half of `_add_stats_to_stats_client`: the line goes into a new frame of
4096 bytes, which is linked at the tail; a line that does not fit is dropped. -/
def add_stats_new_block (listener : event_listener_t) (line : CStr) : event_listener_t :=
  let res := refbuf_appendv refbuf_new 4096 line
  if res.2 < 0 then listener else _add_node_to_stats_client listener res.1

/-- Delivery of one formatted line to a subscriber (`_add_stats_to_stats_client`). -/
def _add_stats_to_stats_client (listener : event_listener_t) (line : CStr) :
    event_listener_t :=
  if listener.client.worker = false then listener
  else if listener.content_len > 6000000 then
    { listener with client := { listener.client with error := 1 } }
  else
    match recent_frame listener with
    | some (i, r) =>
      if r.flags &&& STATS_BLOCK_CONNECTION = 0 ∧ r.len < 4000 then
        let res := refbuf_appendv r 4096 line
        if res.2 > 0 then
          { listener with
            client := { listener.client with refbuf := listener.client.refbuf.set i res.1 }
            content_len := u32 (listener.content_len + res.2.toNat) }
        else add_stats_new_block listener line
      else add_stats_new_block listener line
    | none => add_stats_new_block listener line

/-- Whether a broadcast with the flag set `mask` is for a subscriber
(the test of `stats_listener_send`). -/
def listener_selected (K : stats_flags) (mask : Nat) (listener : event_listener_t) : Bool :=
  let admuser := listener.mask &&& K.STATS_HIDDEN
  let hidden := mask &&& K.STATS_HIDDEN
  let flags := andNot mask K.STATS_HIDDEN
  decide (admuser ≠ 0) || (decide (hidden = 0) && decide (flags &&& listener.mask ≠ 0))

/-- Broadcast of one formatted line with the flag set `mask` (`stats_listener_send`). -/
def stats_listener_send (K : stats_flags) (mask : Nat) (line : CStr)
    (listeners : List event_listener_t) : List event_listener_t :=
  listeners.map fun listener =>
    if listener_selected K mask listener then _add_stats_to_stats_client listener line
    else listener

/-! ## Lines of the wire protocol -/

/-- The line `EVENT <scope> <name> <value>\n`. -/
def line_EVENT (scope name value : CStr) : CStr :=
  cstr "EVENT " ++ scope ++ cstr " " ++ name ++ cstr " " ++ value ++ cstr "\n"

/-- The line `DELETE <scope> <name>\n`. -/
def line_DELETE_node (scope name : CStr) : CStr :=
  cstr "DELETE " ++ scope ++ cstr " " ++ name ++ cstr "\n"

/-- The line `DELETE <mount>\n`. -/
def line_DELETE (mount : CStr) : CStr := cstr "DELETE " ++ mount ++ cstr "\n"

/-- The line `NEW <type> <mount>\n`. -/
def line_NEW (type mount : CStr) : CStr :=
  cstr "NEW " ++ type ++ cstr " " ++ mount ++ cstr "\n"

/-- The line `FLUSH <mount>\n`. -/
def line_FLUSH (mount : CStr) : CStr := cstr "FLUSH " ++ mount ++ cstr "\n"

/-! ## The event processor -/

/-- Helper for creating an event (`build_event`). -/
def build_event (K : stats_flags) (source name value : Option CStr) : stats_event_t :=
  { source := source
    name := name
    value := value
    flags := if source.isSome then K.STATS_PUBLIC ||| K.STATS_SLAVE else K.STATS_PUBLIC
    action := if value.isSome then STATS_EVENT_SET else STATS_EVENT_REMOVE }

/-- Search of a stat by name (`_find_node`). On an empty tree the name is not looked at;
otherwise `strcmp` on a null name is undefined. -/
def _find_node (stats_tree : List stats_node_t) (name : Option CStr) :
    Option (Option stats_node_t) :=
  match stats_tree, name with
  | [], _ => some none
  | _ :: _, none => none
  | _ :: _, some n => some (avl_find stats_node_t.name n stats_tree)

/-- Search of a source by mount (`_find_source`). -/
def _find_source (source_tree : List stats_source_t) (source : Option CStr) :
    Option (Option stats_source_t) :=
  match source_tree, source with
  | [], _ => some none
  | _ :: _, none => none
  | _ :: _, some m => some (avl_find stats_source_t.source m source_tree)

/-- The call `atoll` on a pointer: undefined on a null pointer. -/
def atoll_ptr (s : Option CStr) : Option Int :=
  match s with
  | none => none
  | some text => some (atoll text)

/-- The number an arithmetic event leaves in the node (the `switch` of `modify_node_event`);
any other action gives 0. The sums are those of `int64_t`. -/
def modify_value (action : Nat) (node_value event_value : Option CStr) : Option Int :=
  if action = STATS_EVENT_INC then
    (atoll_ptr node_value).bind fun x => some (wrap64 (x + 1))
  else if action = STATS_EVENT_DEC then
    (atoll_ptr node_value).bind fun x => some (wrap64 (x - 1))
  else if action = STATS_EVENT_ADD then
    (atoll_ptr node_value).bind fun x =>
      (atoll_ptr event_value).bind fun y => some (wrap64 (x + y))
  else if action = STATS_EVENT_SUB then
    (atoll_ptr node_value).bind fun x =>
      (atoll_ptr event_value).bind fun y => some (wrap64 (x - y))
  else some 0

/-- The end of `modify_node_event`: the new value replaces the old one, and a REGULAR node
has its report time reset. -/
def modify_node_store (K : stats_flags) (node : stats_node_t) (value : CStr) : stats_node_t :=
  { node with
    value := some value
    last_reported := if node.flags &&& K.STATS_REGULAR ≠ 0 then 0 else node.last_reported }

/-- The first step of `modify_node_event`: an event with `STATS_EVENT_HIDDEN` gives the node
its flags. -/
def modify_node_flags (node : stats_node_t) (event : stats_event_t) : stats_node_t :=
  if event.action &&& STATS_EVENT_HIDDEN ≠ 0 then { node with flags := event.flags } else node

/-- The action of an event once `modify_node_event` has taken `STATS_EVENT_HIDDEN` off. -/
def modify_node_action (event : stats_event_t) : Nat :=
  if event.action &&& STATS_EVENT_HIDDEN ≠ 0 then andNot event.action STATS_EVENT_HIDDEN
  else event.action

/-- Helper to apply specialised changes to a stats node (`modify_node_event`); the result is
the node after the call. -/
def modify_node_event (K : stats_flags) (node : stats_node_t) (event : stats_event_t) :
    Option stats_node_t :=
  let node1 := modify_node_flags node event
  if event.action &&& STATS_EVENT_HIDDEN ≠ 0 ∧ event.value = none then some node1
  else if modify_node_action event = STATS_EVENT_SET then
    match event.value with
    | none => none
    | some ev =>
      if node1.flags &&& K.STATS_REGULAR ≠ 0 ∧ node1.value.isSome
          ∧ node1.value.map (strcmp · ev) = some 0 then
        some node1
      else some (modify_node_store K node1 ev)
  else
    match modify_value (modify_node_action event) node1.value event.value with
    | none => none
    | some value => some (modify_node_store K node1 (itoa value))

/-- The broadcast and the store of a global node at the end of `process_global_event`. -/
def global_event_report (K : stats_flags) (st : stats_t) (tree : List stats_node_t)
    (node : stats_node_t) : Option stats_t :=
  if node.flags &&& K.STATS_REGULAR = 0 then
    match node.value with
    | none => none
    | some v =>
      some { st with
        global_tree := tree
        event_listeners :=
          stats_listener_send K node.flags (line_EVENT (cstr "global") node.name v)
            st.event_listeners }
  else some { st with global_tree := tree }

/-- An event on the global store (`process_global_event`). -/
def process_global_event (K : stats_flags) (st : stats_t) (event : stats_event_t) :
    Option stats_t :=
  if event.action = STATS_EVENT_REMOVE then
    match _find_node st.global_tree event.name, event.name with
    | some (some node), some name =>
      some { st with
        global_tree := avl_delete stats_node_t.name node.name st.global_tree
        event_listeners :=
          stats_listener_send K node.flags (line_DELETE_node (cstr "global") name)
            st.event_listeners }
    | some none, _ => some st
    | _, _ => none
  else
    match _find_node st.global_tree event.name with
    | none => none
    | some (some node) =>
      match modify_node_event K node event with
      | none => none
      | some node1 =>
        global_event_report K st (avl_store stats_node_t.name node.name node1 st.global_tree)
          node1
    | some none =>
      match event.name, event.value with
      | some name, some value =>
        let node : stats_node_t :=
          { name := name, value := some value, last_reported := 0, flags := event.flags }
        global_event_report K st (avl_insert stats_node_t.name node st.global_tree) node
      | _, _ => none

/-- The release of a source (`_free_source_stats`): its `DELETE` line is broadcast. -/
def _free_source_stats (K : stats_flags) (node : stats_source_t)
    (listeners : List event_listener_t) : List event_listener_t :=
  stats_listener_send K node.flags (line_DELETE node.source) listeners

/-- The call `avl_delete (_stats.source_tree, src, _free_source_stats)`. -/
def delete_source (K : stats_flags) (st : stats_t) (src : stats_source_t) : stats_t :=
  { st with
    source_tree := avl_delete stats_source_t.source src.source st.source_tree
    event_listeners := _free_source_stats K src st.event_listeners }

/-- The write of a changed source back to its place in the source tree. -/
def store_source (st : stats_t) (src : stats_source_t)
    (listeners : List event_listener_t) : stats_t :=
  { st with
    source_tree := avl_store stats_source_t.source src.source src st.source_tree
    event_listeners := listeners }

/-- The loop of `process_source_stat` over the children of a source that becomes visible:
each child loses `STATS_HIDDEN` and is broadcast, in tree order. -/
def show_children (K : stats_flags) (mount : CStr) :
    List stats_node_t → List event_listener_t →
      Option (List stats_node_t × List event_listener_t)
  | [], listeners => some ([], listeners)
  | stats :: rest, listeners =>
    match stats.value with
    | none => none
    | some v =>
      let flags := andNot stats.flags K.STATS_HIDDEN
      match show_children K mount rest
          (stats_listener_send K flags (line_EVENT mount stats.name v) listeners) with
      | none => none
      | some (rest1, listeners1) => some ({ stats with flags := flags } :: rest1, listeners1)

/-- The loop of `process_source_stat` over the children of a source that becomes hidden. -/
def hide_children (K : stats_flags) (tree : List stats_node_t) : List stats_node_t :=
  tree.map fun stats => { stats with flags := stats.flags ||| K.STATS_HIDDEN }

/-- The change of the flags of a whole source (the last part of `process_source_stat`). -/
def source_flags_event (K : stats_flags) (st : stats_t) (src_stats : stats_source_t)
    (event : stats_event_t) : Option stats_t :=
  if event.flags &&& K.STATS_HIDDEN = src_stats.flags &&& K.STATS_HIDDEN then some st
  else if src_stats.flags &&& K.STATS_HIDDEN ≠ 0 then
    match _find_node src_stats.stats_tree (some (cstr "server_type")) with
    | none => none
    | some ct =>
      let type : Option CStr :=
        match ct with
        | some ct => ct.value
        | none => some (cstr "audio/mpeg")
      match type with
      | none => none
      | some type =>
        let flags := andNot src_stats.flags K.STATS_HIDDEN
        match show_children K src_stats.source src_stats.stats_tree
            (stats_listener_send K flags (line_NEW type src_stats.source)
              st.event_listeners) with
        | none => none
        | some (tree, listeners) =>
          some (store_source st { src_stats with flags := flags, stats_tree := tree } listeners)
  else
    some (store_source st
      { src_stats with
        flags := src_stats.flags ||| K.STATS_HIDDEN
        stats_tree := hide_children K src_stats.stats_tree }
      (stats_listener_send K src_stats.flags (line_DELETE src_stats.source)
        st.event_listeners))

/-- An event on the source `src_stats`, an entry of the source tree of `st`
(`process_source_stat`). -/
def process_source_stat (K : stats_flags) (st : stats_t) (src_stats : stats_source_t)
    (event : stats_event_t) : Option stats_t :=
  match event.name with
  | some name =>
    match _find_node src_stats.stats_tree event.name with
    | none => none
    | some none =>
      match event.value with
      | some value =>
        if event.action ≠ STATS_EVENT_REMOVE then
          let node : stats_node_t :=
            { name := name
              value := some value
              last_reported := 0
              flags :=
                if src_stats.flags &&& K.STATS_HIDDEN ≠ 0 then event.flags ||| K.STATS_HIDDEN
                else event.flags }
          some (store_source st
            { src_stats with
              stats_tree := avl_insert stats_node_t.name node src_stats.stats_tree }
            (stats_listener_send K node.flags (line_EVENT src_stats.source name value)
              st.event_listeners))
        else some st
      | none => some st
    | some (some node) =>
      if event.action = STATS_EVENT_REMOVE then
        some (store_source st
          { src_stats with
            stats_tree := avl_delete stats_node_t.name node.name src_stats.stats_tree }
          (stats_listener_send K node.flags (line_DELETE_node src_stats.source name)
            st.event_listeners))
      else
        match modify_node_event K node event with
        | none => none
        | some node1 =>
          match node1.value with
          | none => none
          | some v =>
            some (store_source st
              { src_stats with
                stats_tree := avl_store stats_node_t.name node.name node1 src_stats.stats_tree }
              (stats_listener_send K node1.flags (line_EVENT src_stats.source node1.name v)
                st.event_listeners))
  | none =>
    if event.action = STATS_EVENT_REMOVE then some (delete_source K st src_stats)
    else if event.action &&& STATS_EVENT_HIDDEN ≠ 0 then source_flags_event K st src_stats event
    else some st

/-- A source as `process_source_event` and `stats_handle` create it. -/
def new_source (K : stats_flags) (mount : CStr) : stats_source_t :=
  { source := mount
    flags := K.STATS_SLAVE ||| K.STATS_GENERAL ||| K.STATS_HIDDEN
    updated := 0
    stats_tree := [] }

/-- The body of `process_source_event` once the source `snode` is at hand. -/
def process_source_found (K : stats_flags) (st : stats_t) (snode : stats_source_t)
    (event : stats_event_t) : Option stats_t :=
  if event.action = STATS_EVENT_REMOVE ∧ event.name = none then
    match _find_node snode.stats_tree (some (cstr "fallback")) with
    | none => none
    | some none => some (delete_source K st snode)
    | some (some _) => some st
  else process_source_stat K st snode event

/-- An event on a source (`process_source_event`). -/
def process_source_event (K : stats_flags) (st : stats_t) (event : stats_event_t) :
    Option stats_t :=
  match _find_source st.source_tree event.source, event.source with
  | some (some snode), _ => process_source_found K st snode event
  | some none, some source =>
    if event.action = STATS_EVENT_REMOVE then some st
    else
      let snode := new_source K source
      process_source_found K
        { st with source_tree := avl_insert stats_source_t.source snode st.source_tree }
        snode event
  | _, _ => none

/-- The entry point of every change (`process_event`). -/
def process_event (K : stats_flags) (st : stats_t) (event : stats_event_t) : Option stats_t :=
  if event.source = none then process_global_event K st event
  else process_source_event K st event

/-! ## The inbound API -/

/-- Simple name=tag stat create/update (`stats_event`). `xmlCheckUTF8` is the UTF-8 test of
libxml2. -/
def stats_event (K : stats_flags) (xmlCheckUTF8 : CStr → Bool) (st : stats_t)
    (source name value : Option CStr) : Option stats_t :=
  match value with
  | some v =>
    if xmlCheckUTF8 v = false then some st
    else process_event K st (build_event K source name value)
  | none => process_event K st (build_event K source name value)

/-- Set stat with flags (`stats_event_flags`). -/
def stats_event_flags (K : stats_flags) (st : stats_t) (source name value : Option CStr)
    (flags : Nat) : Option stats_t :=
  let event := build_event K source name value
  process_event K st
    { event with
      flags := flags
      action :=
        if value.isSome then event.action ||| STATS_EVENT_HIDDEN else STATS_EVENT_HIDDEN }

/-- Increase the value in the provided stat by 1 (`stats_event_inc`). -/
def stats_event_inc (K : stats_flags) (st : stats_t) (source name : Option CStr) :
    Option stats_t :=
  process_event K st
    { build_event K source name (some (cstr "1")) with action := STATS_EVENT_INC }

/-- The text `snprintf (buffer, VAL_BUFSIZE, "%ld", value)` gives for an `unsigned long`. -/
def fmt_ld (value : Nat) : CStr := itoa (wrap64 (value : Int))

/-- Add to the value of a stat (`stats_event_add`). -/
def stats_event_add (K : stats_flags) (st : stats_t) (source name : Option CStr)
    (value : Nat) : Option stats_t :=
  if value = 0 then some st
  else
    process_event K st
      { build_event K source name (some (fmt_ld value)) with action := STATS_EVENT_ADD }

/-- Subtract from the value of a stat (`stats_event_sub`). -/
def stats_event_sub (K : stats_flags) (st : stats_t) (source name : Option CStr)
    (value : Nat) : Option stats_t :=
  if value = 0 then some st
  else
    process_event K st
      { build_event K source name (some (fmt_ld value)) with action := STATS_EVENT_SUB }

/-- Decrease the value in the provided stat by 1 (`stats_event_dec`). -/
def stats_event_dec (K : stats_flags) (st : stats_t) (source name : Option CStr) :
    Option stats_t :=
  process_event K st
    { build_event K source name (some (cstr "0")) with action := STATS_EVENT_DEC }

/-- The copy `strdup (stats->value)` of the value of a found node; null when there is no
node. -/
def dup_value (stats : Option stats_node_t) : Option (Option CStr) :=
  match stats with
  | none => some none
  | some node =>
    match node.value with
    | none => none
    | some v => some (some v)

/-- Read of a value (`_get_stats`). -/
def _get_stats (st : stats_t) (source name : Option CStr) : Option (Option CStr) :=
  match source with
  | none =>
    match _find_node st.global_tree name with
    | none => none
    | some stats => dup_value stats
  | some _ =>
    match _find_source st.source_tree source with
    | none => none
    | some none => some none
    | some (some src) =>
      match _find_node src.stats_tree name with
      | none => none
      | some stats => dup_value stats

/-- Read of a value (`stats_get_value`). -/
def stats_get_value (st : stats_t) (source name : Option CStr) : Option (Option CStr) :=
  _get_stats st source name

/-- A handle (`stats_handle_t`): a pointer to a source, kept as the mount of that source;
`none` is the null handle. -/
abbrev stats_handle_t := Option CStr

/-- The constant `LONG_MAX` (64-bit `long`). -/
def LONG_MAX : Int := 2 ^ 63 - 1

/-- The source a handle points to; a handle whose source is gone is dangling. -/
def handle_source (st : stats_t) (handle : CStr) : Option stats_source_t :=
  avl_find stats_source_t.source handle st.source_tree

/-- Handle on the stats of a mount (`stats_handle`): the state after the call and the
handle returned. -/
def stats_handle (K : stats_flags) (st : stats_t) (mount : Option CStr) :
    stats_t × stats_handle_t :=
  match mount with
  | none => (st, none)
  | some m =>
    match avl_find stats_source_t.source m st.source_tree with
    | some src_stats =>
      ({ st with
          source_tree :=
            avl_store stats_source_t.source m { src_stats with updated := LONG_MAX }
              st.source_tree },
        some src_stats.source)
    | none =>
      ({ st with
          source_tree :=
            avl_insert stats_source_t.source { new_source K m with updated := LONG_MAX }
              st.source_tree },
        some m)

/-- Release of a handle (`stats_release`): the lock is dropped, the stats stay. -/
def stats_release (st : stats_t) (_handle : stats_handle_t) : stats_t := st

/-- Drop of the stats attached to a handle (`stats_flush`). -/
def stats_flush (K : stats_flags) (st : stats_t) (handle : stats_handle_t) :
    Option stats_t :=
  match handle with
  | none => some st
  | some h =>
    match handle_source st h with
    | none => none
    | some src_stats =>
      some (store_source st { src_stats with stats_tree := [] }
        (stats_listener_send K src_stats.flags (line_FLUSH src_stats.source)
          st.event_listeners))

/-- Set of a stat through a handle (`stats_set`). -/
def stats_set (K : stats_flags) (st : stats_t) (handle : stats_handle_t)
    (name value : Option CStr) : Option stats_t :=
  match handle with
  | none => some st
  | some h =>
    match handle_source st h with
    | none => none
    | some src_stats =>
      process_source_stat K st src_stats (build_event K (some src_stats.source) name value)

/-- Increment of a stat through a handle (`stats_set_inc`). -/
def stats_set_inc (K : stats_flags) (st : stats_t) (handle : stats_handle_t)
    (name : Option CStr) : Option stats_t :=
  match handle with
  | none => some st
  | some h =>
    match handle_source st h with
    | none => none
    | some src_stats =>
      process_source_stat K st src_stats
        { build_event K (some src_stats.source) name (some (cstr "1")) with
          action := STATS_EVENT_INC }

/-- Set of the expiry of a source (`stats_set_expire`). -/
def stats_set_expire (st : stats_t) (handle : stats_handle_t) (mark : Int) :
    Option stats_t :=
  match handle with
  | none => some st
  | some h =>
    match handle_source st h with
    | none => none
    | some src_stats =>
      some { st with
        source_tree :=
          avl_store stats_source_t.source src_stats.source { src_stats with updated := mark }
            st.source_tree }

/-- Set of a stat with flags through a handle (`stats_set_flags`); the handle is used
without a null test. -/
def stats_set_flags (K : stats_flags) (st : stats_t) (handle : stats_handle_t)
    (name value : Option CStr) (flags : Nat) : Option stats_t :=
  match handle with
  | none => none
  | some h =>
    match handle_source st h with
    | none => none
    | some src_stats =>
      let event := build_event K (some src_stats.source) name value
      process_source_stat K st src_stats
        { event with
          flags := flags
          action :=
            if value.isSome then event.action ||| STATS_EVENT_HIDDEN
            else STATS_EVENT_HIDDEN }

/-- One step of the loop of `stats_purge`, on the source `src`. `fserve_contains` is the
lookup of the file server. -/
def purge_source (K : stats_flags) (fserve_contains : CStr → Int) (mark : Int)
    (st : stats_t) (src : stats_source_t) : stats_t :=
  if src.source.head? = some 47 then
    if src.updated < mark then delete_source K st src else st
  else if fserve_contains src.source < 0 then delete_source K st src
  else st

/-- Drop of the sources that have expired (`stats_purge`). -/
def stats_purge (K : stats_flags) (fserve_contains : CStr → Int) (st : stats_t)
    (mark : Int) : stats_t :=
  st.source_tree.foldl (purge_source K fserve_contains mark) st

/-! ## Sending and the registration splice -/

/-- Modelled from the spec: `format_generic_write_to_client` (not under src/), the write
of the rest of the first frame to the socket, which returns the bytes written or a negative
number. `sock` is what the socket does at this call: the count of bytes it takes, 0 when it
takes none for now, or a negative number for a socket error. The position in the frame
moves on by the bytes written; a socket error marks the connection (`connection.error`), so
that the send pass returns negative (the lost subscriber of the spec). The loop of
`stats_listeners_send` does not call it on an empty chain. -/
def format_generic_write_to_client (sock : Int) (client : client_t) : client_t × Int :=
  match client.refbuf with
  | [] => (client, -1)
  | refbuf :: _ =>
    if sock > 0 then
      let n := min sock.toNat (refbuf.len - client.pos)
      ({ client with pos := client.pos + n }, (n : Int))
    else if sock < 0 then ({ client with error := 1 }, sock)
    else (client, 0)

/-- The `while (1)` loop of `stats_listeners_send`; `loop` is the counter of the code,
`k` the number of writes made so far in this pass and `total` the bytes written. The
position `recent_block` moves with the chain when the first frame is released; the release
of the recent block itself while frames remain would leave the pointer dangling, which is
`none`. -/
def stats_send_loop (sock : Nat → Int) :
    Nat → Nat → Int → event_listener_t → Option event_listener_t
  | loop, k, total, listener =>
    let client := listener.client
    match client.refbuf with
    | [] =>
      some { listener with client := { client with schedule_ms := client.time_ms + 80 } }
    | refbuf :: next =>
      match loop with
      | 0 =>
        some { listener with
          client := { client with schedule_ms := client.time_ms + (total >>> 11).toNat + 5 } }
      | loop1 + 1 =>
        if total > 50000 then
          some { listener with
            client :=
              { client with schedule_ms := client.time_ms + (total >>> 11).toNat + 5 } }
        else
          let res := format_generic_write_to_client (sock k) client
          let total1 := if res.2 > 0 then total + res.2 else total
          if res.1.pos = refbuf.len then
            let content_len := u32 (listener.content_len + (2 ^ 32 - refbuf.len % 2 ^ 32))
            match next with
            | [] =>
              some { listener with
                content_len := content_len
                recent_block := none
                client :=
                  { res.1 with refbuf := [], pos := 0, schedule_ms := client.time_ms + 60 } }
            | _ :: _ =>
              match listener.recent_block with
              | some 0 => none
              | recent =>
                stats_send_loop sock loop1 (k + 1) total1
                  { listener with
                    content_len := content_len
                    recent_block := recent.map (· - 1)
                    client := { res.1 with refbuf := next, pos := 0 } }
          else
            some { listener with
              client :=
                { res.1 with
                  schedule_ms := client.time_ms + (if res.2 > 0 then 70 else 100) } }

/-- One pass of sending (`stats_listeners_send`): the subscriber after the pass and the
value returned. `running` tells whether `global.running` is `ICE_RUNNING`. After the first
test the clocks are read through `client->worker` without a test, in the soft-cap test when
more than 2000000 bytes are queued behind a first frame that is not flagged, and for the
schedule in every other case: on a client that has left its worker the pass is
undefined. -/
def stats_listeners_send (running : Bool) (sock : Nat → Int) (listener : event_listener_t) :
    Option (event_listener_t × Int) :=
  let client := listener.client
  if client.error ≠ 0 ∨ running = false then some (listener, -1)
  else if client.worker = false then none
  else
    let block := match client.refbuf with
      | [] => false
      | refbuf :: _ => decide (refbuf.flags &&& STATS_BLOCK_CONNECTION ≠ 0)
    if block = false ∧ listener.content_len > 2000000
        ∧ client.current_time - client.con_time > 60 then
      some (listener, -1)
    else
      match stats_send_loop sock (if block then 14 else 12) 0 0
          { listener with client := { client with schedule_ms := client.time_ms } } with
      | none => none
      | some listener1 =>
        if listener1.client.error ≠ 0 ∨ running = false then some (listener1, -1)
        else some (listener1, 0)

/-- The end of `_register_listener`: the list of frames `biglist` built for the new
subscriber, of `len` bytes in all, is put in front of the frames that came in meanwhile,
and the recent block becomes the last frame of the whole chain. An empty `biglist` leaves
`last` null, and `last->next` is undefined. -/
def register_splice (listener : event_listener_t) (biglist : List refbuf_t) (len : Nat) :
    Option event_listener_t :=
  match biglist with
  | [] => none
  | _ :: _ =>
    let chain := biglist ++ listener.client.refbuf
    some { listener with
      client := { listener.client with refbuf := chain }
      content_len := u32 (listener.content_len + len)
      recent_block := some (chain.length - 1) }

/-! ## Predicates, sequences of operations and sample states -/

/-- The empty store with no subscriber. -/
def stats_empty : stats_t := { global_tree := [], source_tree := [], event_listeners := [] }

/-- The tail reference of a subscriber is sound: null on an empty chain, the last frame
otherwise. -/
def tail_ok (l : event_listener_t) : Prop :=
  l.recent_block = if l.client.refbuf = [] then none else some (l.client.refbuf.length - 1)

/-- The queue of a subscriber is sound: the tail reference is, and `content_len` is the sum
of the lengths of the frames as an `unsigned int`. -/
def queue_ok (l : event_listener_t) : Prop :=
  tail_ok l ∧ l.content_len = u32 (queue_len l.client.refbuf)

/-- What the delivery of a line does to a subscriber `l` whose tail reference is sound,
`l1` being the subscriber after it: the tail reference stays sound, mask and worker stay;
either the chain and `content_len` are as before, or the bytes queued are the old ones
followed by the line and `content_len` has grown by the length of the line; and a line that
is not empty and fits a frame is queued when the subscriber has a worker and is not over
the cap. -/
def add_stats_post (l : event_listener_t) (line : CStr) (l1 : event_listener_t) : Prop :=
  tail_ok l1 ∧ l1.mask = l.mask ∧ l1.client.worker = l.client.worker
    ∧ ((l1.client.refbuf = l.client.refbuf ∧ l1.content_len = l.content_len)
        ∨ (queue_bytes l1.client.refbuf = queue_bytes l.client.refbuf ++ line
          ∧ queue_len l1.client.refbuf = queue_len l.client.refbuf + line.length
          ∧ l1.content_len = u32 (l.content_len + line.length)))
    ∧ (l.client.worker = true → l.content_len ≤ 6000000 → line ≠ [] → line.length ≤ 4096 →
        queue_bytes l1.client.refbuf = queue_bytes l.client.refbuf ++ line)

/-- A client with a worker and nothing queued. -/
def client0 : client_t :=
  { refbuf := [], pos := 0, worker := true, time_ms := 0, current_time := 0, con_time := 0,
    error := 0, schedule_ms := 0 }

/-- A subscriber with the given mask as `stats_add_listener` sets it up, nothing queued. -/
def listener0 (mask : Nat) : event_listener_t :=
  { mask := mask, content_len := 0, recent_block := none, client := client0 }

/-- An operation of the inbound API. -/
inductive stats_op where
  /-- The call `stats_event (source, name, value)`. -/
  | event (source name value : Option CStr)
  /-- The call `stats_event_flags (source, name, value, flags)`. -/
  | event_flags (source name value : Option CStr) (flags : Nat)
  /-- The call `stats_event_inc (source, name)`. -/
  | event_inc (source name : Option CStr)
  /-- The call `stats_event_dec (source, name)`. -/
  | event_dec (source name : Option CStr)
  /-- The call `stats_event_add (source, name, value)`. -/
  | event_add (source name : Option CStr) (value : Nat)
  /-- The call `stats_event_sub (source, name, value)`. -/
  | event_sub (source name : Option CStr) (value : Nat)
  /-- The call `stats_handle (mount)`. -/
  | handle (mount : Option CStr)
  /-- The call `stats_set (handle, name, value)`. -/
  | set (handle : stats_handle_t) (name value : Option CStr)
  /-- The call `stats_set_flags (handle, name, value, flags)`. -/
  | set_flags (handle : stats_handle_t) (name value : Option CStr) (flags : Nat)
  /-- The call `stats_set_inc (handle, name)`. -/
  | set_inc (handle : stats_handle_t) (name : Option CStr)
  /-- The call `stats_flush (handle)`. -/
  | flush (handle : stats_handle_t)
  /-- The call `stats_purge (mark)`. -/
  | purge (mark : Int)

/-- The state after an operation of the inbound API. -/
def stats_op.run (K : stats_flags) (xmlCheckUTF8 : CStr → Bool)
    (fserve_contains : CStr → Int) (st : stats_t) : stats_op → Option stats_t
  | .event source name value => stats_event K xmlCheckUTF8 st source name value
  | .event_flags source name value flags => stats_event_flags K st source name value flags
  | .event_inc source name => stats_event_inc K st source name
  | .event_dec source name => stats_event_dec K st source name
  | .event_add source name value => stats_event_add K st source name value
  | .event_sub source name value => stats_event_sub K st source name value
  | .handle mount => some (stats_handle K st mount).1
  | .set h name value => stats_set K st h name value
  | .set_flags h name value flags => stats_set_flags K st h name value flags
  | .set_inc h name => stats_set_inc K st h name
  | .flush h => stats_flush K st h
  | .purge mark => some (stats_purge K fserve_contains st mark)

/-- The state after a sequence of operations of the inbound API. -/
def run_ops (K : stats_flags) (xmlCheckUTF8 : CStr → Bool) (fserve_contains : CStr → Int) :
    stats_t → List stats_op → Option stats_t
  | st, [] => some st
  | st, op :: ops =>
    match op.run K xmlCheckUTF8 fserve_contains st with
    | none => none
    | some st1 => run_ops K xmlCheckUTF8 fserve_contains st1 ops

/-- A flags event with the flag set `flags` on the stat `name` of the mount `mount` keeps
the hidden mark: it does not take `STATS_HIDDEN` from an existing child of a hidden
source. -/
def keeps_hidden (K : stats_flags) (st : stats_t) (mount name : CStr) (flags : Nat) : Prop :=
  ∀ src node, avl_find stats_source_t.source mount st.source_tree = some src →
    src.flags &&& K.STATS_HIDDEN ≠ 0 →
    avl_find stats_node_t.name name src.stats_tree = some node →
    flags &&& K.STATS_HIDDEN = K.STATS_HIDDEN

/-- The flags events of an operation keep the hidden mark. -/
def op_keeps_hidden (K : stats_flags) (st : stats_t) : stats_op → Prop
  | .event_flags (some mount) (some name) _ flags => keeps_hidden K st mount name flags
  | .set_flags (some mount) (some name) _ flags => keeps_hidden K st mount name flags
  | _ => True

/-- The states reached from the empty store by operations of the inbound API whose flags
events keep the hidden mark. -/
inductive reachable_hidden (K : stats_flags) (xmlCheckUTF8 : CStr → Bool)
    (fserve_contains : CStr → Int) : stats_t → Prop
  /-- The empty store, with any subscribers. -/
  | init (listeners : List event_listener_t) :
    reachable_hidden K xmlCheckUTF8 fserve_contains
      { global_tree := [], source_tree := [], event_listeners := listeners }
  /-- One more operation. -/
  | step (st st1 : stats_t) (op : stats_op) :
    reachable_hidden K xmlCheckUTF8 fserve_contains st → op_keeps_hidden K st op →
    op.run K xmlCheckUTF8 fserve_contains st = some st1 →
    reachable_hidden K xmlCheckUTF8 fserve_contains st1

/-- Every child of a hidden source is hidden. -/
def source_hidden_inv (K : stats_flags) (src : stats_source_t) : Prop :=
  src.flags &&& K.STATS_HIDDEN ≠ 0 →
    ∀ node ∈ src.stats_tree, node.flags &&& K.STATS_HIDDEN = K.STATS_HIDDEN

/-- In every source of the store, every child of a hidden source is hidden. -/
def store_hidden_inv (K : stats_flags) (st : stats_t) : Prop :=
  ∀ src ∈ st.source_tree, source_hidden_inv K src

/-- An event keeps the hidden mark of the children of the source `src`: if it carries flags
and names an existing child of `src` while `src` is hidden, its flags have
`STATS_HIDDEN`. -/
def event_keeps_hidden (K : stats_flags) (src : stats_source_t) (event : stats_event_t) :
    Prop :=
  event.action &&& STATS_EVENT_HIDDEN ≠ 0 → src.flags &&& K.STATS_HIDDEN ≠ 0 →
    ∀ n node, event.name = some n →
      avl_find stats_node_t.name n src.stats_tree = some node →
      event.flags &&& K.STATS_HIDDEN = K.STATS_HIDDEN

/-- The content type a source is announced with: the value of its child `server_type`, or
`audio/mpeg` when there is none. -/
def source_type (src : stats_source_t) : Option CStr :=
  match avl_find stats_node_t.name (cstr "server_type") src.stats_tree with
  | some ct => ct.value
  | none => some (cstr "audio/mpeg")

/-- The state after `stats_event ("/a", "x", "1")` on the empty store. -/
def stats_sample : stats_t :=
  { global_tree := []
    source_tree :=
      [{ source := cstr "/a", flags := 7, updated := 0,
         stats_tree :=
          [{ name := cstr "x", value := some (cstr "1"), last_reported := 0, flags := 15 }] }]
    event_listeners := [] }

/-- A source of the store with one REGULAR child `x` of value `1`, and one subscriber for
slaves. -/
def stats_regular_child : stats_t :=
  { global_tree := []
    source_tree :=
      [{ source := cstr "/a", flags := 6, updated := 0,
         stats_tree :=
          [{ name := cstr "x", value := some (cstr "1"), last_reported := 7, flags := 18 }] }]
    event_listeners := [listener0 2] }

/-- A global store with one REGULAR stat `x` of value `1`, and one subscriber for
counters. -/
def stats_regular_global : stats_t :=
  { global_tree :=
      [{ name := cstr "x", value := some (cstr "1"), last_reported := 7, flags := 24 }]
    source_tree := []
    event_listeners := [listener0 8] }

/-- Whether a string starts, after white space and an optional sign, with a decimal
digit. -/
def leading_number (s : CStr) : Bool :=
  match skip_space s with
  | [] => false
  | c :: cs =>
    if c = 45 ∨ c = 43 then
      match cs with
      | [] => false
      | d :: _ => isdigit d
    else isdigit c

/-- An integer is in the range of `int64_t`. -/
def in_int64 (a : Int) : Prop := INT64_MIN ≤ a ∧ a ≤ INT64_MAX

/-- The value the digits `ds` give when read after digits of value `k`. -/
def digits_value (k : Nat) (ds : CStr) : Nat := ds.foldl (fun a d => a * 10 + (d - 48)) k

/-- The node with the name `n` in the scope `m`: in the global store for a null `m`, in the
source with the mount `m` otherwise. -/
def node_at (st : stats_t) (m : Option CStr) (n : CStr) : Option stats_node_t :=
  match m with
  | none => avl_find stats_node_t.name n st.global_tree
  | some mount =>
    match avl_find stats_source_t.source mount st.source_tree with
    | none => none
    | some src => avl_find stats_node_t.name n src.stats_tree

/-- The text `s` of a value stands for the integer `a`: it is the decimal text of `a`, or
it has no leading decimal number and `a` is 0. -/
def reads_as (s : CStr) (a : Int) : Prop :=
  (s = itoa a ∧ in_int64 a) ∨ (leading_number s = false ∧ a = 0)

/-- A global store with the counter `clients` at 41. -/
def stats_counter : stats_t :=
  { global_tree :=
      [{ name := cstr "clients", value := some (cstr "41"), last_reported := 0, flags := 24 }]
    source_tree := []
    event_listeners := [] }

/-- The event of `stats_event_inc (NULL, "clients")`. -/
def event_inc_clients : stats_event_t :=
  { build_event flags0 none (some (cstr "clients")) (some (cstr "1")) with
    action := STATS_EVENT_INC }

/-- A mutation of the queue of a subscriber. -/
inductive queue_op where
  /-- The delivery of a line by the fan-out (`_add_stats_to_stats_client`): an append to the
  tail frame or the link of a new frame. -/
  | fanout (line : CStr)
  /-- The registration splice of a list of frames that is not empty, the length counted as
  `_register_listener` does, frame by frame. -/
  | splice (first : refbuf_t) (rest : List refbuf_t)
  /-- A send pass (`stats_listeners_send`), which releases the frames written in full. The
  pass is run by the worker that holds the client; a client that has left its worker is not
  run. -/
  | send (running : Bool) (sock : Nat → Int)

/-- The subscriber after a mutation of its queue. -/
def queue_op.run (listener : event_listener_t) : queue_op → Option event_listener_t
  | .fanout line => some (_add_stats_to_stats_client listener line)
  | .splice first rest => register_splice listener (first :: rest) (queue_len (first :: rest))
  | .send running sock =>
    if listener.client.worker = false then some listener
    else
      match stats_listeners_send running sock listener with
      | none => none
      | some res => some res.1

/-- The subscriber after a sequence of mutations of its queue. -/
def run_queue_ops : event_listener_t → List queue_op → Option event_listener_t
  | listener, [] => some listener
  | listener, op :: ops =>
    match op.run listener with
    | none => none
    | some listener1 => run_queue_ops listener1 ops

/-- A subscriber as `stats_add_listener` creates it: nothing queued. -/
def listener_new (mask : Nat) (client : client_t) : event_listener_t :=
  { mask := mask, content_len := 0, recent_block := none,
    client := { client with refbuf := [] } }

/-- A store with the source `/x`, which has the child `fallback`. -/
def stats_fallback : stats_t :=
  { global_tree := []
    source_tree :=
      [{ source := cstr "/x", flags := 7, updated := 0,
         stats_tree :=
          [{ name := cstr "fallback", value := some (cstr "/y"), last_reported := 0,
             flags := 15 }] }]
    event_listeners := [] }

/-- The lines a source broadcasts when it becomes visible, each with the flag set of its
broadcast: `NEW` with the content type, then an `EVENT` for each child in tree order. -/
def visible_lines (K : stats_flags) (src : stats_source_t) (type : CStr) : List (Nat × CStr) :=
  (andNot src.flags K.STATS_HIDDEN, line_NEW type src.source) ::
    src.stats_tree.map fun c =>
      (andNot c.flags K.STATS_HIDDEN, line_EVENT src.source c.name (c.value.getD []))

/-- A subscriber after the broadcast of a list of lines, one after the other. -/
def deliver_lines (K : stats_flags) (listener : event_listener_t) (msgs : List (Nat × CStr)) :
    event_listener_t :=
  msgs.foldl
    (fun l msg => if listener_selected K msg.1 l then _add_stats_to_stats_client l msg.2 else l)
    listener

/-- The lines of a list that are for a subscriber, put together. -/
def selected_bytes (K : stats_flags) (listener : event_listener_t) (msgs : List (Nat × CStr)) :
    CStr :=
  ((msgs.filter fun msg => listener_selected K msg.1 listener).map fun msg => msg.2).flatten

/-- The bytes of a list of lines. -/
def lines_len (msgs : List (Nat × CStr)) : Nat := (msgs.map fun msg => msg.2.length).sum

/-- A store with the hidden source `/a.mp3`, whose child `title` has a value of 4096 bytes,
and a subscriber for slaves. -/
def stats_long_title : stats_t :=
  { global_tree := []
    source_tree :=
      [{ source := cstr "/a.mp3", flags := 7, updated := 0,
         stats_tree :=
          [{ name := cstr "title", value := some (List.replicate 4096 120),
             last_reported := 0, flags := 15 }] }]
    event_listeners := [listener0 2] }

/-- A store with the hidden source `/a.mp3` as `stats_handle ("/a.mp3")` and
`stats_set (h, "server_type", "application/ogg")` leave it, and a subscriber for slaves. -/
def stats_ogg : stats_t :=
  { global_tree := []
    source_tree :=
      [{ source := cstr "/a.mp3", flags := 7, updated := LONG_MAX,
         stats_tree :=
          [{ name := cstr "server_type", value := some (cstr "application/ogg"),
             last_reported := 0, flags := 15 }] }]
    event_listeners := [listener0 2] }

/-- A store with the source `/a`, which has two children, and a subscriber for slaves. -/
def stats_two_children : stats_t :=
  { global_tree := []
    source_tree :=
      [{ source := cstr "/a", flags := 6, updated := 77,
         stats_tree :=
          [{ name := cstr "bitrate", value := some (cstr "128"), last_reported := 0, flags := 14 },
           { name := cstr "title", value := some (cstr "x"), last_reported := 0, flags := 14 }] }]
    event_listeners := [listener0 2] }

/-- Whether a source stays after a purge with the mark `mark`, in the words of the spec: its
mount begins with `/` and its expiry is not below the mark, or its mount does not begin with
`/` and the file server knows it. -/
def purge_keeps (fserve_contains : CStr → Int) (mark : Int) (s : stats_source_t) : Bool :=
  (decide (s.source.head? = some 47) && decide (mark ≤ s.updated))
    || (!decide (s.source.head? = some 47) && decide (0 ≤ fserve_contains s.source))

/-- A store with four sources: one live and not expired, one live and expired, one file
known to the file server when `fserve_contains` is 0 on `old.mp3`, and one not known. -/
def stats_four_sources : stats_t :=
  { global_tree := []
    source_tree :=
      [{ source := cstr "/a", flags := 6, updated := 100, stats_tree := [] },
       { source := cstr "/b", flags := 6, updated := 5, stats_tree := [] },
       { source := cstr "gone.mp3", flags := 7, updated := 0, stats_tree := [] },
       { source := cstr "old.mp3", flags := 7, updated := 0, stats_tree := [] }]
    event_listeners := [] }

/-- A subscriber with 1465 full frames of 4096 bytes queued, 6000640 bytes in all, with or
without a worker. -/
def listener_over_cap (worker : Bool) : event_listener_t :=
  { mask := 2, content_len := 6000640, recent_block := some 1464
    client :=
      { client0 with
        worker := worker
        refbuf := List.replicate 1465 { data := List.replicate 4096 65, flags := 0 } } }

/-- An element made by `xmlNewTextChild` or `xmlNewDocNode`, with the properties set on it
and the text children put under it: `<name prop="..">content<child>..</child></name>`. -/
structure xml_node where
  /-- Tag of the element. -/
  name : CStr
  /-- Properties in the order of the `xmlSetProp` calls. -/
  props : List (CStr × CStr)
  /-- Text content, or null. -/
  content : Option CStr
  /-- Text children, each a tag and a content. -/
  children : List (CStr × Option CStr)
  deriving DecidableEq, Repr

/-- A root element `<name>` and the elements under it, in document order. -/
structure xml_root where
  /-- Tag of the root. -/
  name : CStr
  /-- The elements under the root. -/
  children : List xml_node
  deriving DecidableEq, Repr

/-- The element `xmlNewTextChild (root, NULL, stat->name, stat->value)` of a global. -/
def xml_stat (stat : stats_node_t) : xml_node :=
  { name := stat.name, props := [], content := stat.value, children := [] }

/-- The element `<source mount="..">` with the given text children. -/
def xml_source (mount : CStr) (children : List (CStr × Option CStr)) : xml_node :=
  { name := cstr "source", props := [(cstr "mount", mount)], content := none,
    children := children }

/-- The first loop of `_dump_stats_to_doc`: the globals with `stat->flags & flags`. -/
def dump_globals (flags : Nat) : List stats_node_t → List xml_node
  | [] => []
  | stat :: rest =>
    if stat.flags &&& flags ≠ 0 then xml_stat stat :: dump_globals flags rest
    else dump_globals flags rest

/-- The inner loop of `_dump_stats_to_doc` over the children of one source. -/
def dump_children (K : stats_flags) (flags : Nat) : List stats_node_t → List (CStr × Option CStr)
  | [] => []
  | stat :: rest =>
    if flags &&& K.STATS_HIDDEN ≠ 0
        ∨ stat.flags &&& K.STATS_HIDDEN = flags &&& K.STATS_HIDDEN then
      (stat.name, stat.value) :: dump_children K flags rest
    else dump_children K flags rest

/-- The second loop of `_dump_stats_to_doc` over the sources. -/
def dump_sources (K : stats_flags) (show_mount : Option CStr) (flags : Nat) :
    List stats_source_t → List xml_node
  | [] => []
  | source :: rest =>
    let shown := match show_mount with
      | none => true
      | some m => decide (strcmp m source.source = 0)
    if (flags &&& K.STATS_HIDDEN ≠ 0
          ∨ source.flags &&& K.STATS_HIDDEN = flags &&& K.STATS_HIDDEN)
        ∧ shown = true then
      xml_source source.source (dump_children K flags source.stats_tree)
        :: dump_sources K show_mount flags rest
    else dump_sources K show_mount flags rest

/-- The serialiser `_dump_stats_to_doc (root, show_mount, flags)`: the root with the new
elements under it, and the position under the root of the first source element made, which
is the node returned, or null. -/
def _dump_stats_to_doc (K : stats_flags) (st : stats_t) (root : xml_root)
    (show_mount : Option CStr) (flags : Nat) : xml_root × Option Nat :=
  let globals := dump_globals flags st.global_tree
  let sources := dump_sources K show_mount flags st.source_tree
  ({ root with children := root.children ++ globals ++ sources },
    if sources = [] then none else some (root.children.length + globals.length))

/-- The document of `stats_get_xml (flags, show_mount)`. `list_clients` stands for
`admin_source_listeners` and `fserve_list_clients_xml` (not under src/), which add the
listeners of the mount to the source element when one mount is asked for. -/
def stats_get_xml (K : stats_flags) (list_clients : CStr → xml_node → xml_node) (st : stats_t)
    (flags : Nat) (show_mount : Option CStr) : xml_root :=
  let res := _dump_stats_to_doc K st { name := cstr "icestats", children := [] } show_mount flags
  match show_mount, res.2 with
  | some m, some i =>
    match res.1.children.get? i with
    | some node => { res.1 with children := res.1.children.set i (list_clients m node) }
    | none => res.1
  | _, _ => res.1

/-- A store with one PUBLIC and one HIDDEN global, one visible and one hidden source. -/
def stats_xml_sample : stats_t :=
  { global_tree :=
      [{ name := cstr "clients", value := some (cstr "0"), last_reported := 0, flags := 24 },
       { name := cstr "secret", value := some (cstr "s"), last_reported := 0, flags := 1 }]
    source_tree :=
      [{ source := cstr "/hid", flags := 7, updated := 0,
         stats_tree :=
          [{ name := cstr "x", value := some (cstr "1"), last_reported := 0, flags := 15 }] },
       { source := cstr "/vis", flags := 6, updated := 0,
         stats_tree :=
          [{ name := cstr "y", value := some (cstr "2"), last_reported := 0, flags := 14 }] }]
    event_listeners := [] }

/-- An encoding handler of libxml2 as `xmlCharEncInFunc` uses it: the converted text when
the call returns a positive count, nothing otherwise. -/
abbrev xmlCharEncodingHandler := CStr → Option CStr

/-- Wrapper for `stats_event` that takes a charset to convert from (`stats_event_conv`).
`xmlFindCharEncodingHandler` is the lookup of libxml2. Without a handler, or when the
conversion gives nothing, the value goes on as it came. -/
def stats_event_conv (K : stats_flags)
    (xmlFindCharEncodingHandler : CStr → Option xmlCharEncodingHandler)
    (xmlCheckUTF8 : CStr → Bool) (st : stats_t) (mount name value charset : Option CStr) :
    Option stats_t :=
  let metadata :=
    match charset with
    | none => value
    | some cs =>
      match value with
      | none => value
      | some v =>
        match xmlFindCharEncodingHandler cs with
        | none => value
        | some handle =>
          match handle v with
          | some conv => some conv
          | none => value
  stats_event K xmlCheckUTF8 st mount name metadata

/-- The scan `sscanf (p, "&%*9[^; ]%c", &semi) == 1 && semi == ';'` on the text after the
`&`: at least one and at most nine bytes other than `;` and blank, then a `;`. `n` counts
the bytes the scan set may still take and `taken` tells whether it has taken one. -/
def entity_scan : Nat → Bool → CStr → Bool
  | _, _, [] => false
  | 0, taken, c :: _ => taken && decide (c = 59)
  | n + 1, taken, c :: cs =>
    if c = 59 ∨ c = 32 then taken && decide (c = 59) else entity_scan n true cs

/-- Whether a value has an XML entity after its first `&` (`contains_xml_entity`). -/
def contains_xml_entity (value : Option CStr) : Bool :=
  match value with
  | none => false
  | some v =>
    match v.dropWhile (· ≠ 38) with
    | [] => false
    | _ :: p => entity_scan 9 false p

/-- Set of a stat with the XML entities of the value decoded (`stats_set_entity_decode`).
`decode` stands for `xmlStringGetNodeList` followed by `xmlNodeListGetString`, which may
give null. The text of the failure log reads the mount through the handle and prints the
name, which is undefined on a null or dangling handle and on a null name. -/
def stats_set_entity_decode (K : stats_flags) (decode : CStr → Option CStr) (st : stats_t)
    (handle : stats_handle_t) (name value : Option CStr) : Option stats_t :=
  if contains_xml_entity value then
    match handle with
    | none => none
    | some h =>
      match handle_source st h with
      | none => none
      | some _ =>
        match name with
        | none => none
        | some _ => stats_set K st handle name (value.bind decode)
  else stats_set K st handle name value

/-- Set of a stat through a handle with a charset to convert from (`stats_set_conv`). A null
value is an empty input of the conversion. -/
def stats_set_conv (K : stats_flags)
    (xmlFindCharEncodingHandler : CStr → Option xmlCharEncodingHandler)
    (xmlCheckUTF8 : CStr → Bool) (decode : CStr → Option CStr) (st : stats_t)
    (handle : stats_handle_t) (name value charset : Option CStr) : Option stats_t :=
  match charset with
  | some cs =>
    match xmlFindCharEncodingHandler cs with
    | some encoding =>
      match encoding (value.getD []) with
      | some conv => stats_set_entity_decode K decode st handle name (some conv)
      | none => some st
    | none => some st
  | none =>
    match value with
    | some v =>
      if xmlCheckUTF8 v = false then some st
      else stats_set_entity_decode K decode st handle name value
    | none => stats_set_entity_decode K decode st handle name value

/-- The empty store with one subscriber of the given mask. -/
def stats_one_listener (mask : Nat) : stats_t :=
  { global_tree := [], source_tree := [], event_listeners := [listener0 mask] }

/-- Modelled from the spec: `refbuf_append` of `refbuf.c` (not under src/), the formatted
write at the end of a frame of capacity `cap` that returns a negative number when the text
does not fit; `line` is the formatted text. -/
def refbuf_append (r : refbuf_t) (cap : Nat) (line : CStr) : refbuf_t × Int :=
  refbuf_appendv r cap line

/-- The frames `_register_listener` builds for a new subscriber. The count `len` is a
`size_t`; it only goes into the `unsigned int` `content_len`, so that it is kept as a
natural number here. -/
structure snapshot_t where
  /-- The frames linked so far (`biglist`), in order; `last` is the last of them. -/
  biglist : List refbuf_t
  /-- The frame being filled (`refbuf`). -/
  refbuf : refbuf_t
  /-- The bytes of the frames linked so far (`len`). -/
  len : Nat
  deriving DecidableEq, Repr

/-- The loop `while (refbuf_append (refbuf, size, line) < 0) { link the frame; take a new
one }` of `_register_listener`, with `size = 8192`. `fuel` bounds the number of tries; no
result means that the tries are used up. -/
def snapshot_append : Nat → snapshot_t → CStr → Option snapshot_t
  | 0, _, _ => none
  | fuel + 1, s, line =>
    let res := refbuf_append s.refbuf 8192 line
    if res.2 < 0 then
      snapshot_append fuel
        { biglist := s.biglist ++ [s.refbuf], refbuf := refbuf_new, len := s.len + s.refbuf.len }
        line
    else some { s with refbuf := res.1 }

/-- The response header that opens the stream of a subscriber. -/
def snapshot_header : CStr := cstr "HTTP/1.0 200 OK\r\nCapability: streamlist stats\r\n\r\n"

/-- The line `INFO full list end\n`. -/
def line_INFO : CStr := cstr "INFO full list end\n"

/-- The first frame of `_register_listener`, of 8192 bytes, with the header in it. -/
def snapshot_start : snapshot_t :=
  { biglist := [], refbuf := (refbuf_append refbuf_new 8192 snapshot_header).1, len := 0 }

/-- The loop of `_register_listener` over the global stats: the line of each stat with
`stat->flags & listener->mask`. A null value under `%s` is undefined. -/
def snapshot_globals (fuel mask : Nat) : List stats_node_t → snapshot_t → Option snapshot_t
  | [], s => some s
  | stat :: rest, s =>
    if stat.flags &&& mask ≠ 0 then
      match stat.value with
      | none => none
      | some v =>
        match snapshot_append fuel s (line_EVENT (cstr "global") stat.name v) with
        | none => none
        | some s1 => snapshot_globals fuel mask rest s1
    else snapshot_globals fuel mask rest s

/-- The first loop of `_register_listener` over the sources: the line `NEW <type> <mount>`
of each source with `snode->flags & listener->mask`. -/
def snapshot_new (fuel mask : Nat) : List stats_source_t → snapshot_t → Option snapshot_t
  | [], s => some s
  | snode :: rest, s =>
    if snode.flags &&& mask ≠ 0 then
      match source_type snode with
      | none => none
      | some type =>
        match snapshot_append fuel s (line_NEW type snode.source) with
        | none => none
        | some s1 => snapshot_new fuel mask rest s1
    else snapshot_new fuel mask rest s

/-- The loop of `_register_listener` over the children of one source; the second component
is `metadata_stat`, the selected child named `metadata_updated` seen last. -/
def snapshot_children (fuel mask : Nat) (mount : CStr) :
    List stats_node_t → Option stats_node_t → snapshot_t →
    Option (snapshot_t × Option stats_node_t)
  | [], metadata_stat, s => some (s, metadata_stat)
  | stat :: rest, metadata_stat, s =>
    if stat.flags &&& mask ≠ 0 then
      if strcmp stat.name (cstr "metadata_updated") = 0 then
        snapshot_children fuel mask mount rest (some stat) s
      else
        match stat.value with
        | none => none
        | some v =>
          match snapshot_append fuel s (line_EVENT mount stat.name v) with
          | none => none
          | some s1 => snapshot_children fuel mask mount rest metadata_stat s1
    else snapshot_children fuel mask mount rest metadata_stat s

/-- The second loop of `_register_listener` over the sources: for each source with
`snode->flags & listener->mask` the lines of its children, that of `metadata_updated`
last. -/
def snapshot_stats (fuel mask : Nat) : List stats_source_t → snapshot_t → Option snapshot_t
  | [], s => some s
  | snode :: rest, s =>
    if snode.flags &&& mask ≠ 0 then
      match snapshot_children fuel mask snode.source snode.stats_tree none s with
      | none => none
      | some (s1, none) => snapshot_stats fuel mask rest s1
      | some (s1, some metadata_stat) =>
        match metadata_stat.value with
        | none => none
        | some v =>
          match snapshot_append fuel s1 (line_EVENT snode.source metadata_stat.name v) with
          | none => none
          | some s2 => snapshot_stats fuel mask rest s2
    else snapshot_stats fuel mask rest s

/-- The part of `_register_listener` under the lock of the source tree: the `NEW` lines,
the line `INFO full list end` and the lines of the children. -/
def snapshot_sources (fuel mask : Nat) (source_tree : List stats_source_t) (s : snapshot_t) :
    Option snapshot_t :=
  match snapshot_new fuel mask source_tree s with
  | none => none
  | some s1 =>
    match snapshot_append fuel s1 line_INFO with
    | none => none
    | some s2 => snapshot_stats fuel mask source_tree s2

/-- The end of the build in `_register_listener`: the frame being filled is linked when it
is not empty. -/
def snapshot_finish (s : snapshot_t) : snapshot_t :=
  if s.refbuf.len ≠ 0 then
    { s with biglist := s.biglist ++ [s.refbuf], len := s.len + s.refbuf.len }
  else s

/-- The detached list of frames `_register_listener` builds from a store for a subscriber
with the mask `mask`. -/
def register_snapshot (fuel : Nat) (st : stats_t) (mask : Nat) : Option snapshot_t :=
  match snapshot_globals fuel mask st.global_tree snapshot_start with
  | none => none
  | some s1 =>
    match snapshot_sources fuel mask st.source_tree s1 with
    | none => none
    | some s2 => some (snapshot_finish s2)

/-- The bytes of a snapshot being built: those of the frames linked so far and of the frame
being filled. -/
def snapshot_bytes (s : snapshot_t) : CStr := queue_bytes s.biglist ++ s.refbuf.data

/-- The start of `_register_listener`: the count `stats_connections` goes up by an event
with the empty buffer as its value, and the subscriber is put at the head of the list. -/
def register_begin (K : stats_flags) (st : stats_t) (listener : event_listener_t) :
    Option stats_t :=
  match process_event K st
      { build_event K none (some (cstr "stats_connections")) (some []) with
        action := STATS_EVENT_INC } with
  | none => none
  | some st1 => some { st1 with event_listeners := listener :: st1.event_listeners }

/-- The end of `_register_listener`: the frames built are put in front of the queue of the
subscriber, which is the head of the list as long as no other subscriber has come in, and
its client is scheduled. -/
def register_end (st : stats_t) (snap : snapshot_t) : Option stats_t :=
  match st.event_listeners with
  | [] => none
  | listener :: rest =>
    match register_splice listener snap.biglist snap.len with
    | none => none
    | some listener1 =>
      some { st with
        event_listeners :=
          { listener1 with client := { listener1.client with schedule_ms := 0 } } :: rest }

/-- The registration of a subscriber (`_register_listener`) with no other thread at
work. -/
def _register_listener (K : stats_flags) (fuel : Nat) (st : stats_t)
    (listener : event_listener_t) : Option stats_t :=
  match register_begin K st listener with
  | none => none
  | some st1 =>
    match register_snapshot fuel st1 listener.mask with
    | none => none
    | some snap => register_end st1 snap

/-- The registration of a client as a subscriber (`stats_add_listener`). -/
def stats_add_listener (K : stats_flags) (fuel : Nat) (st : stats_t) (client : client_t)
    (mask : Nat) : Option stats_t :=
  _register_listener K fuel st (listener_new mask client)

/-- The `EVENT global` lines of the globals with a bit of `mask`, in tree order. -/
def global_lines (mask : Nat) (tree : List stats_node_t) : List CStr :=
  (tree.filter fun g => decide (g.flags &&& mask ≠ 0)).map fun g =>
    line_EVENT (cstr "global") g.name (g.value.getD [])

/-- The `NEW` lines of the sources with a bit of `mask`, in tree order. -/
def new_lines (mask : Nat) (tree : List stats_source_t) : List CStr :=
  (tree.filter fun s => decide (s.flags &&& mask ≠ 0)).map fun s =>
    line_NEW ((source_type s).getD []) s.source

/-- The `EVENT` lines of the children of a source with a bit of `mask` other than
`metadata_updated`, in tree order. -/
def child_lines (mask : Nat) (mount : CStr) (children : List stats_node_t) : List CStr :=
  (children.filter fun c =>
      decide (c.flags &&& mask ≠ 0) && decide (strcmp c.name (cstr "metadata_updated") ≠ 0)).map
    fun c => line_EVENT mount c.name (c.value.getD [])

/-- The child `metadata_updated` with a bit of `mask` that comes last, or `init` without
one. -/
def metadata_child (mask : Nat) (children : List stats_node_t) (init : Option stats_node_t) :
    Option stats_node_t :=
  children.foldl
    (fun md c =>
      if c.flags &&& mask ≠ 0 ∧ strcmp c.name (cstr "metadata_updated") = 0 then some c else md)
    init

/-- The `EVENT` lines of one source: those of the children with a bit of `mask`, the line
of `metadata_updated` last. -/
def source_lines (mask : Nat) (src : stats_source_t) : List CStr :=
  child_lines mask src.source src.stats_tree
    ++ (metadata_child mask src.stats_tree none).toList.map fun c =>
        line_EVENT src.source c.name (c.value.getD [])

/-- The `EVENT` lines of the sources with a bit of `mask`, source by source. -/
def stats_lines (mask : Nat) (tree : List stats_source_t) : List CStr :=
  ((tree.filter fun s => decide (s.flags &&& mask ≠ 0)).map (source_lines mask)).flatten

/-- The subscribers `ls1` are the subscribers `ls` after the broadcast of a list of lines,
each with its flags: nobody came or went, and each subscriber was offered the same
lines. -/
def broadcast_of (K : stats_flags) (ls ls1 : List event_listener_t) : Prop :=
  ∃ msgs : List (Nat × CStr), ls1 = ls.map fun l => deliver_lines K l msgs

/-- A store whose global `title` has a value of 8200 bytes, as
`stats_event (NULL, "title", value)` leaves it. -/
def stats_oversize : stats_t :=
  { global_tree :=
      [{ name := cstr "title", value := some (List.replicate 8200 97), last_reported := 0,
         flags := 12 }]
    source_tree := []
    event_listeners := [] }

/-- A store with the global counter `stats_connections` at 0 as `stats_initialize` makes it,
and no subscriber. -/
def stats_started : stats_t :=
  { global_tree :=
      [{ name := cstr "stats_connections", value := some (cstr "0"), last_reported := 0,
         flags := 24 }]
    source_tree := []
    event_listeners := [] }

/-- The set-up of the stats at start (`stats_initialize`), run on the empty store (the guard
on `_stats_running` lets it run once). `clf_time` is the text `util_get_clf_time` gives for
the time of the call and `GIT_VERSION` the text of that macro when it is defined. -/
def stats_initialize (K : stats_flags) (xmlCheckUTF8 : CStr → Bool) (clf_time : CStr)
    (GIT_VERSION : Option CStr) : Option stats_t :=
  let counter := fun (st : Option stats_t) (name : CStr) =>
    st.bind fun s =>
      stats_event_flags K s none (some name) (some (cstr "0"))
        (K.STATS_COUNTERS ||| K.STATS_REGULAR)
  let st1 :=
    stats_event_flags K stats_empty none (some (cstr "server_start")) (some clf_time)
      K.STATS_GENERAL
  let st2 :=
    [cstr "clients", cstr "listeners", cstr "connections", cstr "sources", cstr "stats",
      cstr "banned_IPs"].foldl counter st1
  let st3 :=
    match GIT_VERSION with
    | some v => st2.bind fun s => stats_event K xmlCheckUTF8 s none (some (cstr "build")) (some v)
    | none => st2
  [cstr "client_connections", cstr "source_client_connections",
    cstr "source_relay_connections", cstr "source_total_connections",
    cstr "stats_connections", cstr "listener_connections", cstr "outgoing_kbitrate",
    cstr "stream_kbytes_sent", cstr "stream_kbytes_read"].foldl counter st3

/-- The store `stats_initialize` leaves, for one text of the time and no `GIT_VERSION`. -/
def stats_initial : stats_t :=
  ( stats_initialize flags0 (fun _ => true) (cstr "01/Jan/2024:00:00:00 +0000") none).getD
    stats_empty

/-- The state after `stats_initialize` and the registration of a subscriber with the mask
GENERAL|COUNTERS. -/
def stats_registered : stats_t :=
  (stats_add_listener flags0 2 stats_initial client0 12).getD stats_empty

/-- The test of the walk of `stats_global_calc` on a node: the node carries REGULAR and
`node->last_reported + 9 < now`. The times are those of `time_t`, far from its bounds. -/
def global_calc_due (K : stats_flags) (now : Int) (node : stats_node_t) : Bool :=
  decide (node.flags &&& K.STATS_REGULAR ≠ 0) && decide (node.last_reported + 9 < now)

/-- What the walk of `stats_global_calc` leaves of a node: a node that is due has its
report time set to `now`. -/
def global_calc_node (K : stats_flags) (now : Int) (node : stats_node_t) : stats_node_t :=
  if global_calc_due K now node then { node with last_reported := now } else node

/-- The walk of `stats_global_calc` over the global tree: each node that is due is
broadcast with its flags and has its report time set. A null value under `%s` is
undefined. -/
def global_calc_walk (K : stats_flags) (now : Int) :
    List stats_node_t → List event_listener_t →
      Option (List stats_node_t × List event_listener_t)
  | [], listeners => some ([], listeners)
  | node :: rest, listeners =>
    if global_calc_due K now node then
      match node.value with
      | none => none
      | some v =>
        match global_calc_walk K now rest
            (stats_listener_send K node.flags (line_EVENT (cstr "global") node.name v)
              listeners) with
        | none => none
        | some (rest1, listeners1) => some ({ node with last_reported := now } :: rest1, listeners1)
    else
      match global_calc_walk K now rest listeners with
      | none => none
      | some (rest1, listeners1) => some (node :: rest1, listeners1)

/-- The periodic refresh `stats_global_calc (now)`. `clients`, `listeners` and `kbitrate`
are the counters of the connection subsystem (`global.clients`, `global.listeners` and the
average outgoing rate times 8 over 1024), printed as 64-bit numbers. -/
def stats_global_calc (K : stats_flags) (st : stats_t) (now : Int)
    (clients listeners kbitrate : Nat) : Option stats_t :=
  (process_event K st
    { build_event K none (some (cstr "clients")) (some (utoa (clients % 2 ^ 64))) with
      flags := K.STATS_PUBLIC ||| K.STATS_COUNTERS }).bind fun st1 =>
  (process_event K st1
    { build_event K none (some (cstr "listeners")) (some (utoa (listeners % 2 ^ 64))) with
      flags := K.STATS_PUBLIC ||| K.STATS_COUNTERS }).bind fun st2 =>
  (global_calc_walk K now st2.global_tree st2.event_listeners).bind fun res =>
  process_event K { st2 with global_tree := res.1, event_listeners := res.2 }
    { build_event K none (some (cstr "outgoing_kbitrate")) (some (utoa (kbitrate % 2 ^ 64))) with
      flags := K.STATS_COUNTERS ||| K.STATS_HIDDEN }

/-- The lines the walk of `stats_global_calc` broadcasts, each with its flags: one for each
node that is due, in tree order. -/
def global_calc_lines (K : stats_flags) (now : Int) (tree : List stats_node_t) :
    List (Nat × CStr) :=
  (tree.filter (global_calc_due K now)).map fun node =>
    (node.flags, line_EVENT (cstr "global") node.name (node.value.getD []))

/-- A stretch of the life of a global node in which its value does not change: each step
is an event of the kind SET, with or without `STATS_EVENT_HIDDEN`, that `modify_node_event`
applies and that leaves the text of the value as it was, or the walk of `stats_global_calc`
at some time. -/
inductive quiet_run (K : stats_flags) : stats_node_t → stats_node_t → Prop where
  /-- No step. -/
  | done (node : stats_node_t) : quiet_run K node node
  /-- An event that leaves the value as it was. -/
  | event (a b c : stats_node_t) (ev : stats_event_t)
      (hset : andNot ev.action STATS_EVENT_HIDDEN = STATS_EVENT_SET)
      (hmod : modify_node_event K a ev = some b) (hval : b.value = a.value)
      (hrest : quiet_run K b c) : quiet_run K a c
  /-- A walk of `stats_global_calc` at the time `now`. -/
  | walk (a c : stats_node_t) (now : Int) (hrest : quiet_run K (global_calc_node K now a) c) :
      quiet_run K a c

/-- A store with the REGULAR counters `clients`, reported at time 100, and `sources`,
never reported, the plain global `host`, and a subscriber for counters. -/
def stats_calc_sample : stats_t :=
  { global_tree :=
      [{ name := cstr "clients", value := some (cstr "3"), last_reported := 100, flags := 24 },
       { name := cstr "host", value := some (cstr "h"), last_reported := 0, flags := 4 },
       { name := cstr "sources", value := some (cstr "1"), last_reported := 0, flags := 24 }]
    source_tree := []
    event_listeners := [listener0 8] }

/-- A block of the list `stats_get_streams` returns: the text written into its buffer of
4096 bytes, from the start of the buffer, and the field `len` the function sets by hand. -/
structure stream_block where
  /-- The text written into the buffer. -/
  data : CStr
  /-- The field `len`. -/
  len : Nat
  deriving DecidableEq, Repr

/-- The variables of the loop of `stats_get_streams`. -/
structure streams_t where
  /-- The blocks that are closed, in order (`start` up to the one before `cur`). -/
  blocks : List stream_block
  /-- The text written into the block `cur`. -/
  data : CStr
  /-- The offset of `buffer` in the block `cur`. -/
  buffer : Nat
  /-- The room left (`remaining`, an `unsigned int`). -/
  remaining : Nat
  deriving DecidableEq, Repr

/-- The constant `STREAMLIST_BLKSIZE`. -/
def STREAMLIST_BLKSIZE : Nat := 4096

/-- The text `pre` of `stats_get_streams`. -/
def streams_pre (prepend : Int) : CStr :=
  if prepend ≠ 0 then cstr "/admin/streams?mount=" else []

/-- The body of the loop of `stats_get_streams` for a source that is not hidden: a new
block is taken when the room left is not above the length of the line plus one, then
`snprintf` writes the line, cut to the room left less one, and `buffer` and `remaining`
move by the full length of the line. A write outside the block is undefined. -/
def streams_add (pre : CStr) (s : streams_t) (mount : CStr) : Option streams_t :=
  let s1 : streams_t :=
    if s.remaining ≤ mount.length + pre.length + 3 then
      { blocks :=
          s.blocks ++ [{ data := s.data, len := u32 (STREAMLIST_BLKSIZE + 2 ^ 32 - s.remaining) }]
        data := [], buffer := 0, remaining := STREAMLIST_BLKSIZE }
    else s
  let line := pre ++ mount ++ cstr "\r\n"
  let ret := line.length
  if s1.remaining = 0 then
    if ret > 0 then
      some { s1 with
        buffer := s1.buffer + ret, remaining := u32 (s1.remaining + 2 ^ 32 - ret % 2 ^ 32) }
    else some s1
  else
    let n := min ret (s1.remaining - 1)
    if s1.buffer + n + 1 ≤ STREAMLIST_BLKSIZE then
      if ret > 0 then
        some { s1 with
          data := s1.data ++ line.take n
          buffer := s1.buffer + ret
          remaining := u32 (s1.remaining + 2 ^ 32 - ret % 2 ^ 32) }
      else some { s1 with data := s1.data ++ line.take n }
    else none

/-- The loop of `stats_get_streams` over the sources. -/
def streams_loop (K : stats_flags) (pre : CStr) :
    List stats_source_t → streams_t → Option streams_t
  | [], s => some s
  | source :: rest, s =>
    if source.flags &&& K.STATS_HIDDEN = 0 then
      match streams_add pre s source.source with
      | none => none
      | some s1 => streams_loop K pre rest s1
    else streams_loop K pre rest s

/-- The list of blocks of mount lines for a slave (`stats_get_streams`). -/
def stats_get_streams (K : stats_flags) (st : stats_t) (prepend : Int) :
    Option (List stream_block) :=
  match streams_loop K (streams_pre prepend) st.source_tree
      { blocks := [], data := [], buffer := 0, remaining := STREAMLIST_BLKSIZE } with
  | none => none
  | some s =>
    some (s.blocks ++ [{ data := s.data, len := u32 (STREAMLIST_BLKSIZE + 2 ^ 32 - s.remaining) }])

/-- The contents of a block: the first `len` bytes of its buffer. -/
def stream_block.content (b : stream_block) : CStr := b.data.take b.len

/-- The lines of the stream list in the words of the spec: `pre`, the mount and `\r\n` for
each source that is not hidden, in tree order. -/
def stream_lines (K : stats_flags) (pre : CStr) (tree : List stats_source_t) : List CStr :=
  (tree.filter fun s => decide (s.flags &&& K.STATS_HIDDEN = 0)).map fun s =>
    pre ++ s.source ++ cstr "\r\n"

/-- The variables of the loop of `stats_get_streams` are sound: `buffer` is at the end of
the text written and the room left is what the block has left. -/
def streams_ok (s : streams_t) : Prop :=
  s.buffer = s.data.length ∧ s.data.length + s.remaining = STREAMLIST_BLKSIZE

/-- A source store with the visible sources `/a` and `/c` and the hidden source `/b`. -/
def stats_three_sources : stats_t :=
  { global_tree := []
    source_tree :=
      [{ source := cstr "/a", flags := 6, updated := 0, stats_tree := [] },
       { source := cstr "/b", flags := 7, updated := 0, stats_tree := [] },
       { source := cstr "/c", flags := 6, updated := 0, stats_tree := [] }]
    event_listeners := [] }

/-- A subscriber for GENERAL with one frame of 100 bytes queued. -/
def listener_one_frame : event_listener_t :=
  { mask := 4, content_len := 100, recent_block := some 0
    client := { client0 with refbuf := [{ data := List.replicate 100 65, flags := 0 }] } }

/-- The test of `_add_stats_to_stats_client` for an append to the tail frame `r`: the frame
is not flagged `STATS_BLOCK_CONNECTION`, holds fewer than 4000 bytes, and the line fits
within 4096 bytes. -/
def tail_takes (r : refbuf_t) (line : CStr) : Prop :=
  r.flags &&& STATS_BLOCK_CONNECTION = 0 ∧ r.len < 4000 ∧ r.len + line.length ≤ 4096

/-- A subscriber connected for 100 seconds with 500 frames of 4096 bytes queued, the first
with the flags `flags`. -/
def listener_slow (flags : Nat) : event_listener_t :=
  { mask := 2, content_len := 2048000, recent_block := some 499
    client :=
      { client0 with
        current_time := 100
        refbuf :=
          { data := List.replicate 4096 65, flags := flags }
            :: List.replicate 499 { data := List.replicate 4096 65, flags := 0 } } }

/-- The visible source `/a` with the children `artist`, `metadata_updated` and `title`, in
tree order. -/
def source_metadata : stats_source_t :=
  { source := cstr "/a", flags := 6, updated := 0,
    stats_tree :=
      [{ name := cstr "artist", value := some (cstr "x"), last_reported := 0, flags := 14 },
       { name := cstr "metadata_updated", value := some (cstr "now"), last_reported := 0,
         flags := 14 },
       { name := cstr "title", value := some (cstr "y"), last_reported := 0, flags := 14 }] }

/-- A store with the source `/a` alone. -/
def stats_metadata : stats_t :=
  { global_tree := [], source_tree := [source_metadata], event_listeners := [] }

/-- Every child of a source has a value. -/
def source_values_ok (src : stats_source_t) : Prop :=
  ∀ c ∈ src.stats_tree, c.value.isSome = true

/-- Every node of the global map and of the child map of each source has a value that is
not null. -/
def values_ok (st : stats_t) : Prop :=
  (∀ g ∈ st.global_tree, g.value.isSome = true) ∧ ∀ s ∈ st.source_tree, source_values_ok s

/-- Calls of the inbound API that set a global and a child and then change their flags with
a null value. -/
def ops_null_flags : List stats_op :=
  [stats_op.event none (some (cstr "x")) (some (cstr "1")),
   stats_op.event_flags none (some (cstr "x")) none 5,
   stats_op.handle (some (cstr "/a")),
   stats_op.set (some (cstr "/a")) (some (cstr "t")) (some (cstr "v")),
   stats_op.set_flags (some (cstr "/a")) (some (cstr "t")) none 7]

/-- The text of a scope in a line: `global` for the global store, the mount otherwise. -/
def scope_text (s : Option CStr) : CStr :=
  match s with
  | none => cstr "global"
  | some m => m

/-- The nodes of a scope: the global map, or the child map of the source with that mount
(none when there is no such source). -/
def scope_tree (st : stats_t) (s : Option CStr) : List stats_node_t :=
  match s with
  | none => st.global_tree
  | some m =>
    match avl_find stats_source_t.source m st.source_tree with
    | none => []
    | some src => src.stats_tree

/-- The visible source `/a` with the children `artist`, `metadata_updated` and `title`, and
two subscribers: one for GENERAL, one for REGULAR alone. -/
def stats_visible_listeners : stats_t :=
  { stats_metadata with event_listeners := [listener0 4, listener0 16] }

/-- A store with one visible source whose mount has 5000 bytes, as `stats_handle (mount)`
followed by `stats_set_flags (h, NULL, NULL, GENERAL|SLAVE)` leaves the empty store. -/
def stats_long_mount : stats_t :=
  { global_tree := []
    source_tree :=
      [{ source := 47 :: List.replicate 4999 97, flags := 6, updated := LONG_MAX,
         stats_tree := [] }]
    event_listeners := [] }

/-- Release of the frames queued for a client (`clear_stats_queue`): every frame of the
chain is released and the chain is left empty. -/
def clear_stats_queue (client : client_t) : client_t := { client with refbuf := [] }

/-- The disconnect of a subscriber (`stats_client_release`). `listener` is the place of
`client->shared_data` in the list of subscribers: `none` for a null pointer, a place beyond
the list for a listener that is not in it. `buffer` is the text the array `buffer`, which
the code does not initialise, holds at the call. The result is the state after the call and
the client of the subscriber after `clear_stats_queue`, before `client_destroy`; for a
listener that is not in the list the client is not part of the state and is left out. -/
def stats_client_release (K : stats_flags) (buffer : CStr) (st : stats_t)
    (listener : Option Nat) : Option (stats_t × Option client_t) :=
  match listener with
  | none => some (st, none)
  | some i =>
    match process_event K { st with event_listeners := st.event_listeners.eraseIdx i }
        { build_event K none (some (cstr "stats_connections")) (some buffer) with
          action := STATS_EVENT_DEC } with
    | none => none
    | some st1 =>
      some (st1, (st.event_listeners.get? i).map fun l => clear_stats_queue l.client)

/-- The store `stats_initialize` leaves, with the counter `stats_connections` taken out by
`stats_event (NULL, "stats_connections", NULL)`. -/
def stats_no_counter : stats_t :=
  (stats_event flags0 (fun _ => true) stats_initial none (some (cstr "stats_connections"))
    none).getD stats_empty

/-- The state after the registration of a subscriber with the mask GENERAL|COUNTERS on the
store without the counter `stats_connections`, followed by its release. -/
def stats_released : stats_t × Option client_t :=
  ((stats_add_listener flags0 2 stats_no_counter client0 12).bind fun st1 =>
    stats_client_release flags0 [] st1 (some 0)).getD (stats_empty, none)

/-- The store with the source `/x`, which has the child `fallback`, and a subscriber with
the admin mask. -/
def stats_fallback_admin : stats_t :=
  { stats_fallback with event_listeners := [listener0 1] }

/-- A store with the visible source `/a` whose child `title` has a value of 8200 bytes, as
`stats_handle ("/a")`, `stats_set_flags (h, NULL, NULL, GENERAL|SLAVE)` and
`stats_set (h, "title", value)` leave the empty store. -/
def stats_oversize_child : stats_t :=
  { global_tree := []
    source_tree :=
      [{ source := cstr "/a", flags := 6, updated := LONG_MAX,
         stats_tree :=
          [{ name := cstr "title", value := some (List.replicate 8200 97), last_reported := 0,
             flags := 14 }] }]
    event_listeners := [] }

/-- The test of `contains_xml_entity` in the words of the spec: the value has a `&`, and the
text after its first `&` starts with between one and nine bytes, none of them `;` or a
blank, followed by `;`. -/
def entity_after_first_amp (v : CStr) : Prop :=
  ∃ pre w rest, v = pre ++ 38 :: (w ++ 59 :: rest) ∧ 38 ∉ pre
    ∧ 1 ≤ w.length ∧ w.length ≤ 9 ∧ ∀ c ∈ w, c ≠ 59 ∧ c ≠ 32

/-- The subscribers `ls1` are the subscribers `ls` after the broadcast of the lines `msgs`,
each with its flags: nobody came or went; a subscriber none of the lines is for is as
before; and a subscriber with a worker, a sound tail reference and room under the hard cap
holds its old bytes followed by the lines that are for it, in order, when each line fits a
frame of 4096 bytes. -/
def lines_sent (K : stats_flags) (msgs : List (Nat × CStr)) (ls ls1 : List event_listener_t) :
    Prop :=
  ls1.length = ls.length
    ∧ ∀ (i : Nat) (l : event_listener_t), ls[i]? = some l → ∃ l1, ls1[i]? = some l1
      ∧ ((∀ msg ∈ msgs, listener_selected K msg.1 l = false) → l1 = l)
      ∧ (l.client.worker = true → tail_ok l → l.content_len + lines_len msgs ≤ 6000000 →
          (∀ msg ∈ msgs, msg.2.length ≤ 4096) →
          queue_bytes l1.client.refbuf = queue_bytes l.client.refbuf ++ selected_bytes K l msgs)

theorem strcmp_eq_zero (a b : CStr) : strcmp a b = 0 ↔ a = b := by
  induction a generalizing b with
  | nil => cases b <;> simp [strcmp]
  | cons x xs ih =>
    cases b with
    | nil => simp [strcmp]
    | cons y ys =>
      simp only [strcmp]
      split
      · rename_i h; simp; intro h1; omega
      · split
        · rename_i h1 h2; simp; intro h3; omega
        · rename_i h1 h2
          have : x = y := by omega
          simp [ih, this]

theorem strcmp_self (a : CStr) : strcmp a a = 0 := (strcmp_eq_zero a a).2 rfl

section avl
variable {α : Type} (key : α → CStr)

theorem avl_find_key {n : CStr} {l : List α} {x : α} (h : avl_find key n l = some x) :
    key x = n := by
  induction l with
  | nil => simp [avl_find] at h
  | cons y ys ih =>
    simp only [avl_find] at h
    split at h
    · rename_i h0
      simp at h; subst h
      exact ((strcmp_eq_zero _ _).1 h0).symm
    · exact ih h

theorem avl_find_store_self {n : CStr} {l : List α} {x y : α}
    (h : avl_find key n l = some y) (hx : key x = n) :
    avl_find key n (avl_store key n x l) = some x := by
  induction l with
  | nil => simp [avl_find] at h
  | cons z zs ih =>
    simp only [avl_find] at h
    simp only [avl_store]
    split at h
    · rename_i h0
      simp [h0, avl_find, hx, strcmp_self]
    · rename_i h0
      simp [h0, avl_find, ih h]

theorem avl_find_insert_self {l : List α} {x : α}
    (h : avl_find key (key x) l = none) :
    avl_find key (key x) (avl_insert key x l) = some x := by
  induction l with
  | nil => simp [avl_find, avl_insert, strcmp_self]
  | cons z zs ih =>
    simp only [avl_find] at h
    split at h
    · simp at h
    · rename_i h0
      simp only [avl_insert]
      split
      · simp [avl_find, strcmp_self]
      · simp [avl_find, h0, ih h]
end avl

@[simp] theorem find_node_some (t : List stats_node_t) (n : CStr) :
    _find_node t (some n) = some (avl_find stats_node_t.name n t) := by
  cases t <;> simp [_find_node, avl_find]

@[simp] theorem find_source_some (t : List stats_source_t) (n : CStr) :
    _find_source t (some n) = some (avl_find stats_source_t.source n t) := by
  cases t <;> simp [_find_source, avl_find]

theorem modify_node_event_set (K : stats_flags) (node : stats_node_t) (event : stats_event_t)
    (v : CStr) (ha : event.action = STATS_EVENT_SET) (hv : event.value = some v) :
    ∃ node1, modify_node_event K node event = some node1 ∧ node1.name = node.name
      ∧ node1.value = some v := by
  have h1 : modify_node_flags node event = node := by
    simp [modify_node_flags, ha, STATS_EVENT_SET]
  have h2 : modify_node_action event = STATS_EVENT_SET := by
    simp [modify_node_action, ha, STATS_EVENT_SET]
  unfold modify_node_event
  simp only [h1, h2, hv, reduceCtorEq, and_false, ↓reduceIte]
  split
  · rename_i h
    refine ⟨node, rfl, rfl, ?_⟩
    obtain ⟨_, h2, h3⟩ := h
    cases hnv : node.value with
    | none => simp [hnv] at h2
    | some w =>
      simp [hnv] at h3
      rw [(strcmp_eq_zero _ _).1 h3]
  · exact ⟨_, rfl, rfl, rfl⟩

theorem global_event_report_isSome (K : stats_flags) (st : stats_t) (tree : List stats_node_t)
    (node : stats_node_t) (v : CStr) (hv : node.value = some v) :
    ∃ st1, global_event_report K st tree node = some st1 ∧ st1.global_tree = tree
      ∧ st1.source_tree = st.source_tree := by
  unfold global_event_report
  split
  · simp [hv]
  · simp

/-- A set event on the global store returns, and the value read back is the value set. -/
theorem global_set_get (K : stats_flags) (st : stats_t) (event : stats_event_t) (n v : CStr)
    (hn : event.name = some n) (ha : event.action = STATS_EVENT_SET)
    (hv : event.value = some v) :
    ∃ st1, process_global_event K st event = some st1
      ∧ _get_stats st1 none (some n) = some (some v) := by
  unfold process_global_event
  simp only [ha, hn, hv, find_node_some, STATS_EVENT_SET, STATS_EVENT_REMOVE]
  simp only [show ¬ (0 = 5) by decide, ↓reduceIte]
  cases hf : avl_find stats_node_t.name n st.global_tree with
  | none =>
    simp only []
    obtain ⟨st1, h1, h2, _⟩ := global_event_report_isSome K st
      (avl_insert stats_node_t.name
        { name := n, value := some v, last_reported := 0, flags := event.flags } st.global_tree)
      { name := n, value := some v, last_reported := 0, flags := event.flags } v rfl
    refine ⟨st1, h1, ?_⟩
    simp only [_get_stats, find_node_some, h2]
    have := avl_find_insert_self stats_node_t.name
      (x := { name := n, value := some v, last_reported := 0, flags := event.flags })
      (l := st.global_tree) hf
    simp only at this
    rw [this]; rfl
  | some node =>
    simp only []
    obtain ⟨node1, e1, e2, e3⟩ := modify_node_event_set K node event v ha hv
    rw [e1]
    simp only []
    obtain ⟨st1, h1, h2, _⟩ := global_event_report_isSome K st
      (avl_store stats_node_t.name node.name node1 st.global_tree) node1 v e3
    refine ⟨st1, h1, ?_⟩
    simp only [_get_stats, find_node_some, h2]
    have hk := avl_find_key stats_node_t.name hf
    rw [hk]
    rw [avl_find_store_self stats_node_t.name hf (by rw [e2, hk])]
    simp [dup_value, e3]

theorem get_stats_store_source {st : stats_t} {src : stats_source_t} {m : CStr}
    (hf : avl_find stats_source_t.source m st.source_tree = some src)
    (src1 : stats_source_t) (ls : List event_listener_t) (name : Option CStr)
    (hs : src1.source = src.source) :
    _get_stats (store_source st src1 ls) (some m) name =
      (_find_node src1.stats_tree name).bind dup_value := by
  have hk := avl_find_key stats_source_t.source hf
  simp only [_get_stats, store_source, find_source_some]
  rw [hs, hk, avl_find_store_self stats_source_t.source hf (by rw [hs, hk])]
  simp only []
  cases _find_node src1.stats_tree name <;> rfl

/-- A set event on a source of the store returns, and the value read back is the value
set. -/
theorem source_set_get (K : stats_flags) (st : stats_t) (src : stats_source_t)
    (event : stats_event_t) (m n v : CStr)
    (hf : avl_find stats_source_t.source m st.source_tree = some src)
    (hn : event.name = some n) (ha : event.action = STATS_EVENT_SET)
    (hv : event.value = some v) :
    ∃ st1, process_source_stat K st src event = some st1
      ∧ _get_stats st1 (some m) (some n) = some (some v) := by
  unfold process_source_stat
  simp only [ha, hn, hv, find_node_some, STATS_EVENT_SET, STATS_EVENT_REMOVE]
  simp only [show ¬ (0 = 5) by decide, ↓reduceIte, ne_eq, not_false_eq_true]
  cases hc : avl_find stats_node_t.name n src.stats_tree with
  | none =>
    simp only []
    refine ⟨_, rfl, ?_⟩
    rw [get_stats_store_source hf]
    · simp only [find_node_some, Option.some_bind]
      have := avl_find_insert_self stats_node_t.name
        (x := { name := n, value := some v, last_reported := 0,
                flags := if src.flags &&& K.STATS_HIDDEN ≠ 0 then event.flags ||| K.STATS_HIDDEN
                  else event.flags })
        (l := src.stats_tree) hc
      simp only at this
      simp only [ne_eq] at this ⊢
      rw [this]; rfl
    · rfl
  | some node =>
    simp only []
    obtain ⟨node1, e1, e2, e3⟩ := modify_node_event_set K node event v ha hv
    rw [e1]
    simp only [e3]
    refine ⟨_, rfl, ?_⟩
    rw [get_stats_store_source hf]
    · simp only [find_node_some, Option.some_bind]
      have hk := avl_find_key stats_node_t.name hc
      rw [hk, avl_find_store_self stats_node_t.name hc (by rw [e2, hk])]
      simp [dup_value, e3]
    · rfl

/-- A set event with a mount returns, and the value read back is the value set. -/
theorem source_event_set_get (K : stats_flags) (st : stats_t) (event : stats_event_t)
    (m n v : CStr) (hm : event.source = some m)
    (hn : event.name = some n) (ha : event.action = STATS_EVENT_SET)
    (hv : event.value = some v) :
    ∃ st1, process_source_event K st event = some st1
      ∧ _get_stats st1 (some m) (some n) = some (some v) := by
  unfold process_source_event
  simp only [hm, find_source_some]
  have hfound : ∀ (st : stats_t) (src : stats_source_t),
      avl_find stats_source_t.source m st.source_tree = some src →
      ∃ st1, process_source_found K st src event = some st1
        ∧ _get_stats st1 (some m) (some n) = some (some v) := by
    intro st src hf
    unfold process_source_found
    simp only [hn, and_false, ↓reduceIte, reduceCtorEq]
    exact source_set_get K st src event m n v hf hn ha hv
  cases hf : avl_find stats_source_t.source m st.source_tree with
  | some src => exact hfound st src hf
  | none =>
    simp only [ha, STATS_EVENT_SET, STATS_EVENT_REMOVE, show ¬ (0 = 5) by decide, ↓reduceIte]
    apply hfound
    exact avl_find_insert_self stats_source_t.source (x := new_source K m) hf

/-- C1: for every scope `m` (a mount, or null for the global store), every name `n`, every
value `v` that passes the UTF-8 test and every prior state, `stats_event (m, n, v)` returns
and `stats_get_value (m, n)` then gives a string equal to `v`. -/
theorem stats_event_then_get_value (K : stats_flags) (xmlCheckUTF8 : CStr → Bool)
    (st : stats_t) (m : Option CStr) (n v : CStr) (hv : xmlCheckUTF8 v = true) :
    ∃ st1, stats_event K xmlCheckUTF8 st m (some n) (some v) = some st1
      ∧ stats_get_value st1 m (some n) = some (some v) := by
  unfold stats_event stats_get_value process_event
  simp only [hv, Bool.true_eq_false, ↓reduceIte]
  cases m with
  | none =>
    simp only [build_event, ↓reduceIte]
    exact global_set_get K st _ n v rfl rfl rfl
  | some m =>
    simp only [build_event, reduceCtorEq, ↓reduceIte]
    exact source_event_set_get K st _ m n v rfl rfl rfl rfl

/-- C1, at a concrete input: a first value on the mount `/a`. -/
theorem stats_event_then_get_value_witness :
    ∃ st1, stats_event flags0 (fun _ => true) stats_empty (some (cstr "/a"))
        (some (cstr "title")) (some (cstr "x")) = some st1
      ∧ stats_get_value st1 (some (cstr "/a")) (some (cstr "title")) = some (some (cstr "x")) :=
  stats_event_then_get_value flags0 (fun _ => true) stats_empty (some (cstr "/a"))
    (cstr "title") (cstr "x") rfl

theorem handle_source_stats_handle (K : stats_flags) (st : stats_t) (m : CStr) :
    ∃ src, (stats_handle K st (some m)).2 = some m
      ∧ avl_find stats_source_t.source m (stats_handle K st (some m)).1.source_tree = some src
      ∧ src.source = m ∧ src.updated = LONG_MAX := by
  simp only [stats_handle]
  cases hf : avl_find stats_source_t.source m st.source_tree with
  | some src =>
    have hk := avl_find_key stats_source_t.source hf
    refine ⟨{ src with updated := LONG_MAX }, ?_, ?_, hk, rfl⟩
    · simp [hk]
    · exact avl_find_store_self stats_source_t.source hf hk
  | none =>
    refine ⟨{ new_source K m with updated := LONG_MAX }, rfl, ?_, rfl, rfl⟩
    exact avl_find_insert_self stats_source_t.source
      (x := { new_source K m with updated := LONG_MAX }) hf

/-- C2: for every mount `m`, name `n`, value `v` and prior state, after
`h = stats_handle (m); stats_set (h, n, v); stats_release (h)` the call
`stats_get_value (m, n)` gives a string equal to `v`. -/
theorem handle_set_release_get_value (K : stats_flags) (st : stats_t) (m n v : CStr) :
    ∃ st2, stats_set K (stats_handle K st (some m)).1 (stats_handle K st (some m)).2
        (some n) (some v) = some st2
      ∧ stats_get_value (stats_release st2 (stats_handle K st (some m)).2) (some m) (some n)
        = some (some v) := by
  obtain ⟨src, h1, h2, h3, _⟩ := handle_source_stats_handle K st m
  unfold stats_set stats_release stats_get_value
  rw [h1]
  simp only [handle_source, h2]
  exact source_set_get K _ src _ m n v h2 rfl rfl rfl

theorem queue_bytes_append (q r : List refbuf_t) :
    queue_bytes (q ++ r) = queue_bytes q ++ queue_bytes r := by
  simp [queue_bytes]

theorem queue_len_append (q r : List refbuf_t) :
    queue_len (q ++ r) = queue_len q + queue_len r := by
  simp [queue_len]

theorem queue_bytes_single (r : refbuf_t) : queue_bytes [r] = r.data := by
  simp [queue_bytes]

theorem queue_len_single (r : refbuf_t) : queue_len [r] = r.len := by
  simp [queue_len]

theorem u32_add_u32 (a b : Nat) : u32 (u32 a + b) = u32 (a + b) := by
  simp [u32, Nat.add_mod]

theorem tail_ok_cases (l : event_listener_t) (h : tail_ok l) :
    (l.client.refbuf = [] ∧ l.recent_block = none) ∨
    ∃ L b, l.client.refbuf = L ++ [b] ∧ l.recent_block = some L.length := by
  unfold tail_ok at h
  rcases List.eq_nil_or_concat l.client.refbuf with h0 | ⟨L, b, h0⟩
  · left; simp [h0] at h; exact ⟨h0, h⟩
  · rw [List.concat_eq_append] at h0
    right; refine ⟨L, b, h0, ?_⟩
    simp [h0] at h; exact h

theorem add_node_spec (l : event_listener_t) (r : refbuf_t) (ht : tail_ok l)
    (hr : r.len ≠ 0) :
    tail_ok (_add_node_to_stats_client l r)
      ∧ (_add_node_to_stats_client l r).client.refbuf = l.client.refbuf ++ [r]
      ∧ (_add_node_to_stats_client l r).content_len = u32 (l.content_len + r.len)
      ∧ (_add_node_to_stats_client l r).mask = l.mask
      ∧ (_add_node_to_stats_client l r).client.worker = l.client.worker := by
  unfold _add_node_to_stats_client
  simp only [hr, ne_eq, not_false_eq_true, ↓reduceIte]
  rcases tail_ok_cases l ht with ⟨h0, h1⟩ | ⟨L, b, h0, h1⟩
  · simp only [h1, h0, List.nil_append]
    refine ⟨?_, ?_⟩
    · simp [tail_ok]
    · simp
  · simp only [h1, h0]
    have : List.take (L.length + 1) (L ++ [b]) = L ++ [b] := by
      apply List.take_of_length_le; simp
    simp only [this]
    refine ⟨?_, ?_⟩
    · simp [tail_ok]
    · simp

theorem add_stats_post_same (l : event_listener_t) (line : CStr) (ht : tail_ok l)
    (h : l.client.worker = true → l.content_len ≤ 6000000 → line ≠ [] →
      line.length ≤ 4096 → False) :
    add_stats_post l line l :=
  ⟨ht, rfl, rfl, Or.inl ⟨rfl, rfl⟩, fun a b c d => (h a b c d).elim⟩

theorem add_stats_post_new_block (l : event_listener_t) (line : CStr) (ht : tail_ok l) :
    add_stats_post l line (add_stats_new_block l line) := by
  unfold add_stats_new_block refbuf_appendv
  simp only [refbuf_new, refbuf_t.len, List.length_nil, Nat.zero_add, List.nil_append]
  by_cases hfit : line.length ≤ 4096
  · simp only [hfit, ↓reduceIte]
    have : ¬ ((line.length : Int) < 0) := by omega
    simp only [this, ↓reduceIte]
    by_cases hne : line = []
    · subst hne
      simp only [_add_node_to_stats_client, refbuf_t.len, List.length_nil, ne_eq,
        not_true_eq_false, ↓reduceIte]
      exact add_stats_post_same l [] ht (fun _ _ h _ => h rfl)
    · have hr : ({ data := line, flags := 0 } : refbuf_t).len ≠ 0 := by
        simp [refbuf_t.len, hne]
      obtain ⟨a, b, c, d, e⟩ := add_node_spec l { data := line, flags := 0 } ht hr
      refine ⟨a, d, e, Or.inr ⟨?_, ?_, c⟩, fun _ _ _ _ => ?_⟩
      · rw [b, queue_bytes_append, queue_bytes_single]
      · rw [b, queue_len_append, queue_len_single]; rfl
      · rw [b, queue_bytes_append, queue_bytes_single]
  · simp only [hfit, ↓reduceIte]
    simp only [show ((-1 : Int) < 0) by decide, ↓reduceIte]
    exact add_stats_post_same l line ht (fun _ _ _ h => hfit h)

theorem recent_frame_concat (l : event_listener_t) (L : List refbuf_t) (b : refbuf_t)
    (h0 : l.client.refbuf = L ++ [b]) (h1 : l.recent_block = some L.length) :
    recent_frame l = some (L.length, b) := by
  simp [recent_frame, h0, h1]

theorem recent_frame_nil (l : event_listener_t) (h1 : l.recent_block = none) :
    recent_frame l = none := by
  simp [recent_frame, h1]

theorem add_stats_spec (l : event_listener_t) (line : CStr) (h : tail_ok l) :
    add_stats_post l line (_add_stats_to_stats_client l line) := by
  have hnew := add_stats_post_new_block l line h
  unfold _add_stats_to_stats_client
  split
  · rename_i hw
    exact add_stats_post_same l line h (fun h1 => by simp [hw] at h1)
  split
  · rename_i hcap
    refine ⟨?_, rfl, rfl, Or.inl ⟨rfl, rfl⟩, fun _ h2 => by omega⟩
    exact h
  rcases tail_ok_cases l h with ⟨_, h1⟩ | ⟨L, b, h0, h1⟩
  · rw [recent_frame_nil l h1]
    exact hnew
  · rw [recent_frame_concat l L b h0 h1]
    simp only []
    split
    · unfold refbuf_appendv
      split
      · rename_i hfit
        simp only []
        split
        · have hset : (L ++ [b]).set L.length { b with data := b.data ++ line }
              = L ++ [{ b with data := b.data ++ line }] := by
            simp
          refine ⟨?_, rfl, rfl, Or.inr ⟨?_, ?_, ?_⟩, fun _ _ _ _ => ?_⟩
          · simp [tail_ok, h0, h1]
          · simp only [h0, hset, queue_bytes_append, queue_bytes_single, List.append_assoc]
          · simp only [h0, hset, queue_len_append, queue_len_single,
              refbuf_t.len, List.length_append]
            omega
          · simp only [Int.toNat_ofNat]
          · simp only [h0, hset, queue_bytes_append, queue_bytes_single, List.append_assoc]
        · exact hnew
      · simp only [show ¬ ((-1 : Int) > 0) by decide, ↓reduceIte]
        exact hnew
    · exact hnew

theorem listener_selected_iff (K : stats_flags) (f : Nat) (l : event_listener_t) :
    listener_selected K f l = true ↔
      (l.mask &&& K.STATS_HIDDEN ≠ 0
        ∨ (f &&& K.STATS_HIDDEN = 0 ∧ andNot f K.STATS_HIDDEN &&& l.mask ≠ 0)) := by
  simp [listener_selected]

/-- C3, as stated, fails: a subscriber with a worker and an empty queue is selected by the
broadcast, but a line of more than 4096 bytes is not appended to its queue. -/
theorem fanout_oversize_line_dropped :
    (listener0 12).client.worker = true ∧ (listener0 12).content_len ≤ 6000000
      ∧ (12 &&& flags0.STATS_HIDDEN = 0 ∧ andNot 12 flags0.STATS_HIDDEN &&& 12 ≠ 0)
      ∧ stats_listener_send flags0 12
          (line_EVENT (cstr "global") (cstr "x") (List.replicate 4096 120)) [listener0 12]
        = [listener0 12] := by
  decide!

/-- C3, amended: for every broadcast with flag set `f` of a line that is not empty and of at
most 4096 bytes, the subscriber at each place of the list that has a worker, is not over the
hard cap and has a sound tail reference gets the line appended to its queue if and only if
`k & HIDDEN != 0` or (`f & HIDDEN == 0` and `(f & ~HIDDEN) & k != 0`), `k` being its mask;
a subscriber that is not selected is unchanged. -/
theorem fanout_selection (K : stats_flags) (f : Nat) (line : CStr)
    (ls : List event_listener_t) (hne : line ≠ []) (hfit : line.length ≤ 4096)
    (i : Nat) (l : event_listener_t) (hl : ls[i]? = some l) :
    ∃ l1, (stats_listener_send K f line ls)[i]? = some l1
      ∧ (l.client.worker = true → l.content_len ≤ 6000000 → tail_ok l →
          (queue_bytes l1.client.refbuf = queue_bytes l.client.refbuf ++ line ↔
            (l.mask &&& K.STATS_HIDDEN ≠ 0
              ∨ (f &&& K.STATS_HIDDEN = 0 ∧ andNot f K.STATS_HIDDEN &&& l.mask ≠ 0))))
      ∧ (¬ (l.mask &&& K.STATS_HIDDEN ≠ 0
              ∨ (f &&& K.STATS_HIDDEN = 0 ∧ andNot f K.STATS_HIDDEN &&& l.mask ≠ 0)) →
          l1 = l) := by
  refine ⟨if listener_selected K f l then _add_stats_to_stats_client l line else l,
    by simp [stats_listener_send, hl], ?_, ?_⟩
  · intro hw hc ht
    rw [← listener_selected_iff]
    by_cases hs : listener_selected K f l = true
    · simp only [hs, ↓reduceIte, iff_true]
      exact (add_stats_spec l line ht).2.2.2.2 hw hc hne hfit
    · simp only [hs, Bool.false_eq_true, ↓reduceIte, iff_false]
      intro h
      have := congrArg List.length h
      simp at this
      exact hne this
  · intro hs
    rw [← listener_selected_iff] at hs
    simp [hs]

/-- C3, amended, at a concrete input: a `SLAVE` subscriber and a line for slaves. -/
theorem fanout_selection_witness :
    ∃ l1, (stats_listener_send flags0 6 (line_DELETE (cstr "/a")) [listener0 2])[0]? = some l1
      ∧ ((listener0 2).client.worker = true → (listener0 2).content_len ≤ 6000000 →
          tail_ok (listener0 2) →
          (queue_bytes l1.client.refbuf
              = queue_bytes (listener0 2).client.refbuf ++ line_DELETE (cstr "/a") ↔
            ((listener0 2).mask &&& flags0.STATS_HIDDEN ≠ 0
              ∨ (6 &&& flags0.STATS_HIDDEN = 0
                ∧ andNot 6 flags0.STATS_HIDDEN &&& (listener0 2).mask ≠ 0))))
      ∧ (¬ ((listener0 2).mask &&& flags0.STATS_HIDDEN ≠ 0
              ∨ (6 &&& flags0.STATS_HIDDEN = 0
                ∧ andNot 6 flags0.STATS_HIDDEN &&& (listener0 2).mask ≠ 0)) →
          l1 = listener0 2) :=
  fanout_selection flags0 6 (line_DELETE (cstr "/a")) [listener0 2] (by decide) (by decide)
    0 (listener0 2) rfl

section avl
variable {α : Type} (key : α → CStr)

theorem avl_find_mem {n : CStr} {l : List α} {x : α} (h : avl_find key n l = some x) :
    x ∈ l := by
  induction l with
  | nil => simp [avl_find] at h
  | cons y ys ih =>
    simp only [avl_find] at h
    split at h
    · simp at h; simp [h]
    · simp [ih h]

theorem mem_avl_store {n : CStr} {l : List α} {x y : α} (h : x ∈ avl_store key n y l) :
    x = y ∨ x ∈ l := by
  induction l with
  | nil => simp [avl_store] at h
  | cons z zs ih =>
    simp only [avl_store] at h
    split at h
    · simp at h; rcases h with h | h
      · exact Or.inl h
      · simp [h]
    · simp at h; rcases h with h | h
      · simp [h]
      · rcases ih h with h | h
        · exact Or.inl h
        · simp [h]

theorem mem_avl_insert {l : List α} {x y : α} (h : x ∈ avl_insert key y l) :
    x = y ∨ x ∈ l := by
  induction l with
  | nil => simp [avl_insert] at h; exact Or.inl h
  | cons z zs ih =>
    simp only [avl_insert] at h
    split at h
    · simp at h; rcases h with h | h | h
      · exact Or.inl h
      · simp [h]
      · simp [h]
    · simp at h; rcases h with h | h
      · simp [h]
      · rcases ih h with h | h
        · exact Or.inl h
        · simp [h]

theorem mem_avl_delete {n : CStr} {l : List α} {x : α} (h : x ∈ avl_delete key n l) :
    x ∈ l := by
  induction l with
  | nil => simp [avl_delete] at h
  | cons z zs ih =>
    simp only [avl_delete] at h
    split at h
    · simp [h]
    · simp at h; rcases h with h | h
      · simp [h]
      · simp [ih h]
end avl

theorem store_hidden_inv_store_source (K : stats_flags) (st : stats_t) (src : stats_source_t)
    (ls : List event_listener_t) (h : store_hidden_inv K st) (hs : source_hidden_inv K src) :
    store_hidden_inv K (store_source st src ls) := by
  intro x hx
  rcases mem_avl_store stats_source_t.source hx with h1 | h1
  · rw [h1]; exact hs
  · exact h x h1

theorem store_hidden_inv_delete_source (K : stats_flags) (st : stats_t) (src : stats_source_t)
    (h : store_hidden_inv K st) : store_hidden_inv K (delete_source K st src) := by
  intro x hx
  exact h x (mem_avl_delete stats_source_t.source hx)

theorem store_hidden_inv_insert (K : stats_flags) (st : stats_t) (src : stats_source_t)
    (h : store_hidden_inv K st) (hs : source_hidden_inv K src) :
    store_hidden_inv K
      { st with source_tree := avl_insert stats_source_t.source src st.source_tree } := by
  intro x hx
  rcases mem_avl_insert stats_source_t.source hx with h1 | h1
  · rw [h1]; exact hs
  · exact h x h1

theorem and_or_self_right (a h : Nat) : (a ||| h) &&& h = h := by
  apply Nat.eq_of_testBit_eq
  intro i
  simp only [Nat.testBit_and, Nat.testBit_or]
  cases a.testBit i <;> cases h.testBit i <;> rfl

theorem andNot_and_self (a h : Nat) : andNot a h &&& h = 0 := by
  apply Nat.eq_of_testBit_eq
  intro i
  simp only [andNot, Nat.testBit_and, Nat.testBit_xor, Nat.zero_testBit]
  cases a.testBit i <;> cases h.testBit i <;> rfl

theorem modify_node_event_cases (K : stats_flags) (node node1 : stats_node_t)
    (event : stats_event_t) (h : modify_node_event K node event = some node1) :
    node1 = modify_node_flags node event
      ∨ ∃ v, node1 = modify_node_store K (modify_node_flags node event) v := by
  unfold modify_node_event at h
  simp only at h
  split at h
  · simp at h; exact Or.inl h.symm
  · split at h
    · split at h
      · simp at h
      · split at h
        · simp at h; exact Or.inl h.symm
        · simp at h; exact Or.inr ⟨_, h.symm⟩
    · split at h
      · simp at h
      · simp at h; exact Or.inr ⟨_, h.symm⟩

theorem modify_node_event_flags (K : stats_flags) (node node1 : stats_node_t)
    (event : stats_event_t) (h : modify_node_event K node event = some node1) :
    node1.name = node.name ∧
      (node1.flags = node.flags ∨
        (event.action &&& STATS_EVENT_HIDDEN ≠ 0 ∧ node1.flags = event.flags)) := by
  have hf : (modify_node_flags node event).name = node.name ∧
      ((modify_node_flags node event).flags = node.flags ∨
        (event.action &&& STATS_EVENT_HIDDEN ≠ 0
          ∧ (modify_node_flags node event).flags = event.flags)) := by
    unfold modify_node_flags
    split
    · rename_i hh; exact ⟨rfl, Or.inr ⟨hh, rfl⟩⟩
    · exact ⟨rfl, Or.inl rfl⟩
  rcases modify_node_event_cases K node node1 event h with h1 | ⟨v, h1⟩
  · rw [h1]; exact hf
  · rw [h1]; exact hf

theorem source_flags_event_cases (K : stats_flags) (st st1 : stats_t)
    (src : stats_source_t) (event : stats_event_t)
    (hr : source_flags_event K st src event = some st1) :
    (event.flags &&& K.STATS_HIDDEN = src.flags &&& K.STATS_HIDDEN ∧ st1 = st)
    ∨ (event.flags &&& K.STATS_HIDDEN ≠ src.flags &&& K.STATS_HIDDEN
        ∧ src.flags &&& K.STATS_HIDDEN ≠ 0
        ∧ ∃ type tree ls, source_type src = some type
          ∧ show_children K src.source src.stats_tree
              (stats_listener_send K (andNot src.flags K.STATS_HIDDEN)
                (line_NEW type src.source) st.event_listeners) = some (tree, ls)
          ∧ st1 = store_source st
              { src with flags := andNot src.flags K.STATS_HIDDEN, stats_tree := tree } ls)
    ∨ (event.flags &&& K.STATS_HIDDEN ≠ src.flags &&& K.STATS_HIDDEN
        ∧ src.flags &&& K.STATS_HIDDEN = 0
        ∧ st1 = store_source st
            { src with
              flags := src.flags ||| K.STATS_HIDDEN
              stats_tree := hide_children K src.stats_tree }
            (stats_listener_send K src.flags (line_DELETE src.source) st.event_listeners)) := by
  unfold source_flags_event at hr
  by_cases h1 : event.flags &&& K.STATS_HIDDEN = src.flags &&& K.STATS_HIDDEN
  · simp only [h1, ↓reduceIte, Option.some.injEq] at hr
    exact Or.inl ⟨h1, hr.symm⟩
  · simp only [h1, ↓reduceIte, find_node_some] at hr
    by_cases h2 : src.flags &&& K.STATS_HIDDEN ≠ 0
    · simp only [h2, ne_eq, not_false_eq_true, ↓reduceIte] at hr
      right; left
      refine ⟨h1, h2, ?_⟩
      have hty : ∀ type, source_type src = some type →
          (match show_children K src.source src.stats_tree
              (stats_listener_send K (andNot src.flags K.STATS_HIDDEN)
                (line_NEW type src.source) st.event_listeners) with
            | none => none
            | some (tree, listeners) =>
              some (store_source st
                { src with flags := andNot src.flags K.STATS_HIDDEN, stats_tree := tree }
                listeners)) = some st1 →
          ∃ type tree ls, source_type src = some type
          ∧ show_children K src.source src.stats_tree
              (stats_listener_send K (andNot src.flags K.STATS_HIDDEN)
                (line_NEW type src.source) st.event_listeners) = some (tree, ls)
          ∧ st1 = store_source st
              { src with flags := andNot src.flags K.STATS_HIDDEN, stats_tree := tree } ls := by
        intro type ht hm
        cases hsc : show_children K src.source src.stats_tree
              (stats_listener_send K (andNot src.flags K.STATS_HIDDEN)
                (line_NEW type src.source) st.event_listeners) with
        | none => simp [hsc] at hm
        | some p =>
          obtain ⟨tree, ls⟩ := p
          simp only [hsc, Option.some.injEq] at hm
          exact ⟨type, tree, ls, ht, hsc, hm.symm⟩
      cases hct : avl_find stats_node_t.name (cstr "server_type") src.stats_tree with
      | none =>
        simp only [hct] at hr
        exact hty (cstr "audio/mpeg") (by simp [source_type, hct]) hr
      | some ct =>
        simp only [hct] at hr
        cases hv : ct.value with
        | none => simp [hv] at hr
        | some type =>
          simp only [hv] at hr
          exact hty type (by simp [source_type, hct, hv]) hr
    · simp only [h2, ↓reduceIte, Option.some.injEq] at hr
      right; right
      exact ⟨h1, by simpa using h2, hr.symm⟩

theorem source_flags_event_hidden_inv (K : stats_flags) (st st1 : stats_t)
    (src : stats_source_t) (event : stats_event_t) (h : store_hidden_inv K st)
    (hr : source_flags_event K st src event = some st1) : store_hidden_inv K st1 := by
  rcases source_flags_event_cases K st st1 src event hr with ⟨_, h1⟩ | ⟨_, _, _, _, _, _, _, h1⟩
    | ⟨_, _, h1⟩
  · rw [h1]; exact h
  · rw [h1]
    apply store_hidden_inv_store_source K st _ _ h
    intro hh
    simp [andNot_and_self] at hh
  · rw [h1]
    apply store_hidden_inv_store_source K st _ _ h
    intro _ node hn
    simp only [hide_children, List.mem_map] at hn
    obtain ⟨a, _, rfl⟩ := hn
    exact and_or_self_right _ _

theorem process_source_stat_hidden_inv (K : stats_flags) (st st1 : stats_t)
    (src : stats_source_t) (event : stats_event_t) (h : store_hidden_inv K st)
    (hs : source_hidden_inv K src) (hk : event_keeps_hidden K src event)
    (hr : process_source_stat K st src event = some st1) : store_hidden_inv K st1 := by
  unfold process_source_stat at hr
  split at hr
  · rename_i name hname
    simp only [hname, find_node_some] at hr
    split at hr
    · simp at hr
    · split at hr
      · split at hr
        · simp only [Option.some.injEq] at hr
          subst hr
          apply store_hidden_inv_store_source K st _ _ h
          intro hh node hn
          rcases mem_avl_insert stats_node_t.name hn with h1 | h1
          · subst h1
            simp only at hh
            simp only [hh, ne_eq, not_false_eq_true, ↓reduceIte]
            exact and_or_self_right _ _
          · exact hs hh node h1
        · simp at hr; subst hr; exact h
      · simp at hr; subst hr; exact h
    · rename_i node hfind
      simp only [Option.some.injEq] at hfind
      split at hr
      · simp only [Option.some.injEq] at hr
        subst hr
        apply store_hidden_inv_store_source K st _ _ h
        intro hh x hx
        exact hs hh x (mem_avl_delete stats_node_t.name hx)
      · split at hr
        · simp at hr
        · rename_i node1 hm
          split at hr
          · simp at hr
          · simp only [Option.some.injEq] at hr
            subst hr
            apply store_hidden_inv_store_source K st _ _ h
            intro hh x hx
            rcases mem_avl_store stats_node_t.name hx with h1 | h1
            · subst h1
              rcases (modify_node_event_flags K node x event hm).2 with h2 | ⟨h2, h3⟩
              · rw [h2]; exact hs hh node (avl_find_mem stats_node_t.name hfind)
              · rw [h3]; exact hk h2 hh name node hname hfind
            · exact hs hh x h1
  · split at hr
    · simp at hr; subst hr; exact store_hidden_inv_delete_source K st src h
    · split at hr
      · exact source_flags_event_hidden_inv K st st1 src event h hr
      · simp at hr; subst hr; exact h

theorem global_event_report_source_tree (K : stats_flags) (st st1 : stats_t)
    (tree : List stats_node_t) (node : stats_node_t)
    (h : global_event_report K st tree node = some st1) :
    st1.source_tree = st.source_tree := by
  unfold global_event_report at h
  split at h
  · split at h
    · simp at h
    · simp at h; subst h; rfl
  · simp at h; subst h; rfl

theorem process_global_event_source_tree (K : stats_flags) (st st1 : stats_t)
    (event : stats_event_t) (h : process_global_event K st event = some st1) :
    st1.source_tree = st.source_tree := by
  unfold process_global_event at h
  split at h
  · split at h
    · simp at h; subst h; rfl
    · simp at h; subst h; rfl
    · simp at h
  · split at h
    · simp at h
    · split at h
      · simp at h
      · exact global_event_report_source_tree K st st1 _ _ h
    · split at h
      · exact global_event_report_source_tree K st st1 _ _ h
      · simp at h

theorem process_source_found_hidden_inv (K : stats_flags) (st st1 : stats_t)
    (src : stats_source_t) (event : stats_event_t) (h : store_hidden_inv K st)
    (hs : source_hidden_inv K src) (hk : event_keeps_hidden K src event)
    (hr : process_source_found K st src event = some st1) : store_hidden_inv K st1 := by
  unfold process_source_found at hr
  split at hr
  · split at hr
    · simp at hr
    · simp at hr; subst hr; exact store_hidden_inv_delete_source K st src h
    · simp at hr; subst hr; exact h
  · exact process_source_stat_hidden_inv K st st1 src event h hs hk hr

theorem event_keeps_hidden_new (K : stats_flags) (m : CStr) (event : stats_event_t) :
    event_keeps_hidden K (new_source K m) event := by
  intro _ _ n node _ hf
  simp [new_source, avl_find] at hf

theorem source_hidden_inv_new (K : stats_flags) (m : CStr) (updated : Int) :
    source_hidden_inv K { new_source K m with updated := updated } := by
  intro _ node hn
  simp [new_source] at hn

theorem process_source_event_hidden_inv (K : stats_flags) (st st1 : stats_t)
    (event : stats_event_t) (h : store_hidden_inv K st)
    (hk : ∀ m src, event.source = some m →
      avl_find stats_source_t.source m st.source_tree = some src →
      event_keeps_hidden K src event)
    (hr : process_source_event K st event = some st1) : store_hidden_inv K st1 := by
  unfold process_source_event at hr
  cases hm : event.source with
  | none =>
    simp only [hm] at hr
    cases ht : st.source_tree with
    | nil => simp [ht, _find_source] at hr
    | cons a b => simp [ht, _find_source] at hr
  | some m =>
    simp only [hm, find_source_some] at hr
    cases hf : avl_find stats_source_t.source m st.source_tree with
    | some src =>
      simp only [hf] at hr
      exact process_source_found_hidden_inv K st st1 src event h
        (h src (avl_find_mem stats_source_t.source hf)) (hk m src hm hf) hr
    | none =>
      simp only [hf] at hr
      split at hr
      · simp at hr; subst hr; exact h
      · exact process_source_found_hidden_inv K _ st1 (new_source K m) event
          (store_hidden_inv_insert K st _ h (source_hidden_inv_new K m 0))
          (source_hidden_inv_new K m 0) (event_keeps_hidden_new K m event) hr

theorem process_event_hidden_inv (K : stats_flags) (st st1 : stats_t)
    (event : stats_event_t) (h : store_hidden_inv K st)
    (hk : ∀ m src, event.source = some m →
      avl_find stats_source_t.source m st.source_tree = some src →
      event_keeps_hidden K src event)
    (hr : process_event K st event = some st1) : store_hidden_inv K st1 := by
  unfold process_event at hr
  split at hr
  · intro src hs
    rw [process_global_event_source_tree K st st1 event hr] at hs
    exact h src hs
  · exact process_source_event_hidden_inv K st st1 event h hk hr

theorem event_keeps_hidden_plain (K : stats_flags) (src : stats_source_t)
    (event : stats_event_t) (h : event.action &&& STATS_EVENT_HIDDEN = 0) :
    event_keeps_hidden K src event := by
  intro h1; exact absurd h h1

theorem stats_purge_hidden_inv (K : stats_flags) (fserve_contains : CStr → Int)
    (st : stats_t) (mark : Int) (h : store_hidden_inv K st) :
    store_hidden_inv K (stats_purge K fserve_contains st mark) := by
  unfold stats_purge
  generalize st.source_tree = l
  induction l generalizing st with
  | nil => exact h
  | cons a b ih =>
    simp only [List.foldl_cons]
    apply ih
    unfold purge_source
    split
    · split
      · exact store_hidden_inv_delete_source K st a h
      · exact h
    · split
      · exact store_hidden_inv_delete_source K st a h
      · exact h

theorem stats_handle_hidden_inv (K : stats_flags) (st : stats_t) (mount : Option CStr)
    (h : store_hidden_inv K st) : store_hidden_inv K (stats_handle K st mount).1 := by
  unfold stats_handle
  cases mount with
  | none => exact h
  | some m =>
    simp only
    cases hf : avl_find stats_source_t.source m st.source_tree with
    | some src =>
      simp only
      intro x hx
      rcases mem_avl_store stats_source_t.source hx with h1 | h1
      · rw [h1]; exact h src (avl_find_mem stats_source_t.source hf)
      · exact h x h1
    | none =>
      exact store_hidden_inv_insert K st _ h (source_hidden_inv_new K m LONG_MAX)

theorem build_event_plain (K : stats_flags) (source name value : Option CStr) :
    (build_event K source name value).action &&& STATS_EVENT_HIDDEN = 0 := by
  unfold build_event
  cases value <;> simp only [Option.isSome, ↓reduceIte, Bool.false_eq_true] <;> decide

theorem stats_op_run_hidden_inv (K : stats_flags) (xmlCheckUTF8 : CStr → Bool)
    (fserve_contains : CStr → Int) (st st1 : stats_t) (op : stats_op)
    (h : store_hidden_inv K st) (hk : op_keeps_hidden K st op)
    (hr : op.run K xmlCheckUTF8 fserve_contains st = some st1) : store_hidden_inv K st1 := by
  have plain : ∀ event : stats_event_t, event.action &&& STATS_EVENT_HIDDEN = 0 →
      process_event K st event = some st1 → store_hidden_inv K st1 := by
    intro event he hp
    exact process_event_hidden_inv K st st1 event h
      (fun _ src _ _ => event_keeps_hidden_plain K src event he) hp
  have plain_src : ∀ (src : stats_source_t) (event : stats_event_t) (m : CStr),
      handle_source st m = some src →
      event.action &&& STATS_EVENT_HIDDEN = 0 →
      process_source_stat K st src event = some st1 → store_hidden_inv K st1 := by
    intro src event m hf he hp
    exact process_source_stat_hidden_inv K st st1 src event h
      (h src (avl_find_mem stats_source_t.source hf))
      (event_keeps_hidden_plain K src event he) hp
  cases op with
  | event source name value =>
    simp only [stats_op.run, stats_event] at hr
    cases value with
    | none => exact plain _ (build_event_plain K _ _ _) hr
    | some v =>
      simp only at hr
      split at hr
      · simp at hr; subst hr; exact h
      · exact plain _ (build_event_plain K _ _ _) hr
  | event_flags source name value flags =>
    simp only [stats_op.run, stats_event_flags] at hr
    apply process_event_hidden_inv K st st1 _ h _ hr
    intro m src hm hf _ hh n node hn hfn
    simp only [build_event] at hm hn
    subst hm; subst hn
    exact hk src node hf hh hfn
  | event_inc source name =>
    simp only [stats_op.run, stats_event_inc] at hr
    exact plain _ (by simp only; decide) hr
  | event_dec source name =>
    simp only [stats_op.run, stats_event_dec] at hr
    exact plain _ (by simp only; decide) hr
  | event_add source name value =>
    simp only [stats_op.run, stats_event_add] at hr
    split at hr
    · simp at hr; subst hr; exact h
    · exact plain _ (by simp only; decide) hr
  | event_sub source name value =>
    simp only [stats_op.run, stats_event_sub] at hr
    split at hr
    · simp at hr; subst hr; exact h
    · exact plain _ (by simp only; decide) hr
  | handle mount =>
    simp only [stats_op.run, Option.some.injEq] at hr
    subst hr
    exact stats_handle_hidden_inv K st mount h
  | set hd name value =>
    simp only [stats_op.run, stats_set] at hr
    cases hd with
    | none => simp at hr; subst hr; exact h
    | some m =>
      simp only at hr
      cases hf : handle_source st m with
      | none => simp [hf] at hr
      | some src =>
        simp only [hf] at hr
        exact plain_src src _ m hf (build_event_plain K _ _ _) hr
  | set_flags hd name value flags =>
    simp only [stats_op.run, stats_set_flags] at hr
    cases hd with
    | none => simp at hr
    | some m =>
      simp only at hr
      cases hf : handle_source st m with
      | none => simp [hf] at hr
      | some src =>
        simp only [hf] at hr
        apply process_source_stat_hidden_inv K st st1 src _ h
          (h src (avl_find_mem stats_source_t.source hf)) _ hr
        intro _ hh n node hn hfn
        simp only [build_event] at hn
        subst hn
        exact hk src node hf hh hfn
  | set_inc hd name =>
    simp only [stats_op.run, stats_set_inc] at hr
    cases hd with
    | none => simp at hr; subst hr; exact h
    | some m =>
      simp only at hr
      cases hf : handle_source st m with
      | none => simp [hf] at hr
      | some src =>
        simp only [hf] at hr
        exact plain_src src _ m hf (by simp only; decide) hr
  | flush hd =>
    simp only [stats_op.run, stats_flush] at hr
    cases hd with
    | none => simp at hr; subst hr; exact h
    | some m =>
      simp only at hr
      cases hf : handle_source st m with
      | none => simp [hf] at hr
      | some src =>
        simp only [hf, Option.some.injEq] at hr
        subst hr
        apply store_hidden_inv_store_source K st _ _ h
        intro _ node hn
        simp at hn
  | purge mark =>
    simp only [stats_op.run, Option.some.injEq] at hr
    subst hr
    exact stats_purge_hidden_inv K fserve_contains st mark h

/-- C4, as stated, fails: after `h = stats_handle ("/a")`, `stats_set_flags (h, NULL, NULL,
GENERAL)` and `stats_set_flags (h, "x", "1", COUNTERS|HIDDEN)` the source `/a` is visible
(flags 6) and its child `x` is hidden (flags 9). -/
theorem visible_source_hidden_child :
    run_ops flags0 (fun _ => true) (fun _ => 0) stats_empty
        [.handle (some (cstr "/a")), .set_flags (some (cstr "/a")) none none 4,
          .set_flags (some (cstr "/a")) (some (cstr "x")) (some (cstr "1")) 9]
      = some
        { global_tree := []
          source_tree :=
            [{ source := cstr "/a", flags := 6, updated := LONG_MAX,
               stats_tree :=
                [{ name := cstr "x", value := some (cstr "1"), last_reported := 0,
                   flags := 9 }] }]
          event_listeners := [] }
      ∧ 9 &&& flags0.STATS_HIDDEN ≠ 6 &&& flags0.STATS_HIDDEN := by
  decide

/-- C4, amended: in every state reached from the empty store by operations of the inbound
API whose flags events do not take `HIDDEN` from an existing child of a hidden source,
every child of a source that carries `HIDDEN` carries `HIDDEN`. -/
theorem hidden_source_children_hidden (K : stats_flags) (xmlCheckUTF8 : CStr → Bool)
    (fserve_contains : CStr → Int) (st : stats_t)
    (h : reachable_hidden K xmlCheckUTF8 fserve_contains st) :
    ∀ src ∈ st.source_tree, src.flags &&& K.STATS_HIDDEN ≠ 0 →
      ∀ node ∈ src.stats_tree, node.flags &&& K.STATS_HIDDEN = K.STATS_HIDDEN := by
  induction h with
  | init listeners => intro src hs; simp at hs
  | step st st1 op _ hk hr ih =>
    exact stats_op_run_hidden_inv K xmlCheckUTF8 fserve_contains st st1 op ih hk hr

/-- C4, amended, at a concrete input: the state after `stats_event ("/a", "x", "1")` is
reached, and the child `x` of its hidden source is hidden. -/
theorem hidden_source_children_hidden_witness :
    reachable_hidden flags0 (fun _ => true) (fun _ => 0) stats_sample
      ∧ ∀ src ∈ stats_sample.source_tree, src.flags &&& flags0.STATS_HIDDEN ≠ 0 →
        ∀ node ∈ src.stats_tree, node.flags &&& flags0.STATS_HIDDEN = flags0.STATS_HIDDEN :=
  have hreach : reachable_hidden flags0 (fun _ => true) (fun _ => 0) stats_sample :=
    reachable_hidden.step stats_empty stats_sample
      (.event (some (cstr "/a")) (some (cstr "x")) (some (cstr "1")))
      (reachable_hidden.init []) trivial (by decide)
  ⟨hreach, hidden_source_children_hidden flags0 (fun _ => true) (fun _ => 0) stats_sample hreach⟩

theorem avl_store_self {α : Type} (key : α → CStr) {n : CStr} {l : List α} {x : α}
    (h : avl_find key n l = some x) : avl_store key n x l = l := by
  induction l with
  | nil => rfl
  | cons y ys ih =>
    simp only [avl_find] at h
    simp only [avl_store]
    split at h
    · rename_i h0
      simp at h; subst h; simp [h0]
    · rename_i h0
      simp [h0, ih h]

theorem modify_node_event_regular_same (K : stats_flags) (node : stats_node_t)
    (event : stats_event_t) (v : CStr) (ha : event.action = STATS_EVENT_SET)
    (hv : event.value = some v) (hr : node.flags &&& K.STATS_REGULAR ≠ 0)
    (hn : node.value = some v) : modify_node_event K node event = some node := by
  have h1 : modify_node_flags node event = node := by
    simp [modify_node_flags, ha, STATS_EVENT_SET]
  have h2 : modify_node_action event = STATS_EVENT_SET := by
    simp [modify_node_action, ha, STATS_EVENT_SET]
  unfold modify_node_event
  simp only [h1, h2, hv, reduceCtorEq, and_false, ↓reduceIte]
  simp [hr, hn, strcmp_self]

/-- C5, as stated, fails for a node of a source: `stats_event ("/a", "x", "1")` on a REGULAR
child `x` whose value is `1` already leaves the node as it is, but the line
`EVENT /a x 1` is appended to the queue of the subscriber. -/
theorem regular_child_same_value_broadcast :
    stats_event flags0 (fun _ => true) stats_regular_child (some (cstr "/a"))
        (some (cstr "x")) (some (cstr "1"))
      = some
        { stats_regular_child with
          event_listeners :=
            [{ listener0 2 with
               content_len := 13
               recent_block := some 0
               client :=
                { client0 with refbuf := [{ data := cstr "EVENT /a x 1\n", flags := 0 }] } }] }
      := by
  decide

/-- C5, amended: a SET event whose value equals the current value of an existing REGULAR
node leaves the node as it is; on a node of the global store nothing else changes either
(no line is queued), on a node of a source the line `EVENT <mount> <name> <value>` is
still broadcast with the flags of the node. -/
theorem regular_set_same_value (K : stats_flags) (st : stats_t) (event : stats_event_t)
    (n v : CStr) (node : stats_node_t) (ha : event.action = STATS_EVENT_SET)
    (hname : event.name = some n) (hv : event.value = some v)
    (hr : node.flags &&& K.STATS_REGULAR ≠ 0) (hn : node.value = some v) :
    (event.source = none → avl_find stats_node_t.name n st.global_tree = some node →
        process_event K st event = some st)
      ∧ (∀ m src, event.source = some m →
          avl_find stats_source_t.source m st.source_tree = some src →
          avl_find stats_node_t.name n src.stats_tree = some node →
          process_event K st event
            = some { st with
                event_listeners :=
                  stats_listener_send K node.flags (line_EVENT src.source n v)
                    st.event_listeners }) := by
  have hm := modify_node_event_regular_same K node event v ha hv hr hn
  constructor
  · intro hs hf
    have hk := avl_find_key stats_node_t.name hf
    simp only [process_event, hs, ↓reduceIte, process_global_event, ha, hname,
      find_node_some, hf, hm, STATS_EVENT_SET, STATS_EVENT_REMOVE,
      show ¬ ((0 : Nat) = 5) by decide]
    rw [hk, avl_store_self stats_node_t.name hf]
    simp [global_event_report, hr]
  · intro m src hs hfs hf
    have hk := avl_find_key stats_node_t.name hf
    have hks := avl_find_key stats_source_t.source hfs
    simp only [process_event, hs, reduceCtorEq, ↓reduceIte, process_source_event,
      find_source_some, hfs, process_source_found, hname, and_false,
      process_source_stat, find_node_some, hf, ha, hm, hn, STATS_EVENT_SET,
      STATS_EVENT_REMOVE, show ¬ ((0 : Nat) = 5) by decide]
    rw [hk, avl_store_self stats_node_t.name hf]
    simp only [store_source]
    have e : ({ src with stats_tree := src.stats_tree } : stats_source_t) = src := rfl
    rw [e, avl_store_self stats_source_t.source (hks.symm ▸ hfs)]

/-- C5, amended, at a concrete input: a REGULAR global stat set to its value again. -/
theorem regular_set_same_value_witness :
    ((build_event flags0 none (some (cstr "x")) (some (cstr "1"))).source = none →
        avl_find stats_node_t.name (cstr "x") stats_regular_global.global_tree
          = some { name := cstr "x", value := some (cstr "1"), last_reported := 7, flags := 24 } →
        process_event flags0 stats_regular_global
          (build_event flags0 none (some (cstr "x")) (some (cstr "1")))
          = some stats_regular_global)
      ∧ (∀ m src, (build_event flags0 none (some (cstr "x")) (some (cstr "1"))).source = some m →
          avl_find stats_source_t.source m stats_regular_global.source_tree = some src →
          avl_find stats_node_t.name (cstr "x") src.stats_tree
            = some { name := cstr "x", value := some (cstr "1"), last_reported := 7,
                     flags := 24 } →
          process_event flags0 stats_regular_global
              (build_event flags0 none (some (cstr "x")) (some (cstr "1")))
            = some { stats_regular_global with
                event_listeners :=
                  stats_listener_send flags0 24 (line_EVENT src.source (cstr "x") (cstr "1"))
                    stats_regular_global.event_listeners }) :=
  regular_set_same_value flags0 stats_regular_global
    (build_event flags0 none (some (cstr "x")) (some (cstr "1"))) (cstr "x") (cstr "1")
    { name := cstr "x", value := some (cstr "1"), last_reported := 7, flags := 24 }
    rfl rfl rfl (by decide) rfl

theorem atoll_digits_append (ds rest : CStr) (k : Nat) (h : ∀ d ∈ ds, isdigit d = true) :
    atoll_digits (ds ++ rest) k = atoll_digits rest (digits_value k ds) := by
  induction ds generalizing k with
  | nil => rfl
  | cons d ds ih =>
    have hd : isdigit d = true := h d (by simp)
    have := ih (k * 10 + (d - 48)) (fun x hx => h x (by simp [hx]))
    show atoll_digits (d :: (ds ++ rest)) k = _
    simp only [atoll_digits, hd, ↓reduceIte]
    exact this

theorem utoa_aux_spec (n : Nat) : ∀ fuel, n < fuel → ∀ acc : CStr,
    ∃ ds, utoa_aux fuel n acc = ds ++ acc ∧ ds ≠ [] ∧ (∀ d ∈ ds, isdigit d = true)
      ∧ ∀ k, digits_value k ds = k * 10 ^ ds.length + n := by
  induction n using Nat.strong_induction_on with
  | _ n ih =>
    intro fuel hf acc
    cases fuel with
    | zero => omega
    | succ f =>
      simp only [utoa_aux]
      split
      · rename_i h10
        refine ⟨[48 + n], rfl, by simp, ?_, ?_⟩
        · intro d hd
          simp at hd; subst hd
          simp [isdigit]; omega
        · intro k; simp [digits_value]
      · rename_i h10
        obtain ⟨ds, e1, _, e3, e4⟩ := ih (n / 10) (by omega) f (by omega) ((48 + n % 10) :: acc)
        refine ⟨ds ++ [48 + n % 10], by simp [e1], by simp, ?_, ?_⟩
        · intro d hd
          simp at hd
          rcases hd with hd | hd
          · exact e3 d hd
          · subst hd; simp [isdigit]; omega
        · intro k
          have := e4 k
          simp only [digits_value] at this
          simp only [digits_value, List.foldl_append, this, List.foldl_cons, List.foldl_nil,
            List.length_append, List.length_singleton]
          have h1 : 48 + n % 10 - 48 = n % 10 := by omega
          rw [h1, pow_succ]
          have h2 := Nat.div_add_mod n 10
          nlinarith [h2]

theorem utoa_spec (n : Nat) :
    ∃ c cs, utoa n = c :: cs ∧ isdigit c = true ∧ atoll_digits (utoa n) 0 = n := by
  obtain ⟨ds, e1, e2, e3, e4⟩ := utoa_aux_spec n (n + 1) (by omega) []
  have hu : utoa n = ds := by simp [utoa, e1]
  cases ds with
  | nil => exact absurd rfl e2
  | cons c cs =>
    refine ⟨c, cs, hu, e3 c (by simp), ?_⟩
    rw [hu]
    have := atoll_digits_append (c :: cs) [] 0 e3
    simp only [List.append_nil] at this
    rw [this, e4 0]
    simp [atoll_digits]

theorem isdigit_not_space (c : Nat) (h : isdigit c = true) :
    isspace c = false ∧ c ≠ 45 ∧ c ≠ 43 := by
  simp only [isdigit, Bool.and_eq_true, decide_eq_true_eq] at h
  simp only [isspace, Bool.or_eq_false_iff, decide_eq_false_iff_not, Bool.and_eq_false_iff]
  omega

theorem atoll_itoa (a : Int) (h : in_int64 a) : atoll (itoa a) = a := by
  obtain ⟨c, cs, e1, e2, e3⟩ := utoa_spec a.natAbs
  obtain ⟨s1, s2, s3⟩ := isdigit_not_space c e2
  unfold in_int64 INT64_MIN INT64_MAX at h
  unfold atoll itoa INT64_MIN INT64_MAX
  split
  · rename_i hneg
    have hv : atoll_signed (skip_space (45 :: utoa a.natAbs)) = a := by
      simp only [skip_space, isspace, atoll_signed]
      simp only [show ((45 : Nat) = 32) = False by simp, decide_False, Bool.false_or,
        show ((9 : Nat) ≤ 45 && (45 : Nat) ≤ 13) = false by decide, Bool.false_eq_true,
        ↓reduceIte, e3]
      omega
    rw [hv]; omega
  · rename_i hpos
    have hv : atoll_signed (skip_space (utoa a.natAbs)) = a := by
      rw [e1] at e3 ⊢
      simp only [skip_space, s1, Bool.false_eq_true, ↓reduceIte, atoll_signed, s2, s3, e3]
      omega
    rw [hv]; omega

theorem atoll_no_number (s : CStr) (h : leading_number s = false) : atoll s = 0 := by
  unfold leading_number at h
  unfold atoll
  have : atoll_signed (skip_space s) = 0 := by
    cases hs : skip_space s with
    | nil => rfl
    | cons c cs =>
      simp only [hs] at h
      simp only [atoll_signed]
      split at h
      · rename_i hc
        have hz : atoll_digits cs 0 = 0 := by
          cases cs with
          | nil => rfl
          | cons d ds =>
            simp only at h
            simp [atoll_digits, h]
        rcases hc with hc | hc
        · simp [hc, hz]
        · simp [hc, hz]
      · rename_i hc
        simp only [not_or] at hc
        simp [hc.1, hc.2, atoll_digits, h]
  rw [this]
  decide

theorem wrap64_id (a : Int) (h : in_int64 a) : wrap64 a = a := by
  unfold in_int64 INT64_MIN INT64_MAX at h
  unfold wrap64
  omega

/-- An event that changes an existing node to `node1` returns, and the value read back is
the value of `node1`. -/
theorem process_event_get (K : stats_flags) (st : stats_t) (event : stats_event_t)
    (m : Option CStr) (n w : CStr) (node node1 : stats_node_t)
    (hm : event.source = m) (hn : event.name = some n)
    (ha : event.action ≠ STATS_EVENT_REMOVE) (hnode : node_at st m n = some node)
    (hmod : modify_node_event K node event = some node1)
    (h1 : node1.name = node.name) (h2 : node1.value = some w) :
    ∃ st1, process_event K st event = some st1
      ∧ stats_get_value st1 m (some n) = some (some w) := by
  unfold process_event stats_get_value
  cases m with
  | none =>
    simp only [node_at] at hnode
    have hk := avl_find_key stats_node_t.name hnode
    simp only [hm, ↓reduceIte, process_global_event, ha, hn, find_node_some, hnode, hmod]
    obtain ⟨st1, e1, e2, _⟩ := global_event_report_isSome K st
      (avl_store stats_node_t.name node.name node1 st.global_tree) node1 w h2
    refine ⟨st1, e1, ?_⟩
    simp only [_get_stats, find_node_some, e2]
    rw [hk, avl_find_store_self stats_node_t.name hnode (by rw [h1, hk])]
    simp [dup_value, h2]
  | some mount =>
    simp only [node_at] at hnode
    cases hs : avl_find stats_source_t.source mount st.source_tree with
    | none => simp [hs] at hnode
    | some src =>
      simp only [hs] at hnode
      have hk := avl_find_key stats_node_t.name hnode
      simp only [hm, reduceCtorEq, ↓reduceIte, process_source_event, find_source_some, hs,
        process_source_found, ha, false_and, process_source_stat, hn, find_node_some,
        hnode, hmod, h2]
      refine ⟨_, rfl, ?_⟩
      rw [get_stats_store_source hs]
      · simp only [find_node_some, Option.some_bind]
        rw [hk, avl_find_store_self stats_node_t.name hnode (by rw [h1, hk])]
        simp [dup_value, h2]
      · rfl

theorem atoll_reads_as (s : CStr) (a : Int) (h : reads_as s a) : atoll s = a := by
  rcases h with ⟨h1, h2⟩ | ⟨h1, h2⟩
  · rw [h1]; exact atoll_itoa a h2
  · rw [h2]; exact atoll_no_number s h1

theorem modify_node_event_arith (K : stats_flags) (node : stats_node_t)
    (event : stats_event_t) (r : Int)
    (hh : event.action &&& STATS_EVENT_HIDDEN = 0) (hs : event.action ≠ STATS_EVENT_SET)
    (hv : modify_value event.action node.value event.value = some r) :
    modify_node_event K node event = some (modify_node_store K node (itoa r)) := by
  have h1 : modify_node_flags node event = node := by simp [modify_node_flags, hh]
  have h2 : modify_node_action event = event.action := by simp [modify_node_action, hh]
  unfold modify_node_event
  simp only [h1, h2, hh, ne_eq, not_true_eq_false, false_and, ↓reduceIte, hs, hv]

/-- C6: on an existing node whose value is the decimal text of an integer `a` (or has no
leading decimal number, `a` being 0 then), an event INC leaves the decimal text of `a+1`,
DEC of `a-1`, ADD with the amount `v` of `a+v` and SUB of `a-v`, as long as `a`, `v` and
the result are in the range of `int64_t`; the event returns and the text is the value read
back. -/
theorem arithmetic_events (K : stats_flags) (st : stats_t) (event : stats_event_t)
    (m : Option CStr) (n s : CStr) (a : Int) (node : stats_node_t)
    (hm : event.source = m) (hn : event.name = some n)
    (hnode : node_at st m n = some node) (hs : node.value = some s) (ha : reads_as s a) :
    (event.action = STATS_EVENT_INC → in_int64 (a + 1) →
        ∃ st1, process_event K st event = some st1
          ∧ stats_get_value st1 m (some n) = some (some (itoa (a + 1))))
      ∧ (event.action = STATS_EVENT_DEC → in_int64 (a - 1) →
        ∃ st1, process_event K st event = some st1
          ∧ stats_get_value st1 m (some n) = some (some (itoa (a - 1))))
      ∧ (∀ v, event.action = STATS_EVENT_ADD → event.value = some (itoa v) → in_int64 v →
        in_int64 (a + v) →
        ∃ st1, process_event K st event = some st1
          ∧ stats_get_value st1 m (some n) = some (some (itoa (a + v))))
      ∧ (∀ v, event.action = STATS_EVENT_SUB → event.value = some (itoa v) → in_int64 v →
        in_int64 (a - v) →
        ∃ st1, process_event K st event = some st1
          ∧ stats_get_value st1 m (some n) = some (some (itoa (a - v)))) := by
  have hat := atoll_reads_as s a ha
  have fin : ∀ r : Int, event.action &&& STATS_EVENT_HIDDEN = 0 →
      event.action ≠ STATS_EVENT_SET → event.action ≠ STATS_EVENT_REMOVE →
      modify_value event.action node.value event.value = some r →
      ∃ st1, process_event K st event = some st1
        ∧ stats_get_value st1 m (some n) = some (some (itoa r)) := by
    intro r e1 e2 e3 e4
    exact process_event_get K st event m n (itoa r) node _ hm hn e3 hnode
      (modify_node_event_arith K node event r e1 e2 e4) rfl rfl
  refine ⟨?_, ?_, ?_, ?_⟩
  · intro he hr
    refine fin (a + 1) (by rw [he]; decide) (by rw [he]; decide) (by rw [he]; decide) ?_
    simp [modify_value, atoll_ptr, he, hs, hat, wrap64_id _ hr]
  · intro he hr
    refine fin (a - 1) (by rw [he]; decide) (by rw [he]; decide) (by rw [he]; decide) ?_
    simp [modify_value, atoll_ptr, he, hs, hat, wrap64_id _ hr, STATS_EVENT_INC,
      STATS_EVENT_DEC]
  · intro v he hev hv hr
    refine fin (a + v) (by rw [he]; decide) (by rw [he]; decide) (by rw [he]; decide) ?_
    simp [modify_value, atoll_ptr, he, hs, hev, hat, atoll_itoa v hv, wrap64_id _ hr,
      STATS_EVENT_INC, STATS_EVENT_DEC, STATS_EVENT_ADD]
  · intro v he hev hv hr
    refine fin (a - v) (by rw [he]; decide) (by rw [he]; decide) (by rw [he]; decide) ?_
    simp [modify_value, atoll_ptr, he, hs, hev, hat, atoll_itoa v hv, wrap64_id _ hr,
      STATS_EVENT_INC, STATS_EVENT_DEC, STATS_EVENT_ADD, STATS_EVENT_SUB]

/-- C6, at a concrete input: the global counter `clients` at 41. -/
theorem arithmetic_events_witness :
    (event_inc_clients.action = STATS_EVENT_INC → in_int64 (41 + 1) →
        ∃ st1, process_event flags0 stats_counter event_inc_clients = some st1
          ∧ stats_get_value st1 none (some (cstr "clients")) = some (some (itoa (41 + 1))))
      ∧ (event_inc_clients.action = STATS_EVENT_DEC → in_int64 (41 - 1) →
        ∃ st1, process_event flags0 stats_counter event_inc_clients = some st1
          ∧ stats_get_value st1 none (some (cstr "clients")) = some (some (itoa (41 - 1))))
      ∧ (∀ v, event_inc_clients.action = STATS_EVENT_ADD →
        event_inc_clients.value = some (itoa v) → in_int64 v → in_int64 (41 + v) →
        ∃ st1, process_event flags0 stats_counter event_inc_clients = some st1
          ∧ stats_get_value st1 none (some (cstr "clients")) = some (some (itoa (41 + v))))
      ∧ (∀ v, event_inc_clients.action = STATS_EVENT_SUB →
        event_inc_clients.value = some (itoa v) → in_int64 v → in_int64 (41 - v) →
        ∃ st1, process_event flags0 stats_counter event_inc_clients = some st1
          ∧ stats_get_value st1 none (some (cstr "clients")) = some (some (itoa (41 - v)))) :=
  arithmetic_events flags0 stats_counter event_inc_clients none (cstr "clients") (cstr "41") 41
    { name := cstr "clients", value := some (cstr "41"), last_reported := 0, flags := 24 }
    rfl rfl rfl rfl (Or.inl ⟨by decide, by unfold in_int64; decide⟩)

/-- An event with a value on a name that has no node in its scope returns and leaves a node
with that value. -/
theorem process_event_create (K : stats_flags) (st : stats_t) (event : stats_event_t)
    (m : Option CStr) (n v : CStr) (hm : event.source = m) (hn : event.name = some n)
    (hv : event.value = some v) (ha : event.action ≠ STATS_EVENT_REMOVE)
    (hnode : node_at st m n = none) :
    ∃ st1 node, process_event K st event = some st1 ∧ node_at st1 m n = some node
      ∧ node.value = some v := by
  unfold process_event
  cases m with
  | none =>
    simp only [node_at] at hnode
    simp only [hm, ↓reduceIte, process_global_event, ha, hn, hv, find_node_some, hnode]
    obtain ⟨st1, e1, e2, _⟩ := global_event_report_isSome K st
      (avl_insert stats_node_t.name
        { name := n, value := some v, last_reported := 0, flags := event.flags } st.global_tree)
      { name := n, value := some v, last_reported := 0, flags := event.flags } v rfl
    refine ⟨st1, { name := n, value := some v, last_reported := 0, flags := event.flags },
      e1, ?_, rfl⟩
    simp only [node_at, e2]
    exact avl_find_insert_self stats_node_t.name
      (x := { name := n, value := some v, last_reported := 0, flags := event.flags }) hnode
  | some mount =>
    have hstat : ∀ (st : stats_t) (src : stats_source_t),
        avl_find stats_source_t.source mount st.source_tree = some src →
        avl_find stats_node_t.name n src.stats_tree = none →
        ∃ st1 node, process_source_found K st src event = some st1
          ∧ node_at st1 (some mount) n = some node ∧ node.value = some v := by
      intro st src hs hf
      simp only [process_source_found, ha, false_and, ↓reduceIte, process_source_stat, hn,
        find_node_some, hf, hv, ne_eq, not_false_eq_true]
      refine ⟨_,
        { name := n, value := some v, last_reported := 0,
          flags := if src.flags &&& K.STATS_HIDDEN ≠ 0 then event.flags ||| K.STATS_HIDDEN
            else event.flags }, rfl, ?_, rfl⟩
      have hk := avl_find_key stats_source_t.source hs
      simp only [node_at, store_source]
      rw [hk, avl_find_store_self stats_source_t.source hs rfl]
      simp only [ne_eq]
      exact avl_find_insert_self stats_node_t.name
        (x := { name := n, value := some v, last_reported := 0,
                flags := if src.flags &&& K.STATS_HIDDEN ≠ 0 then event.flags ||| K.STATS_HIDDEN
                  else event.flags }) hf
    simp only [node_at] at hnode
    simp only [hm, reduceCtorEq, ↓reduceIte, process_source_event, find_source_some]
    cases hs : avl_find stats_source_t.source mount st.source_tree with
    | none =>
      simp only [ha, ↓reduceIte]
      apply hstat
      · exact avl_find_insert_self stats_source_t.source (x := new_source K mount) hs
      · rfl
    | some src =>
      simp only [hs] at hnode
      exact hstat st src hs hnode

/-- C7: for every scope `m` and name `n` with no node, `stats_event_inc (m, n)` followed by
`stats_event_dec (m, n)` returns and leaves the node with the value `0`. -/
theorem inc_then_dec_fresh (K : stats_flags) (st : stats_t) (m : Option CStr) (n : CStr)
    (h : node_at st m n = none) :
    ∃ st1 st2, stats_event_inc K st m (some n) = some st1
      ∧ stats_event_dec K st1 m (some n) = some st2
      ∧ stats_get_value st2 m (some n) = some (some (cstr "0")) := by
  obtain ⟨st1, node, e1, e2, e3⟩ := process_event_create K st
    { build_event K m (some n) (some (cstr "1")) with action := STATS_EVENT_INC }
    m n (cstr "1") rfl rfl rfl (by simp only; decide) h
  have hone : wrap64 (atoll (cstr "1") - 1) = 0 := by decide
  have hmod := modify_node_event_arith K node
    { build_event K m (some n) (some (cstr "0")) with action := STATS_EVENT_DEC } 0
    (by simp only; decide) (by simp only; decide)
    (by simp [modify_value, atoll_ptr, e3, STATS_EVENT_DEC, STATS_EVENT_INC, hone])
  obtain ⟨st2, e4, e5⟩ := process_event_get K st1
    { build_event K m (some n) (some (cstr "0")) with action := STATS_EVENT_DEC }
    m n (itoa 0) node _ rfl rfl (by simp only; decide) e2 hmod rfl rfl
  exact ⟨st1, st2, e1, e4, e5⟩

/-- C7, at a concrete input: the name `x` on the mount `/a` of the empty store. -/
theorem inc_then_dec_fresh_witness :
    ∃ st1 st2, stats_event_inc flags0 stats_empty (some (cstr "/a")) (some (cstr "x")) = some st1
      ∧ stats_event_dec flags0 st1 (some (cstr "/a")) (some (cstr "x")) = some st2
      ∧ stats_get_value st2 (some (cstr "/a")) (some (cstr "x")) = some (some (cstr "0")) :=
  inc_then_dec_fresh flags0 stats_empty (some (cstr "/a")) (cstr "x") rfl

theorem queue_len_cons (r : refbuf_t) (q : List refbuf_t) :
    queue_len (r :: q) = r.len + queue_len q := by
  simp [queue_len]

theorem queue_ok_fanout (l : event_listener_t) (line : CStr) (h : queue_ok l) :
    queue_ok (_add_stats_to_stats_client l line) := by
  obtain ⟨ht, _, _, hq, _⟩ := add_stats_spec l line h.1
  refine ⟨ht, ?_⟩
  rcases hq with ⟨h1, h2⟩ | ⟨_, h2, h3⟩
  · rw [h1, h2]; exact h.2
  · rw [h3, h2, h.2, u32_add_u32]

theorem queue_ok_splice (l l1 : event_listener_t) (first : refbuf_t) (rest : List refbuf_t)
    (h : queue_ok l)
    (hr : register_splice l (first :: rest) (queue_len (first :: rest)) = some l1) :
    queue_ok l1 := by
  simp only [register_splice, Option.some.injEq] at hr
  subst hr
  refine ⟨?_, ?_⟩
  · simp [tail_ok]
  · simp only [h.2, u32_add_u32]
    rw [queue_len_append, Nat.add_comm]

theorem queue_ok_schedule (l : event_listener_t) (c : client_t) (h : queue_ok l)
    (hc : c.refbuf = l.client.refbuf) : queue_ok { l with client := c } := by
  unfold queue_ok tail_ok at *
  simp only [hc]
  exact h

theorem write_refbuf (sock : Int) (c : client_t) :
    (format_generic_write_to_client sock c).1.refbuf = c.refbuf := by
  unfold format_generic_write_to_client
  split
  · rfl
  · split
    · rfl
    · split <;> rfl

theorem u32_release (len rest : Nat) :
    u32 (u32 (len + rest) + (2 ^ 32 - len % 2 ^ 32)) = u32 rest := by
  simp only [u32]
  norm_num
  omega

theorem stats_send_loop_ok (sock : Nat → Int) : ∀ (loop k : Nat) (total : Int)
    (l : event_listener_t), queue_ok l →
    ∃ l1, stats_send_loop sock loop k total l = some l1 ∧ queue_ok l1 := by
  intro loop
  induction loop with
  | zero =>
    intro k total l h
    unfold stats_send_loop
    simp only
    split
    · exact ⟨_, rfl, queue_ok_schedule l _ h rfl⟩
    · exact ⟨_, rfl, queue_ok_schedule l _ h rfl⟩
  | succ loop1 ih =>
    intro k total l h
    unfold stats_send_loop
    simp only
    split
    · exact ⟨_, rfl, queue_ok_schedule l _ h rfl⟩
    · rename_i refbuf next hq
      split
      · exact ⟨_, rfl, queue_ok_schedule l _ h rfl⟩
      · split
        · have hlen : l.content_len = u32 (refbuf.len + queue_len next) := by
            rw [h.2, hq, queue_len_cons]
          have htail : l.recent_block = some next.length := by
            have := h.1
            simp [tail_ok, hq] at this
            exact this
          cases next with
          | nil =>
            refine ⟨_, rfl, ?_, ?_⟩
            · simp [tail_ok]
            · simp only [hlen, u32_release]
          | cons y ys =>
            simp only [htail, List.length_cons]
            apply ih
            refine ⟨?_, ?_⟩
            · simp [tail_ok]
            · simp only [hlen, u32_release]
        · exact ⟨_, rfl, queue_ok_schedule l _ h (by simp [write_refbuf])⟩

theorem stats_listeners_send_ok (running : Bool) (sock : Nat → Int) (l : event_listener_t)
    (h : queue_ok l) (hw : l.client.worker = true) :
    ∃ res, stats_listeners_send running sock l = some res ∧ queue_ok res.1 := by
  unfold stats_listeners_send
  simp only
  split
  · exact ⟨_, rfl, h⟩
  · rw [if_neg (by rw [hw]; decide)]
    split
    · exact ⟨_, rfl, h⟩
    · split
      · rename_i heq
        obtain ⟨l1, e1, _⟩ := stats_send_loop_ok sock _ 0 0 _
          (queue_ok_schedule l { l.client with schedule_ms := l.client.time_ms } h rfl)
        have := e1.symm.trans heq
        simp at this
      · rename_i l2 heq
        obtain ⟨l1, e1, e2⟩ := stats_send_loop_ok sock _ 0 0 _
          (queue_ok_schedule l { l.client with schedule_ms := l.client.time_ms } h rfl)
        have := e1.symm.trans heq
        simp only [Option.some.injEq] at this
        subst this
        split
        · exact ⟨_, rfl, e2⟩
        · exact ⟨_, rfl, e2⟩

theorem queue_op_run_ok (l : event_listener_t) (op : queue_op) (h : queue_ok l) :
    ∃ l1, op.run l = some l1 ∧ queue_ok l1 := by
  cases op with
  | fanout line => exact ⟨_, rfl, queue_ok_fanout l line h⟩
  | splice first rest => exact ⟨_, rfl, queue_ok_splice l _ first rest h rfl⟩
  | send running sock =>
    by_cases hw : l.client.worker = false
    · exact ⟨l, by simp [queue_op.run, hw], h⟩
    · have hw1 : l.client.worker = true := by simpa using hw
      obtain ⟨res, e1, e2⟩ := stats_listeners_send_ok running sock l h hw1
      exact ⟨res.1, by simp [queue_op.run, hw1, e1], e2⟩

/-- C8: for every subscriber, from its creation on, and every sequence of queue mutations
(fan-out append into the tail frame or link of a new frame, registration splice, release of
the frames written in a send pass) the mutations return and `content_len` is the sum of the
lengths of the frames in the queue, as an `unsigned int`: equal to it while the sum is
below `2^32`. -/
theorem content_len_is_queue_len (mask : Nat) (client : client_t) (ops : List queue_op) :
    ∃ l1, run_queue_ops (listener_new mask client) ops = some l1
      ∧ l1.content_len = queue_len l1.client.refbuf % 2 ^ 32
      ∧ (queue_len l1.client.refbuf < 2 ^ 32 → l1.content_len = queue_len l1.client.refbuf) := by
  have gen : ∀ (ops : List queue_op) (l : event_listener_t), queue_ok l →
      ∃ l1, run_queue_ops l ops = some l1 ∧ queue_ok l1 := by
    intro ops
    induction ops with
    | nil => intro l h; exact ⟨l, rfl, h⟩
    | cons op ops ih =>
      intro l h
      obtain ⟨l1, e1, e2⟩ := queue_op_run_ok l op h
      obtain ⟨l2, e3, e4⟩ := ih l1 e2
      exact ⟨l2, by simp [run_queue_ops, e1, e3], e4⟩
  have h0 : queue_ok (listener_new mask client) := by
    refine ⟨?_, ?_⟩
    · simp [tail_ok, listener_new]
    · simp [listener_new, queue_len, u32]
  obtain ⟨l1, e1, e2⟩ := gen ops _ h0
  refine ⟨l1, e1, e2.2, ?_⟩
  intro hlt
  rw [e2.2, u32, Nat.mod_eq_of_lt hlt]

theorem avl_find_none_of_not_mem {α : Type} (key : α → CStr) (n : CStr) (l : List α)
    (h : n ∉ l.map key) : avl_find key n l = none := by
  cases hf : avl_find key n l with
  | none => rfl
  | some x =>
    exfalso
    apply h
    have h1 := avl_find_key key hf
    have h2 := avl_find_mem key hf
    exact List.mem_map.2 ⟨x, h2, h1⟩

theorem avl_find_delete_self {α : Type} (key : α → CStr) (n : CStr) (l : List α)
    (h : (l.map key).Nodup) : avl_find key n (avl_delete key n l) = none := by
  induction l with
  | nil => rfl
  | cons x xs ih =>
    simp only [List.map_cons, List.nodup_cons] at h
    simp only [avl_delete]
    split
    · rename_i h0
      have : key x = n := ((strcmp_eq_zero _ _).1 h0).symm
      apply avl_find_none_of_not_mem
      rw [← this]; exact h.1
    · rename_i h0
      simp only [avl_find, h0, ↓reduceIte]
      exact ih h.2

/-- C9: for every source store (its mounts distinct) and mount `m` present in it, the
source-level remove `stats_event (m, NULL, NULL)` returns, and afterwards the source `m` is
out of the store if and only if it had no child named `fallback`; with such a child the
store is left as it was. -/
theorem source_remove_iff_no_fallback (K : stats_flags) (xmlCheckUTF8 : CStr → Bool)
    (st : stats_t) (m : CStr) (src : stats_source_t)
    (hu : (st.source_tree.map stats_source_t.source).Nodup)
    (hf : avl_find stats_source_t.source m st.source_tree = some src) :
    ∃ st1, stats_event K xmlCheckUTF8 st (some m) none none = some st1
      ∧ (avl_find stats_source_t.source m st1.source_tree = none ↔
          avl_find stats_node_t.name (cstr "fallback") src.stats_tree = none)
      ∧ (avl_find stats_node_t.name (cstr "fallback") src.stats_tree ≠ none → st1 = st) := by
  have hk := avl_find_key stats_source_t.source hf
  simp only [stats_event, process_event, build_event, reduceCtorEq, ↓reduceIte,
    process_source_event, find_source_some, hf, process_source_found, Option.isSome,
    Bool.false_eq_true, and_self, find_node_some]
  cases hfb : avl_find stats_node_t.name (cstr "fallback") src.stats_tree with
  | none =>
    refine ⟨_, rfl, ?_, fun h => absurd rfl h⟩
    simp only [delete_source, iff_true]
    rw [hk]
    exact avl_find_delete_self stats_source_t.source m st.source_tree hu
  | some node =>
    refine ⟨_, rfl, ?_, fun _ => rfl⟩
    simp [hf]

/-- C9, at a concrete input: the source `/x` with a child `fallback`. -/
theorem source_remove_iff_no_fallback_witness :
    ∃ st1, stats_event flags0 (fun _ => true) stats_fallback (some (cstr "/x")) none none
        = some st1
      ∧ (avl_find stats_source_t.source (cstr "/x") st1.source_tree = none ↔
          avl_find stats_node_t.name (cstr "fallback")
            [{ name := cstr "fallback", value := some (cstr "/y"), last_reported := 0,
               flags := 15 }] = none)
      ∧ (avl_find stats_node_t.name (cstr "fallback")
            [{ name := cstr "fallback", value := some (cstr "/y"), last_reported := 0,
               flags := 15 }] ≠ none → st1 = stats_fallback) :=
  source_remove_iff_no_fallback flags0 (fun _ => true) stats_fallback (cstr "/x")
    { source := cstr "/x", flags := 7, updated := 0,
      stats_tree :=
        [{ name := cstr "fallback", value := some (cstr "/y"), last_reported := 0,
           flags := 15 }] }
    (by decide) (by decide)

/-- C10, as stated, fails: the hidden source `/a.mp3` has a child `title` whose flags match
a subscriber for slaves, but when the source becomes visible the subscriber gets the `NEW`
line only: the `EVENT` line of the child, longer than a frame, is dropped. -/
theorem visible_source_long_child_line_dropped :
    (andNot 15 flags0.STATS_HIDDEN &&& flags0.STATS_HIDDEN = 0
        ∧ andNot 15 flags0.STATS_HIDDEN &&& (listener0 2).mask ≠ 0)
      ∧ stats_set_flags flags0 stats_long_title (some (cstr "/a.mp3")) none none 6
        = some
          { global_tree := []
            source_tree :=
              [{ source := cstr "/a.mp3", flags := 6, updated := 0,
                 stats_tree :=
                  [{ name := cstr "title", value := some (List.replicate 4096 120),
                     last_reported := 0, flags := 14 }] }]
            event_listeners :=
              [{ listener0 2 with
                 content_len := 22
                 recent_block := some 0
                 client :=
                  { client0 with
                    refbuf := [{ data := cstr "NEW audio/mpeg /a.mp3\n", flags := 0 }] } }] } := by
  decide!

theorem listener_selected_mask (K : stats_flags) (f : Nat) (l l1 : event_listener_t)
    (h : l1.mask = l.mask) : listener_selected K f l1 = listener_selected K f l := by
  simp [listener_selected, h]

theorem stats_listener_send_eq_map (K : stats_flags) (f : Nat) (line : CStr)
    (ls : List event_listener_t) :
    stats_listener_send K f line ls = ls.map fun l => deliver_lines K l [(f, line)] := by
  simp [stats_listener_send, deliver_lines]

theorem deliver_lines_cons (K : stats_flags) (l : event_listener_t) (msg : Nat × CStr)
    (msgs : List (Nat × CStr)) :
    deliver_lines K l (msg :: msgs) = deliver_lines K (deliver_lines K l [msg]) msgs := by
  simp [deliver_lines]

/-- The loop over the children of a source that becomes visible returns when every child
has a value: the children lose `STATS_HIDDEN`, and each subscriber has been sent the
`EVENT` lines in tree order. -/
theorem show_children_eq (K : stats_flags) (mount : CStr) (tree : List stats_node_t)
    (ls : List event_listener_t) (hv : ∀ c ∈ tree, c.value.isSome = true) :
    show_children K mount tree ls
      = some (tree.map (fun c => { c with flags := andNot c.flags K.STATS_HIDDEN }),
          ls.map fun l => deliver_lines K l
            (tree.map fun c =>
              (andNot c.flags K.STATS_HIDDEN, line_EVENT mount c.name (c.value.getD [])))) := by
  induction tree generalizing ls with
  | nil => simp [show_children, deliver_lines]
  | cons c rest ih =>
    have hc := hv c (by simp)
    cases hcv : c.value with
    | none => simp [hcv] at hc
    | some v =>
      simp only [show_children, hcv]
      rw [ih _ (fun x hx => hv x (by simp [hx]))]
      simp only [List.map_cons, hcv, Option.getD_some, stats_listener_send_eq_map,
        List.map_map]
      have e : ∀ (l : event_listener_t) (m : Nat × CStr) (r : List (Nat × CStr)),
          deliver_lines K (deliver_lines K l [m]) r = deliver_lines K l (m :: r) :=
        fun l m r => (deliver_lines_cons K l m r).symm
      simp only [Function.comp_def, e]

theorem line_EVENT_ne_nil (scope name value : CStr) : line_EVENT scope name value ≠ [] := by
  simp [line_EVENT, cstr]

theorem line_NEW_ne_nil (type mount : CStr) : line_NEW type mount ≠ [] := by
  simp [line_NEW, cstr]

/-- The bytes a subscriber holds after the broadcast of a list of lines: the old ones, then
the lines that are for it, when it has a worker, a sound tail reference and room under the
cap, and each line is not empty and fits a frame. -/
theorem deliver_lines_bytes (K : stats_flags) (msgs : List (Nat × CStr)) :
    ∀ l : event_listener_t, l.client.worker = true → tail_ok l →
      l.content_len + lines_len msgs ≤ 6000000 →
      (∀ msg ∈ msgs, msg.2 ≠ [] ∧ msg.2.length ≤ 4096) →
      queue_bytes (deliver_lines K l msgs).client.refbuf
        = queue_bytes l.client.refbuf ++ selected_bytes K l msgs := by
  induction msgs with
  | nil => intro l _ _ _ _; simp [deliver_lines, selected_bytes]
  | cons msg rest ih =>
    intro l hw ht hcap hfit
    have hm := hfit msg (by simp)
    have hrest : ∀ x ∈ rest, x.2 ≠ [] ∧ x.2.length ≤ 4096 := fun x hx => hfit x (by simp [hx])
    simp only [lines_len, List.map_cons, List.sum_cons] at hcap
    rw [deliver_lines_cons]
    by_cases hs : listener_selected K msg.1 l = true
    · have hd : deliver_lines K l [msg] = _add_stats_to_stats_client l msg.2 := by
        simp [deliver_lines, hs]
      obtain ⟨p1, p2, p3, p4, p5⟩ := add_stats_spec l msg.2 ht
      have hb := p5 hw (by omega) hm.1 hm.2
      have hlen : (_add_stats_to_stats_client l msg.2).content_len
          = l.content_len + msg.2.length := by
        rcases p4 with ⟨q1, _⟩ | ⟨_, _, q3⟩
        · rw [q1] at hb
          have := congrArg List.length hb
          simp at this
          exact absurd this hm.1
        · rw [q3, u32]
          apply Nat.mod_eq_of_lt
          omega
      rw [hd, ih _ (by rw [p3]; exact hw) p1 (by rw [hlen]; simp only [lines_len]; omega) hrest,
        hb]
      simp only [selected_bytes, List.filter_cons, hs, ↓reduceIte, List.map_cons,
        List.flatten_cons, List.append_assoc, listener_selected_mask K _ l _ p2]
    · have hd : deliver_lines K l [msg] = l := by
        simp [deliver_lines, hs]
      rw [hd, ih l hw ht (by simp only [lines_len]; omega) hrest]
      simp only [selected_bytes, List.filter_cons, hs, ↓reduceIte]
      rfl

/-- The change of a hidden source to visible returns when the content type and the values
of the children are not null: the source and its children lose `STATS_HIDDEN`, and each
subscriber has been sent the lines of the source in order. -/
theorem source_flags_event_visible (K : stats_flags) (st : stats_t) (src : stats_source_t)
    (event : stats_event_t) (type : CStr)
    (hhid : src.flags &&& K.STATS_HIDDEN ≠ 0) (hf : event.flags &&& K.STATS_HIDDEN = 0)
    (hvals : ∀ c ∈ src.stats_tree, c.value.isSome = true)
    (htype : source_type src = some type) :
    source_flags_event K st src event
      = some (store_source st
          { src with
            flags := andNot src.flags K.STATS_HIDDEN
            stats_tree :=
              src.stats_tree.map fun c => { c with flags := andNot c.flags K.STATS_HIDDEN } }
          (st.event_listeners.map fun l => deliver_lines K l (visible_lines K src type))) := by
  have hne : ¬ (event.flags &&& K.STATS_HIDDEN = src.flags &&& K.STATS_HIDDEN) := by
    rw [hf]; exact fun h => hhid h.symm
  have hsc := show_children_eq K src.source src.stats_tree
    (stats_listener_send K (andNot src.flags K.STATS_HIDDEN) (line_NEW type src.source)
      st.event_listeners) hvals
  have e : ∀ (l : event_listener_t) (m : Nat × CStr) (r : List (Nat × CStr)),
      deliver_lines K (deliver_lines K l [m]) r = deliver_lines K l (m :: r) :=
    fun l m r => (deliver_lines_cons K l m r).symm
  simp only [stats_listener_send_eq_map, List.map_map, Function.comp_def, e] at hsc
  unfold source_type at htype
  simp only [source_flags_event, hne, ↓reduceIte, hhid, ne_eq, not_false_eq_true,
    find_node_some]
  cases hct : avl_find stats_node_t.name (cstr "server_type") src.stats_tree with
  | none =>
    simp only [hct, Option.some.injEq] at htype
    subst htype
    simp only [stats_listener_send_eq_map, List.map_map, Function.comp_def, e, hsc,
      visible_lines]
  | some ct =>
    simp only [hct] at htype
    simp only [htype, stats_listener_send_eq_map, List.map_map, Function.comp_def, e, hsc,
      visible_lines]

/-- C10, amended: for every hidden source with mount `m` whose children have values, the
source-level flags event `stats_set_flags (h, NULL, NULL, f)` with `f` lacking `HIDDEN`
returns and makes the source visible; every subscriber that has a worker, a sound tail
reference and room under the hard cap then holds, after its old bytes, the line
`NEW <type> <m>` if its mask matches the flags of the source, followed by the line
`EVENT <m> <name> <value>` of each child whose flags match it, in tree order, each line
fitting a frame of 4096 bytes; `<type>` is the value of the child `server_type`, or
`audio/mpeg`. -/
theorem hidden_source_becomes_visible (K : stats_flags) (st : stats_t) (m : CStr)
    (src : stats_source_t) (f : Nat) (type : CStr) (i : Nat) (l : event_listener_t)
    (hsrc : handle_source st m = some src)
    (hhid : src.flags &&& K.STATS_HIDDEN ≠ 0) (hf : f &&& K.STATS_HIDDEN = 0)
    (hvals : ∀ c ∈ src.stats_tree, c.value.isSome = true)
    (htype : source_type src = some type)
    (hl : st.event_listeners[i]? = some l) (hw : l.client.worker = true) (ht : tail_ok l)
    (hcap : l.content_len + lines_len (visible_lines K src type) ≤ 6000000)
    (hfit : ∀ msg ∈ visible_lines K src type, msg.2.length ≤ 4096) :
    ∃ st1 src1 l1, stats_set_flags K st (some m) none none f = some st1
      ∧ handle_source st1 m = some src1 ∧ src1.flags &&& K.STATS_HIDDEN = 0
      ∧ st1.event_listeners[i]? = some l1
      ∧ queue_bytes l1.client.refbuf
        = queue_bytes l.client.refbuf ++ selected_bytes K l (visible_lines K src type) := by
  have hk := avl_find_key stats_source_t.source hsrc
  have hne : ∀ msg ∈ visible_lines K src type, msg.2 ≠ [] ∧ msg.2.length ≤ 4096 := by
    intro msg hmsg
    refine ⟨?_, hfit msg hmsg⟩
    simp only [visible_lines, List.mem_cons, List.mem_map] at hmsg
    rcases hmsg with h1 | ⟨c, _, h1⟩
    · rw [h1]; exact line_NEW_ne_nil _ _
    · rw [← h1]; exact line_EVENT_ne_nil _ _ _
  refine ⟨store_source st
      { src with
        flags := andNot src.flags K.STATS_HIDDEN
        stats_tree :=
          src.stats_tree.map fun c => { c with flags := andNot c.flags K.STATS_HIDDEN } }
      (st.event_listeners.map fun l => deliver_lines K l (visible_lines K src type)),
    { src with
      flags := andNot src.flags K.STATS_HIDDEN
      stats_tree :=
        src.stats_tree.map fun c => { c with flags := andNot c.flags K.STATS_HIDDEN } },
    deliver_lines K l (visible_lines K src type), ?_, ?_, ?_, ?_,
    deliver_lines_bytes K _ l hw ht hcap hne⟩
  · simp only [stats_set_flags, hsrc, process_source_stat, build_event, Option.isSome,
      Bool.false_eq_true, ↓reduceIte, STATS_EVENT_HIDDEN, STATS_EVENT_REMOVE,
      show ¬ ((128 : Nat) = 5) by decide, show (128 : Nat) &&& 128 ≠ 0 by decide,
      ne_eq, not_false_eq_true]
    exact source_flags_event_visible K st src _ type hhid hf hvals htype
  · simp only [handle_source, store_source]
    rw [← hk]
    exact avl_find_store_self stats_source_t.source (hk ▸ hsrc) rfl
  · exact andNot_and_self _ _
  · simp [store_source, hl]

/-- C10, amended, at the input of the claim: a subscriber for slaves gets
`NEW application/ogg /a.mp3` and then `EVENT /a.mp3 server_type application/ogg` when the
source `/a.mp3`, set up with `stats_set (h, "server_type", "application/ogg")`, is made
visible with the flags `GENERAL|SLAVE`. -/
theorem hidden_source_becomes_visible_witness :
    selected_bytes flags0 (listener0 2)
        (visible_lines flags0
          { source := cstr "/a.mp3", flags := 7, updated := LONG_MAX,
            stats_tree :=
              [{ name := cstr "server_type", value := some (cstr "application/ogg"),
                 last_reported := 0, flags := 15 }] }
          (cstr "application/ogg"))
      = cstr "NEW application/ogg /a.mp3\nEVENT /a.mp3 server_type application/ogg\n"
    ∧ ∃ st1 src1 l1, stats_set_flags flags0 stats_ogg (some (cstr "/a.mp3")) none none 6
        = some st1
      ∧ handle_source st1 (cstr "/a.mp3") = some src1 ∧ src1.flags &&& flags0.STATS_HIDDEN = 0
      ∧ st1.event_listeners[0]? = some l1
      ∧ queue_bytes l1.client.refbuf
        = queue_bytes (listener0 2).client.refbuf
          ++ selected_bytes flags0 (listener0 2)
            (visible_lines flags0
              { source := cstr "/a.mp3", flags := 7, updated := LONG_MAX,
                stats_tree :=
                  [{ name := cstr "server_type", value := some (cstr "application/ogg"),
                     last_reported := 0, flags := 15 }] }
              (cstr "application/ogg")) :=
  ⟨by decide,
    hidden_source_becomes_visible flags0 stats_ogg (cstr "/a.mp3") _ 6 (cstr "application/ogg")
      0 (listener0 2) (by decide) (by decide) (by decide) (by decide) (by decide) rfl rfl
      (by unfold tail_ok; decide) (by decide) (by decide)⟩

theorem map_key_avl_store {α : Type} (key : α → CStr) (n : CStr) (x : α) (l : List α)
    (hx : key x = n) : (avl_store key n x l).map key = l.map key := by
  induction l with
  | nil => rfl
  | cons y ys ih =>
    simp only [avl_store]
    split
    · rename_i h0
      simp [hx, (strcmp_eq_zero _ _).1 h0]
    · simp [ih]

theorem deliver_lines_unselected (K : stats_flags) (l : event_listener_t) :
    ∀ msgs : List (Nat × CStr), (∀ msg ∈ msgs, listener_selected K msg.1 l = false) →
      deliver_lines K l msgs = l := by
  intro msgs
  induction msgs with
  | nil => intro _; rfl
  | cons msg rest ih =>
    intro h
    rw [deliver_lines_cons]
    have h1 : deliver_lines K l [msg] = l := by
      simp [deliver_lines, h msg (List.mem_cons_self _ _)]
    rw [h1]
    exact ih fun x hx => h x (List.mem_cons_of_mem _ hx)

/-- The delivery of a list of lines, none of them empty, to each subscriber of a list. -/
theorem lines_sent_deliver (K : stats_flags) (msgs : List (Nat × CStr))
    (ls : List event_listener_t) (hne : ∀ msg ∈ msgs, msg.2 ≠ []) :
    lines_sent K msgs ls (ls.map fun l => deliver_lines K l msgs) := by
  refine ⟨by simp, ?_⟩
  intro i l hl
  refine ⟨deliver_lines K l msgs, by simp [hl], deliver_lines_unselected K l msgs, ?_⟩
  intro hw ht hcap hfit
  exact deliver_lines_bytes K msgs l hw ht hcap fun msg hm => ⟨hne msg hm, hfit msg hm⟩

theorem lines_sent_one (K : stats_flags) (f : Nat) (line : CStr) (ls : List event_listener_t)
    (hne : line ≠ []) : lines_sent K [(f, line)] ls (stats_listener_send K f line ls) := by
  rw [stats_listener_send_eq_map]
  apply lines_sent_deliver
  intro msg hm
  simp only [List.mem_singleton] at hm
  rw [hm]; exact hne

theorem line_DELETE_ne_nil (m : CStr) : line_DELETE m ≠ [] := by
  simp [line_DELETE, cstr]

theorem line_FLUSH_ne_nil (m : CStr) : line_FLUSH m ≠ [] := by
  simp [line_FLUSH, cstr]

theorem line_DELETE_node_ne_nil (s n : CStr) : line_DELETE_node s n ≠ [] := by
  simp [line_DELETE_node, cstr]

theorem global_calc_lines_ne_nil (K : stats_flags) (now : Int) (tree : List stats_node_t) :
    ∀ msg ∈ global_calc_lines K now tree, msg.2 ≠ [] := by
  intro msg hm
  simp only [global_calc_lines, List.mem_map] at hm
  obtain ⟨node, _, rfl⟩ := hm
  exact line_EVENT_ne_nil _ _ _

/-- C12: for every handle on a source `src` of the store, `stats_flush` returns and leaves
the source in the store with its mount, flags and expiry and no child; the subscribers
are those of one broadcast of the line `FLUSH <mount>` with the flags of the source: a
subscriber these flags do not select is as before, and a selected subscriber with a worker,
a sound tail reference and room under the hard cap holds its old bytes followed by the one
line, when the line fits a frame; nothing else of the store changes, and a following
`stats_set (h, n, v)` returns and `n` reads back as `v`. -/
theorem flush_keeps_source (K : stats_flags) (st : stats_t) (m : CStr) (src : stats_source_t)
    (h : handle_source st m = some src) :
    ∃ st1, stats_flush K st (some m) = some st1
      ∧ handle_source st1 m = some { src with stats_tree := [] }
      ∧ st1.event_listeners
        = stats_listener_send K src.flags (line_FLUSH src.source) st.event_listeners
      ∧ lines_sent K [(src.flags, line_FLUSH m)] st.event_listeners st1.event_listeners
      ∧ st1.global_tree = st.global_tree
      ∧ st1.source_tree.map stats_source_t.source = st.source_tree.map stats_source_t.source
      ∧ ∀ n v, ∃ st2, stats_set K st1 (some m) (some n) (some v) = some st2
          ∧ stats_get_value st2 (some m) (some n) = some (some v) := by
  have hk := avl_find_key stats_source_t.source h
  refine ⟨store_source st { src with stats_tree := [] }
      (stats_listener_send K src.flags (line_FLUSH src.source) st.event_listeners),
    by simp [stats_flush, h], ?_, rfl, ?_, rfl, ?_, ?_⟩
  · simp only [handle_source, store_source]
    rw [← hk]
    exact avl_find_store_self stats_source_t.source (hk ▸ h) rfl
  · simp only [store_source]
    rw [hk]
    exact lines_sent_one K src.flags (line_FLUSH m) st.event_listeners (line_FLUSH_ne_nil m)
  · exact map_key_avl_store stats_source_t.source _ _ _ rfl
  · intro n v
    have h1 : handle_source
        (store_source st { src with stats_tree := [] }
          (stats_listener_send K src.flags (line_FLUSH src.source) st.event_listeners)) m
        = some { src with stats_tree := [] } := by
      simp only [handle_source, store_source]
      rw [← hk]
      exact avl_find_store_self stats_source_t.source (hk ▸ h) rfl
    simp only [stats_set, h1]
    exact source_set_get K _ _ _ m n v h1 rfl rfl rfl

/-- C12, at a concrete input: the source `/a` with two children; the subscriber for slaves,
which had nothing queued, holds the line `FLUSH /a`. -/
theorem flush_keeps_source_witness :
    ∃ st1, stats_flush flags0 stats_two_children (some (cstr "/a")) = some st1
      ∧ handle_source st1 (cstr "/a")
        = some { source := cstr "/a", flags := 6, updated := 77, stats_tree := [] }
      ∧ st1.event_listeners.map (fun l => queue_bytes l.client.refbuf) = [cstr "FLUSH /a\n"]
      ∧ st1.global_tree = stats_two_children.global_tree
      ∧ st1.source_tree.map stats_source_t.source
        = stats_two_children.source_tree.map stats_source_t.source
      ∧ ∀ n v, ∃ st2, stats_set flags0 st1 (some (cstr "/a")) (some n) (some v) = some st2
          ∧ stats_get_value st2 (some (cstr "/a")) (some n) = some (some v) := by
  obtain ⟨st1, h1, h2, h3, _, h5, h6, h7⟩ :=
    flush_keeps_source flags0 stats_two_children (cstr "/a")
      { source := cstr "/a", flags := 6, updated := 77,
        stats_tree :=
          [{ name := cstr "bitrate", value := some (cstr "128"), last_reported := 0,
             flags := 14 },
           { name := cstr "title", value := some (cstr "x"), last_reported := 0,
             flags := 14 }] }
      (by decide)
  refine ⟨st1, h1, h2, ?_, h5, h6, h7⟩
  rw [h3]
  decide

theorem avl_delete_eq_filter {α : Type} (key : α → CStr) (n : CStr) (l : List α)
    (h : (l.map key).Nodup) : avl_delete key n l = l.filter fun s => decide (key s ≠ n) := by
  induction l with
  | nil => rfl
  | cons x xs ih =>
    simp only [List.map_cons, List.nodup_cons] at h
    simp only [avl_delete]
    split
    · rename_i h0
      have hx : key x = n := ((strcmp_eq_zero _ _).1 h0).symm
      simp only [List.filter_cons, hx, ne_eq, not_true_eq_false, decide_False,
        Bool.false_eq_true, ↓reduceIte]
      symm
      rw [List.filter_eq_self]
      intro a ha
      simp only [decide_eq_true_eq]
      intro hk
      apply h.1
      rw [hx, ← hk]
      exact List.mem_map_of_mem key ha
    · rename_i h0
      have hx : key x ≠ n := fun e => h0 ((strcmp_eq_zero _ _).2 e.symm)
      simp only [List.filter_cons, hx, ne_eq, not_false_eq_true, decide_True, ↓reduceIte]
      rw [ih h.2]

theorem purge_source_tree (K : stats_flags) (fserve_contains : CStr → Int) (mark : Int)
    (st : stats_t) (src : stats_source_t)
    (h : (st.source_tree.map stats_source_t.source).Nodup) :
    (purge_source K fserve_contains mark st src).source_tree
        = st.source_tree.filter (fun s =>
            purge_keeps fserve_contains mark src || decide (s.source ≠ src.source))
      ∧ (purge_source K fserve_contains mark st src).global_tree = st.global_tree := by
  have hdel : (delete_source K st src).source_tree
      = st.source_tree.filter fun s => decide (s.source ≠ src.source) :=
    avl_delete_eq_filter stats_source_t.source src.source st.source_tree h
  unfold purge_source purge_keeps
  by_cases hb : src.source.head? = some 47
  · by_cases hm : src.updated < mark
    · have : ¬ mark ≤ src.updated := by omega
      simpa [hb, hm, this, delete_source] using hdel
    · have : mark ≤ src.updated := by omega
      simp [hb, hm, this]
  · by_cases hf : fserve_contains src.source < 0
    · have : ¬ 0 ≤ fserve_contains src.source := by omega
      simpa [hb, hf, this, delete_source] using hdel
    · have : 0 ≤ fserve_contains src.source := by omega
      simp [hb, hf, this]

theorem purge_foldl_tree (K : stats_flags) (fserve_contains : CStr → Int) (mark : Int)
    (l : List stats_source_t) : ∀ st : stats_t,
    (st.source_tree.map stats_source_t.source).Nodup →
    (l.foldl (purge_source K fserve_contains mark) st).source_tree
        = st.source_tree.filter (fun s =>
            l.all fun x => purge_keeps fserve_contains mark x || decide (s.source ≠ x.source))
      ∧ (l.foldl (purge_source K fserve_contains mark) st).global_tree = st.global_tree := by
  induction l with
  | nil => intro st _; simp
  | cons a b ih =>
    intro st h
    obtain ⟨e1, e2⟩ := purge_source_tree K fserve_contains mark st a h
    have hn : ((purge_source K fserve_contains mark st a).source_tree.map
        stats_source_t.source).Nodup := by
      rw [e1]
      exact List.Nodup.sublist (List.Sublist.map _ (List.filter_sublist _)) h
    obtain ⟨e3, e4⟩ := ih (purge_source K fserve_contains mark st a) hn
    simp only [List.foldl_cons]
    refine ⟨?_, e4.trans e2⟩
    rw [e3, e1, List.filter_filter]
    apply List.filter_congr
    intro s _
    simp only [List.all_cons, Bool.and_comm]

/-- C13: for every source store (its mounts distinct), every mark and every
`fserve_contains`, after `stats_purge (mark)` the store holds exactly the sources of the old
store whose mount begins with `/` and whose expiry is not below the mark, or whose mount
does not begin with `/` and is known to the file server, each as it was and in the old
order; the global store is unchanged. -/
theorem purge_keeps_exactly (K : stats_flags) (fserve_contains : CStr → Int) (st : stats_t)
    (mark : Int) (h : (st.source_tree.map stats_source_t.source).Nodup) :
    (stats_purge K fserve_contains st mark).source_tree
        = st.source_tree.filter (purge_keeps fserve_contains mark)
      ∧ (stats_purge K fserve_contains st mark).global_tree = st.global_tree := by
  obtain ⟨e1, e2⟩ := purge_foldl_tree K fserve_contains mark st.source_tree st h
  refine ⟨?_, e2⟩
  unfold stats_purge
  rw [e1]
  apply List.filter_congr
  intro s hs
  cases hk : purge_keeps fserve_contains mark s with
  | true =>
    rw [List.all_eq_true]
    intro x hx
    by_cases hkx : purge_keeps fserve_contains mark x = true
    · simp [hkx]
    · have hne : s.source ≠ x.source := by
        intro e
        have := List.inj_on_of_nodup_map h hs hx e
        rw [this] at hk
        exact hkx hk
      simp [hne]
  | false =>
    rw [List.all_eq_false]
    exact ⟨s, hs, by simp [hk]⟩

/-- C13, at a concrete input: of four sources the expired one and the unknown file go. -/
theorem purge_keeps_exactly_witness :
    (stats_purge flags0 (fun m => if m = cstr "old.mp3" then 0 else -1) stats_four_sources
          10).source_tree
        = [{ source := cstr "/a", flags := 6, updated := 100, stats_tree := [] },
           { source := cstr "old.mp3", flags := 7, updated := 0, stats_tree := [] }]
      ∧ (stats_purge flags0 (fun m => if m = cstr "old.mp3" then 0 else -1) stats_four_sources
          10).global_tree = [] :=
  purge_keeps_exactly flags0 (fun m => if m = cstr "old.mp3" then 0 else -1)
    stats_four_sources 10 (by decide)

theorem queue_len_replicate (n : Nat) (r : refbuf_t) :
    queue_len (List.replicate n r) = n * r.len := by
  simp only [queue_len, List.map_replicate, List.sum_replicate, smul_eq_mul]

theorem listener_over_cap_ok (worker : Bool) : queue_ok (listener_over_cap worker) := by
  refine ⟨?_, ?_⟩
  · have h : (listener_over_cap worker).client.refbuf ≠ [] := by
      intro e
      have := congrArg List.length e
      simp only [listener_over_cap, List.length_replicate, List.length_nil] at this
      omega
    simp only [tail_ok, if_neg h]
    simp only [listener_over_cap, List.length_replicate]
  · simp only [listener_over_cap, queue_len_replicate, refbuf_t.len, List.length_replicate, u32]
    norm_num

/-- C14 as stated fails: a subscriber whose client has left its worker and that has more
than 6000000 bytes queued is left as it is by the delivery of a line, its error flag still
clear. -/
theorem hard_cap_without_worker :
    queue_ok (listener_over_cap false)
      ∧ (listener_over_cap false).content_len > 6000000
      ∧ _add_stats_to_stats_client (listener_over_cap false) (line_EVENT (cstr "global")
          (cstr "clients") (cstr "1")) = listener_over_cap false
      ∧ (listener_over_cap false).client.error = 0 :=
  ⟨listener_over_cap_ok false, by decide, by
    unfold _add_stats_to_stats_client
    exact if_pos (c := (listener_over_cap false).client.worker = false) rfl, rfl⟩

/-- C14, amended: for every subscriber that has a worker and more than 6000000 bytes
queued, the delivery of a line sets the error flag of the client and changes nothing else,
whatever the age of the connection; a send pass on a subscriber whose error flag is set
returns -1 and leaves the subscriber as it is; and a subscriber whose client has left its
worker is left as it is by the delivery of a line. -/
theorem hard_cap (listener : event_listener_t) (line : CStr) (running : Bool)
    (sock : Nat → Int) (hw : listener.client.worker = true)
    (hc : listener.content_len > 6000000) :
    _add_stats_to_stats_client listener line
        = { listener with client := { listener.client with error := 1 } }
      ∧ (_add_stats_to_stats_client listener line).client.refbuf = listener.client.refbuf
      ∧ (_add_stats_to_stats_client listener line).content_len = listener.content_len
      ∧ (_add_stats_to_stats_client listener line).client.error = 1
      ∧ (∀ l : event_listener_t, l.client.error ≠ 0 →
          stats_listeners_send running sock l = some (l, -1))
      ∧ ∀ l : event_listener_t, l.client.worker = false →
          _add_stats_to_stats_client l line = l := by
  have e : _add_stats_to_stats_client listener line
      = { listener with client := { listener.client with error := 1 } } := by
    simp [_add_stats_to_stats_client, hw, hc]
  refine ⟨e, by rw [e], by rw [e], by rw [e], ?_, ?_⟩
  · intro l hl
    simp [stats_listeners_send, hl]
  · intro l hl
    simp [_add_stats_to_stats_client, hl]

/-- C14 amended, at a concrete input: a subscriber with a worker and 6000640 bytes
queued. -/
theorem hard_cap_witness :
    (_add_stats_to_stats_client (listener_over_cap true)
          (cstr "EVENT global clients 1\n")).client.error = 1
      ∧ (_add_stats_to_stats_client (listener_over_cap true)
          (cstr "EVENT global clients 1\n")).client.refbuf = (listener_over_cap true).client.refbuf
      ∧ stats_listeners_send true (fun _ => 100)
          (_add_stats_to_stats_client (listener_over_cap true) (cstr "EVENT global clients 1\n"))
        = some (_add_stats_to_stats_client (listener_over_cap true)
            (cstr "EVENT global clients 1\n"), -1) :=
  have h := hard_cap (listener_over_cap true) (cstr "EVENT global clients 1\n") true
    (fun _ => 100) rfl (by decide)
  ⟨h.2.2.2.1, h.2.1, h.2.2.2.2.1 _ (by rw [h.2.2.2.1]; decide)⟩

theorem dump_globals_eq (flags : Nat) (l : List stats_node_t) :
    dump_globals flags l = (l.filter fun g => decide (g.flags &&& flags ≠ 0)).map xml_stat := by
  induction l with
  | nil => rfl
  | cons g gs ih =>
    by_cases h : g.flags &&& flags = 0 <;> simp [dump_globals, List.filter_cons, h, ih]

theorem dump_children_public (K : stats_flags) (flags : Nat)
    (hp : flags &&& K.STATS_HIDDEN = 0) (l : List stats_node_t) :
    dump_children K flags l
      = (l.filter fun c => decide (c.flags &&& K.STATS_HIDDEN = 0)).map
          fun c => (c.name, c.value) := by
  induction l with
  | nil => rfl
  | cons g gs ih =>
    by_cases h : g.flags &&& K.STATS_HIDDEN = 0 <;>
      simp [dump_children, List.filter_cons, h, ih, hp]

theorem dump_children_hidden (K : stats_flags) (flags : Nat)
    (hh : flags &&& K.STATS_HIDDEN ≠ 0) (l : List stats_node_t) :
    dump_children K flags l = l.map fun c => (c.name, c.value) := by
  induction l with
  | nil => rfl
  | cons g gs ih => simp [dump_children, ih, hh]

theorem dump_sources_public (K : stats_flags) (flags : Nat)
    (hp : flags &&& K.STATS_HIDDEN = 0) (l : List stats_source_t) :
    dump_sources K none flags l
      = (l.filter fun s => decide (s.flags &&& K.STATS_HIDDEN = 0)).map fun s =>
          xml_source s.source
            ((s.stats_tree.filter fun c => decide (c.flags &&& K.STATS_HIDDEN = 0)).map
              fun c => (c.name, c.value)) := by
  induction l with
  | nil => rfl
  | cons g gs ih =>
    by_cases h : g.flags &&& K.STATS_HIDDEN = 0 <;>
      simp [dump_sources, List.filter_cons, h, ih, hp, dump_children_public K flags hp]

theorem dump_sources_hidden (K : stats_flags) (flags : Nat)
    (hh : flags &&& K.STATS_HIDDEN ≠ 0) (l : List stats_source_t) :
    dump_sources K none flags l
      = l.map fun s => xml_source s.source (s.stats_tree.map fun c => (c.name, c.value)) := by
  induction l with
  | nil => rfl
  | cons g gs ih => simp [dump_sources, ih, hh, dump_children_hidden K flags hh]

/-- C11 as stated fails: serialised with `flags = STATS_HIDDEN`, the document of a store
with the PUBLIC global `clients` and the HIDDEN global `secret` has `secret` and the two
sources, and not `clients`. -/
theorem xml_hidden_without_public_global :
    (stats_get_xml flags0 (fun _ n => n) stats_xml_sample flags0.STATS_HIDDEN none).children
      = [xml_stat { name := cstr "secret", value := some (cstr "s"), last_reported := 0,
                    flags := 1 },
         xml_source (cstr "/hid") [(cstr "x", some (cstr "1"))],
         xml_source (cstr "/vis") [(cstr "y", some (cstr "2"))]]
      ∧ (avl_find stats_node_t.name (cstr "clients") stats_xml_sample.global_tree).isSome = true
      ∧ ∀ e ∈ (stats_get_xml flags0 (fun _ n => n) stats_xml_sample flags0.STATS_HIDDEN
          none).children, e.name ≠ cstr "clients" := by
  decide

/-- C11, amended: for every store, when PUBLIC and HIDDEN share no bit and HIDDEN is not
zero, the document serialised with `flags = STATS_PUBLIC` and no mount holds, in this
order, the globals with a PUBLIC bit and the sources without HIDDEN, each with its children
without HIDDEN; serialised with `flags = STATS_HIDDEN` it holds the globals with HIDDEN and
every source with all its children. -/
theorem xml_filter (K : stats_flags) (list_clients : CStr → xml_node → xml_node) (st : stats_t)
    (hp : K.STATS_PUBLIC &&& K.STATS_HIDDEN = 0) (hh : K.STATS_HIDDEN ≠ 0) :
    (stats_get_xml K list_clients st K.STATS_PUBLIC none).children
        = (st.global_tree.filter fun g => decide (g.flags &&& K.STATS_PUBLIC ≠ 0)).map xml_stat
          ++ (st.source_tree.filter fun s => decide (s.flags &&& K.STATS_HIDDEN = 0)).map
              (fun s => xml_source s.source
                ((s.stats_tree.filter fun c => decide (c.flags &&& K.STATS_HIDDEN = 0)).map
                  fun c => (c.name, c.value)))
      ∧ (stats_get_xml K list_clients st K.STATS_HIDDEN none).children
        = (st.global_tree.filter fun g => decide (g.flags &&& K.STATS_HIDDEN ≠ 0)).map xml_stat
          ++ st.source_tree.map
              fun s => xml_source s.source (s.stats_tree.map fun c => (c.name, c.value)) := by
  have h1 : K.STATS_HIDDEN &&& K.STATS_HIDDEN ≠ 0 := by simpa using hh
  constructor
  · simp only [stats_get_xml, _dump_stats_to_doc, List.nil_append, dump_globals_eq,
      dump_sources_public K _ hp]
  · simp only [stats_get_xml, _dump_stats_to_doc, List.nil_append, dump_globals_eq,
      dump_sources_hidden K _ h1]

/-- C11 amended, at a concrete input: the store with one PUBLIC and one HIDDEN global, one
visible and one hidden source. -/
theorem xml_filter_witness :
    (stats_get_xml flags0 (fun _ n => n) stats_xml_sample flags0.STATS_PUBLIC none).children
        = [xml_stat { name := cstr "clients", value := some (cstr "0"), last_reported := 0,
                      flags := 24 },
           xml_source (cstr "/vis") [(cstr "y", some (cstr "2"))]]
      ∧ (stats_get_xml flags0 (fun _ n => n) stats_xml_sample flags0.STATS_HIDDEN none).children
        = [xml_stat { name := cstr "secret", value := some (cstr "s"), last_reported := 0,
                      flags := 1 },
           xml_source (cstr "/hid") [(cstr "x", some (cstr "1"))],
           xml_source (cstr "/vis") [(cstr "y", some (cstr "2"))]] :=
  xml_filter flags0 (fun _ n => n) stats_xml_sample (by decide) (by decide)

/-- C19 as stated fails for `stats_event_conv`: with a charset that has no handler, the
value goes to the store as it came and its line is broadcast. -/
theorem event_conv_unknown_charset_writes :
    ∃ st1, stats_event_conv flags0 (fun _ => none) (fun _ => true) (stats_one_listener 4) none
          (some (cstr "title")) (some (cstr "abc")) (some (cstr "bogus")) = some st1
      ∧ stats_get_value st1 none (some (cstr "title")) = some (some (cstr "abc"))
      ∧ st1.event_listeners.map (fun l => queue_bytes l.client.refbuf)
          = [cstr "EVENT global title abc\n"] :=
  ⟨_, rfl, by decide, by decide⟩

/-- C19, amended: for every charset that has no encoding handler and every state, handle,
mount, name and value, `stats_set_conv` returns and leaves the state as it is, and
`stats_event_conv` does what `stats_event` does with the value as it came. -/
theorem unknown_charset (K : stats_flags)
    (xmlFindCharEncodingHandler : CStr → Option xmlCharEncodingHandler)
    (xmlCheckUTF8 : CStr → Bool) (decode : CStr → Option CStr) (st : stats_t)
    (handle : stats_handle_t) (mount name value : Option CStr) (cs : CStr)
    (h : xmlFindCharEncodingHandler cs = none) :
    stats_set_conv K xmlFindCharEncodingHandler xmlCheckUTF8 decode st handle name value
        (some cs) = some st
      ∧ stats_event_conv K xmlFindCharEncodingHandler xmlCheckUTF8 st mount name value (some cs)
        = stats_event K xmlCheckUTF8 st mount name value := by
  constructor
  · simp [stats_set_conv, h]
  · cases value <;> simp [stats_event_conv, h]

/-- C19 amended, at a concrete input: the charset `bogus` without a handler. -/
theorem unknown_charset_witness :
    stats_set_conv flags0 (fun _ => none) (fun _ => true) some stats_two_children
        (some (cstr "/a")) (some (cstr "title")) (some (cstr "abc")) (some (cstr "bogus"))
        = some stats_two_children
      ∧ stats_event_conv flags0 (fun _ => none) (fun _ => true) stats_two_children
          (some (cstr "/a")) (some (cstr "title")) (some (cstr "abc")) (some (cstr "bogus"))
        = stats_event flags0 (fun _ => true) stats_two_children (some (cstr "/a"))
            (some (cstr "title")) (some (cstr "abc")) :=
  unknown_charset flags0 (fun _ => none) (fun _ => true) some stats_two_children
    (some (cstr "/a")) (some (cstr "/a")) (some (cstr "title")) (some (cstr "abc"))
    (cstr "bogus") rfl

/-- C20 as stated fails for `stats_event_flags`, `stats_set` and `stats_set_flags`, which
make no UTF-8 test: the value of the one byte 255, which is not UTF-8, is stored by each of
them and its line goes to the subscribers. -/
theorem non_utf8_value_stored :
    (∃ st1, stats_event_flags flags0 (stats_one_listener 4) none (some (cstr "title"))
          (some [255]) 4 = some st1
        ∧ stats_get_value st1 none (some (cstr "title")) = some (some [255])
        ∧ st1.event_listeners.map (fun l => queue_bytes l.client.refbuf)
          = [line_EVENT (cstr "global") (cstr "title") [255]])
      ∧ (∃ st1, stats_set flags0 stats_two_children (some (cstr "/a")) (some (cstr "title"))
          (some [255]) = some st1
        ∧ stats_get_value st1 (some (cstr "/a")) (some (cstr "title")) = some (some [255])
        ∧ st1.event_listeners.map (fun l => queue_bytes l.client.refbuf)
          = [line_EVENT (cstr "/a") (cstr "title") [255]])
      ∧ ∃ st1, stats_set_flags flags0 stats_two_children (some (cstr "/a"))
          (some (cstr "title")) (some [255]) 6 = some st1
        ∧ stats_get_value st1 (some (cstr "/a")) (some (cstr "title")) = some (some [255])
        ∧ st1.event_listeners.map (fun l => queue_bytes l.client.refbuf)
          = [line_EVENT (cstr "/a") (cstr "title") [255]] :=
  ⟨⟨_, rfl, by decide, by decide⟩, ⟨_, rfl, by decide, by decide⟩, ⟨_, rfl, by decide, by decide⟩⟩

/-- C20, amended: for every value that is not valid UTF-8 and every state, `stats_event`,
`stats_event_conv` without charset and `stats_set_conv` without charset return and leave
the global store, the source store and every subscriber as they are. -/
theorem non_utf8_dropped (K : stats_flags)
    (xmlFindCharEncodingHandler : CStr → Option xmlCharEncodingHandler)
    (xmlCheckUTF8 : CStr → Bool) (decode : CStr → Option CStr) (st : stats_t)
    (handle : stats_handle_t) (source name : Option CStr) (v : CStr)
    (h : xmlCheckUTF8 v = false) :
    stats_event K xmlCheckUTF8 st source name (some v) = some st
      ∧ stats_event_conv K xmlFindCharEncodingHandler xmlCheckUTF8 st source name (some v) none
        = some st
      ∧ stats_set_conv K xmlFindCharEncodingHandler xmlCheckUTF8 decode st handle name (some v)
        none = some st := by
  simp [stats_event, stats_event_conv, stats_set_conv, h]

/-- C20 amended, at a concrete input: the value of the one byte 255 and a UTF-8 test that
refuses it. -/
theorem non_utf8_dropped_witness :
    stats_event flags0 (fun v => decide (v ≠ [255])) stats_two_children (some (cstr "/a"))
        (some (cstr "title")) (some [255]) = some stats_two_children
      ∧ stats_event_conv flags0 (fun _ => none) (fun v => decide (v ≠ [255])) stats_two_children
          (some (cstr "/a")) (some (cstr "title")) (some [255]) none = some stats_two_children
      ∧ stats_set_conv flags0 (fun _ => none) (fun v => decide (v ≠ [255])) some
          stats_two_children (some (cstr "/a")) (some (cstr "title")) (some [255]) none
        = some stats_two_children :=
  non_utf8_dropped flags0 (fun _ => none) (fun v => decide (v ≠ [255])) some stats_two_children
    (some (cstr "/a")) (some (cstr "/a")) (some (cstr "title")) [255] (by decide)

theorem snapshot_append_fit (fuel : Nat) (s : snapshot_t) (line : CStr)
    (h : s.refbuf.len + line.length ≤ 8192) :
    snapshot_append (fuel + 1) s line
      = some { s with refbuf := { s.refbuf with data := s.refbuf.data ++ line } } := by
  have h0 : ¬ ((line.length : Int) < 0) := by omega
  simp [snapshot_append, refbuf_append, refbuf_appendv, h, h0]

theorem snapshot_append_full (fuel : Nat) (s : snapshot_t) (line : CStr)
    (h : ¬ s.refbuf.len + line.length ≤ 8192) :
    snapshot_append (fuel + 1) s line
      = snapshot_append fuel
          { biglist := s.biglist ++ [s.refbuf], refbuf := refbuf_new,
            len := s.len + s.refbuf.len } line := by
  simp [snapshot_append, refbuf_append, refbuf_appendv, h]

theorem snapshot_append_oversize (line : CStr) (h : 8192 < line.length) :
    ∀ (fuel : Nat) (s : snapshot_t), snapshot_append fuel s line = none := by
  intro fuel
  induction fuel with
  | zero => intro s; rfl
  | succ n ih =>
    intro s
    rw [snapshot_append_full n s line (by omega)]
    exact ih _

theorem snapshot_append_bytes :
    ∀ (fuel : Nat) (s s1 : snapshot_t) (line : CStr), snapshot_append fuel s line = some s1 →
      snapshot_bytes s1 = snapshot_bytes s ++ line := by
  intro fuel
  induction fuel with
  | zero => intro s s1 line h; simp [snapshot_append] at h
  | succ n ih =>
    intro s s1 line h
    by_cases hf : s.refbuf.len + line.length ≤ 8192
    · rw [snapshot_append_fit n s line hf] at h
      cases h
      simp [snapshot_bytes]
    · rw [snapshot_append_full n s line hf] at h
      rw [ih _ _ _ h]
      simp [snapshot_bytes, queue_bytes, refbuf_new]

theorem snapshot_append_fits (fuel : Nat) (s : snapshot_t) (line : CStr)
    (h : line.length ≤ 8192) :
    ∃ s1, snapshot_append (fuel + 2) s line = some s1 := by
  by_cases hf : s.refbuf.len + line.length ≤ 8192
  · exact ⟨_, snapshot_append_fit _ s line hf⟩
  · rw [snapshot_append_full _ s line hf]
    exact ⟨_, snapshot_append_fit _ _ line (by simpa [refbuf_new, refbuf_t.len] using h)⟩

theorem snapshot_globals_oversize (fuel mask : Nat) (g : stats_node_t) (v : CStr)
    (hm : g.flags &&& mask ≠ 0) (hv : g.value = some v)
    (hl : 8192 < (line_EVENT (cstr "global") g.name v).length) :
    ∀ (tree : List stats_node_t) (s : snapshot_t), g ∈ tree →
      snapshot_globals fuel mask tree s = none := by
  intro tree
  induction tree with
  | nil => intro s h; simp at h
  | cons stat rest ih =>
    intro s h
    by_cases hg : stat = g
    · subst hg
      simp only [snapshot_globals, hm, ne_eq, not_false_eq_true, if_true, hv,
        snapshot_append_oversize _ hl]
    · have hr : g ∈ rest := by
        rcases List.mem_cons.1 h with h1 | h1
        · exact absurd h1.symm hg
        · exact h1
      simp only [snapshot_globals]
      split
      · split
        · rfl
        · split
          · rfl
          · exact ih _ hr
      · exact ih _ hr

theorem snapshot_globals_bytes (fuel mask : Nat) :
    ∀ (tree : List stats_node_t) (s s1 : snapshot_t),
      snapshot_globals fuel mask tree s = some s1 →
      snapshot_bytes s1 = snapshot_bytes s ++ (global_lines mask tree).flatten := by
  intro tree
  induction tree with
  | nil => intro s s1 h; simp [snapshot_globals] at h; simp [h, global_lines]
  | cons stat rest ih =>
    intro s s1 h
    simp only [snapshot_globals] at h
    by_cases hm : stat.flags &&& mask = 0
    · simp only [hm, ne_eq, not_true_eq_false, if_false] at h
      rw [ih _ _ h]
      simp [global_lines, List.filter_cons, hm]
    · simp only [hm, ne_eq, not_false_eq_true, if_true] at h
      cases hv : stat.value with
      | none => simp [hv] at h
      | some v =>
        simp only [hv] at h
        cases ha : snapshot_append fuel s (line_EVENT (cstr "global") stat.name v) with
        | none => simp [ha] at h
        | some s2 =>
          simp only [ha] at h
          rw [ih _ _ h, snapshot_append_bytes _ _ _ _ ha]
          simp [global_lines, List.filter_cons, hm, hv]

theorem snapshot_new_bytes (fuel mask : Nat) :
    ∀ (tree : List stats_source_t) (s s1 : snapshot_t),
      snapshot_new fuel mask tree s = some s1 →
      snapshot_bytes s1 = snapshot_bytes s ++ (new_lines mask tree).flatten := by
  intro tree
  induction tree with
  | nil => intro s s1 h; simp [snapshot_new] at h; simp [h, new_lines]
  | cons snode rest ih =>
    intro s s1 h
    simp only [snapshot_new] at h
    by_cases hm : snode.flags &&& mask = 0
    · simp only [hm, ne_eq, not_true_eq_false, if_false] at h
      rw [ih _ _ h]
      simp [new_lines, List.filter_cons, hm]
    · simp only [hm, ne_eq, not_false_eq_true, if_true] at h
      cases hv : source_type snode with
      | none => simp [hv] at h
      | some v =>
        simp only [hv] at h
        cases ha : snapshot_append fuel s (line_NEW v snode.source) with
        | none => simp [ha] at h
        | some s2 =>
          simp only [ha] at h
          rw [ih _ _ h, snapshot_append_bytes _ _ _ _ ha]
          simp [new_lines, List.filter_cons, hm, hv]

theorem snapshot_children_bytes (fuel mask : Nat) (mount : CStr) :
    ∀ (children : List stats_node_t) (md : Option stats_node_t) (s : snapshot_t)
      (res : snapshot_t × Option stats_node_t),
      snapshot_children fuel mask mount children md s = some res →
      snapshot_bytes res.1 = snapshot_bytes s ++ (child_lines mask mount children).flatten
        ∧ res.2 = metadata_child mask children md := by
  intro children
  induction children with
  | nil =>
    intro md s res h
    simp [snapshot_children] at h
    simp [← h, child_lines, metadata_child]
  | cons stat rest ih =>
    intro md s res h
    simp only [snapshot_children] at h
    by_cases hm : stat.flags &&& mask = 0
    · simp only [hm, ne_eq, not_true_eq_false, if_false] at h
      obtain ⟨e1, e2⟩ := ih _ _ _ h
      rw [e1, e2]
      simp [child_lines, metadata_child, List.filter_cons, hm]
    · simp only [hm, ne_eq, not_false_eq_true, if_true] at h
      by_cases hn : strcmp stat.name (cstr "metadata_updated") = 0
      · simp only [hn, if_true] at h
        obtain ⟨e1, e2⟩ := ih _ _ _ h
        rw [e1, e2]
        simp [child_lines, metadata_child, List.filter_cons, hm, hn]
      · simp only [hn, if_false] at h
        cases hv : stat.value with
        | none => simp [hv] at h
        | some v =>
          simp only [hv] at h
          cases ha : snapshot_append fuel s (line_EVENT mount stat.name v) with
          | none => simp [ha] at h
          | some s2 =>
            simp only [ha] at h
            obtain ⟨e1, e2⟩ := ih _ _ _ h
            rw [e1, e2, snapshot_append_bytes _ _ _ _ ha]
            simp [child_lines, metadata_child, List.filter_cons, hm, hn, hv]

theorem snapshot_stats_bytes (fuel mask : Nat) :
    ∀ (tree : List stats_source_t) (s s1 : snapshot_t),
      snapshot_stats fuel mask tree s = some s1 →
      snapshot_bytes s1 = snapshot_bytes s ++ (stats_lines mask tree).flatten := by
  intro tree
  induction tree with
  | nil => intro s s1 h; simp [snapshot_stats] at h; simp [h, stats_lines]
  | cons snode rest ih =>
    intro s s1 h
    simp only [snapshot_stats] at h
    by_cases hm : snode.flags &&& mask = 0
    · simp only [hm, ne_eq, not_true_eq_false, if_false] at h
      rw [ih _ _ h]
      simp [stats_lines, List.filter_cons, hm]
    · simp only [hm, ne_eq, not_false_eq_true, if_true] at h
      cases hc : snapshot_children fuel mask snode.source snode.stats_tree none s with
      | none => simp [hc] at h
      | some res =>
        obtain ⟨s2, md⟩ := res
        obtain ⟨e1, e2⟩ := snapshot_children_bytes fuel mask _ _ _ _ _ hc
        simp only at e1 e2
        simp only [hc] at h
        cases md with
        | none =>
          simp only at h
          rw [ih _ _ h, e1]
          simp [stats_lines, List.filter_cons, hm, source_lines, ← e2]
        | some m =>
          simp only at h
          cases hv : m.value with
          | none => simp [hv] at h
          | some v =>
            simp only [hv] at h
            cases ha : snapshot_append fuel s2 (line_EVENT snode.source m.name v) with
            | none => simp [ha] at h
            | some s3 =>
              simp only [ha] at h
              rw [ih _ _ h, snapshot_append_bytes _ _ _ _ ha, e1]
              simp [stats_lines, List.filter_cons, hm, source_lines, ← e2, hv]

theorem snapshot_sources_bytes (fuel mask : Nat) (tree : List stats_source_t)
    (s s1 : snapshot_t) (h : snapshot_sources fuel mask tree s = some s1) :
    snapshot_bytes s1
      = snapshot_bytes s ++ (new_lines mask tree).flatten ++ line_INFO
          ++ (stats_lines mask tree).flatten := by
  simp only [snapshot_sources] at h
  cases h1 : snapshot_new fuel mask tree s with
  | none => simp [h1] at h
  | some s2 =>
    simp only [h1] at h
    cases h2 : snapshot_append fuel s2 line_INFO with
    | none => simp [h2] at h
    | some s3 =>
      simp only [h2] at h
      rw [snapshot_stats_bytes _ _ _ _ _ h, snapshot_append_bytes _ _ _ _ h2,
        snapshot_new_bytes _ _ _ _ _ h1]

theorem snapshot_finish_bytes (s : snapshot_t) (h : s.refbuf.len = 0 → s.refbuf.data = []) :
    queue_bytes (snapshot_finish s).biglist = snapshot_bytes s := by
  unfold snapshot_finish
  by_cases h0 : s.refbuf.len = 0
  · simp [h0, snapshot_bytes, h h0]
  · simp [h0, snapshot_bytes, queue_bytes]

theorem snapshot_finish_bytes_self (s : snapshot_t) :
    queue_bytes (snapshot_finish s).biglist = snapshot_bytes s :=
  snapshot_finish_bytes s fun h => List.length_eq_zero.1 h

theorem snapshot_start_bytes : snapshot_bytes snapshot_start = snapshot_header := by
  decide

theorem register_snapshot_bytes (fuel : Nat) (st : stats_t) (mask : Nat) (snap : snapshot_t)
    (h : register_snapshot fuel st mask = some snap) :
    queue_bytes snap.biglist
      = snapshot_header ++ (global_lines mask st.global_tree).flatten
          ++ (new_lines mask st.source_tree).flatten ++ line_INFO
          ++ (stats_lines mask st.source_tree).flatten := by
  simp only [register_snapshot] at h
  cases h1 : snapshot_globals fuel mask st.global_tree snapshot_start with
  | none => simp [h1] at h
  | some s1 =>
    simp only [h1] at h
    cases h2 : snapshot_sources fuel mask st.source_tree s1 with
    | none => simp [h2] at h
    | some s2 =>
      simp only [h2, Option.some.injEq] at h
      rw [← h, snapshot_finish_bytes_self, snapshot_sources_bytes _ _ _ _ _ h2,
        snapshot_globals_bytes _ _ _ _ _ h1, snapshot_start_bytes]

theorem broadcast_refl (K : stats_flags) (ls : List event_listener_t) : broadcast_of K ls ls :=
  ⟨[], by simp [deliver_lines]⟩

theorem deliver_lines_append (K : stats_flags) (l : event_listener_t)
    (a b : List (Nat × CStr)) :
    deliver_lines K l (a ++ b) = deliver_lines K (deliver_lines K l a) b := by
  simp [deliver_lines, List.foldl_append]

theorem broadcast_trans (K : stats_flags) {ls ls1 ls2 : List event_listener_t}
    (h1 : broadcast_of K ls ls1) (h2 : broadcast_of K ls1 ls2) : broadcast_of K ls ls2 := by
  obtain ⟨a, rfl⟩ := h1
  obtain ⟨b, rfl⟩ := h2
  exact ⟨a ++ b, by simp [deliver_lines_append]⟩

theorem broadcast_send (K : stats_flags) (f : Nat) (line : CStr) (ls : List event_listener_t) :
    broadcast_of K ls (stats_listener_send K f line ls) :=
  ⟨[(f, line)], stats_listener_send_eq_map K f line ls⟩

theorem broadcast_global_event_report (K : stats_flags) (st st1 : stats_t)
    (tree : List stats_node_t) (node : stats_node_t)
    (h : global_event_report K st tree node = some st1) :
    broadcast_of K st.event_listeners st1.event_listeners := by
  unfold global_event_report at h
  split at h
  · split at h
    · simp at h
    · simp at h; subst h; exact broadcast_send K _ _ _
  · simp at h; subst h; exact broadcast_refl K _

theorem broadcast_process_global_event (K : stats_flags) (st st1 : stats_t)
    (event : stats_event_t) (h : process_global_event K st event = some st1) :
    broadcast_of K st.event_listeners st1.event_listeners := by
  unfold process_global_event at h
  split at h
  · split at h
    · simp at h; subst h; exact broadcast_send K _ _ _
    · simp at h; subst h; exact broadcast_refl K _
    · simp at h
  · split at h
    · simp at h
    · split at h
      · simp at h
      · exact broadcast_global_event_report K st st1 _ _ h
    · split at h
      · exact broadcast_global_event_report K st st1 _ _ h
      · simp at h

theorem broadcast_show_children (K : stats_flags) (mount : CStr) :
    ∀ (tree tree1 : List stats_node_t) (ls ls1 : List event_listener_t),
      show_children K mount tree ls = some (tree1, ls1) → broadcast_of K ls ls1 := by
  intro tree
  induction tree with
  | nil => intro tree1 ls ls1 h; simp [show_children] at h; rw [← h.2]; exact broadcast_refl K _
  | cons c rest ih =>
    intro tree1 ls ls1 h
    simp only [show_children] at h
    split at h
    · simp at h
    · split at h
      · simp at h
      · rename_i hr
        simp at h
        rw [← h.2]
        exact broadcast_trans K (broadcast_send K _ _ _) (ih _ _ _ hr)

theorem broadcast_source_flags_event (K : stats_flags) (st st1 : stats_t)
    (src : stats_source_t) (event : stats_event_t)
    (h : source_flags_event K st src event = some st1) :
    broadcast_of K st.event_listeners st1.event_listeners := by
  rcases source_flags_event_cases K st st1 src event h with h1 | h1 | h1
  · rw [h1.2]; exact broadcast_refl K _
  · obtain ⟨_, _, type, tree, ls, _, hs, e⟩ := h1
    rw [e]
    exact broadcast_trans K (broadcast_send K _ _ _) (broadcast_show_children K _ _ _ _ _ hs)
  · rw [h1.2.2]; exact broadcast_send K _ _ _

theorem broadcast_process_source_stat (K : stats_flags) (st st1 : stats_t)
    (src : stats_source_t) (event : stats_event_t)
    (h : process_source_stat K st src event = some st1) :
    broadcast_of K st.event_listeners st1.event_listeners := by
  unfold process_source_stat at h
  split at h
  · split at h
    · simp at h
    · split at h
      · split at h
        · simp at h; subst h; exact broadcast_send K _ _ _
        · simp at h; subst h; exact broadcast_refl K _
      · simp at h; subst h; exact broadcast_refl K _
    · split at h
      · simp at h; subst h; exact broadcast_send K _ _ _
      · split at h
        · simp at h
        · split at h
          · simp at h
          · simp at h; subst h; exact broadcast_send K _ _ _
  · split at h
    · simp at h; subst h; exact broadcast_send K _ _ _
    · split at h
      · exact broadcast_source_flags_event K st st1 src event h
      · simp at h; subst h; exact broadcast_refl K _

theorem broadcast_process_source_found (K : stats_flags) (st st1 : stats_t)
    (src : stats_source_t) (event : stats_event_t)
    (h : process_source_found K st src event = some st1) :
    broadcast_of K st.event_listeners st1.event_listeners := by
  unfold process_source_found at h
  split at h
  · split at h
    · simp at h
    · simp at h; subst h; exact broadcast_send K _ _ _
    · simp at h; subst h; exact broadcast_refl K _
  · exact broadcast_process_source_stat K st st1 src event h

theorem broadcast_process_event (K : stats_flags) (st st1 : stats_t) (event : stats_event_t)
    (h : process_event K st event = some st1) :
    broadcast_of K st.event_listeners st1.event_listeners := by
  unfold process_event at h
  split at h
  · exact broadcast_process_global_event K st st1 event h
  · unfold process_source_event at h
    split at h
    · exact broadcast_process_source_found K st st1 _ event h
    · split at h
      · simp at h; subst h; exact broadcast_refl K _
      · have hb := broadcast_process_source_found K _ st1 _ event h
        exact hb
    · simp at h

theorem broadcast_stats_purge (K : stats_flags) (fserve_contains : CStr → Int) (mark : Int)
    (l : List stats_source_t) : ∀ st : stats_t,
    broadcast_of K st.event_listeners
      (l.foldl (purge_source K fserve_contains mark) st).event_listeners := by
  induction l with
  | nil => intro st; exact broadcast_refl K _
  | cons a b ih =>
    intro st
    simp only [List.foldl_cons]
    refine broadcast_trans K ?_ (ih _)
    unfold purge_source
    split
    · split
      · exact broadcast_send K _ _ _
      · exact broadcast_refl K _
    · split
      · exact broadcast_send K _ _ _
      · exact broadcast_refl K _

theorem broadcast_op (K : stats_flags) (xmlCheckUTF8 : CStr → Bool)
    (fserve_contains : CStr → Int) (st st1 : stats_t) (op : stats_op)
    (h : op.run K xmlCheckUTF8 fserve_contains st = some st1) :
    broadcast_of K st.event_listeners st1.event_listeners := by
  cases op with
  | event source name value =>
    simp only [stats_op.run, stats_event] at h
    split at h
    · split at h
      · simp at h; subst h; exact broadcast_refl K _
      · exact broadcast_process_event K st st1 _ h
    · exact broadcast_process_event K st st1 _ h
  | event_flags source name value flags => exact broadcast_process_event K st st1 _ h
  | event_inc source name => exact broadcast_process_event K st st1 _ h
  | event_dec source name => exact broadcast_process_event K st st1 _ h
  | event_add source name value =>
    simp only [stats_op.run, stats_event_add] at h
    split at h
    · simp at h; subst h; exact broadcast_refl K _
    · exact broadcast_process_event K st st1 _ h
  | event_sub source name value =>
    simp only [stats_op.run, stats_event_sub] at h
    split at h
    · simp at h; subst h; exact broadcast_refl K _
    · exact broadcast_process_event K st st1 _ h
  | handle mount =>
    simp only [stats_op.run, stats_handle] at h
    split at h
    · simp at h; subst h; exact broadcast_refl K _
    · split at h <;> (simp at h; subst h; exact broadcast_refl K _)
  | set hd name value =>
    simp only [stats_op.run, stats_set] at h
    split at h
    · simp at h; subst h; exact broadcast_refl K _
    · split at h
      · simp at h
      · exact broadcast_process_source_stat K st st1 _ _ h
  | set_flags hd name value flags =>
    simp only [stats_op.run, stats_set_flags] at h
    split at h
    · simp at h
    · split at h
      · simp at h
      · exact broadcast_process_source_stat K st st1 _ _ h
  | set_inc hd name =>
    simp only [stats_op.run, stats_set_inc] at h
    split at h
    · simp at h; subst h; exact broadcast_refl K _
    · split at h
      · simp at h
      · exact broadcast_process_source_stat K st st1 _ _ h
  | flush hd =>
    simp only [stats_op.run, stats_flush] at h
    split at h
    · simp at h; subst h; exact broadcast_refl K _
    · split at h
      · simp at h
      · simp at h; subst h; exact broadcast_send K _ _ _
  | purge mark =>
    simp only [stats_op.run, stats_purge, Option.some.injEq] at h
    subst h
    exact broadcast_stats_purge K fserve_contains mark _ st

theorem broadcast_run_ops (K : stats_flags) (xmlCheckUTF8 : CStr → Bool)
    (fserve_contains : CStr → Int) (ops : List stats_op) : ∀ (st st1 : stats_t),
    run_ops K xmlCheckUTF8 fserve_contains st ops = some st1 →
    broadcast_of K st.event_listeners st1.event_listeners := by
  induction ops with
  | nil => intro st st1 h; simp [run_ops] at h; subst h; exact broadcast_refl K _
  | cons op ops ih =>
    intro st st1 h
    simp only [run_ops] at h
    split at h
    · simp at h
    · rename_i st2 h2
      exact broadcast_trans K (broadcast_op K _ _ st st2 op h2) (ih _ _ h)

/-- C15: the store whose global `title` has a value of 8200 bytes is what `stats_event`
makes of the empty store, its line is longer than a frame of 8192 bytes, and for a
subscriber with the mask GENERAL the build of the snapshot gives no result whatever the
number of tries allowed to the loop that starts a new frame: no snapshot is built. -/
theorem snapshot_oversize_line_no_result :
    stats_event flags0 (fun _ => true) stats_empty none (some (cstr "title"))
        (some (List.replicate 8200 97)) = some stats_oversize
      ∧ 8192 < (line_EVENT (cstr "global") (cstr "title") (List.replicate 8200 97)).length
      ∧ (∀ fuel, register_snapshot fuel stats_oversize 4 = none)
      ∧ ∀ fuel, _register_listener flags0 fuel stats_oversize (listener0 4) = none := by
  have hlen : 8192 < (line_EVENT (cstr "global") (cstr "title") (List.replicate 8200 97)).length := by
    simp only [line_EVENT, List.length_append, List.length_replicate]
    omega
  have hg : ∀ fuel s, snapshot_globals fuel 4 stats_oversize.global_tree s = none := by
    intro fuel s
    simp only [stats_oversize, snapshot_globals]
    rw [if_pos (by decide)]
    simp only [snapshot_append_oversize _ hlen]
  refine ⟨rfl, hlen, ?_, ?_⟩
  · intro fuel
    simp only [register_snapshot, hg]
  · intro fuel
    have hb : register_begin flags0 stats_oversize (listener0 4)
        = some { global_tree :=
                  [{ name := cstr "stats_connections", value := some [], last_reported := 0,
                     flags := 12 },
                   { name := cstr "title", value := some (List.replicate 8200 97),
                     last_reported := 0, flags := 12 }]
                 source_tree := []
                 event_listeners := [listener0 4] } := rfl
    have hm : (listener0 4).mask = 4 := rfl
    simp only [_register_listener, hb, register_snapshot, hm]
    rw [snapshot_globals_oversize fuel 4
      { name := cstr "title", value := some (List.replicate 8200 97), last_reported := 0,
        flags := 12 } (List.replicate 8200 97) (by decide) rfl hlen _ _
      (List.mem_cons_of_mem _ (List.mem_cons_self _ _))]

/-- C16: on the store `stats_event ("/a", "x", "1")` makes of the empty store, whose
source `/a` and child `x` carry HIDDEN, the registration of a subscriber with the mask
SLAVE, which lacks HIDDEN, returns, and the stream of the subscriber is the header, the line
`NEW audio/mpeg /a`, the line `INFO full list end` and the line `EVENT /a x 1`; the
fan-out does not select this subscriber for a line with the flags of that source or of that
child. -/
theorem snapshot_shows_hidden_source :
    stats_event flags0 (fun _ => true) stats_empty (some (cstr "/a")) (some (cstr "x"))
        (some (cstr "1")) = some stats_sample
      ∧ (stats_sample.source_tree.map fun s => s.flags &&& flags0.STATS_HIDDEN) = [1]
      ∧ (2 &&& flags0.STATS_HIDDEN = 0)
      ∧ (∃ st1, stats_add_listener flags0 2 stats_sample client0 2 = some st1
          ∧ st1.event_listeners.map (fun l => queue_bytes l.client.refbuf)
            = [snapshot_header
                ++ cstr "NEW audio/mpeg /a\nINFO full list end\nEVENT /a x 1\n"])
      ∧ listener_selected flags0 7 (listener_new 2 client0) = false
      ∧ listener_selected flags0 15 (listener_new 2 client0) = false := by
  refine ⟨by decide, by decide, by decide, ⟨_, rfl, by decide⟩, by decide, by decide⟩

theorem snapshot_biglist_ne_nil (fuel mask : Nat) (tree : List stats_node_t)
    (sources : List stats_source_t) (s1 s2 : snapshot_t)
    (hg : snapshot_globals fuel mask tree snapshot_start = some s1)
    (hs : snapshot_sources fuel mask sources s1 = some s2) :
    queue_bytes (snapshot_finish s2).biglist
        = snapshot_header ++ (global_lines mask tree).flatten
          ++ (new_lines mask sources).flatten ++ line_INFO ++ (stats_lines mask sources).flatten
      ∧ (snapshot_finish s2).biglist ≠ [] := by
  have hb : queue_bytes (snapshot_finish s2).biglist
      = snapshot_header ++ (global_lines mask tree).flatten
        ++ (new_lines mask sources).flatten ++ line_INFO
        ++ (stats_lines mask sources).flatten := by
    rw [snapshot_finish_bytes_self, snapshot_sources_bytes _ _ _ _ _ hs,
      snapshot_globals_bytes _ _ _ _ _ hg, snapshot_start_bytes]
  refine ⟨hb, ?_⟩
  intro e
  rw [e] at hb
  have := congrArg List.length hb
  simp [queue_bytes, snapshot_header, cstr] at this

/-- C18 as stated fails: `stats_initialize` returns, with the counter `clients` at 0 and
the flags COUNTERS|REGULAR; the registration of a subscriber with the mask GENERAL|COUNTERS
returns; then `stats_event_inc (NULL, "clients")` returns and sets `clients` to 1, and the
subscribers are as before: no line is queued by the event. -/
theorem inc_clients_not_broadcast :
    ( stats_initialize flags0 (fun _ => true) (cstr "01/Jan/2024:00:00:00 +0000") none)
        = some stats_initial
      ∧ node_at stats_initial none (cstr "clients")
        = some { name := cstr "clients", value := some (cstr "0"), last_reported := 0,
                 flags := 24 }
      ∧ stats_add_listener flags0 2 stats_initial client0 12 = some stats_registered
      ∧ (stats_registered.event_listeners.map fun l => l.mask) = [12]
      ∧ (stats_event_inc flags0 stats_registered none (some (cstr "clients"))).map
          (fun st3 =>
            (stats_get_value st3 none (some (cstr "clients")),
              decide (st3.event_listeners = stats_registered.event_listeners)))
        = some (some (some (cstr "1")), true) := by
  decide!

/-- C18, amended: for every state and every global node `n` that carries REGULAR and has a
value `s`, `stats_event_inc (NULL, n)` returns, leaves every subscriber as it is, and leaves
the node with the decimal text of the number read from `s` plus 1 as its value and with its
report time reset to 0, its name and flags as before. -/
theorem regular_global_inc (K : stats_flags) (st : stats_t) (n s : CStr) (node : stats_node_t)
    (hf : avl_find stats_node_t.name n st.global_tree = some node)
    (hr : node.flags &&& K.STATS_REGULAR ≠ 0) (hv : node.value = some s) :
    ∃ st1, stats_event_inc K st none (some n) = some st1
      ∧ st1.event_listeners = st.event_listeners
      ∧ st1.source_tree = st.source_tree
      ∧ node_at st1 none n
        = some { node with value := some (itoa (wrap64 (atoll s + 1))), last_reported := 0 } := by
  have hk := avl_find_key stats_node_t.name hf
  have hne : st.global_tree ≠ [] := by
    intro e; rw [e] at hf; simp [avl_find] at hf
  have hfn : _find_node st.global_tree (some n) = some (some node) := by
    cases hg : st.global_tree with
    | nil => exact absurd hg hne
    | cons a b => rw [hg] at hf; simp [_find_node, hf]
  have hmod : modify_node_event K node
      { build_event K none (some n) (some (cstr "1")) with action := STATS_EVENT_INC }
      = some (modify_node_store K node (itoa (wrap64 (atoll s + 1)))) :=
    modify_node_event_arith K node _ _ (by simp only; decide) (by simp only; decide)
      (by simp [modify_value, hv, atoll_ptr])
  have hst : modify_node_store K node (itoa (wrap64 (atoll s + 1)))
      = { node with value := some (itoa (wrap64 (atoll s + 1))), last_reported := 0 } := by
    simp [modify_node_store, hr]
  refine ⟨{ st with
      global_tree := avl_store stats_node_t.name node.name
        { node with value := some (itoa (wrap64 (atoll s + 1))), last_reported := 0 }
        st.global_tree }, ?_, rfl, rfl, ?_⟩
  · have ha : ¬ (STATS_EVENT_INC = STATS_EVENT_REMOVE) := by decide
    simp only [stats_event_inc, process_event, build_event, process_global_event, ha,
      if_false, if_true, hfn]
    simp only [build_event] at hmod
    simp only [hmod, hst, global_event_report]
    simp [hr]
  · simp only [node_at]
    rw [hk]
    exact avl_find_store_self stats_node_t.name hf rfl

/-- C18 amended, at a concrete input: the counter `clients` at 41 with one subscriber for
counters. -/
theorem regular_global_inc_witness :
    ∃ st1, stats_event_inc flags0
          { stats_counter with event_listeners := [listener0 8] } none (some (cstr "clients"))
        = some st1
      ∧ st1.event_listeners = [listener0 8]
      ∧ st1.source_tree = []
      ∧ node_at st1 none (cstr "clients")
        = some { name := cstr "clients", value := some (cstr "42"), last_reported := 0,
                 flags := 24 } :=
  regular_global_inc flags0 { stats_counter with event_listeners := [listener0 8] }
    (cstr "clients") (cstr "41")
    { name := cstr "clients", value := some (cstr "41"), last_reported := 0, flags := 24 }
    (by decide) (by decide) rfl

theorem snapshot_globals_total (fuel mask : Nat) :
    ∀ (tree : List stats_node_t),
      (∀ g ∈ tree, g.flags &&& mask ≠ 0 →
        ∃ v, g.value = some v ∧ (line_EVENT (cstr "global") g.name v).length ≤ 8192) →
      ∀ s, ∃ s1, snapshot_globals (fuel + 2) mask tree s = some s1 := by
  intro tree
  induction tree with
  | nil => intro _ s; exact ⟨s, rfl⟩
  | cons stat rest ih =>
    intro h s
    have hr := ih fun g hg => h g (List.mem_cons_of_mem _ hg)
    simp only [snapshot_globals]
    by_cases hm : stat.flags &&& mask = 0
    · simp only [hm, ne_eq, not_true_eq_false, if_false]
      exact hr s
    · obtain ⟨v, hv, hl⟩ := h stat (List.mem_cons_self _ _) hm
      obtain ⟨s1, h1⟩ := snapshot_append_fits fuel s _ hl
      simp only [hm, ne_eq, not_false_eq_true, if_true, hv, h1]
      exact hr s1

theorem snapshot_new_total (fuel mask : Nat) :
    ∀ (tree : List stats_source_t),
      (∀ g ∈ tree, g.flags &&& mask ≠ 0 →
        ∃ t, source_type g = some t ∧ (line_NEW t g.source).length ≤ 8192) →
      ∀ s, ∃ s1, snapshot_new (fuel + 2) mask tree s = some s1 := by
  intro tree
  induction tree with
  | nil => intro _ s; exact ⟨s, rfl⟩
  | cons snode rest ih =>
    intro h s
    have hr := ih fun g hg => h g (List.mem_cons_of_mem _ hg)
    simp only [snapshot_new]
    by_cases hm : snode.flags &&& mask = 0
    · simp only [hm, ne_eq, not_true_eq_false, if_false]
      exact hr s
    · obtain ⟨v, hv, hl⟩ := h snode (List.mem_cons_self _ _) hm
      obtain ⟨s1, h1⟩ := snapshot_append_fits fuel s _ hl
      simp only [hm, ne_eq, not_false_eq_true, if_true, hv, h1]
      exact hr s1

theorem snapshot_children_total (fuel mask : Nat) (mount : CStr) :
    ∀ (children : List stats_node_t),
      (∀ c ∈ children, c.flags &&& mask ≠ 0 →
        ∃ v, c.value = some v ∧ (line_EVENT mount c.name v).length ≤ 8192) →
      ∀ md s, ∃ s1, snapshot_children (fuel + 2) mask mount children md s
        = some (s1, metadata_child mask children md) := by
  intro children
  induction children with
  | nil => intro _ md s; exact ⟨s, rfl⟩
  | cons stat rest ih =>
    intro h md s
    have hr := ih fun g hg => h g (List.mem_cons_of_mem _ hg)
    simp only [snapshot_children]
    by_cases hm : stat.flags &&& mask = 0
    · simp only [hm, ne_eq, not_true_eq_false, if_false]
      obtain ⟨s1, h1⟩ := hr md s
      exact ⟨s1, by rw [h1]; simp [metadata_child, hm]⟩
    · simp only [hm, ne_eq, not_false_eq_true, if_true]
      by_cases hn : strcmp stat.name (cstr "metadata_updated") = 0
      · simp only [hn, if_true]
        obtain ⟨s1, h1⟩ := hr (some stat) s
        exact ⟨s1, by rw [h1]; simp [metadata_child, hm, hn]⟩
      · obtain ⟨v, hv, hl⟩ := h stat (List.mem_cons_self _ _) hm
        obtain ⟨s1, h1⟩ := snapshot_append_fits fuel s _ hl
        simp only [hn, if_false, hv, h1]
        obtain ⟨s2, h2⟩ := hr md s1
        exact ⟨s2, by rw [h2]; simp [metadata_child, hm, hn]⟩

theorem metadata_child_mem (mask : Nat) :
    ∀ (children : List stats_node_t) (md : Option stats_node_t) (m : stats_node_t),
      metadata_child mask children md = some m →
      md = some m ∨ (m ∈ children ∧ m.flags &&& mask ≠ 0) := by
  intro children
  induction children with
  | nil => intro md m h; exact Or.inl (by simpa [metadata_child] using h)
  | cons c rest ih =>
    intro md m h
    simp only [metadata_child, List.foldl_cons] at h
    rcases ih _ m h with h1 | h1
    · split at h1
      · rename_i hc
        simp at h1
        subst h1
        exact Or.inr ⟨List.mem_cons_self _ _, hc.1⟩
      · exact Or.inl h1
    · exact Or.inr ⟨List.mem_cons_of_mem _ h1.1, h1.2⟩

theorem snapshot_stats_total (fuel mask : Nat) :
    ∀ (tree : List stats_source_t),
      (∀ g ∈ tree, g.flags &&& mask ≠ 0 → ∀ c ∈ g.stats_tree, c.flags &&& mask ≠ 0 →
        ∃ v, c.value = some v ∧ (line_EVENT g.source c.name v).length ≤ 8192) →
      ∀ s, ∃ s1, snapshot_stats (fuel + 2) mask tree s = some s1 := by
  intro tree
  induction tree with
  | nil => intro _ s; exact ⟨s, rfl⟩
  | cons snode rest ih =>
    intro h s
    have hr := ih fun g hg => h g (List.mem_cons_of_mem _ hg)
    simp only [snapshot_stats]
    by_cases hm : snode.flags &&& mask = 0
    · simp only [hm, ne_eq, not_true_eq_false, if_false]
      exact hr s
    · have hc := h snode (List.mem_cons_self _ _) hm
      obtain ⟨s1, h1⟩ := snapshot_children_total fuel mask snode.source snode.stats_tree hc none s
      simp only [hm, ne_eq, not_false_eq_true, if_true, h1]
      cases hmd : metadata_child mask snode.stats_tree none with
      | none => exact hr s1
      | some m =>
        rcases metadata_child_mem mask _ _ _ hmd with h2 | h2
        · simp at h2
        · obtain ⟨v, hv, hl⟩ := hc m h2.1 h2.2
          obtain ⟨s2, h3⟩ := snapshot_append_fits fuel s1 _ hl
          simp only [hv, h3]
          exact hr s2

/-- The build of the snapshot returns, with two tries for each line, on every store in which
each selected stat has a value and each line of the snapshot fits a frame of 8192 bytes. -/
theorem register_snapshot_total (fuel : Nat) (st : stats_t) (mask : Nat)
    (hg : ∀ g ∈ st.global_tree, g.flags &&& mask ≠ 0 →
      ∃ v, g.value = some v ∧ (line_EVENT (cstr "global") g.name v).length ≤ 8192)
    (hn : ∀ g ∈ st.source_tree, g.flags &&& mask ≠ 0 →
      ∃ t, source_type g = some t ∧ (line_NEW t g.source).length ≤ 8192)
    (hc : ∀ g ∈ st.source_tree, g.flags &&& mask ≠ 0 → ∀ c ∈ g.stats_tree,
      c.flags &&& mask ≠ 0 →
      ∃ v, c.value = some v ∧ (line_EVENT g.source c.name v).length ≤ 8192) :
    ∃ snap, register_snapshot (fuel + 2) st mask = some snap
      ∧ queue_bytes snap.biglist
        = snapshot_header ++ (global_lines mask st.global_tree).flatten
            ++ (new_lines mask st.source_tree).flatten ++ line_INFO
            ++ (stats_lines mask st.source_tree).flatten := by
  obtain ⟨s1, h1⟩ := snapshot_globals_total fuel mask st.global_tree hg snapshot_start
  obtain ⟨s2, h2⟩ := snapshot_new_total fuel mask st.source_tree hn s1
  obtain ⟨s3, h3⟩ := snapshot_append_fits fuel s2 line_INFO (by decide)
  obtain ⟨s4, h4⟩ := snapshot_stats_total fuel mask st.source_tree hc s3
  have h : register_snapshot (fuel + 2) st mask = some (snapshot_finish s4) := by
    simp only [register_snapshot, snapshot_sources, h1, h2, h3, h4]
  exact ⟨_, h, register_snapshot_bytes _ _ _ _ h⟩

theorem global_calc_walk_eq (K : stats_flags) (now : Int) :
    ∀ (tree : List stats_node_t) (ls : List event_listener_t),
      (∀ node ∈ tree, global_calc_due K now node = true → node.value.isSome = true) →
      global_calc_walk K now tree ls
        = some (tree.map (global_calc_node K now),
            ls.map fun l => deliver_lines K l (global_calc_lines K now tree)) := by
  intro tree
  induction tree with
  | nil => intro ls _; simp [global_calc_walk, global_calc_lines, deliver_lines]
  | cons node rest ih =>
    intro ls h
    have hr := fun ls1 => ih ls1 fun x hx => h x (List.mem_cons_of_mem _ hx)
    simp only [global_calc_walk]
    by_cases hd : global_calc_due K now node = true
    · have hv := h node (List.mem_cons_self _ _) hd
      cases hval : node.value with
      | none => simp [hval] at hv
      | some v =>
        simp only [hd, if_true, hr, List.map_cons, global_calc_node, global_calc_lines,
          List.filter_cons, hval, Option.getD_some, stats_listener_send_eq_map, List.map_map]
        congr 2
    · simp only [hd, Bool.false_eq_true, if_false, hr, List.map_cons, global_calc_node,
        global_calc_lines, List.filter_cons]

/-- C24: for every global store in which the nodes that are due have a value, every
subscriber list and every time `now`, the walk of `stats_global_calc (now)` returns; each
REGULAR node with `last_reported + 9 < now` has its report time set to `now` and every other
node is as before; and each subscriber has been offered, in tree order, one line
`EVENT global <name> <value>` with the flags of the node for each node that is due, and
nothing else: a subscriber none of these lines is for is as before, and a subscriber with a
worker, a sound tail reference and room under the hard cap holds its old bytes followed by
the lines that are for it, each once, when each line fits a frame. -/
theorem global_calc_walk_spec (K : stats_flags) (now : Int) (tree : List stats_node_t)
    (ls : List event_listener_t)
    (h : ∀ node ∈ tree, global_calc_due K now node = true → node.value.isSome = true) :
    global_calc_walk K now tree ls
        = some (tree.map (global_calc_node K now),
            ls.map fun l => deliver_lines K l (global_calc_lines K now tree))
      ∧ (∀ node, global_calc_node K now node
          = if node.flags &&& K.STATS_REGULAR ≠ 0 ∧ node.last_reported + 9 < now then
              { node with last_reported := now }
            else node)
      ∧ global_calc_lines K now tree
        = ((tree.filter fun node =>
              decide (node.flags &&& K.STATS_REGULAR ≠ 0 ∧ node.last_reported + 9 < now)).map
            fun node => (node.flags, line_EVENT (cstr "global") node.name (node.value.getD [])))
      ∧ ∃ tree1 ls1, global_calc_walk K now tree ls = some (tree1, ls1)
        ∧ lines_sent K
            ((tree.filter fun node =>
                decide (node.flags &&& K.STATS_REGULAR ≠ 0 ∧ node.last_reported + 9 < now)).map
              fun node =>
                (node.flags, line_EVENT (cstr "global") node.name (node.value.getD [])))
            ls ls1 := by
  have hlines : global_calc_lines K now tree
      = (tree.filter fun node =>
            decide (node.flags &&& K.STATS_REGULAR ≠ 0 ∧ node.last_reported + 9 < now)).map
          fun node => (node.flags, line_EVENT (cstr "global") node.name (node.value.getD [])) := by
    simp only [global_calc_lines]
    congr 1
    apply List.filter_congr
    intro x _
    simp [global_calc_due]
  refine ⟨global_calc_walk_eq K now tree ls h, ?_, ?_,
    ⟨_, _, global_calc_walk_eq K now tree ls h, by
      rw [← hlines]
      exact lines_sent_deliver K _ ls (global_calc_lines_ne_nil K now tree)⟩⟩
  · intro node
    simp only [global_calc_node, global_calc_due, Bool.and_eq_true, decide_eq_true_eq]
  · simp only [global_calc_lines]
    congr 1
    apply List.filter_congr
    intro x _
    simp [global_calc_due]

/-- C24, at a concrete input: at time 105 the counter `sources`, never reported, is
broadcast and stamped; `clients`, reported at 100, and the plain `host` are not; the
subscriber for counters, which had nothing queued, holds the one line of `sources`. -/
theorem global_calc_walk_spec_witness :
    ∃ ls1, global_calc_walk flags0 105 stats_calc_sample.global_tree
          stats_calc_sample.event_listeners
        = some
            ([{ name := cstr "clients", value := some (cstr "3"), last_reported := 100,
                flags := 24 },
              { name := cstr "host", value := some (cstr "h"), last_reported := 0, flags := 4 },
              { name := cstr "sources", value := some (cstr "1"), last_reported := 105,
                flags := 24 }], ls1)
      ∧ ls1.map (fun l => queue_bytes l.client.refbuf) = [cstr "EVENT global sources 1\n"]
      ∧ global_calc_lines flags0 105 stats_calc_sample.global_tree
        = [(24, cstr "EVENT global sources 1\n")] := by
  have h := (global_calc_walk_spec flags0 105 stats_calc_sample.global_tree
      stats_calc_sample.event_listeners (by decide)).1
  exact ⟨stats_calc_sample.event_listeners.map fun l =>
      deliver_lines flags0 l (global_calc_lines flags0 105 stats_calc_sample.global_tree),
    h.trans (by decide), by decide, by decide⟩

theorem modify_node_flags_fields (node : stats_node_t) (event : stats_event_t) :
    (modify_node_flags node event).value = node.value
      ∧ (modify_node_flags node event).last_reported = node.last_reported
      ∧ (modify_node_flags node event).name = node.name := by
  unfold modify_node_flags
  split <;> exact ⟨rfl, rfl, rfl⟩

theorem modify_node_action_set (event : stats_event_t)
    (hset : andNot event.action STATS_EVENT_HIDDEN = STATS_EVENT_SET) :
    modify_node_action event = STATS_EVENT_SET := by
  unfold modify_node_action
  split
  · exact hset
  · rename_i h
    have h0 : event.action &&& STATS_EVENT_HIDDEN = 0 := by simpa using h
    simpa [andNot, h0] using hset

theorem modify_node_event_quiet (K : stats_flags) (a b : stats_node_t) (ev : stats_event_t)
    (hset : andNot ev.action STATS_EVENT_HIDDEN = STATS_EVENT_SET)
    (hmod : modify_node_event K a ev = some b) (hval : b.value = a.value) :
    b.last_reported = a.last_reported := by
  obtain ⟨f1, f2, _⟩ := modify_node_flags_fields a ev
  unfold modify_node_event at hmod
  simp only [modify_node_action_set ev hset, if_true] at hmod
  split at hmod
  · simp at hmod; rw [← hmod]; exact f2
  · split at hmod
    · simp at hmod
    · rename_i v hv
      split at hmod
      · simp at hmod; rw [← hmod]; exact f2
      · rename_i hne
        simp at hmod
        rw [← hmod] at hval ⊢
        simp only [modify_node_store] at hval ⊢
        have hv1 : (modify_node_flags a ev).value = some v := by rw [f1]; exact hval.symm
        split
        · rename_i hreg
          exfalso
          apply hne
          exact ⟨hreg, by simp [hv1], by simp [hv1, strcmp_self]⟩
        · exact f2

theorem global_calc_node_last_reported (K : stats_flags) (now : Int) (a : stats_node_t) :
    a.last_reported ≤ (global_calc_node K now a).last_reported := by
  unfold global_calc_node
  split
  · rename_i h
    simp only [global_calc_due, Bool.and_eq_true, decide_eq_true_eq] at h
    simp only
    omega
  · exact le_refl _

theorem quiet_run_last_reported (K : stats_flags) (a c : stats_node_t) (h : quiet_run K a c) :
    a.last_reported ≤ c.last_reported := by
  induction h with
  | done node => exact le_refl _
  | event a b c ev hset hmod hval _ ih =>
    rw [← modify_node_event_quiet K a b ev hset hmod hval]; exact ih
  | walk a c now _ ih => exact le_trans (global_calc_node_last_reported K now a) ih

/-- C25: for every global node that the walk of `stats_global_calc (t1)` broadcasts, and
every later walk `stats_global_calc (t2)` that broadcasts it again, when in between the node
has only seen events of the kind SET that left the text of its value as it was, and walks
of `stats_global_calc` at any times, `t2` is at least `t1 + 10`. -/
theorem regular_throttle (K : stats_flags) (t1 t2 : Int) (node node2 : stats_node_t)
    (h1 : global_calc_due K t1 node = true)
    (hrun : quiet_run K (global_calc_node K t1 node) node2)
    (h2 : global_calc_due K t2 node2 = true) : t1 + 10 ≤ t2 := by
  have h := quiet_run_last_reported K _ _ hrun
  simp only [global_calc_node, h1, if_true] at h
  simp only [global_calc_due, Bool.and_eq_true, decide_eq_true_eq] at h2
  omega

/-- C25, at a concrete input: the counter `clients` is broadcast at time 100, set to the
same value, looked at by the walk at time 105, and broadcast again at time 110. -/
theorem regular_throttle_witness :
    global_calc_due flags0 100
        { name := cstr "clients", value := some (cstr "3"), last_reported := 0, flags := 24 }
        = true
      ∧ quiet_run flags0
          (global_calc_node flags0 100
            { name := cstr "clients", value := some (cstr "3"), last_reported := 0, flags := 24 })
          { name := cstr "clients", value := some (cstr "3"), last_reported := 100, flags := 24 }
      ∧ global_calc_due flags0 110
          { name := cstr "clients", value := some (cstr "3"), last_reported := 100, flags := 24 }
        = true
      ∧ (100 : Int) + 10 ≤ 110 :=
  have hrun : quiet_run flags0
      (global_calc_node flags0 100
        { name := cstr "clients", value := some (cstr "3"), last_reported := 0, flags := 24 })
      { name := cstr "clients", value := some (cstr "3"), last_reported := 100, flags := 24 } :=
    quiet_run.event _
      { name := cstr "clients", value := some (cstr "3"), last_reported := 100, flags := 24 } _
      (build_event flags0 none (some (cstr "clients")) (some (cstr "3")))
      (by decide) (by decide) (by decide)
      (quiet_run.walk _ _ 105 (quiet_run.done _))
  ⟨by decide, hrun, by decide,
    regular_throttle flags0 100 110 _ _ (by decide) hrun (by decide)⟩

theorem streams_add_fits (pre : CStr) (s : streams_t) (mount : CStr) (hs : streams_ok s)
    (h : pre.length + mount.length + 3 < 4096) :
    (s.remaining ≤ mount.length + pre.length + 3
        ∧ streams_add pre s mount
          = some { blocks := s.blocks ++ [{ data := s.data, len := s.data.length }]
                   data := pre ++ mount ++ cstr "\r\n"
                   buffer := (pre ++ mount ++ cstr "\r\n").length
                   remaining := 4096 - (pre ++ mount ++ cstr "\r\n").length })
      ∨ (¬ s.remaining ≤ mount.length + pre.length + 3
        ∧ streams_add pre s mount
          = some { blocks := s.blocks
                   data := s.data ++ (pre ++ mount ++ cstr "\r\n")
                   buffer := s.buffer + (pre ++ mount ++ cstr "\r\n").length
                   remaining := s.remaining - (pre ++ mount ++ cstr "\r\n").length }) := by
  obtain ⟨h1, h2⟩ := hs
  have hl : (pre ++ mount ++ cstr "\r\n").length = pre.length + mount.length + 2 := by
    simp [cstr]; omega
  have ht : List.take (pre.length + mount.length + 2) (pre ++ mount ++ cstr "\r\n")
      = pre ++ mount ++ cstr "\r\n" := by
    rw [← hl, List.take_length]
  simp only [STREAMLIST_BLKSIZE] at h2
  by_cases hc : s.remaining ≤ mount.length + pre.length + 3
  · left
    refine ⟨hc, ?_⟩
    have e1 : u32 (4096 + 2 ^ 32 - s.remaining) = s.data.length := by
      simp only [u32]; omega
    have e2 : u32 (4096 + 2 ^ 32 - (pre.length + mount.length + 2) % 2 ^ 32)
        = 4096 - (pre.length + mount.length + 2) := by
      simp only [u32]; omega
    have e3 : min (pre.length + mount.length + 2) (4096 - 1) = pre.length + mount.length + 2 := by
      omega
    have e4 : pre.length + mount.length + 2 + 1 ≤ 4096 := by omega
    simp only [streams_add, hc, if_true, STREAMLIST_BLKSIZE, hl, e1, e2, e3, e4,
      show ¬ (4096 = 0) by decide, if_false, List.nil_append,
      show pre.length + mount.length + 2 > 0 by omega, Nat.zero_add, ht]
  · right
    refine ⟨hc, ?_⟩
    have e0 : ¬ s.remaining = 0 := by omega
    have e2 : u32 (s.remaining + 2 ^ 32 - (pre.length + mount.length + 2) % 2 ^ 32)
        = s.remaining - (pre.length + mount.length + 2) := by
      simp only [u32]; omega
    have e3 : min (pre.length + mount.length + 2) (s.remaining - 1)
        = pre.length + mount.length + 2 := by omega
    have e4 : s.buffer + (pre.length + mount.length + 2) + 1 ≤ 4096 := by omega
    simp only [streams_add, hc, if_false, STREAMLIST_BLKSIZE, hl, e0, e2, e3, e4, if_true,
      show pre.length + mount.length + 2 > 0 by omega, ht]

theorem flatten_map_flatten (l : List (List CStr)) :
    (l.map List.flatten).flatten = l.flatten.flatten := by
  induction l with
  | nil => rfl
  | cons a b ih => simp [ih]

theorem streams_loop_spec (K : stats_flags) (pre : CStr) :
    ∀ (tree : List stats_source_t) (s : streams_t) (gs : List (List CStr)) (g : List CStr),
      (∀ x ∈ tree, pre.length + x.source.length + 3 < 4096) → streams_ok s →
      s.blocks.map stream_block.content = gs.map List.flatten → s.data = g.flatten →
      ∃ s1 gs1 g1, streams_loop K pre tree s = some s1 ∧ streams_ok s1
        ∧ s1.blocks.map stream_block.content = gs1.map List.flatten ∧ s1.data = g1.flatten
        ∧ (gs1 ++ [g1]).flatten = (gs ++ [g]).flatten ++ stream_lines K pre tree := by
  intro tree
  induction tree with
  | nil =>
    intro s gs g _ hs hb hd
    exact ⟨s, gs, g, rfl, hs, hb, hd, by simp [stream_lines]⟩
  | cons x rest ih =>
    intro s gs g h hs hb hd
    have hr : ∀ y ∈ rest, pre.length + y.source.length + 3 < 4096 :=
      fun y hy => h y (List.mem_cons_of_mem _ hy)
    simp only [streams_loop]
    by_cases hv : x.flags &&& K.STATS_HIDDEN = 0
    · simp only [hv, if_true]
      have hl : (pre ++ x.source ++ cstr "\r\n").length = pre.length + x.source.length + 2 := by
        simp [cstr]; omega
      have hx := h x (List.mem_cons_self _ _)
      rcases streams_add_fits pre s x.source hs hx with ⟨_, e⟩ | ⟨hc, e⟩
      · simp only [e]
        obtain ⟨s1, gs1, g1, e1, e2, e3, e4, e5⟩ := ih
          { blocks := s.blocks ++ [{ data := s.data, len := s.data.length }]
            data := pre ++ x.source ++ cstr "\r\n"
            buffer := (pre ++ x.source ++ cstr "\r\n").length
            remaining := 4096 - (pre ++ x.source ++ cstr "\r\n").length }
          (gs ++ [g]) [pre ++ x.source ++ cstr "\r\n"]
          hr ⟨rfl, by simp only [STREAMLIST_BLKSIZE, hl]; omega⟩
          (by simp [hb, stream_block.content, hd]) (by simp)
        refine ⟨s1, gs1, g1, e1, e2, e3, e4, ?_⟩
        rw [e5]
        simp [stream_lines, List.filter_cons, hv]
      · simp only [e]
        obtain ⟨h1, h2⟩ := hs
        simp only [STREAMLIST_BLKSIZE] at h2
        obtain ⟨s1, gs1, g1, e1, e2, e3, e4, e5⟩ := ih
          { blocks := s.blocks
            data := s.data ++ (pre ++ x.source ++ cstr "\r\n")
            buffer := s.buffer + (pre ++ x.source ++ cstr "\r\n").length
            remaining := s.remaining - (pre ++ x.source ++ cstr "\r\n").length }
          gs (g ++ [pre ++ x.source ++ cstr "\r\n"])
          hr ⟨by simp only [List.length_append _ (pre ++ x.source ++ cstr "\r\n"), h1], by
            simp only [STREAMLIST_BLKSIZE, List.length_append _ (pre ++ x.source ++ cstr "\r\n"),
              hl]
            omega⟩
          hb (by simp [hd])
        refine ⟨s1, gs1, g1, e1, e2, e3, e4, ?_⟩
        rw [e5]
        simp [stream_lines, List.filter_cons, hv]
    · simp only [hv, if_false]
      obtain ⟨s1, gs1, g1, e1, e2, e3, e4, e5⟩ := ih s gs g hr hs hb hd
      refine ⟨s1, gs1, g1, e1, e2, e3, e4, ?_⟩
      rw [e5]
      simp [stream_lines, List.filter_cons, hv]

/-- C21: for every source store in which the length of the prefix plus that of each mount
plus 3 is below 4096, and every `prepend`, `stats_get_streams` returns; the lines
prefix + mount + `\r\n` of the sources that are not hidden, in tree order, fall into
groups such that the contents of the blocks returned (the first `len` bytes of each) are
the groups, each put together, so that no line is split; the contents of the blocks put
together are the lines put together. The prefix is `/admin/streams?mount=` when `prepend`
is not 0 and empty otherwise. -/
theorem streams_bytes (K : stats_flags) (st : stats_t) (prepend : Int)
    (h : ∀ s ∈ st.source_tree, (streams_pre prepend).length + s.source.length + 3 < 4096) :
    ∃ (blocks : List stream_block) (groups : List (List CStr)),
      stats_get_streams K st prepend = some blocks
      ∧ groups.flatten = stream_lines K (streams_pre prepend) st.source_tree
      ∧ blocks.map stream_block.content = groups.map List.flatten
      ∧ (blocks.map stream_block.content).flatten
        = (stream_lines K (streams_pre prepend) st.source_tree).flatten
      ∧ streams_pre prepend = (if prepend ≠ 0 then cstr "/admin/streams?mount=" else []) := by
  obtain ⟨s1, gs1, g1, e1, e2, e3, e4, e5⟩ := streams_loop_spec K (streams_pre prepend)
    st.source_tree { blocks := [], data := [], buffer := 0, remaining := STREAMLIST_BLKSIZE }
    [] [] h ⟨rfl, by simp⟩ rfl rfl
  obtain ⟨h1, h2⟩ := e2
  simp only [STREAMLIST_BLKSIZE] at h2
  have hlen : u32 (STREAMLIST_BLKSIZE + 2 ^ 32 - s1.remaining) = s1.data.length := by
    simp only [u32, STREAMLIST_BLKSIZE]; omega
  have hg : (gs1 ++ [g1]).flatten = stream_lines K (streams_pre prepend) st.source_tree := by
    simpa using e5
  have hb : (s1.blocks ++ [({ data := s1.data, len := s1.data.length } : stream_block)]).map
        stream_block.content
      = (gs1 ++ [g1]).map List.flatten := by
    simp [e3, stream_block.content, e4]
  refine ⟨_, gs1 ++ [g1], by simp only [stats_get_streams, e1, hlen], hg, hb, ?_, rfl⟩
  rw [hb, ← hg]
  exact flatten_map_flatten _

/-- C21, at a concrete input: two visible sources and a hidden one, with the prefix. -/
theorem streams_bytes_witness :
    ∃ (blocks : List stream_block) (groups : List (List CStr)),
      stats_get_streams flags0 stats_three_sources 1 = some blocks
      ∧ groups.flatten
        = [cstr "/admin/streams?mount=/a\r\n", cstr "/admin/streams?mount=/c\r\n"]
      ∧ blocks.map stream_block.content = groups.map List.flatten
      ∧ (blocks.map stream_block.content).flatten
        = cstr "/admin/streams?mount=/a\r\n/admin/streams?mount=/c\r\n"
      ∧ streams_pre 1 = cstr "/admin/streams?mount=" :=
  streams_bytes flags0 stats_three_sources 1 (by decide)

/-- C22 as stated fails: `stats_event (NULL, "title", value)` with a value of 5000 bytes is
accepted and stored, its line `EVENT global title ...` carries the flags PUBLIC, for which
the fan-out rule selects the subscriber with the mask GENERAL, and after the event the
subscriber is as before: nothing is queued and its error flag is clear. -/
theorem event_oversize_line_lost :
    (stats_event flags0 (fun _ => true) (stats_one_listener 4) none (some (cstr "title"))
        (some (List.replicate 5000 97))).map
        (fun st1 =>
          (stats_get_value st1 none (some (cstr "title")), st1.event_listeners))
        = some (some (some (List.replicate 5000 97)), [listener0 4])
      ∧ listener_selected flags0 12 (listener0 4) = true
      ∧ (listener0 4).client.worker = true
      ∧ (listener0 4).client.error = 0 := by
  decide!

/-- C22, amended: for every broadcast of a line of at most 4096 bytes and every subscriber
of the list that the fan-out rule selects, that has a worker and whose tail reference is
sound, after the broadcast either the bytes queued for the subscriber are the old ones
followed by one copy of the line, or the error flag of its client is set and its queue is
as before. -/
theorem fanout_line_or_error (K : stats_flags) (f : Nat) (line : CStr)
    (ls : List event_listener_t) (i : Nat) (l : event_listener_t) (hl : ls[i]? = some l)
    (hsel : listener_selected K f l = true) (ht : tail_ok l) (hw : l.client.worker = true)
    (hfit : line.length ≤ 4096) :
    ∃ l1, (stats_listener_send K f line ls)[i]? = some l1
      ∧ (queue_bytes l1.client.refbuf = queue_bytes l.client.refbuf ++ line
        ∨ (l1.client.error = 1 ∧ l1.client.refbuf = l.client.refbuf)) := by
  refine ⟨_add_stats_to_stats_client l line, by simp [stats_listener_send, hl, hsel], ?_⟩
  by_cases hcap : l.content_len > 6000000
  · right
    simp [_add_stats_to_stats_client, hw, hcap]
  · left
    obtain ⟨_, _, _, h4, h5⟩ := add_stats_spec l line ht
    by_cases hne : line = []
    · subst hne
      rcases h4 with ⟨e, _⟩ | ⟨e, _⟩
      · rw [e]; simp
      · exact e
    · exact h5 hw (by omega) hne hfit

/-- C22 amended, at a concrete input: one subscriber with a frame of 100 bytes queued. -/
theorem fanout_line_or_error_witness :
    ∃ l1, (stats_listener_send flags0 12 (cstr "EVENT global clients 1\n")
          [listener_one_frame])[0]? = some l1
      ∧ (queue_bytes l1.client.refbuf
          = queue_bytes listener_one_frame.client.refbuf ++ cstr "EVENT global clients 1\n"
        ∨ (l1.client.error = 1 ∧ l1.client.refbuf = listener_one_frame.client.refbuf)) :=
  fanout_line_or_error flags0 12 (cstr "EVENT global clients 1\n") [listener_one_frame] 0
    listener_one_frame rfl (by decide) (by simp [tail_ok, listener_one_frame]) rfl (by decide)

/-- C26 as stated fails: a line of more than 4096 bytes is delivered to a subscriber with a
worker, a short queue and a full tail frame, and no frame is linked: the queue is as
before. -/
theorem fanout_oversize_no_frame :
    (_add_stats_to_stats_client
        { listener_one_frame with
          content_len := 4096
          client :=
            { client0 with refbuf := [{ data := List.replicate 4096 65, flags := 0 }] } }
        (line_EVENT (cstr "global") (cstr "title") (List.replicate 5000 97))).client.refbuf
      = [{ data := List.replicate 4096 65, flags := 0 }] := by
  decide!

theorem add_stats_new_block_fit (l : event_listener_t) (line : CStr)
    (hfit : line.length ≤ 4096) :
    add_stats_new_block l line = _add_node_to_stats_client l { data := line, flags := 0 } := by
  have h0 : ¬ ((line.length : Int) < 0) := by omega
  have h1 : ({ data := [], flags := 0 } : refbuf_t).len + line.length ≤ 4096 := by
    simpa [refbuf_t.len] using hfit
  simp only [add_stats_new_block, refbuf_appendv, refbuf_new, h1, if_true, h0, if_false,
    List.nil_append]

theorem add_stats_cases (l : event_listener_t) (line : CStr) (ht : tail_ok l)
    (hw : l.client.worker = true) (hcap : l.content_len ≤ 6000000) (hne : line ≠ [])
    (hfit : line.length ≤ 4096) :
    (∃ L r, l.client.refbuf = L ++ [r] ∧ tail_takes r line
        ∧ (_add_stats_to_stats_client l line).client.refbuf
          = L ++ [{ r with data := r.data ++ line }]
        ∧ (_add_stats_to_stats_client l line).recent_block = l.recent_block)
      ∨ ((∀ L r, l.client.refbuf = L ++ [r] → ¬ tail_takes r line)
        ∧ _add_stats_to_stats_client l line
          = _add_node_to_stats_client l { data := line, flags := 0 }) := by
  have hcap' : ¬ l.content_len > 6000000 := by omega
  have hw' : ¬ l.client.worker = false := by simp [hw]
  rcases tail_ok_cases l ht with ⟨h0, hr⟩ | ⟨L, b, h0, hr⟩
  · right
    refine ⟨fun L r e => by rw [h0] at e; simp at e, ?_⟩
    rw [← add_stats_new_block_fit l line hfit]
    simp only [_add_stats_to_stats_client, hw', hcap', Bool.true_eq_false, recent_frame_nil l hr, if_false]
  · by_cases hc : tail_takes b line
    · left
      obtain ⟨c1, c2, c3⟩ := hc
      have hpos : ((line.length : Int) > 0) := by
        have : line.length ≠ 0 := fun e => hne (List.length_eq_zero.1 e)
        omega
      have hset : (L ++ [b]).set L.length { b with data := b.data ++ line }
          = L ++ [{ b with data := b.data ++ line }] := by
        simp
      refine ⟨L, b, h0, ⟨c1, c2, c3⟩, ?_, ?_⟩
      · simp only [_add_stats_to_stats_client, hw', hcap', Bool.true_eq_false,
          recent_frame_concat l L b h0 hr,
          c1, c2, refbuf_appendv, c3, hpos, h0, if_false, if_true, and_self, hset]
      · simp only [_add_stats_to_stats_client, hw', hcap', Bool.true_eq_false,
          recent_frame_concat l L b h0 hr,
          c1, c2, refbuf_appendv, c3, hpos, if_false, if_true, and_self]
    · right
      refine ⟨?_, ?_⟩
      · intro L1 r1 e1
        rw [h0] at e1
        obtain ⟨_, e2⟩ := List.append_inj' e1 rfl
        simp at e2
        rw [← e2]
        exact hc
      · rw [← add_stats_new_block_fit l line hfit]
        simp only [_add_stats_to_stats_client, hw', hcap', Bool.true_eq_false,
          recent_frame_concat l L b h0 hr,
          if_false]
        simp only [tail_takes] at hc
        by_cases c12 : b.flags &&& STATS_BLOCK_CONNECTION = 0 ∧ b.len < 4000
        · have c3 : ¬ b.len + line.length ≤ 4096 := fun c3 => hc ⟨c12.1, c12.2, c3⟩
          simp [c12, refbuf_appendv, c3]
        · simp [c12]

/-- C26, amended: for every subscriber with a worker, a sound tail reference and at most
6000000 bytes queued, and every line that is not empty and of at most 4096 bytes: if the
tail frame exists, is not flagged `STATS_BLOCK_CONNECTION`, holds fewer than 4000 bytes and
the line fits within 4096 bytes, the line is appended to the tail frame and the other
frames and the tail reference are as before; otherwise one new frame holding the line is
linked at the tail and becomes the tail; in both cases the bytes queued are the old ones
followed by the line, the tail reference is sound, and when no frame held more than 4096
bytes none does after. -/
theorem fanout_frame (l : event_listener_t) (line : CStr) (ht : tail_ok l)
    (hw : l.client.worker = true) (hcap : l.content_len ≤ 6000000) (hne : line ≠ [])
    (hfit : line.length ≤ 4096) :
    ((∃ L r, l.client.refbuf = L ++ [r] ∧ tail_takes r line
          ∧ (_add_stats_to_stats_client l line).client.refbuf
            = L ++ [{ r with data := r.data ++ line }]
          ∧ (_add_stats_to_stats_client l line).recent_block = l.recent_block)
        ∨ ((∀ L r, l.client.refbuf = L ++ [r] → ¬ tail_takes r line)
          ∧ (_add_stats_to_stats_client l line).client.refbuf
            = l.client.refbuf ++ [{ data := line, flags := 0 }]
          ∧ (_add_stats_to_stats_client l line).recent_block = some l.client.refbuf.length))
      ∧ queue_bytes (_add_stats_to_stats_client l line).client.refbuf
        = queue_bytes l.client.refbuf ++ line
      ∧ tail_ok (_add_stats_to_stats_client l line)
      ∧ ((∀ r ∈ l.client.refbuf, r.len ≤ 4096) →
          ∀ r ∈ (_add_stats_to_stats_client l line).client.refbuf, r.len ≤ 4096) := by
  obtain ⟨h1, _, _, _, h5⟩ := add_stats_spec l line ht
  have hbytes := h5 hw hcap hne hfit
  have hlen : ({ data := line, flags := 0 } : refbuf_t).len ≠ 0 := by
    simp [refbuf_t.len, hne]
  obtain ⟨n1, n2, _, _, _⟩ := add_node_spec l { data := line, flags := 0 } ht hlen
  have hnewtail : (_add_node_to_stats_client l { data := line, flags := 0 }).recent_block
      = some l.client.refbuf.length := by
    simp only [tail_ok, n2] at n1
    simpa using n1
  refine ⟨?_, hbytes, h1, ?_⟩
  · rcases add_stats_cases l line ht hw hcap hne hfit with h | ⟨h, e⟩
    · exact Or.inl h
    · exact Or.inr ⟨h, by rw [e, n2], by rw [e, hnewtail]⟩
  · intro ha r hr
    rcases add_stats_cases l line ht hw hcap hne hfit with ⟨L, b, h0, hc, e, _⟩ | ⟨_, e⟩
    · rw [e] at hr
      rcases List.mem_append.1 hr with h | h
      · exact ha r (by rw [h0]; exact List.mem_append_left _ h)
      · rw [List.mem_singleton.1 h]
        simpa [refbuf_t.len] using hc.2.2
    · rw [e, n2] at hr
      rcases List.mem_append.1 hr with h | h
      · exact ha r h
      · rw [List.mem_singleton.1 h]
        simpa [refbuf_t.len] using hfit

/-- C26 amended, at a concrete input: a line goes into the tail frame of 100 bytes. -/
theorem fanout_frame_witness :
    queue_bytes
        (_add_stats_to_stats_client listener_one_frame
          (cstr "EVENT global clients 1\n")).client.refbuf
        = queue_bytes listener_one_frame.client.refbuf ++ cstr "EVENT global clients 1\n"
      ∧ (_add_stats_to_stats_client listener_one_frame
          (cstr "EVENT global clients 1\n")).client.refbuf.length = 1 :=
  ⟨(fanout_frame listener_one_frame (cstr "EVENT global clients 1\n")
      (by simp [tail_ok, listener_one_frame]) rfl (by decide) (by decide) (by decide)).2.1,
    by decide⟩

theorem listener_slow_ok (flags : Nat) : queue_ok (listener_slow flags) := by
  refine ⟨?_, ?_⟩
  · simp only [tail_ok, listener_slow, List.length_cons, List.length_replicate]
    rw [if_neg (List.cons_ne_nil _ _)]
  · simp only [listener_slow, queue_len_cons, queue_len_replicate, refbuf_t.len,
      List.length_replicate, u32]
    norm_num

theorem write_error_cases (sock : Int) (c : client_t) :
    (format_generic_write_to_client sock c).1.error = c.error
      ∨ ((format_generic_write_to_client sock c).1.error = 1 ∧ sock < 0) := by
  unfold format_generic_write_to_client
  split
  · left; rfl
  · split
    · left; rfl
    · split
      · rename_i h
        right; exact ⟨rfl, h⟩
      · left; rfl

theorem write_error (sock : Int) (c : client_t) (h : 0 ≤ sock) :
    (format_generic_write_to_client sock c).1.error = c.error := by
  rcases write_error_cases sock c with e | ⟨_, e⟩
  · exact e
  · omega

/-- The error flag after the loop of a send pass: as before, or set by a socket error. -/
theorem stats_send_loop_error (sock : Nat → Int) : ∀ (loop k : Nat) (total : Int)
    (l l1 : event_listener_t), stats_send_loop sock loop k total l = some l1 →
    l1.client.error = l.client.error ∨ (l1.client.error = 1 ∧ ∃ j, sock j < 0) := by
  intro loop
  induction loop with
  | zero =>
    intro k total l l1 h
    unfold stats_send_loop at h
    simp only at h
    split at h <;> (simp at h; rw [← h]; left; rfl)
  | succ loop1 ih =>
    intro k total l l1 h
    have hwr := write_error_cases (sock k) l.client
    unfold stats_send_loop at h
    simp only at h
    split at h
    · simp at h; rw [← h]; left; rfl
    · split at h
      · simp at h; rw [← h]; left; rfl
      · split at h
        · split at h
          · simp at h; rw [← h]
            rcases hwr with e | ⟨e, e2⟩
            · left; exact e
            · right; exact ⟨e, k, e2⟩
          · split at h
            · simp at h
            · rcases ih _ _ _ _ h with e | e
              · rw [e]
                rcases hwr with e1 | ⟨e1, e2⟩
                · left; exact e1
                · right; exact ⟨e1, k, e2⟩
              · right; exact e
        · simp at h; rw [← h]
          rcases hwr with e | ⟨e, e2⟩
          · left; exact e
          · right; exact ⟨e, k, e2⟩

theorem snapshot_append_flags :
    ∀ (fuel : Nat) (s s1 : snapshot_t) (line : CStr), snapshot_append fuel s line = some s1 →
      ((∀ r ∈ s.biglist, r.flags = 0) ∧ s.refbuf.flags = 0) →
      (∀ r ∈ s1.biglist, r.flags = 0) ∧ s1.refbuf.flags = 0 := by
  intro fuel
  induction fuel with
  | zero => intro s s1 line h; simp [snapshot_append] at h
  | succ n ih =>
    intro s s1 line h hl
    by_cases hf : s.refbuf.len + line.length ≤ 8192
    · rw [snapshot_append_fit n s line hf] at h
      cases h
      exact hl
    · rw [snapshot_append_full n s line hf] at h
      refine ih _ _ _ h ⟨?_, rfl⟩
      intro r hr
      simp only [List.mem_append, List.mem_singleton] at hr
      rcases hr with hr | hr
      · exact hl.1 r hr
      · rw [hr]; exact hl.2

theorem snapshot_globals_flags (fuel mask : Nat) :
    ∀ (tree : List stats_node_t) (s s1 : snapshot_t),
      snapshot_globals fuel mask tree s = some s1 →
      ((∀ r ∈ s.biglist, r.flags = 0) ∧ s.refbuf.flags = 0) →
      (∀ r ∈ s1.biglist, r.flags = 0) ∧ s1.refbuf.flags = 0 := by
  intro tree
  induction tree with
  | nil =>
    intro s s1 h hl
    simp [snapshot_globals] at h
    rw [← h]; exact hl
  | cons stat rest ih =>
    intro s s1 h hl
    simp only [snapshot_globals] at h
    by_cases hm : stat.flags &&& mask = 0
    · simp only [hm, ne_eq, not_true_eq_false, if_false] at h
      exact ih _ _ h hl
    · simp only [hm, ne_eq, not_false_eq_true, if_true] at h
      cases hv : stat.value with
      | none => simp [hv] at h
      | some v =>
        simp only [hv] at h
        cases ha : snapshot_append fuel s (line_EVENT (cstr "global") stat.name v) with
        | none => simp [ha] at h
        | some s2 =>
          simp only [ha] at h
          exact ih _ _ h (snapshot_append_flags _ _ _ _ ha hl)

theorem snapshot_new_flags (fuel mask : Nat) :
    ∀ (tree : List stats_source_t) (s s1 : snapshot_t),
      snapshot_new fuel mask tree s = some s1 →
      ((∀ r ∈ s.biglist, r.flags = 0) ∧ s.refbuf.flags = 0) →
      (∀ r ∈ s1.biglist, r.flags = 0) ∧ s1.refbuf.flags = 0 := by
  intro tree
  induction tree with
  | nil =>
    intro s s1 h hl
    simp [snapshot_new] at h
    rw [← h]; exact hl
  | cons snode rest ih =>
    intro s s1 h hl
    simp only [snapshot_new] at h
    by_cases hm : snode.flags &&& mask = 0
    · simp only [hm, ne_eq, not_true_eq_false, if_false] at h
      exact ih _ _ h hl
    · simp only [hm, ne_eq, not_false_eq_true, if_true] at h
      cases hv : source_type snode with
      | none => simp [hv] at h
      | some v =>
        simp only [hv] at h
        cases ha : snapshot_append fuel s (line_NEW v snode.source) with
        | none => simp [ha] at h
        | some s2 =>
          simp only [ha] at h
          exact ih _ _ h (snapshot_append_flags _ _ _ _ ha hl)

theorem snapshot_children_flags (fuel mask : Nat) (mount : CStr) :
    ∀ (children : List stats_node_t) (md : Option stats_node_t) (s : snapshot_t)
      (res : snapshot_t × Option stats_node_t),
      snapshot_children fuel mask mount children md s = some res →
      ((∀ r ∈ s.biglist, r.flags = 0) ∧ s.refbuf.flags = 0) →
      (∀ r ∈ res.1.biglist, r.flags = 0) ∧ res.1.refbuf.flags = 0 := by
  intro children
  induction children with
  | nil =>
    intro md s res h hl
    simp [snapshot_children] at h
    rw [← h]; exact hl
  | cons stat rest ih =>
    intro md s res h hl
    simp only [snapshot_children] at h
    by_cases hm : stat.flags &&& mask = 0
    · simp only [hm, ne_eq, not_true_eq_false, if_false] at h
      exact ih _ _ _ h hl
    · simp only [hm, ne_eq, not_false_eq_true, if_true] at h
      by_cases hn : strcmp stat.name (cstr "metadata_updated") = 0
      · simp only [hn, if_true] at h
        exact ih _ _ _ h hl
      · simp only [hn, if_false] at h
        cases hv : stat.value with
        | none => simp [hv] at h
        | some v =>
          simp only [hv] at h
          cases ha : snapshot_append fuel s (line_EVENT mount stat.name v) with
          | none => simp [ha] at h
          | some s2 =>
            simp only [ha] at h
            exact ih _ _ _ h (snapshot_append_flags _ _ _ _ ha hl)

theorem snapshot_stats_flags (fuel mask : Nat) :
    ∀ (tree : List stats_source_t) (s s1 : snapshot_t),
      snapshot_stats fuel mask tree s = some s1 →
      ((∀ r ∈ s.biglist, r.flags = 0) ∧ s.refbuf.flags = 0) →
      (∀ r ∈ s1.biglist, r.flags = 0) ∧ s1.refbuf.flags = 0 := by
  intro tree
  induction tree with
  | nil =>
    intro s s1 h hl
    simp [snapshot_stats] at h
    rw [← h]; exact hl
  | cons snode rest ih =>
    intro s s1 h hl
    simp only [snapshot_stats] at h
    by_cases hm : snode.flags &&& mask = 0
    · simp only [hm, ne_eq, not_true_eq_false, if_false] at h
      exact ih _ _ h hl
    · simp only [hm, ne_eq, not_false_eq_true, if_true] at h
      cases hc : snapshot_children fuel mask snode.source snode.stats_tree none s with
      | none => simp [hc] at h
      | some res =>
        obtain ⟨s2, md⟩ := res
        have h2 := snapshot_children_flags fuel mask _ _ _ _ _ hc hl
        simp only [hc] at h
        cases md with
        | none => exact ih _ _ h h2
        | some metadata_stat =>
          simp only at h
          cases hv : metadata_stat.value with
          | none => simp [hv] at h
          | some v =>
            simp only [hv] at h
            cases ha : snapshot_append fuel s2 (line_EVENT snode.source metadata_stat.name v) with
            | none => simp [ha] at h
            | some s3 =>
              simp only [ha] at h
              exact ih _ _ h (snapshot_append_flags _ _ _ _ ha h2)

/-- The frames `_register_listener` builds carry no flag. -/
theorem register_snapshot_flags (fuel : Nat) (st : stats_t) (mask : Nat) (snap : snapshot_t)
    (h : register_snapshot fuel st mask = some snap) : ∀ r ∈ snap.biglist, r.flags = 0 := by
  simp only [register_snapshot] at h
  cases h1 : snapshot_globals fuel mask st.global_tree snapshot_start with
  | none => simp [h1] at h
  | some s1 =>
    simp only [h1] at h
    cases h2 : snapshot_sources fuel mask st.source_tree s1 with
    | none => simp [h2] at h
    | some s2 =>
      simp only [h2, Option.some.injEq] at h
      subst h
      have h0 : (∀ r ∈ snapshot_start.biglist, r.flags = 0) ∧ snapshot_start.refbuf.flags = 0 := by
        refine ⟨by simp [snapshot_start], ?_⟩
        simp only [snapshot_start, refbuf_append, refbuf_appendv]
        split <;> rfl
      have hg := snapshot_globals_flags fuel mask _ _ _ h1 h0
      simp only [snapshot_sources] at h2
      cases h3 : snapshot_new fuel mask st.source_tree s1 with
      | none => simp [h3] at h2
      | some s3 =>
        simp only [h3] at h2
        cases h4 : snapshot_append fuel s3 line_INFO with
        | none => simp [h4] at h2
        | some s4 =>
          simp only [h4] at h2
          have hs := snapshot_stats_flags fuel mask _ _ _ h2
            (snapshot_append_flags _ _ _ _ h4 (snapshot_new_flags fuel mask _ _ _ h3 hg))
          unfold snapshot_finish
          split
          · intro r hr
            simp only [List.mem_append, List.mem_singleton] at hr
            rcases hr with hr | hr
            · exact hs.1 r hr
            · rw [hr]; exact hs.2
          · exact hs.1

theorem add_node_flags (l : event_listener_t) (r0 : refbuf_t) (h0 : r0.flags = 0)
    (h : ∀ r ∈ l.client.refbuf, r.flags = 0) :
    ∀ r ∈ (_add_node_to_stats_client l r0).client.refbuf, r.flags = 0 := by
  unfold _add_node_to_stats_client
  split
  · split
    · intro r hr
      simp only [List.mem_append, List.mem_singleton] at hr
      rcases hr with hr | hr
      · exact h r (List.mem_of_mem_take hr)
      · rw [hr]; exact h0
    · intro r hr
      simp only [List.mem_singleton] at hr
      rw [hr]; exact h0
  · exact h

theorem add_stats_new_block_flags (l : event_listener_t) (line : CStr)
    (h : ∀ r ∈ l.client.refbuf, r.flags = 0) :
    ∀ r ∈ (add_stats_new_block l line).client.refbuf, r.flags = 0 := by
  unfold add_stats_new_block
  simp only
  split
  · exact h
  · apply add_node_flags _ _ _ h
    simp only [refbuf_appendv, refbuf_new]
    split <;> rfl

/-- The delivery of a line leaves the frames of a subscriber without a flag. -/
theorem add_stats_flags (l : event_listener_t) (line : CStr)
    (h : ∀ r ∈ l.client.refbuf, r.flags = 0) :
    ∀ r ∈ (_add_stats_to_stats_client l line).client.refbuf, r.flags = 0 := by
  unfold _add_stats_to_stats_client
  split
  · exact h
  · split
    · exact h
    · split
      · rename_i i r0 hrf
        split
        · simp only
          split
          · intro r hr
            rcases List.mem_or_eq_of_mem_set hr with hr | hr
            · exact h r hr
            · rw [hr]
              have hr0 : r0 ∈ l.client.refbuf := by
                unfold recent_frame at hrf
                split at hrf
                · simp at hrf
                · split at hrf
                  · simp at hrf
                  · rename_i hget
                    simp only [Option.some.injEq, Prod.mk.injEq] at hrf
                    rw [← hrf.2]
                    exact List.get?_mem hget
              have := h r0 hr0
              simp only [refbuf_appendv]
              split <;> exact this
          · exact add_stats_new_block_flags l line h
        · exact add_stats_new_block_flags l line h
      · exact add_stats_new_block_flags l line h

/-- C30: a send pass on a subscriber held by a worker whose first frame is not flagged
`STATS_BLOCK_CONNECTION`. With more than 2000000 bytes queued and a connection of more than
60 seconds the pass returns -1 and leaves the subscriber as it is, no byte written and no
frame released. With a sound queue of any size, the error flag clear, the server running
and a connection of 60 seconds or less the pass returns; it returns 0, unless a write
meets a socket error, which sets the error flag and makes it return -1: the size of the
queue does not make it negative. No frame of a subscriber is flagged: the frames the
delivery of a line leaves and the frames the registration builds carry no flag. -/
theorem soft_cap (running : Bool) (sock : Nat → Int) (l : event_listener_t)
    (hw : l.client.worker = true)
    (hf : ∀ r rest, l.client.refbuf = r :: rest → r.flags &&& STATS_BLOCK_CONNECTION = 0) :
    (l.content_len > 2000000 → l.client.current_time - l.client.con_time > 60 →
        stats_listeners_send running sock l = some (l, -1))
      ∧ (queue_ok l → l.client.error = 0 → running = true →
          l.client.current_time - l.client.con_time ≤ 60 →
          ∃ l1 ret, stats_listeners_send running sock l = some (l1, ret)
            ∧ (ret = 0 ∨ (ret = -1 ∧ l1.client.error = 1 ∧ ∃ j, sock j < 0))
            ∧ ((∀ j, 0 ≤ sock j) → ret = 0))
      ∧ (∀ (l0 : event_listener_t) (line : CStr), (∀ r ∈ l0.client.refbuf, r.flags = 0) →
          ∀ r ∈ (_add_stats_to_stats_client l0 line).client.refbuf, r.flags = 0)
      ∧ (∀ fuel st mask snap, register_snapshot fuel st mask = some snap →
          ∀ r ∈ snap.biglist, r.flags = 0) := by
  have hb : (match l.client.refbuf with
      | [] => false
      | refbuf :: _ => decide (refbuf.flags &&& STATS_BLOCK_CONNECTION ≠ 0)) = false := by
    cases hq : l.client.refbuf with
    | nil => rfl
    | cons r rest => simp [hf r rest hq]
  have hnw : ¬ (l.client.worker = false) := by rw [hw]; decide
  refine ⟨?_, ?_, add_stats_flags, register_snapshot_flags⟩
  · intro hc ha
    by_cases herr : l.client.error ≠ 0 ∨ running = false
    · unfold stats_listeners_send
      simp only
      rw [if_pos herr]
    · unfold stats_listeners_send
      simp only
      rw [if_neg herr, if_neg hnw, if_pos ⟨hb, hc, ha⟩]
  · intro hq he hr hage
    have herr : ¬ (l.client.error ≠ 0 ∨ running = false) := by simp [he, hr]
    obtain ⟨res, e, _⟩ := stats_listeners_send_ok running sock l hq hw
    obtain ⟨l1, ret⟩ := res
    refine ⟨l1, ret, e, ?_⟩
    unfold stats_listeners_send at e
    simp only at e
    rw [if_neg herr, if_neg hnw] at e
    have hlt : ¬ (l.client.current_time - l.client.con_time > 60) := by omega
    simp only [hlt, and_false, if_false] at e
    split at e
    · simp at e
    · rename_i listener1 heq
      have e2 := stats_send_loop_error sock _ _ _ _ _ heq
      simp only at e2
      by_cases h1 : listener1.client.error = 0
      · have herr1 : ¬ (listener1.client.error ≠ 0 ∨ running = false) := by simp [h1, hr]
        rw [if_neg herr1] at e
        simp only [Option.some.injEq, Prod.mk.injEq] at e
        exact ⟨Or.inl e.2.symm, fun _ => e.2.symm⟩
      · have herr1 : listener1.client.error ≠ 0 ∨ running = false := Or.inl h1
        rw [if_pos herr1] at e
        simp only [Option.some.injEq, Prod.mk.injEq] at e
        rcases e2 with e2 | ⟨e2, j, hj⟩
        · rw [e2] at h1
          exact absurd he h1
        · refine ⟨Or.inr ⟨e.2.symm, by rw [← e.1]; exact e2, j, hj⟩, ?_⟩
          intro hall
          have := hall j
          omega

/-- C30, at concrete inputs: the subscriber with 2048000 bytes queued, connected for 100
seconds, is stopped; the subscriber with one frame of 100 bytes, just connected, is not,
and a socket error makes its pass return -1. -/
theorem soft_cap_witness :
    stats_listeners_send true (fun _ => 0) (listener_slow 0) = some (listener_slow 0, -1)
      ∧ (stats_listeners_send true (fun _ => 100) listener_one_frame).map (fun res => res.2)
        = some 0
      ∧ (stats_listeners_send true (fun _ => -1) listener_one_frame).map (fun res => res.2)
        = some (-1) :=
  ⟨(soft_cap true (fun _ => 0) (listener_slow 0) rfl
      (fun r rest h => by
        simp only [listener_slow, client0, List.cons.injEq] at h
        rw [← h.1]
        rfl)).1 (by decide) (by decide),
    by decide, by decide⟩

theorem get_value_of_node_at (st : stats_t) (m : Option CStr) (n v : CStr)
    (node : stats_node_t) (h : node_at st m n = some node) (hv : node.value = some v) :
    stats_get_value st m (some n) = some (some v) := by
  unfold stats_get_value _get_stats
  cases m with
  | none =>
    simp only [node_at] at h
    simp [h, dup_value, hv]
  | some mount =>
    simp only [node_at] at h
    cases hs : avl_find stats_source_t.source mount st.source_tree with
    | none => simp [hs] at h
    | some src =>
      simp only [hs] at h
      simp [hs, h, dup_value, hv]

/-- C29: for every state, scope `m` and name `n`: when `n` has no node in `m`,
`stats_event_dec (m, n)` returns and the value read back is `0`; when the node exists and
its value stands for the integer `a`, with `a - 1` in the range of `int64_t`,
`stats_event_dec (m, n)` returns and the value read back is the decimal text of `a - 1`. -/
theorem dec_fresh_or_existing (K : stats_flags) (st : stats_t) (m : Option CStr) (n : CStr) :
    (node_at st m n = none →
        ∃ st1, stats_event_dec K st m (some n) = some st1
          ∧ stats_get_value st1 m (some n) = some (some (cstr "0")))
      ∧ (∀ node s a, node_at st m n = some node → node.value = some s → reads_as s a →
          in_int64 (a - 1) →
          ∃ st1, stats_event_dec K st m (some n) = some st1
            ∧ stats_get_value st1 m (some n) = some (some (itoa (a - 1)))) := by
  constructor
  · intro h
    obtain ⟨st1, node, e1, e2, e3⟩ := process_event_create K st
      { build_event K m (some n) (some (cstr "0")) with action := STATS_EVENT_DEC }
      m n (cstr "0") rfl rfl rfl (by simp only; decide) h
    exact ⟨st1, e1, get_value_of_node_at st1 m n _ node e2 e3⟩
  · intro node s a hnode hs ha hr
    have hat := atoll_reads_as s a ha
    have hmod := modify_node_event_arith K node
      { build_event K m (some n) (some (cstr "0")) with action := STATS_EVENT_DEC } (a - 1)
      (by simp only; decide) (by simp only; decide)
      (by simp [modify_value, atoll_ptr, hs, hat, wrap64_id _ hr, STATS_EVENT_DEC,
        STATS_EVENT_INC])
    exact process_event_get K st
      { build_event K m (some n) (some (cstr "0")) with action := STATS_EVENT_DEC }
      m n (itoa (a - 1)) node _ rfl rfl (by simp only; decide) hnode hmod rfl rfl

/-- C29, at a concrete input: `stats_event_dec` on the missing global `x` of the empty store
and on the counter `clients` at 41. -/
theorem dec_fresh_or_existing_witness :
    (∃ st1, stats_event_dec flags0 stats_empty none (some (cstr "x")) = some st1
        ∧ stats_get_value st1 none (some (cstr "x")) = some (some (cstr "0")))
      ∧ ∃ st1, stats_event_dec flags0 stats_counter none (some (cstr "clients")) = some st1
        ∧ stats_get_value st1 none (some (cstr "clients")) = some (some (itoa (41 - 1))) :=
  ⟨(dec_fresh_or_existing flags0 stats_empty none (cstr "x")).1 rfl,
    (dec_fresh_or_existing flags0 stats_counter none (cstr "clients")).2
      { name := cstr "clients", value := some (cstr "41"), last_reported := 0, flags := 24 }
      (cstr "41") 41 rfl rfl (Or.inl ⟨by decide, by unfold in_int64; decide⟩)
      (by unfold in_int64; decide)⟩

theorem metadata_child_spec (mask : Nat) :
    ∀ (children : List stats_node_t) (md : Option stats_node_t) (m : stats_node_t),
      metadata_child mask children md = some m →
      md = some m ∨ (m ∈ children ∧ m.flags &&& mask ≠ 0
        ∧ m.name = cstr "metadata_updated") := by
  intro children
  induction children with
  | nil => intro md m h; exact Or.inl (by simpa [metadata_child] using h)
  | cons c rest ih =>
    intro md m h
    simp only [metadata_child, List.foldl_cons] at h
    rcases ih _ m h with h1 | h1
    · split at h1
      · rename_i hc
        simp at h1
        subst h1
        exact Or.inr ⟨List.mem_cons_self _ _, hc.1, (strcmp_eq_zero _ _).1 hc.2⟩
      · exact Or.inl h1
    · exact Or.inr ⟨List.mem_cons_of_mem _ h1.1, h1.2⟩

theorem metadata_child_some (mask : Nat) :
    ∀ (children : List stats_node_t) (x : stats_node_t),
      ∃ m, metadata_child mask children (some x) = some m := by
  intro children
  induction children with
  | nil => intro x; exact ⟨x, rfl⟩
  | cons c rest ih =>
    intro x
    simp only [metadata_child, List.foldl_cons]
    split
    · exact ih c
    · exact ih x

theorem metadata_child_exists (mask : Nat) :
    ∀ (children : List stats_node_t) (md : Option stats_node_t),
      (∃ c ∈ children, c.flags &&& mask ≠ 0 ∧ c.name = cstr "metadata_updated") →
      ∃ m, metadata_child mask children md = some m := by
  intro children
  induction children with
  | nil => intro md h; obtain ⟨c, hc, _⟩ := h; simp at hc
  | cons c rest ih =>
    intro md h
    obtain ⟨d, hd, h1, h2⟩ := h
    simp only [metadata_child, List.foldl_cons]
    rcases List.mem_cons.1 hd with e | e
    · subst e
      have : d.flags &&& mask ≠ 0 ∧ strcmp d.name (cstr "metadata_updated") = 0 :=
        ⟨h1, (strcmp_eq_zero _ _).2 h2⟩
      rw [if_pos this]
      exact metadata_child_some mask rest d
    · exact ih _ ⟨d, e, h1, h2⟩

/-- C27: on every store in which each selected stat has a value and each line of the
snapshot fits a frame of 8192 bytes, the build of the snapshot returns and its bytes are
the header, the lines of the globals, the `NEW` lines, the line `INFO full list end` and
then, source by source in tree order, the lines of each selected source; and for every
source with a selected child named `metadata_updated`, the lines of that source are the
`EVENT` lines of its selected children with another name, in tree order, followed by the
line `EVENT <mount> metadata_updated <value>` of such a child, which is the last line of the
source. -/
theorem metadata_updated_last (fuel : Nat) (st : stats_t) (mask : Nat)
    (hg : ∀ g ∈ st.global_tree, g.flags &&& mask ≠ 0 →
      ∃ v, g.value = some v ∧ (line_EVENT (cstr "global") g.name v).length ≤ 8192)
    (hn : ∀ g ∈ st.source_tree, g.flags &&& mask ≠ 0 →
      ∃ t, source_type g = some t ∧ (line_NEW t g.source).length ≤ 8192)
    (hc : ∀ g ∈ st.source_tree, g.flags &&& mask ≠ 0 → ∀ c ∈ g.stats_tree,
      c.flags &&& mask ≠ 0 →
      ∃ v, c.value = some v ∧ (line_EVENT g.source c.name v).length ≤ 8192) :
    (∃ snap, register_snapshot (fuel + 2) st mask = some snap
        ∧ queue_bytes snap.biglist
          = snapshot_header ++ (global_lines mask st.global_tree).flatten
              ++ (new_lines mask st.source_tree).flatten ++ line_INFO
              ++ (((st.source_tree.filter fun s => decide (s.flags &&& mask ≠ 0)).map
                    (source_lines mask)).flatten).flatten)
      ∧ ∀ src ∈ st.source_tree, src.flags &&& mask ≠ 0 →
          (∃ c ∈ src.stats_tree,
              c.flags &&& mask ≠ 0 ∧ c.name = cstr "metadata_updated") →
          ∃ m v, m ∈ src.stats_tree ∧ m.flags &&& mask ≠ 0
            ∧ m.name = cstr "metadata_updated" ∧ m.value = some v
            ∧ source_lines mask src
              = ((src.stats_tree.filter fun c =>
                    decide (c.flags &&& mask ≠ 0)
                      && decide (strcmp c.name (cstr "metadata_updated") ≠ 0)).map
                  fun c => line_EVENT src.source c.name (c.value.getD []))
                ++ [line_EVENT src.source (cstr "metadata_updated") v] := by
  refine ⟨register_snapshot_total fuel st mask hg hn hc, ?_⟩
  intro src hsrc hsel hex
  obtain ⟨m, hm⟩ := metadata_child_exists mask src.stats_tree none hex
  rcases metadata_child_spec mask _ _ _ hm with h | ⟨h1, h2, h3⟩
  · simp at h
  · obtain ⟨v, hv, _⟩ := hc src hsrc hsel m h1 h2
    refine ⟨m, v, h1, h2, h3, hv, ?_⟩
    simp only [source_lines, child_lines, hm, Option.toList, List.map_cons, List.map_nil, h3,
      hv, Option.getD_some]

/-- C27, at a concrete input: the source `/a` with the children `artist`,
`metadata_updated` and `title`. -/
theorem metadata_updated_last_witness :
    (∃ snap, register_snapshot 2 stats_metadata 2 = some snap
        ∧ queue_bytes snap.biglist
          = snapshot_header ++ cstr "NEW audio/mpeg /a\nINFO full list end\n"
            ++ cstr "EVENT /a artist x\nEVENT /a title y\nEVENT /a metadata_updated now\n")
      ∧ ∃ m v, m ∈ source_metadata.stats_tree ∧ m.flags &&& 2 ≠ 0
          ∧ m.name = cstr "metadata_updated" ∧ m.value = some v
          ∧ source_lines 2 source_metadata
            = [cstr "EVENT /a artist x\n", cstr "EVENT /a title y\n"]
              ++ [line_EVENT (cstr "/a") (cstr "metadata_updated") v] :=
  have h := metadata_updated_last 0 stats_metadata 2 (by decide) (by decide) (by decide)
  ⟨h.1, h.2 source_metadata (by decide) (by decide)
    ⟨{ name := cstr "metadata_updated", value := some (cstr "now"), last_reported := 0,
       flags := 14 }, by decide, by decide, rfl⟩⟩

theorem modify_node_event_value (K : stats_flags) (node node1 : stats_node_t)
    (event : stats_event_t) (h : modify_node_event K node event = some node1)
    (hv : node.value.isSome = true) : node1.value.isSome = true := by
  rcases modify_node_event_cases K node node1 event h with e | ⟨v, e⟩
  · rw [e, (modify_node_flags_fields node event).1]; exact hv
  · rw [e]; rfl

theorem global_event_report_trees (K : stats_flags) (st st1 : stats_t)
    (tree : List stats_node_t) (node : stats_node_t)
    (h : global_event_report K st tree node = some st1) :
    st1.global_tree = tree ∧ st1.source_tree = st.source_tree := by
  unfold global_event_report at h
  split at h
  · split at h
    · simp at h
    · simp at h; subst h; exact ⟨rfl, rfl⟩
  · simp at h; subst h; exact ⟨rfl, rfl⟩

theorem values_ok_store_source (st : stats_t) (src : stats_source_t)
    (ls : List event_listener_t) (h : values_ok st) (hs : source_values_ok src) :
    values_ok (store_source st src ls) := by
  refine ⟨h.1, ?_⟩
  intro x hx
  rcases mem_avl_store stats_source_t.source hx with h1 | h1
  · rw [h1]; exact hs
  · exact h.2 x h1

theorem values_ok_delete_source (K : stats_flags) (st : stats_t) (src : stats_source_t)
    (h : values_ok st) : values_ok (delete_source K st src) :=
  ⟨h.1, fun x hx => h.2 x (mem_avl_delete stats_source_t.source hx)⟩

theorem values_ok_insert (st : stats_t) (src : stats_source_t) (h : values_ok st)
    (hs : source_values_ok src) :
    values_ok { st with source_tree := avl_insert stats_source_t.source src st.source_tree } := by
  refine ⟨h.1, ?_⟩
  intro x hx
  rcases mem_avl_insert stats_source_t.source hx with h1 | h1
  · rw [h1]; exact hs
  · exact h.2 x h1

theorem values_ok_listeners (st : stats_t) (ls : List event_listener_t) (h : values_ok st) :
    values_ok { st with event_listeners := ls } := h

theorem process_global_event_values (K : stats_flags) (st st1 : stats_t)
    (event : stats_event_t) (h : values_ok st)
    (hr : process_global_event K st event = some st1) : values_ok st1 := by
  have hs := process_global_event_source_tree K st st1 event hr
  refine ⟨?_, by rw [hs]; exact h.2⟩
  unfold process_global_event at hr
  split at hr
  · split at hr
    · simp at hr; subst hr
      exact fun g hg => h.1 g (mem_avl_delete stats_node_t.name hg)
    · simp at hr; subst hr; exact h.1
    · simp at hr
  · split at hr
    · simp at hr
    · rename_i node hf
      split at hr
      · simp at hr
      · rename_i node1 hm
        obtain ⟨e, _⟩ := global_event_report_trees K st st1 _ _ hr
        rw [e]
        intro g hg
        have hnode : node ∈ st.global_tree := by
          cases hname : event.name with
          | none =>
            cases ht : st.global_tree with
            | nil => simp [ht, _find_node] at hf
            | cons a b => simp [ht, _find_node, hname] at hf
          | some n =>
            simp only [hname, find_node_some, Option.some.injEq] at hf
            exact avl_find_mem stats_node_t.name hf
        rcases mem_avl_store stats_node_t.name hg with h1 | h1
        · rw [h1]; exact modify_node_event_value K node node1 event hm (h.1 node hnode)
        · exact h.1 g h1
    · split at hr
      · obtain ⟨e, _⟩ := global_event_report_trees K st st1 _ _ hr
        rw [e]
        intro g hg
        rcases mem_avl_insert stats_node_t.name hg with h1 | h1
        · rw [h1]; rfl
        · exact h.1 g h1
      · simp at hr

theorem show_children_values (K : stats_flags) (mount : CStr) :
    ∀ (tree tree1 : List stats_node_t) (ls ls1 : List event_listener_t),
      show_children K mount tree ls = some (tree1, ls1) →
      (∀ c ∈ tree, c.value.isSome = true) → ∀ c ∈ tree1, c.value.isSome = true := by
  intro tree
  induction tree with
  | nil => intro tree1 ls ls1 h _; simp [show_children] at h; rw [h.1]; simp
  | cons c rest ih =>
    intro tree1 ls ls1 h hv
    simp only [show_children] at h
    split at h
    · simp at h
    · rename_i v hcv
      split at h
      · simp at h
      · rename_i rest1 ls2 hr
        simp at h
        rw [← h.1]
        intro x hx
        rcases List.mem_cons.1 hx with e | e
        · rw [e]; simp [hcv]
        · exact ih _ _ _ hr (fun y hy => hv y (List.mem_cons_of_mem _ hy)) x e

theorem source_flags_event_values (K : stats_flags) (st st1 : stats_t)
    (src : stats_source_t) (event : stats_event_t) (h : values_ok st)
    (hs : source_values_ok src)
    (hr : source_flags_event K st src event = some st1) : values_ok st1 := by
  rcases source_flags_event_cases K st st1 src event hr with ⟨_, h1⟩
    | ⟨_, _, _, tree, ls, _, hsc, h1⟩ | ⟨_, _, h1⟩
  · rw [h1]; exact h
  · rw [h1]
    apply values_ok_store_source st _ _ h
    exact show_children_values K _ _ _ _ _ hsc hs
  · rw [h1]
    apply values_ok_store_source st _ _ h
    intro c hc
    simp only [hide_children, List.mem_map] at hc
    obtain ⟨a, ha, rfl⟩ := hc
    exact hs a ha

theorem process_source_stat_values (K : stats_flags) (st st1 : stats_t)
    (src : stats_source_t) (event : stats_event_t) (h : values_ok st)
    (hs : source_values_ok src)
    (hr : process_source_stat K st src event = some st1) : values_ok st1 := by
  unfold process_source_stat at hr
  split at hr
  · rename_i name hname
    simp only [hname, find_node_some] at hr
    split at hr
    · simp at hr
    · split at hr
      · split at hr
        · simp only [Option.some.injEq] at hr
          subst hr
          apply values_ok_store_source st _ _ h
          intro c hc
          rcases mem_avl_insert stats_node_t.name hc with h1 | h1
          · rw [h1]; rfl
          · exact hs c h1
        · simp at hr; subst hr; exact h
      · simp at hr; subst hr; exact h
    · rename_i node hfind
      simp only [Option.some.injEq] at hfind
      split at hr
      · simp only [Option.some.injEq] at hr
        subst hr
        apply values_ok_store_source st _ _ h
        exact fun c hc => hs c (mem_avl_delete stats_node_t.name hc)
      · split at hr
        · simp at hr
        · rename_i node1 hm
          split at hr
          · simp at hr
          · simp only [Option.some.injEq] at hr
            subst hr
            apply values_ok_store_source st _ _ h
            intro c hc
            rcases mem_avl_store stats_node_t.name hc with h1 | h1
            · rw [h1]
              exact modify_node_event_value K node node1 event hm
                (hs node (avl_find_mem stats_node_t.name hfind))
            · exact hs c h1
  · split at hr
    · simp at hr; subst hr; exact values_ok_delete_source K st src h
    · split at hr
      · exact source_flags_event_values K st st1 src event h hs hr
      · simp at hr; subst hr; exact h

theorem process_source_found_values (K : stats_flags) (st st1 : stats_t)
    (src : stats_source_t) (event : stats_event_t) (h : values_ok st)
    (hs : source_values_ok src)
    (hr : process_source_found K st src event = some st1) : values_ok st1 := by
  unfold process_source_found at hr
  split at hr
  · split at hr
    · simp at hr
    · simp at hr; subst hr; exact values_ok_delete_source K st src h
    · simp at hr; subst hr; exact h
  · exact process_source_stat_values K st st1 src event h hs hr

theorem source_values_ok_new (K : stats_flags) (m : CStr) (updated : Int) :
    source_values_ok { new_source K m with updated := updated } := by
  intro c hc
  simp [new_source] at hc

theorem process_event_values (K : stats_flags) (st st1 : stats_t) (event : stats_event_t)
    (h : values_ok st) (hr : process_event K st event = some st1) : values_ok st1 := by
  unfold process_event at hr
  split at hr
  · exact process_global_event_values K st st1 event h hr
  · unfold process_source_event at hr
    cases hm : event.source with
    | none =>
      simp only [hm] at hr
      cases ht : st.source_tree with
      | nil => simp [ht, _find_source] at hr
      | cons a b => simp [ht, _find_source] at hr
    | some m =>
      simp only [hm, find_source_some] at hr
      cases hf : avl_find stats_source_t.source m st.source_tree with
      | some src =>
        simp only [hf] at hr
        exact process_source_found_values K st st1 src event h
          (h.2 src (avl_find_mem stats_source_t.source hf)) hr
      | none =>
        simp only [hf] at hr
        split at hr
        · simp at hr; subst hr; exact h
        · exact process_source_found_values K _ st1 (new_source K m) event
            (values_ok_insert st _ h (source_values_ok_new K m 0))
            (source_values_ok_new K m 0) hr

theorem stats_purge_values (K : stats_flags) (fserve_contains : CStr → Int)
    (st : stats_t) (mark : Int) (h : values_ok st) :
    values_ok (stats_purge K fserve_contains st mark) := by
  unfold stats_purge
  generalize st.source_tree = l
  induction l generalizing st with
  | nil => exact h
  | cons a b ih =>
    simp only [List.foldl_cons]
    apply ih
    unfold purge_source
    split
    · split
      · exact values_ok_delete_source K st a h
      · exact h
    · split
      · exact values_ok_delete_source K st a h
      · exact h

theorem stats_handle_values (K : stats_flags) (st : stats_t) (mount : Option CStr)
    (h : values_ok st) : values_ok (stats_handle K st mount).1 := by
  unfold stats_handle
  cases mount with
  | none => exact h
  | some m =>
    simp only
    cases hf : avl_find stats_source_t.source m st.source_tree with
    | some src =>
      simp only
      refine ⟨h.1, ?_⟩
      intro x hx
      rcases mem_avl_store stats_source_t.source hx with h1 | h1
      · rw [h1]; exact h.2 src (avl_find_mem stats_source_t.source hf)
      · exact h.2 x h1
    | none =>
      exact values_ok_insert st _ h (source_values_ok_new K m LONG_MAX)

theorem stats_op_run_values (K : stats_flags) (xmlCheckUTF8 : CStr → Bool)
    (fserve_contains : CStr → Int) (st st1 : stats_t) (op : stats_op) (h : values_ok st)
    (hr : op.run K xmlCheckUTF8 fserve_contains st = some st1) : values_ok st1 := by
  have hsrc : ∀ (hd : CStr) (event : stats_source_t → stats_event_t),
      (match handle_source st hd with
        | none => none
        | some src_stats => process_source_stat K st src_stats (event src_stats)) = some st1 →
      values_ok st1 := by
    intro hd event he
    cases hf : handle_source st hd with
    | none => simp [hf] at he
    | some src =>
      simp only [hf] at he
      exact process_source_stat_values K st st1 src (event src) h
        (h.2 src (avl_find_mem stats_source_t.source hf)) he
  cases op with
  | event source name value =>
    simp only [stats_op.run, stats_event] at hr
    cases value with
    | none => exact process_event_values K st st1 _ h hr
    | some v =>
      simp only at hr
      split at hr
      · simp at hr; subst hr; exact h
      · exact process_event_values K st st1 _ h hr
  | event_flags source name value flags => exact process_event_values K st st1 _ h hr
  | event_inc source name => exact process_event_values K st st1 _ h hr
  | event_dec source name => exact process_event_values K st st1 _ h hr
  | event_add source name value =>
    simp only [stats_op.run, stats_event_add] at hr
    split at hr
    · simp at hr; subst hr; exact h
    · exact process_event_values K st st1 _ h hr
  | event_sub source name value =>
    simp only [stats_op.run, stats_event_sub] at hr
    split at hr
    · simp at hr; subst hr; exact h
    · exact process_event_values K st st1 _ h hr
  | handle mount =>
    simp only [stats_op.run, Option.some.injEq] at hr
    subst hr
    exact stats_handle_values K st mount h
  | set hd name value =>
    simp only [stats_op.run, stats_set] at hr
    cases hd with
    | none => simp at hr; subst hr; exact h
    | some m =>
      exact hsrc m (fun src_stats => build_event K (some src_stats.source) name value) hr
  | set_flags hd name value flags =>
    simp only [stats_op.run, stats_set_flags] at hr
    cases hd with
    | none => simp at hr
    | some m =>
      exact hsrc m (fun src_stats =>
        { build_event K (some src_stats.source) name value with
          flags := flags
          action :=
            if value.isSome then
              (build_event K (some src_stats.source) name value).action ||| STATS_EVENT_HIDDEN
            else STATS_EVENT_HIDDEN }) hr
  | set_inc hd name =>
    simp only [stats_op.run, stats_set_inc] at hr
    cases hd with
    | none => simp at hr; subst hr; exact h
    | some m =>
      exact hsrc m (fun src_stats =>
        { build_event K (some src_stats.source) name (some (cstr "1")) with
          action := STATS_EVENT_INC }) hr
  | flush hd =>
    simp only [stats_op.run, stats_flush] at hr
    cases hd with
    | none => simp at hr; subst hr; exact h
    | some m =>
      simp only at hr
      cases hf : handle_source st m with
      | none => simp [hf] at hr
      | some src =>
        simp only [hf, Option.some.injEq] at hr
        subst hr
        apply values_ok_store_source st _ _ h
        intro c hc
        simp at hc
  | purge mark =>
    simp only [stats_op.run, Option.some.injEq] at hr
    subst hr
    exact stats_purge_values K fserve_contains st mark h

/-- C28: for every state in which every node has a value, the empty store among them, and
every sequence of calls of the inbound API that returns, `stats_event_flags` and
`stats_set_flags` with a null value included, every node of the global map and of each
child map of the state reached has a value that is not null. -/
theorem values_never_null (K : stats_flags) (xmlCheckUTF8 : CStr → Bool)
    (fserve_contains : CStr → Int) (ops : List stats_op) (st0 st : stats_t)
    (h0 : values_ok st0)
    (hr : run_ops K xmlCheckUTF8 fserve_contains st0 ops = some st) :
    values_ok st ∧ values_ok stats_empty := by
  refine ⟨?_,
    ⟨fun g hg => by simp [stats_empty] at hg, fun s hs => by simp [stats_empty] at hs⟩⟩
  induction ops generalizing st0 with
  | nil => simp [run_ops] at hr; subst hr; exact h0
  | cons op ops ih =>
    simp only [run_ops] at hr
    cases hop : op.run K xmlCheckUTF8 fserve_contains st0 with
    | none => simp [hop] at hr
    | some st1 =>
      simp only [hop] at hr
      exact ih st1 (stats_op_run_values K xmlCheckUTF8 fserve_contains st0 st1 op h0 hop) hr

/-- C28, at a concrete input: a global and a child are set and then given new flags with a
null value; they keep their values. -/
theorem values_never_null_witness :
    ∃ st, run_ops flags0 (fun _ => true) (fun _ => 0) stats_empty ops_null_flags = some st
      ∧ values_ok st
      ∧ stats_get_value st none (some (cstr "x")) = some (some (cstr "1"))
      ∧ stats_get_value st (some (cstr "/a")) (some (cstr "t")) = some (some (cstr "v")) :=
  ⟨_, rfl,
    (values_never_null flags0 (fun _ => true) (fun _ => 0) ops_null_flags stats_empty _
      ⟨fun g hg => by simp [stats_empty] at hg, fun s hs => by simp [stats_empty] at hs⟩ rfl).1,
    by decide, by decide⟩

theorem avl_find_store_other {α : Type} (key : α → CStr) (n n1 : CStr) (x : α) (l : List α)
    (hx : key x = n) (hne : n1 ≠ n) :
    avl_find key n1 (avl_store key n x l) = avl_find key n1 l := by
  induction l with
  | nil => rfl
  | cons y ys ih =>
    simp only [avl_store]
    split
    · rename_i h0
      have hy : key y = n := ((strcmp_eq_zero _ _).1 h0).symm
      have h1 : ¬ strcmp n1 n = 0 := fun h => hne ((strcmp_eq_zero _ _).1 h)
      simp only [avl_find, hx, hy, h1, if_false]
    · simp only [avl_find, ih]

theorem avl_find_delete_other {α : Type} (key : α → CStr) (n n1 : CStr) (l : List α)
    (hne : n1 ≠ n) : avl_find key n1 (avl_delete key n l) = avl_find key n1 l := by
  induction l with
  | nil => rfl
  | cons y ys ih =>
    simp only [avl_delete]
    split
    · rename_i h0
      have hy : key y = n := ((strcmp_eq_zero _ _).1 h0).symm
      have h1 : ¬ strcmp n1 n = 0 := fun h => hne ((strcmp_eq_zero _ _).1 h)
      simp only [avl_find, hy, h1, if_false]
    · simp only [avl_find, ih]

theorem map_avl_store_same {α β : Type} (key : α → CStr) (f : α → β) (n : CStr) (x y : α)
    (l : List α) (h : avl_find key n l = some y) (hf : f x = f y) :
    (avl_store key n x l).map f = l.map f := by
  induction l with
  | nil => rfl
  | cons z zs ih =>
    simp only [avl_find] at h
    simp only [avl_store]
    split
    · rename_i h0
      simp only [h0, if_true, Option.some.injEq] at h
      simp [hf, h]
    · rename_i h0
      simp only [h0, if_false] at h
      simp [ih h]

theorem remove_global (K : stats_flags) (st : stats_t) (ev : stats_event_t) (n : CStr)
    (node : stats_node_t) (hs : ev.source = none) (hn : ev.name = some n)
    (ha : ev.action = STATS_EVENT_REMOVE)
    (hf : avl_find stats_node_t.name n st.global_tree = some node) :
    process_event K st ev
      = some { st with
          global_tree := avl_delete stats_node_t.name n st.global_tree
          event_listeners :=
            stats_listener_send K node.flags (line_DELETE_node (cstr "global") n)
              st.event_listeners } := by
  have hk := avl_find_key stats_node_t.name hf
  simp only [process_event, hs, if_true, process_global_event, ha, hn, find_node_some, hf, hk]

theorem remove_child (K : stats_flags) (st : stats_t) (ev : stats_event_t) (m n : CStr)
    (src : stats_source_t) (node : stats_node_t) (hs : ev.source = some m)
    (hn : ev.name = some n) (ha : ev.action = STATS_EVENT_REMOVE)
    (hsrc : avl_find stats_source_t.source m st.source_tree = some src)
    (hf : avl_find stats_node_t.name n src.stats_tree = some node) :
    process_event K st ev
      = some (store_source st
          { src with stats_tree := avl_delete stats_node_t.name n src.stats_tree }
          (stats_listener_send K node.flags (line_DELETE_node m n) st.event_listeners)) := by
  have hk := avl_find_key stats_node_t.name hf
  have hm := avl_find_key stats_source_t.source hsrc
  have h1 : ¬ (ev.source = none) := by simp [hs]
  have h2 : ¬ (ev.action = STATS_EVENT_REMOVE ∧ ev.name = none) := by simp [hn]
  simp only [process_event, h1, if_false, process_source_event, hs, find_source_some, hsrc,
    process_source_found, h2, process_source_stat, hn, find_node_some, hf, ha, if_true, hk, hm]
  simp

theorem remove_missing (K : stats_flags) (st : stats_t) (ev : stats_event_t)
    (s : Option CStr) (n : CStr) (hs : ev.source = s) (hn : ev.name = some n)
    (ha : ev.action = STATS_EVENT_REMOVE) (h : node_at st s n = none) :
    process_event K st ev = some st := by
  cases s with
  | none =>
    simp only [node_at] at h
    simp only [process_event, hs, if_true, process_global_event, ha, hn, find_node_some, h]
  | some m =>
    have h1 : ¬ (ev.source = none) := by simp [hs]
    have h2 : ¬ (ev.action = STATS_EVENT_REMOVE ∧ ev.name = none) := by simp [hn]
    simp only [node_at] at h
    cases hsrc : avl_find stats_source_t.source m st.source_tree with
    | none =>
      simp only [process_event, h1, if_false, process_source_event, hs, find_source_some, hsrc,
        ha, if_true]
      simp
    | some src =>
      simp only [hsrc] at h
      simp only [process_event, h1, if_false, process_source_event, hs, find_source_some, hsrc,
        process_source_found, h2, process_source_stat, hn, find_node_some, h, ha]
      cases ev.value <;> simp

/-- The state after an event REMOVE for a node: the node is gone, one line `DELETE` has gone
to `stats_listener_send`, and the rest is as before; without the node the state is as
before. -/
theorem remove_event_state (K : stats_flags) (st : stats_t) (ev : stats_event_t) (s : Option CStr)
    (n : CStr) (hs : ev.source = s) (hn : ev.name = some n)
    (ha : ev.action = STATS_EVENT_REMOVE) :
    (∀ node, node_at st s n = some node →
        ((scope_tree st s).map stats_node_t.name).Nodup →
        ∃ st1, process_event K st ev = some st1
          ∧ st1.event_listeners
            = stats_listener_send K node.flags (line_DELETE_node (scope_text s) n)
                st.event_listeners
          ∧ stats_get_value st1 s (some n) = some none
          ∧ (∀ s1 n1, s1 ≠ s ∨ n1 ≠ n → node_at st1 s1 n1 = node_at st s1 n1)
          ∧ st1.source_tree.map (fun x => (x.source, x.flags, x.updated))
            = st.source_tree.map (fun x => (x.source, x.flags, x.updated)))
      ∧ (node_at st s n = none → process_event K st ev = some st) := by
  refine ⟨?_, remove_missing K st ev s n hs hn ha⟩
  intro node hnode hnd
  cases s with
  | none =>
    simp only [node_at] at hnode
    simp only [scope_tree] at hnd
    refine ⟨_, remove_global K st ev n node hs hn ha hnode, rfl, ?_, ?_, rfl⟩
    · simp only [stats_get_value, _get_stats, find_node_some,
        avl_find_delete_self stats_node_t.name n st.global_tree hnd, dup_value]
    · intro s1 n1 hne
      cases s1 with
      | none =>
        simp only [node_at]
        exact avl_find_delete_other stats_node_t.name n n1 _ (by simpa using hne)
      | some m1 => rfl
  | some m =>
    simp only [node_at] at hnode
    cases hsrc : avl_find stats_source_t.source m st.source_tree with
    | none => simp [hsrc] at hnode
    | some src =>
      simp only [hsrc] at hnode
      simp only [scope_tree, hsrc] at hnd
      have hm := avl_find_key stats_source_t.source hsrc
      subst hm
      have hfind : avl_find stats_source_t.source src.source
          (avl_store stats_source_t.source src.source
            { src with stats_tree := avl_delete stats_node_t.name n src.stats_tree }
            st.source_tree)
          = some { src with stats_tree := avl_delete stats_node_t.name n src.stats_tree } :=
        avl_find_store_self stats_source_t.source hsrc rfl
      refine ⟨_, remove_child K st ev src.source n src node hs hn ha hsrc hnode, rfl,
        ?_, ?_, ?_⟩
      · simp only [stats_get_value, _get_stats, find_source_some, store_source, hfind,
          find_node_some, avl_find_delete_self stats_node_t.name n src.stats_tree hnd,
          dup_value]
      · intro s1 n1 hne
        cases s1 with
        | none => rfl
        | some m1 =>
          simp only [node_at, store_source]
          by_cases hmm : m1 = src.source
          · subst hmm
            have hn1 : n1 ≠ n := by
              rcases hne with h | h
              · exact absurd rfl h
              · exact h
            simp only [hfind, hsrc]
            exact avl_find_delete_other stats_node_t.name n n1 _ hn1
          · rw [avl_find_store_other stats_source_t.source src.source m1
              { src with stats_tree := avl_delete stats_node_t.name n src.stats_tree } _ rfl hmm]
      · simp only [store_source]
        exact map_avl_store_same stats_source_t.source _ _ _ src _ hsrc rfl

/-- C23: for every state and every event REMOVE for the scope `s` (null for the global
store, a mount otherwise) and the name `n`: when the node exists, the names of its scope
being distinct, the event returns; the subscribers are those of one broadcast of the line
`DELETE <s> <n>` with the flags of the node: a subscriber these flags do not select is as
before, and a selected subscriber with a worker, a sound tail reference and room under the
hard cap holds its old bytes followed by the one line, when the line fits a frame; the
value of `(s, n)` then reads as null; every other node of every scope is as before, and the
sources keep their mounts, flags and expiries; when the node, or its source, does not
exist, the event returns and the state, subscribers included, is as before. -/
theorem remove_event (K : stats_flags) (st : stats_t) (ev : stats_event_t) (s : Option CStr)
    (n : CStr) (hs : ev.source = s) (hn : ev.name = some n)
    (ha : ev.action = STATS_EVENT_REMOVE) :
    (∀ node, node_at st s n = some node →
        ((scope_tree st s).map stats_node_t.name).Nodup →
        ∃ st1, process_event K st ev = some st1
          ∧ lines_sent K [(node.flags, line_DELETE_node (scope_text s) n)]
              st.event_listeners st1.event_listeners
          ∧ stats_get_value st1 s (some n) = some none
          ∧ (∀ s1 n1, s1 ≠ s ∨ n1 ≠ n → node_at st1 s1 n1 = node_at st s1 n1)
          ∧ st1.source_tree.map (fun x => (x.source, x.flags, x.updated))
            = st.source_tree.map (fun x => (x.source, x.flags, x.updated)))
      ∧ (node_at st s n = none → process_event K st ev = some st) := by
  obtain ⟨h1, h2⟩ := remove_event_state K st ev s n hs hn ha
  refine ⟨?_, h2⟩
  intro node hnode hnd
  obtain ⟨st1, e1, e2, e3, e4, e5⟩ := h1 node hnode hnd
  refine ⟨st1, e1, ?_, e3, e4, e5⟩
  rw [e2]
  exact lines_sent_one K _ _ _ (line_DELETE_node_ne_nil _ _)

/-- C23, at a concrete input: the child `bitrate` of the source `/a` is removed, the
subscriber for slaves, which had nothing queued, holds the line `DELETE /a bitrate`, and a
remove of the missing child `genre` changes nothing. -/
theorem remove_event_witness :
    (∃ st1, stats_event flags0 (fun _ => true) stats_two_children (some (cstr "/a"))
          (some (cstr "bitrate")) none = some st1
        ∧ st1.event_listeners.map (fun l => queue_bytes l.client.refbuf)
          = [cstr "DELETE /a bitrate\n"]
        ∧ stats_get_value st1 (some (cstr "/a")) (some (cstr "bitrate")) = some none
        ∧ (∀ s1 n1, s1 ≠ some (cstr "/a") ∨ n1 ≠ cstr "bitrate" →
            node_at st1 s1 n1 = node_at stats_two_children s1 n1)
        ∧ st1.source_tree.map (fun x => (x.source, x.flags, x.updated))
          = [(cstr "/a", 6, 77)])
      ∧ stats_event flags0 (fun _ => true) stats_two_children (some (cstr "/a"))
          (some (cstr "genre")) none = some stats_two_children := by
  have h := remove_event flags0 stats_two_children
    (build_event flags0 (some (cstr "/a")) (some (cstr "bitrate")) none)
    (some (cstr "/a")) (cstr "bitrate") rfl rfl rfl
  have h2 := remove_event flags0 stats_two_children
    (build_event flags0 (some (cstr "/a")) (some (cstr "genre")) none)
    (some (cstr "/a")) (cstr "genre") rfl rfl rfl
  obtain ⟨st1, e1, e2, e3, e4, e5⟩ := h.1
    { name := cstr "bitrate", value := some (cstr "128"), last_reported := 0, flags := 14 }
    rfl (by decide)
  refine ⟨⟨st1, e1, ?_, e3, e4, e5⟩, h2.2 rfl⟩
  obtain ⟨hlen, hall⟩ := e2
  obtain ⟨l1, g1, _, g3⟩ := hall 0 (listener0 2) rfl
  have hb := g3 rfl (by simp [tail_ok, listener0, client0]) (by decide) (by decide)
  have hl : st1.event_listeners = [l1] := by
    have h3 : st1.event_listeners.length = 1 := hlen
    match hq : st1.event_listeners, h3 with
    | [x], _ =>
      rw [hq] at g1
      simp at g1
      rw [g1]
  rw [hl]
  simp only [List.map_cons, List.map_nil, hb]
  decide

theorem snapshot_append_len :
    ∀ (fuel : Nat) (s s1 : snapshot_t) (line : CStr), snapshot_append fuel s line = some s1 →
      s.len = queue_len s.biglist → s1.len = queue_len s1.biglist := by
  intro fuel
  induction fuel with
  | zero => intro s s1 line h; simp [snapshot_append] at h
  | succ n ih =>
    intro s s1 line h hl
    by_cases hf : s.refbuf.len + line.length ≤ 8192
    · rw [snapshot_append_fit n s line hf] at h
      cases h
      exact hl
    · rw [snapshot_append_full n s line hf] at h
      refine ih _ _ _ h ?_
      simp only [queue_len_append, queue_len_single, hl]

theorem snapshot_globals_len (fuel mask : Nat) :
    ∀ (tree : List stats_node_t) (s s1 : snapshot_t),
      snapshot_globals fuel mask tree s = some s1 →
      s.len = queue_len s.biglist → s1.len = queue_len s1.biglist := by
  intro tree
  induction tree with
  | nil =>
    intro s s1 h hl
    simp [snapshot_globals] at h
    rw [← h]; exact hl
  | cons stat rest ih =>
    intro s s1 h hl
    simp only [snapshot_globals] at h
    by_cases hm : stat.flags &&& mask = 0
    · simp only [hm, ne_eq, not_true_eq_false, if_false] at h
      exact ih _ _ h hl
    · simp only [hm, ne_eq, not_false_eq_true, if_true] at h
      cases hv : stat.value with
      | none => simp [hv] at h
      | some v =>
        simp only [hv] at h
        cases ha : snapshot_append fuel s (line_EVENT (cstr "global") stat.name v) with
        | none => simp [ha] at h
        | some s2 =>
          simp only [ha] at h
          exact ih _ _ h (snapshot_append_len _ _ _ _ ha hl)

theorem snapshot_new_len (fuel mask : Nat) :
    ∀ (tree : List stats_source_t) (s s1 : snapshot_t),
      snapshot_new fuel mask tree s = some s1 →
      s.len = queue_len s.biglist → s1.len = queue_len s1.biglist := by
  intro tree
  induction tree with
  | nil =>
    intro s s1 h hl
    simp [snapshot_new] at h
    rw [← h]; exact hl
  | cons snode rest ih =>
    intro s s1 h hl
    simp only [snapshot_new] at h
    by_cases hm : snode.flags &&& mask = 0
    · simp only [hm, ne_eq, not_true_eq_false, if_false] at h
      exact ih _ _ h hl
    · simp only [hm, ne_eq, not_false_eq_true, if_true] at h
      cases hv : source_type snode with
      | none => simp [hv] at h
      | some v =>
        simp only [hv] at h
        cases ha : snapshot_append fuel s (line_NEW v snode.source) with
        | none => simp [ha] at h
        | some s2 =>
          simp only [ha] at h
          exact ih _ _ h (snapshot_append_len _ _ _ _ ha hl)

theorem snapshot_children_len (fuel mask : Nat) (mount : CStr) :
    ∀ (children : List stats_node_t) (md : Option stats_node_t) (s : snapshot_t)
      (res : snapshot_t × Option stats_node_t),
      snapshot_children fuel mask mount children md s = some res →
      s.len = queue_len s.biglist → res.1.len = queue_len res.1.biglist := by
  intro children
  induction children with
  | nil =>
    intro md s res h hl
    simp [snapshot_children] at h
    rw [← h]; exact hl
  | cons stat rest ih =>
    intro md s res h hl
    simp only [snapshot_children] at h
    by_cases hm : stat.flags &&& mask = 0
    · simp only [hm, ne_eq, not_true_eq_false, if_false] at h
      exact ih _ _ _ h hl
    · simp only [hm, ne_eq, not_false_eq_true, if_true] at h
      by_cases hn : strcmp stat.name (cstr "metadata_updated") = 0
      · simp only [hn, if_true] at h
        exact ih _ _ _ h hl
      · simp only [hn, if_false] at h
        cases hv : stat.value with
        | none => simp [hv] at h
        | some v =>
          simp only [hv] at h
          cases ha : snapshot_append fuel s (line_EVENT mount stat.name v) with
          | none => simp [ha] at h
          | some s2 =>
            simp only [ha] at h
            exact ih _ _ _ h (snapshot_append_len _ _ _ _ ha hl)

theorem snapshot_stats_len (fuel mask : Nat) :
    ∀ (tree : List stats_source_t) (s s1 : snapshot_t),
      snapshot_stats fuel mask tree s = some s1 →
      s.len = queue_len s.biglist → s1.len = queue_len s1.biglist := by
  intro tree
  induction tree with
  | nil =>
    intro s s1 h hl
    simp [snapshot_stats] at h
    rw [← h]; exact hl
  | cons snode rest ih =>
    intro s s1 h hl
    simp only [snapshot_stats] at h
    by_cases hm : snode.flags &&& mask = 0
    · simp only [hm, ne_eq, not_true_eq_false, if_false] at h
      exact ih _ _ h hl
    · simp only [hm, ne_eq, not_false_eq_true, if_true] at h
      cases hc : snapshot_children fuel mask snode.source snode.stats_tree none s with
      | none => simp [hc] at h
      | some res =>
        obtain ⟨s2, md⟩ := res
        have h2 := snapshot_children_len fuel mask _ _ _ _ _ hc hl
        simp only [hc] at h
        cases md with
        | none => exact ih _ _ h h2
        | some metadata_stat =>
          simp only at h
          cases hv : metadata_stat.value with
          | none => simp [hv] at h
          | some v =>
            simp only [hv] at h
            cases ha : snapshot_append fuel s2 (line_EVENT snode.source metadata_stat.name v) with
            | none => simp [ha] at h
            | some s3 =>
              simp only [ha] at h
              exact ih _ _ h (snapshot_append_len _ _ _ _ ha h2)

theorem snapshot_sources_len (fuel mask : Nat) (tree : List stats_source_t)
    (s s1 : snapshot_t) (h : snapshot_sources fuel mask tree s = some s1)
    (hl : s.len = queue_len s.biglist) : s1.len = queue_len s1.biglist := by
  simp only [snapshot_sources] at h
  cases h1 : snapshot_new fuel mask tree s with
  | none => simp [h1] at h
  | some s2 =>
    simp only [h1] at h
    cases h2 : snapshot_append fuel s2 line_INFO with
    | none => simp [h2] at h
    | some s3 =>
      simp only [h2] at h
      exact snapshot_stats_len fuel mask _ _ _ h
        (snapshot_append_len _ _ _ _ h2 (snapshot_new_len fuel mask _ _ _ h1 hl))

theorem snapshot_finish_len (s : snapshot_t) (hl : s.len = queue_len s.biglist) :
    (snapshot_finish s).len = queue_len (snapshot_finish s).biglist := by
  unfold snapshot_finish
  split
  · simp only [queue_len_append, queue_len_single, hl]
  · exact hl

/-- The list of frames built for a new subscriber is not empty, and the count `len` kept
while it is built is the sum of the lengths of its frames. -/
theorem register_snapshot_len (fuel : Nat) (st : stats_t) (mask : Nat) (snap : snapshot_t)
    (h : register_snapshot fuel st mask = some snap) :
    snap.biglist ≠ [] ∧ snap.len = queue_len snap.biglist := by
  simp only [register_snapshot] at h
  cases h1 : snapshot_globals fuel mask st.global_tree snapshot_start with
  | none => simp [h1] at h
  | some s1 =>
    simp only [h1] at h
    cases h2 : snapshot_sources fuel mask st.source_tree s1 with
    | none => simp [h2] at h
    | some s2 =>
      simp only [h2, Option.some.injEq] at h
      subst h
      refine ⟨(snapshot_biglist_ne_nil fuel mask _ _ s1 s2 h1 h2).2, ?_⟩
      apply snapshot_finish_len
      apply snapshot_sources_len fuel mask _ _ _ h2
      apply snapshot_globals_len fuel mask _ _ _ h1
      simp [snapshot_start, queue_len]

/-- C31: the splice at the end of `_register_listener`. The list of frames `D` built for
the new subscriber is not empty and its count `len` is the sum of the lengths of its frames
(shown for every list `register_snapshot` returns); for every such list and every subscriber
with the live queue `L`, the splice returns, the queue is `D` followed by `L`,
`content_len` has grown by the total length of `D` as an `unsigned int` (exactly, when the
sum stays below `2 ^ 32`), the recent block is the last frame of the whole queue, and a
sound queue stays sound. -/
theorem splice_front (l : event_listener_t) (D : List refbuf_t) (hD : D ≠ []) :
    (∀ fuel st mask snap, register_snapshot fuel st mask = some snap →
        snap.biglist ≠ [] ∧ snap.len = queue_len snap.biglist)
      ∧ ∃ l1, register_splice l D (queue_len D) = some l1
        ∧ l1.client.refbuf = D ++ l.client.refbuf
        ∧ l1.content_len = u32 (l.content_len + queue_len D)
        ∧ (l.content_len + queue_len D < 2 ^ 32 →
            l1.content_len = l.content_len + queue_len D)
        ∧ l1.recent_block = some ((D ++ l.client.refbuf).length - 1)
        ∧ (D ++ l.client.refbuf).get? ((D ++ l.client.refbuf).length - 1)
            = (D ++ l.client.refbuf).getLast?
        ∧ tail_ok l1 ∧ l1.mask = l.mask
        ∧ (queue_ok l → queue_ok l1) := by
  refine ⟨fun fuel st mask snap h => register_snapshot_len fuel st mask snap h, ?_⟩
  cases D with
  | nil => exact absurd rfl hD
  | cons first rest =>
    refine ⟨_, rfl, rfl, rfl, ?_, rfl, ?_, ?_, rfl, ?_⟩
    · intro hlt
      show u32 _ = _
      unfold u32
      exact Nat.mod_eq_of_lt hlt
    · rw [List.getLast?_eq_getElem?]
      simp
    · simp [tail_ok]
    · intro hq
      exact queue_ok_splice l _ first rest hq rfl

/-- C31, at a concrete input: two frames put in front of the one frame of a subscriber. -/
theorem splice_front_witness :
    ∃ l1, register_splice listener_one_frame
          [{ data := cstr "ab", flags := 0 }, { data := cstr "c", flags := 0 }] 3 = some l1
      ∧ l1.client.refbuf
        = [{ data := cstr "ab", flags := 0 }, { data := cstr "c", flags := 0 },
           { data := List.replicate 100 65, flags := 0 }]
      ∧ l1.content_len = 103 ∧ l1.recent_block = some 2 := by
  obtain ⟨l1, h1, h2, _, h4, h5, _⟩ :=
    (splice_front listener_one_frame
      [{ data := cstr "ab", flags := 0 }, { data := cstr "c", flags := 0 }] (by decide)).2
  exact ⟨l1, h1, h2, h4 (by decide), h5⟩

theorem andNot_of_and_eq_zero (a h : Nat) (h0 : a &&& h = 0) : andNot a h = a := by
  simp [andNot, h0]

/-- The source-level flags event with `STATS_HIDDEN` on a visible source, taken through
`process_source_stat`. -/
theorem source_flags_event_hide (K : stats_flags) (st : stats_t) (src : stats_source_t)
    (event : stats_event_t) (hvis : src.flags &&& K.STATS_HIDDEN = 0)
    (hflags : event.flags &&& K.STATS_HIDDEN ≠ 0) :
    source_flags_event K st src event
      = some (store_source st
          { src with
            flags := src.flags ||| K.STATS_HIDDEN
            stats_tree := hide_children K src.stats_tree }
          (stats_listener_send K src.flags (line_DELETE src.source) st.event_listeners)) := by
  unfold source_flags_event
  rw [if_neg (by rw [hvis]; exact hflags), if_neg (by simp [hvis])]

/-- C32: for every visible source with the mount `m`, the source-level flags event with
flags that include `STATS_HIDDEN`, through `stats_event_flags (m, NULL, value, flags)` or
`stats_set_flags (h, NULL, value, flags)`, returns; the subscribers are those of one
broadcast of the line `DELETE <m>` with the flags the source had before, which select every
subscriber whose mask has a bit of these flags, and such a subscriber with a worker, a sound
tail reference and room in its queue holds the line after its old bytes; the source and each
of its children carry `STATS_HIDDEN` afterwards, the children keep their names, values and
report times in order, every other mount is looked up as before and the globals are as
before. When the flags agree with the source on `STATS_HIDDEN`, both calls leave the state
as it was. -/
theorem source_becomes_hidden (K : stats_flags) (st : stats_t) (m : CStr)
    (src : stats_source_t) (value : Option CStr) (flags : Nat)
    (hf : avl_find stats_source_t.source m st.source_tree = some src) :
    (src.flags &&& K.STATS_HIDDEN = 0 → flags &&& K.STATS_HIDDEN ≠ 0 →
      ∃ st1 src1,
        stats_event_flags K st (some m) none value flags = some st1
        ∧ stats_set_flags K st (some m) none value flags = some st1
        ∧ st1.event_listeners
          = st.event_listeners.map (fun l => deliver_lines K l [(src.flags, line_DELETE m)])
        ∧ (∀ l : event_listener_t, src.flags &&& l.mask ≠ 0 →
            listener_selected K src.flags l = true)
        ∧ (∀ l : event_listener_t, src.flags &&& l.mask ≠ 0 → l.client.worker = true →
            tail_ok l → l.content_len + (line_DELETE m).length ≤ 6000000 →
            (line_DELETE m).length ≤ 4096 →
            queue_bytes (deliver_lines K l [(src.flags, line_DELETE m)]).client.refbuf
              = queue_bytes l.client.refbuf ++ line_DELETE m)
        ∧ avl_find stats_source_t.source m st1.source_tree = some src1
        ∧ src1.source = m ∧ src1.updated = src.updated
        ∧ src1.flags = src.flags ||| K.STATS_HIDDEN ∧ src1.flags &&& K.STATS_HIDDEN ≠ 0
        ∧ (∀ c ∈ src1.stats_tree, c.flags &&& K.STATS_HIDDEN ≠ 0)
        ∧ src1.stats_tree.map (fun c => (c.name, c.value, c.last_reported))
          = src.stats_tree.map (fun c => (c.name, c.value, c.last_reported))
        ∧ (∀ m1, m1 ≠ m →
            avl_find stats_source_t.source m1 st1.source_tree
              = avl_find stats_source_t.source m1 st.source_tree)
        ∧ st1.global_tree = st.global_tree)
      ∧ (flags &&& K.STATS_HIDDEN = src.flags &&& K.STATS_HIDDEN →
          stats_event_flags K st (some m) none value flags = some st
            ∧ stats_set_flags K st (some m) none value flags = some st) := by
  have hk := avl_find_key stats_source_t.source hf
  have e1 : stats_event_flags K st (some m) none value flags
      = source_flags_event K st src
          { source := some m, name := none, value := value, flags := flags, action := 128 } := by
    cases value <;>
    simp [stats_event_flags, process_event, build_event,
      process_source_event, hf, process_source_found, process_source_stat,
      STATS_EVENT_REMOVE, STATS_EVENT_HIDDEN, STATS_EVENT_SET]
  have e2 : stats_set_flags K st (some m) none value flags
      = source_flags_event K st src
          { source := some src.source, name := none, value := value, flags := flags,
            action := 128 } := by
    cases value <;>
    simp [stats_set_flags, handle_source, hf, process_source_stat, build_event,
      STATS_EVENT_REMOVE, STATS_EVENT_HIDDEN, STATS_EVENT_SET]
  refine ⟨?_, ?_⟩
  · intro hvis hflags
    have hH : K.STATS_HIDDEN ≠ 0 := by
      intro e
      rw [e] at hflags
      simp at hflags
    have hsel : ∀ l : event_listener_t, src.flags &&& l.mask ≠ 0 →
        listener_selected K src.flags l = true := by
      intro l hl
      rw [listener_selected_iff]
      right
      exact ⟨hvis, by rw [andNot_of_and_eq_zero _ _ hvis]; exact hl⟩
    refine ⟨store_source st
        { src with
          flags := src.flags ||| K.STATS_HIDDEN
          stats_tree := hide_children K src.stats_tree }
        (stats_listener_send K src.flags (line_DELETE src.source) st.event_listeners),
      { src with
        flags := src.flags ||| K.STATS_HIDDEN
        stats_tree := hide_children K src.stats_tree },
      ?_, ?_, ?_, hsel, ?_, ?_, hk, rfl, rfl, ?_, ?_, ?_, ?_, rfl⟩
    · rw [e1]; exact source_flags_event_hide K st src _ hvis hflags
    · rw [e2]; exact source_flags_event_hide K st src _ hvis hflags
    · simp only [store_source, hk, stats_listener_send_eq_map]
    · intro l hl hw ht hcap hfit
      have := deliver_lines_bytes K [(src.flags, line_DELETE m)] l hw ht
        (by simpa [lines_len] using hcap)
        (by
          intro msg hmsg
          simp only [List.mem_singleton] at hmsg
          rw [hmsg]
          exact ⟨line_DELETE_ne_nil m, hfit⟩)
      rw [this]
      simp [selected_bytes, hsel l hl]
    · simp only [store_source]
      rw [hk]
      exact avl_find_store_self stats_source_t.source hf rfl
    · simp only
      rw [and_or_self_right]
      exact hH
    · intro c hc
      simp only [hide_children, List.mem_map] at hc
      obtain ⟨c0, _, rfl⟩ := hc
      simp only
      rw [and_or_self_right]
      exact hH
    · simp [hide_children, Function.comp_def]
    · intro m1 hne
      simp only [store_source]
      rw [hk]
      exact avl_find_store_other stats_source_t.source m m1 _ _ rfl hne
  · intro heq
    rw [e1, e2]
    constructor <;> simp [source_flags_event, heq]

/-- C32, at a concrete input: the visible source `/a` is hidden; the subscriber for GENERAL
gets `DELETE /a`, the subscriber for REGULAR alone gets nothing. -/
theorem source_becomes_hidden_witness :
    ∃ st1 src1,
      stats_event_flags flags0 stats_visible_listeners (some (cstr "/a")) none none 7
          = some st1
      ∧ st1.event_listeners.map (fun l => queue_bytes l.client.refbuf)
        = [cstr "DELETE /a\n", []]
      ∧ avl_find stats_source_t.source (cstr "/a") st1.source_tree = some src1
      ∧ src1.flags = 7
      ∧ src1.stats_tree.map (fun c => c.flags) = [15, 15, 15] := by
  obtain ⟨st1, src1, h1, _, h3, _, _, h6, _, _, h9, _, h11, _⟩ :=
    (source_becomes_hidden flags0 stats_visible_listeners (cstr "/a") source_metadata none 7
      (by decide)).1 (by decide) (by decide)
  refine ⟨st1, src1, h1, ?_, h6, ?_, ?_⟩
  · rw [h3]; decide
  · rw [h9]; decide
  · have e1 : stats_event_flags flags0 stats_visible_listeners (some (cstr "/a")) none none 7
        = some (store_source stats_visible_listeners
            { source_metadata with
              flags := 7, stats_tree := hide_children flags0 source_metadata.stats_tree }
            (stats_listener_send flags0 6 (cstr "DELETE /a\n")
              stats_visible_listeners.event_listeners)) := by decide
    rw [e1] at h1
    cases h1
    have e2 : avl_find stats_source_t.source (cstr "/a")
        (store_source stats_visible_listeners
            { source_metadata with
              flags := 7, stats_tree := hide_children flags0 source_metadata.stats_tree }
            (stats_listener_send flags0 6 (cstr "DELETE /a\n")
              stats_visible_listeners.event_listeners)).source_tree
        = some { source_metadata with
              flags := 7, stats_tree := hide_children flags0 source_metadata.stats_tree } := by
      decide
    rw [e2] at h6
    cases h6
    decide

theorem avl_find_insert_other {α : Type} (key : α → CStr) (n1 : CStr) (x : α) (l : List α)
    (hne : n1 ≠ key x) : avl_find key n1 (avl_insert key x l) = avl_find key n1 l := by
  induction l with
  | nil => simp [avl_insert, avl_find, strcmp_eq_zero, hne]
  | cons y ys ih =>
    unfold avl_insert
    split
    · simp [avl_find, strcmp_eq_zero, hne]
    · simp only [avl_find]
      rw [ih]

/-- C33: `stats_handle (m)` on a mount that is not null returns the handle of the source
`m`; after the call the source `m` is in the store with the expiry `LONG_MAX`, with the
flags and the children it had when it was there before and with the flags of a new source
and no child otherwise; every other mount is looked up as before, and the globals and the
subscribers are as before. `stats_handle (NULL)` returns the null handle and leaves the
state as it was. -/
theorem handle_creates_or_refreshes (K : stats_flags) (st : stats_t) (m : CStr) :
    (stats_handle K st (some m)).2 = some m
      ∧ (∀ src, avl_find stats_source_t.source m st.source_tree = some src →
          avl_find stats_source_t.source m (stats_handle K st (some m)).1.source_tree
            = some { src with updated := LONG_MAX })
      ∧ (avl_find stats_source_t.source m st.source_tree = none →
          avl_find stats_source_t.source m (stats_handle K st (some m)).1.source_tree
            = some { source := m
                     flags := K.STATS_SLAVE ||| K.STATS_GENERAL ||| K.STATS_HIDDEN
                     updated := LONG_MAX
                     stats_tree := [] })
      ∧ (∀ m1, m1 ≠ m →
          avl_find stats_source_t.source m1 (stats_handle K st (some m)).1.source_tree
            = avl_find stats_source_t.source m1 st.source_tree)
      ∧ (stats_handle K st (some m)).1.global_tree = st.global_tree
      ∧ (stats_handle K st (some m)).1.event_listeners = st.event_listeners
      ∧ stats_handle K st none = (st, none) := by
  cases hf : avl_find stats_source_t.source m st.source_tree with
  | none =>
    have e : stats_handle K st (some m)
        = ({ st with
              source_tree :=
                avl_insert stats_source_t.source { new_source K m with updated := LONG_MAX }
                  st.source_tree }, some m) := by
      simp only [stats_handle, hf]
    rw [e]
    refine ⟨rfl, ?_, ?_, ?_, rfl, rfl, rfl⟩
    · intro src h; cases h
    · intro _
      exact avl_find_insert_self stats_source_t.source
        (x := { new_source K m with updated := LONG_MAX }) hf
    · intro m1 hne
      exact avl_find_insert_other stats_source_t.source m1 _ _ hne
  | some src =>
    have hk : src.source = m := avl_find_key stats_source_t.source hf
    have e : stats_handle K st (some m)
        = ({ st with
              source_tree :=
                avl_store stats_source_t.source m { src with updated := LONG_MAX }
                  st.source_tree }, some src.source) := by
      simp only [stats_handle, hf]
    rw [e]
    refine ⟨by rw [hk], ?_, ?_, ?_, rfl, rfl, rfl⟩
    · intro src1 h
      cases h
      exact avl_find_store_self stats_source_t.source hf hk
    · intro h; cases h
    · intro m1 hne
      exact avl_find_store_other stats_source_t.source m m1 _ _ hk hne

theorem handle_creates_or_refreshes_witness :
    (stats_handle flags0 stats_three_sources (some (cstr "/b"))).2 = some (cstr "/b")
      ∧ avl_find stats_source_t.source (cstr "/b")
          (stats_handle flags0 stats_three_sources (some (cstr "/b"))).1.source_tree
        = some { source := cstr "/b", flags := 7, updated := LONG_MAX, stats_tree := [] }
      ∧ avl_find stats_source_t.source (cstr "/a")
          (stats_handle flags0 stats_three_sources (some (cstr "/b"))).1.source_tree
        = avl_find stats_source_t.source (cstr "/a") stats_three_sources.source_tree
      ∧ avl_find stats_source_t.source (cstr "/new")
          (stats_handle flags0 stats_empty (some (cstr "/new"))).1.source_tree
        = some { source := cstr "/new", flags := 7, updated := LONG_MAX, stats_tree := [] } :=
  ⟨(handle_creates_or_refreshes flags0 stats_three_sources (cstr "/b")).1,
   (handle_creates_or_refreshes flags0 stats_three_sources (cstr "/b")).2.1
     { source := cstr "/b", flags := 7, updated := 0, stats_tree := [] } (by decide),
   (handle_creates_or_refreshes flags0 stats_three_sources (cstr "/b")).2.2.2.1 _ (by decide),
   (handle_creates_or_refreshes flags0 stats_empty (cstr "/new")).2.2.1 (by decide)⟩

/-- The stream list of a store with one visible source whose line, of `ret` bytes, is
longer than a block: the block the line goes to holds the first 4095 bytes of the line and
has `len = ret`. -/
theorem streams_single_long (K : stats_flags) (src : stats_source_t) (prepend : Int)
    (hvis : src.flags &&& K.STATS_HIDDEN = 0)
    (hlen : 4096 < (streams_pre prepend).length + src.source.length + 2)
    (hlt : (streams_pre prepend).length + src.source.length + 2 < 2 ^ 32) :
    stats_get_streams K { global_tree := [], source_tree := [src], event_listeners := [] }
        prepend
      = some [{ data := [], len := 0 },
          { data := (streams_pre prepend ++ src.source ++ cstr "\r\n").take 4095
            len := (streams_pre prepend).length + src.source.length + 2 }] := by
  have hl : (streams_pre prepend ++ src.source ++ cstr "\r\n").length
      = (streams_pre prepend).length + src.source.length + 2 := by
    simp [cstr]
    omega
  have hc : (4096 : Nat) ≤ src.source.length + (streams_pre prepend).length + 3 := by omega
  simp only [stats_get_streams, streams_loop, hvis, ↓reduceIte, streams_add,
    STREAMLIST_BLKSIZE, hc, hl, List.nil_append]
  have h0 : ¬ ((4096 : Nat) = 0) := by decide
  have hn : min ((streams_pre prepend).length + src.source.length + 2) (4096 - 1) = 4095 := by
    omega
  have hpos : (streams_pre prepend).length + src.source.length + 2 > 0 := by omega
  simp only [h0, ↓reduceIte, hn, Nat.zero_add, show (4095 : Nat) + 1 ≤ 4096 by decide, hpos,
    List.nil_append, Option.some.injEq, List.cons.injEq, stream_block.mk.injEq, true_and,
    and_true, List.singleton_append]
  refine ⟨?_, ?_⟩
  · simp [u32]
  · unfold u32
    rw [Nat.mod_eq_of_lt hlt]
    omega

/-- The state `stats_handle (m)` followed by `stats_set_flags (h, NULL, NULL, GENERAL|SLAVE)`
leaves of the empty store: the visible source `m` alone. -/
theorem handle_then_visible (m : CStr) :
    run_ops flags0 (fun _ => true) (fun _ => 0) stats_empty
        [stats_op.handle (some m), stats_op.set_flags (some m) none none 6]
      = some { global_tree := []
               source_tree := [{ source := m, flags := 6, updated := LONG_MAX, stats_tree := [] }]
               event_listeners := [] } := by
  have h1 : (stats_handle flags0 stats_empty (some m)).1
      = { global_tree := []
          source_tree := [{ source := m, flags := 7, updated := LONG_MAX, stats_tree := [] }]
          event_listeners := [] } := rfl
  simp only [run_ops, stats_op.run, h1, stats_set_flags, handle_source, avl_find, strcmp_self,
    ↓reduceIte, process_source_stat, build_event]
  simp [source_flags_event, flags0, STATS_EVENT_HIDDEN, STATS_EVENT_REMOVE, _find_node,
    show_children, store_source, avl_store, strcmp_self, andNot, stats_listener_send]

/-- C34: the store with one visible source whose mount has 5000 bytes is what
`stats_handle` and `stats_set_flags` make of the empty store; for it `stats_get_streams (0)`
returns two blocks, the second with the first 4095 bytes of the line in its buffer of 4096
bytes and with `len = 5002`, above the block size. -/
theorem streams_block_len_over_size :
    run_ops flags0 (fun _ => true) (fun _ => 0) stats_empty
        [stats_op.handle (some (47 :: List.replicate 4999 97)),
         stats_op.set_flags (some (47 :: List.replicate 4999 97)) none none 6]
      = some stats_long_mount
      ∧ ∃ b, stats_get_streams flags0 stats_long_mount 0 = some [{ data := [], len := 0 }, b]
        ∧ b.data.length = 4095 ∧ b.len = 5002 ∧ STREAMLIST_BLKSIZE < b.len := by
  refine ⟨handle_then_visible _, ?_⟩
  have hp : (streams_pre 0).length = 0 := rfl
  have h := streams_single_long flags0
    { source := 47 :: List.replicate 4999 97, flags := 6, updated := LONG_MAX, stats_tree := [] }
    0 (by decide)
    (by simp only [hp, List.length_cons, List.length_replicate]; omega)
    (by simp only [hp, List.length_cons, List.length_replicate]; omega)
  refine ⟨_, h, ?_, ?_, ?_⟩
  · simp only [List.length_take, List.length_append, hp, List.length_cons,
      List.length_replicate, cstr]
    simp
  · simp only [hp, List.length_cons, List.length_replicate]
  · simp only [hp, List.length_cons, List.length_replicate, STREAMLIST_BLKSIZE]
    omega

theorem utoa_aux_length : ∀ (fuel n : Nat) (acc : CStr) (k : Nat), 1 ≤ k → n < 10 ^ k →
    (utoa_aux fuel n acc).length ≤ acc.length + k := by
  intro fuel
  induction fuel with
  | zero => intro n acc k _ _; simp [utoa_aux]
  | succ f ih =>
    intro n acc k hk hn
    simp only [utoa_aux]
    split
    · simp; omega
    · rename_i h10
      have hk2 : 2 ≤ k := by
        by_contra hc
        have : k = 1 := by omega
        subst this
        simp at hn
        omega
      have hdiv : n / 10 < 10 ^ (k - 1) := by
        have e : 10 ^ k = 10 ^ (k - 1) * 10 := by
          rw [← pow_succ]
          congr 1
          omega
        rw [e] at hn
        exact Nat.div_lt_of_lt_mul (by rw [Nat.mul_comm]; exact hn)
      have := ih (n / 10) ((48 + n % 10) :: acc) (k - 1) (by omega) hdiv
      simp only [List.length_cons] at this
      omega

theorem itoa_length (a : Int) (h : in_int64 a) : (itoa a).length ≤ 20 := by
  unfold in_int64 INT64_MIN INT64_MAX at h
  have hn : a.natAbs < 10 ^ 19 := by
    have : (10 : Nat) ^ 19 = 10000000000000000000 := by norm_num
    rw [this]
    omega
  have hu := utoa_aux_length (a.natAbs + 1) a.natAbs [] 19 (by decide) hn
  simp only [List.length_nil, Nat.zero_add] at hu
  unfold itoa utoa
  split
  · simp only [List.length_cons]; omega
  · omega

theorem in_int64_wrap64 (x : Int) : in_int64 (wrap64 x) := by
  unfold in_int64 INT64_MIN INT64_MAX wrap64
  omega

theorem wrap64_inc_dec (a : Int) (h : in_int64 a) : wrap64 (wrap64 (a + 1) - 1) = a := by
  unfold in_int64 INT64_MIN INT64_MAX at h
  unfold wrap64
  omega

theorem avl_store_store {α : Type} (key : α → CStr) (n : CStr) (x z : α) (l : List α)
    (hx : key x = n) :
    avl_store key n z (avl_store key n x l) = avl_store key n z l := by
  induction l with
  | nil => rfl
  | cons y ys ih =>
    simp only [avl_store]
    split
    · simp [avl_store, hx, strcmp_self]
    · rename_i h0
      simp only [avl_store, h0, ↓reduceIte, ih]

/-- An event INC or DEC on a global node that holds the decimal text of `a`: the node gets
the text of the new count, and the line is broadcast unless the node is REGULAR. -/
theorem process_counter_event (K : stats_flags) (st : stats_t) (n : CStr)
    (node : stats_node_t) (a r : Int) (act : Nat) (value : CStr)
    (hnode : avl_find stats_node_t.name n st.global_tree = some node)
    (hval : node.value = some (itoa a)) (ha : in_int64 a)
    (hact : (act = STATS_EVENT_INC ∧ r = wrap64 (a + 1))
      ∨ (act = STATS_EVENT_DEC ∧ r = wrap64 (a - 1))) :
    process_event K st { build_event K none (some n) (some value) with action := act }
      = some { global_tree :=
                avl_store stats_node_t.name n (modify_node_store K node (itoa r)) st.global_tree
               source_tree := st.source_tree
               event_listeners :=
                if node.flags &&& K.STATS_REGULAR = 0 then
                  stats_listener_send K node.flags (line_EVENT (cstr "global") n (itoa r))
                    st.event_listeners
                else st.event_listeners } := by
  have hk := avl_find_key stats_node_t.name hnode
  have hrem : act ≠ STATS_EVENT_REMOVE := by
    rcases hact with ⟨e, _⟩ | ⟨e, _⟩ <;> rw [e] <;> decide
  have hmod : modify_node_event K node
      { build_event K none (some n) (some value) with action := act }
      = some (modify_node_store K node (itoa r)) := by
    apply modify_node_event_arith
    · rcases hact with ⟨e, _⟩ | ⟨e, _⟩ <;> rw [e] <;> simp only <;> decide
    · rcases hact with ⟨e, _⟩ | ⟨e, _⟩ <;> rw [e] <;> simp only <;> decide
    · rcases hact with ⟨e, e2⟩ | ⟨e, e2⟩
      · simp [modify_value, e, hval, atoll_ptr, atoll_itoa a ha, e2]
      · simp [modify_value, e, hval, atoll_ptr, atoll_itoa a ha, e2, STATS_EVENT_DEC,
          STATS_EVENT_INC]
  simp only [process_event, build_event, ↓reduceIte, process_global_event, hrem,
    find_node_some, hnode]
  simp only [build_event] at hmod
  simp only [hmod, global_event_report, modify_node_store, hk]
  split <;> rfl

/-- C35 as stated fails on a store without the counter `stats_connections`, which
`stats_event (NULL, "stats_connections", NULL)` makes of the store after
`stats_initialize`: the registration of a subscriber followed by its release returns and
leaves a global node `stats_connections` with the value `-1`, where there was no such node
before. -/
theorem register_release_leaves_node :
    stats_event flags0 (fun _ => true) stats_initial none (some (cstr "stats_connections")) none
        = some stats_no_counter
      ∧ node_at stats_no_counter none (cstr "stats_connections") = none
      ∧ ((stats_add_listener flags0 2 stats_no_counter client0 12).bind fun st1 =>
          stats_client_release flags0 [] st1 (some 0)) = some stats_released
      ∧ node_at stats_released.1 none (cstr "stats_connections")
        = some { name := cstr "stats_connections", value := some (cstr "-1"),
                 last_reported := 0, flags := 12 }
      ∧ stats_released.1.global_tree.length = stats_no_counter.global_tree.length + 1 := by
  decide!

/-- C35, amended: for every state in which the global counter `stats_connections` holds the
decimal text of a number `a` of `int64_t` (as after `stats_initialize` and the counter
events), and in which each stat selected by the mask has a value and a line that fits a
frame of 8192 bytes, `stats_add_listener (S, mask)` returns, and `stats_client_release (S)`
right after it returns: the queue of `S` is empty, the sources are as before, the global
nodes have the names, values and flags they had, `stats_connections` reads as `a` again
(only its report time is reset when it is REGULAR), and the subscribers are those of
before: as they were when the counter is REGULAR, and after the broadcast of the two lines
of the counter otherwise. -/
theorem register_release (K : stats_flags) (fuel : Nat) (st : stats_t) (client : client_t)
    (mask : Nat) (buffer : CStr) (node : stats_node_t) (a : Int)
    (hnode : avl_find stats_node_t.name (cstr "stats_connections") st.global_tree = some node)
    (hval : node.value = some (itoa a)) (ha : in_int64 a)
    (hg : ∀ g ∈ st.global_tree, g.flags &&& mask ≠ 0 →
      ∃ v, g.value = some v ∧ (line_EVENT (cstr "global") g.name v).length ≤ 8192)
    (hn : ∀ g ∈ st.source_tree, g.flags &&& mask ≠ 0 →
      ∃ t, source_type g = some t ∧ (line_NEW t g.source).length ≤ 8192)
    (hc : ∀ g ∈ st.source_tree, g.flags &&& mask ≠ 0 → ∀ c ∈ g.stats_tree,
      c.flags &&& mask ≠ 0 →
      ∃ v, c.value = some v ∧ (line_EVENT g.source c.name v).length ≤ 8192) :
    ∃ st1 st2 c, stats_add_listener K (fuel + 2) st client mask = some st1
      ∧ st1.event_listeners.length = st.event_listeners.length + 1
      ∧ stats_client_release K buffer st1 (some 0) = some (st2, some c)
      ∧ c.refbuf = []
      ∧ st2.source_tree = st.source_tree
      ∧ st2.global_tree
        = avl_store stats_node_t.name (cstr "stats_connections")
            { node with
              last_reported :=
                if node.flags &&& K.STATS_REGULAR ≠ 0 then 0 else node.last_reported }
            st.global_tree
      ∧ st2.global_tree.map (fun g => (g.name, g.value, g.flags))
        = st.global_tree.map (fun g => (g.name, g.value, g.flags))
      ∧ stats_get_value st2 none (some (cstr "stats_connections")) = some (some (itoa a))
      ∧ st2.event_listeners.length = st.event_listeners.length
      ∧ (node.flags &&& K.STATS_REGULAR ≠ 0 → st2.event_listeners = st.event_listeners)
      ∧ (node.flags &&& K.STATS_REGULAR = 0 →
          st2.global_tree = st.global_tree
          ∧ st2.event_listeners
            = st.event_listeners.map fun l =>
                deliver_lines K l
                  [(node.flags,
                    line_EVENT (cstr "global") (cstr "stats_connections")
                      (itoa (wrap64 (a + 1)))),
                   (node.flags,
                    line_EVENT (cstr "global") (cstr "stats_connections") (itoa a))]) := by
  have hk := avl_find_key stats_node_t.name hnode
  -- the start of the registration
  have hb := process_counter_event K st (cstr "stats_connections") node a (wrap64 (a + 1))
    STATS_EVENT_INC [] hnode hval ha (Or.inl ⟨rfl, rfl⟩)
  obtain ⟨lsA, hlsA⟩ : ∃ lsA, lsA = (if node.flags &&& K.STATS_REGULAR = 0 then
      stats_listener_send K node.flags
        (line_EVENT (cstr "global") (cstr "stats_connections") (itoa (wrap64 (a + 1))))
        st.event_listeners
    else st.event_listeners) := ⟨_, rfl⟩
  obtain ⟨treeA, htreeA⟩ : ∃ treeA, treeA
      = avl_store stats_node_t.name (cstr "stats_connections")
          (modify_node_store K node (itoa (wrap64 (a + 1)))) st.global_tree := ⟨_, rfl⟩
  rw [← hlsA, ← htreeA] at hb
  have hbegin : register_begin K st (listener_new mask client)
      = some { global_tree := treeA, source_tree := st.source_tree,
               event_listeners := listener_new mask client :: lsA } := by
    simp only [register_begin, hb]
  -- the snapshot
  have hgA : ∀ g ∈ treeA, g.flags &&& mask ≠ 0 →
      ∃ v, g.value = some v ∧ (line_EVENT (cstr "global") g.name v).length ≤ 8192 := by
    intro g hgm hgf
    rw [htreeA] at hgm
    rcases mem_avl_store stats_node_t.name hgm with e | hm
    · refine ⟨itoa (wrap64 (a + 1)), by rw [e]; rfl, ?_⟩
      have hl := itoa_length _ (in_int64_wrap64 (a + 1))
      have hname : g.name = cstr "stats_connections" := by rw [e]; exact hk
      rw [hname]
      have h1 : (cstr "EVENT ").length = 6 := by decide
      have h2 : (cstr "global").length = 6 := by decide
      have h3 : (cstr " ").length = 1 := by decide
      have h4 : (cstr "stats_connections").length = 17 := by decide
      have h5 : (cstr "\n").length = 1 := by decide
      simp only [line_EVENT, List.length_append, h1, h2, h3, h4, h5]
      omega
    · exact hg g hm hgf
  obtain ⟨snap, hsnap, _⟩ := register_snapshot_total fuel
    { global_tree := treeA, source_tree := st.source_tree,
      event_listeners := listener_new mask client :: lsA } mask hgA hn hc
  obtain ⟨hne, _⟩ := register_snapshot_len _ _ _ _ hsnap
  obtain ⟨l1, hl1, hl1c⟩ : ∃ l1 : event_listener_t,
      register_end
          { global_tree := treeA, source_tree := st.source_tree,
            event_listeners := listener_new mask client :: lsA } snap
        = some { global_tree := treeA, source_tree := st.source_tree,
                 event_listeners := l1 :: lsA } ∧ True := by
    cases hbl : snap.biglist with
    | nil => exact absurd hbl hne
    | cons first rest =>
      simp only [register_end, register_splice, hbl]
      exact ⟨_, rfl, trivial⟩
  have hadd : stats_add_listener K (fuel + 2) st client mask
      = some { global_tree := treeA, source_tree := st.source_tree,
               event_listeners := l1 :: lsA } := by
    have hm : (listener_new mask client).mask = mask := rfl
    simp only [stats_add_listener, _register_listener, hbegin, hm, hsnap, hl1]
  -- the release
  have hnodeA : avl_find stats_node_t.name (cstr "stats_connections") treeA
      = some (modify_node_store K node (itoa (wrap64 (a + 1)))) := by
    rw [htreeA]
    exact avl_find_store_self stats_node_t.name hnode hk
  have hd := process_counter_event K
    { global_tree := treeA, source_tree := st.source_tree, event_listeners := lsA }
    (cstr "stats_connections") (modify_node_store K node (itoa (wrap64 (a + 1))))
    (wrap64 (a + 1)) (wrap64 (wrap64 (a + 1) - 1)) STATS_EVENT_DEC buffer hnodeA rfl
    (in_int64_wrap64 _) (Or.inr ⟨rfl, rfl⟩)
  rw [wrap64_inc_dec a ha] at hd
  have hnode2 : modify_node_store K (modify_node_store K node (itoa (wrap64 (a + 1)))) (itoa a)
      = { node with
          last_reported :=
            if node.flags &&& K.STATS_REGULAR ≠ 0 then 0 else node.last_reported } := by
    cases node with
    | mk nm val lr fl =>
      simp only at hval
      subst hval
      simp only [modify_node_store]
      by_cases hr : fl &&& K.STATS_REGULAR = 0 <;> simp [hr]
  have htree2 : avl_store stats_node_t.name (cstr "stats_connections")
      (modify_node_store K (modify_node_store K node (itoa (wrap64 (a + 1)))) (itoa a)) treeA
      = avl_store stats_node_t.name (cstr "stats_connections")
          { node with
            last_reported :=
              if node.flags &&& K.STATS_REGULAR ≠ 0 then 0 else node.last_reported }
          st.global_tree := by
    rw [htreeA, avl_store_store stats_node_t.name _
      (modify_node_store K node (itoa (wrap64 (a + 1)))) _ _ hk, hnode2]
  simp only [htree2] at hd
  have hflags : (modify_node_store K node (itoa (wrap64 (a + 1)))).flags = node.flags := rfl
  rw [hflags] at hd
  have hrel : stats_client_release K buffer
      { global_tree := treeA, source_tree := st.source_tree, event_listeners := l1 :: lsA }
      (some 0)
      = some ({ global_tree :=
                  avl_store stats_node_t.name (cstr "stats_connections")
                    { node with
                      last_reported :=
                        if node.flags &&& K.STATS_REGULAR ≠ 0 then 0 else node.last_reported }
                    st.global_tree
                source_tree := st.source_tree
                event_listeners :=
                  if node.flags &&& K.STATS_REGULAR = 0 then
                    stats_listener_send K node.flags
                      (line_EVENT (cstr "global") (cstr "stats_connections") (itoa a)) lsA
                  else lsA },
              some (clear_stats_queue l1.client)) := by
    simp only [stats_client_release, List.eraseIdx_cons_zero, hd, List.get?_cons_zero,
      Option.map_some']
  have hlenA : lsA.length = st.event_listeners.length := by
    rw [hlsA]
    split <;> simp [stats_listener_send]
  refine ⟨_, _, _, hadd, by simp [hlenA], hrel, rfl, rfl, rfl, ?_, ?_, ?_, ?_, ?_⟩
  · exact map_avl_store_same stats_node_t.name _ _ _ node _ hnode rfl
  · simp only [stats_get_value, _get_stats, find_node_some]
    rw [avl_find_store_self stats_node_t.name
      (x := { node with
              last_reported :=
                if node.flags &&& K.STATS_REGULAR ≠ 0 then 0 else node.last_reported })
      hnode hk]
    simp [dup_value, hval]
  · simp only
    split <;> simp [stats_listener_send, hlenA]
  · intro hr
    simp only [hr, ↓reduceIte]
    rw [hlsA]
    simp [hr]
  · intro hr
    refine ⟨?_, ?_⟩
    · simp only [hr, ne_eq, not_true_eq_false, ↓reduceIte]
      exact avl_store_self stats_node_t.name hnode
    · simp only [hr, ↓reduceIte]
      rw [hlsA]
      simp only [hr, ↓reduceIte, stats_listener_send_eq_map, List.map_map]
      congr 1

/-- C35, amended, at a concrete input: on the store with the counter `stats_connections` at
0, a REGULAR counter, the registration of a subscriber followed by its release gives the
store back as it was. -/
theorem register_release_witness :
    ∃ st1 st2 c, stats_add_listener flags0 2 stats_started client0 12 = some st1
      ∧ stats_client_release flags0 [] st1 (some 0) = some (st2, some c)
      ∧ c.refbuf = [] ∧ st2 = stats_started := by
  obtain ⟨st1, st2, c, h1, _, h3, h4, h5, h6, _, _, _, h10, _⟩ :=
    register_release flags0 0 stats_started client0 12 []
      { name := cstr "stats_connections", value := some (cstr "0"), last_reported := 0,
        flags := 24 } 0
      (by decide) (by decide) (by unfold in_int64 INT64_MIN INT64_MAX; omega)
      (by
        intro g hg _
        simp only [stats_started, List.mem_singleton] at hg
        subst hg
        exact ⟨_, rfl, by decide⟩)
      (by intro g hg; simp [stats_started] at hg)
      (by intro g hg; simp [stats_started] at hg)
  refine ⟨st1, st2, c, h1, h3, h4, ?_⟩
  have h7 := h10 (by decide)
  cases st2 with
  | mk g s l =>
    simp only at h5 h6 h7
    subst h5 h6 h7
    decide

/-- C36: for every source store (its mounts distinct) and handle on a source `src` of it,
`stats_set (h, NULL, NULL)` returns; afterwards the source is out of the store, every other
mount is looked up as before, the globals are as before, and the subscribers have been
offered the one line `DELETE <mount>` with the flags of the source, whether the source has a
child `fallback` or not; with such a child `stats_event (mount, NULL, NULL)` leaves the
state as it was, the test for `fallback` being on that path alone. -/
theorem set_null_removes_source (K : stats_flags) (xmlCheckUTF8 : CStr → Bool)
    (st : stats_t) (m : CStr) (src : stats_source_t)
    (hu : (st.source_tree.map stats_source_t.source).Nodup)
    (hf : handle_source st m = some src) :
    ∃ st1, stats_set K st (some m) none none = some st1
      ∧ avl_find stats_source_t.source m st1.source_tree = none
      ∧ (∀ m1, m1 ≠ m →
          avl_find stats_source_t.source m1 st1.source_tree
            = avl_find stats_source_t.source m1 st.source_tree)
      ∧ st1.global_tree = st.global_tree
      ∧ st1.event_listeners
          = stats_listener_send K src.flags (line_DELETE m) st.event_listeners
      ∧ (avl_find stats_node_t.name (cstr "fallback") src.stats_tree ≠ none →
          stats_event K xmlCheckUTF8 st (some m) none none = some st) := by
  have hf1 : avl_find stats_source_t.source m st.source_tree = some src := hf
  have hk := avl_find_key stats_source_t.source hf1
  refine ⟨delete_source K st src, ?_, ?_, ?_, rfl, ?_, ?_⟩
  · simp [stats_set, hf, process_source_stat, build_event]
  · simp only [delete_source]
    rw [hk]
    exact avl_find_delete_self stats_source_t.source m st.source_tree hu
  · intro m1 hne
    simp only [delete_source]
    rw [hk]
    exact avl_find_delete_other stats_source_t.source m m1 _ hne
  · simp only [delete_source, _free_source_stats, hk]
  · intro hfb
    simp only [stats_event, process_event, build_event, reduceCtorEq, ↓reduceIte,
      process_source_event, find_source_some, hf1, process_source_found, Option.isSome,
      Bool.false_eq_true, and_self, find_node_some]
    cases hc : avl_find stats_node_t.name (cstr "fallback") src.stats_tree with
    | none => exact absurd hc hfb
    | some node => rfl

/-- C36, at a concrete input: the source `/x` with a child `fallback` and an admin
subscriber. -/
theorem set_null_removes_source_witness :
    ∃ st1, stats_set flags0 stats_fallback_admin (some (cstr "/x")) none none = some st1
      ∧ avl_find stats_source_t.source (cstr "/x") st1.source_tree = none
      ∧ st1.event_listeners.map (fun l => queue_bytes l.client.refbuf) = [cstr "DELETE /x\n"]
      ∧ stats_event flags0 (fun _ => true) stats_fallback_admin (some (cstr "/x")) none none
          = some stats_fallback_admin := by
  obtain ⟨st1, h1, h2, _, _, h5, h6⟩ :=
    set_null_removes_source flags0 (fun _ => true) stats_fallback_admin (cstr "/x")
      { source := cstr "/x", flags := 7, updated := 0,
        stats_tree :=
          [{ name := cstr "fallback", value := some (cstr "/y"), last_reported := 0,
             flags := 15 }] }
      (by decide) (by decide)
  refine ⟨st1, h1, h2, ?_, h6 (by decide)⟩
  rw [h5]
  decide

/-- The state after `stats_set (h, "title", v)` on the visible source `/a` without
children. -/
theorem set_title_on_visible (v : CStr) :
    stats_set flags0
        { global_tree := []
          source_tree := [{ source := cstr "/a", flags := 6, updated := LONG_MAX, stats_tree := [] }]
          event_listeners := [] }
        (some (cstr "/a")) (some (cstr "title")) (some v)
      = some { global_tree := []
               source_tree :=
                 [{ source := cstr "/a", flags := 6, updated := LONG_MAX,
                    stats_tree :=
                      [{ name := cstr "title", value := some v, last_reported := 0,
                         flags := 14 }] }]
               event_listeners := [] } := by
  have hs : handle_source
      { global_tree := []
        source_tree := [{ source := cstr "/a", flags := 6, updated := LONG_MAX, stats_tree := [] }]
        event_listeners := [] } (cstr "/a")
      = some { source := cstr "/a", flags := 6, updated := LONG_MAX, stats_tree := [] } := by
    decide
  simp only [stats_set, hs, process_source_stat, build_event, _find_node]
  simp [flags0, STATS_EVENT_SET, STATS_EVENT_REMOVE, store_source, avl_store, avl_insert,
    strcmp_self, stats_listener_send]

/-- A line longer than 8192 bytes fits no frame: `refbuf_append` with the size 8192 fails on
every frame, an empty one too. -/
theorem refbuf_append_oversize (line : CStr) (h : 8192 < line.length) (r : refbuf_t) :
    (refbuf_append r 8192 line).2 < 0 := by
  have : ¬ (r.len + line.length ≤ 8192) := by omega
  simp [refbuf_append, refbuf_appendv, this]

/-- C37: the store whose source `/a` has a child `title` with a value of 8200 bytes is
reached through the handle API; the line of that child is longer than a frame of 8192
bytes, so that `refbuf_append` fails on every frame, the new empty frame of the loop body
included, and the condition of the retry loop never becomes false. For a subscriber with
the mask GENERAL the steps of `_register_listener` before the loop over the children
return, the loop over the children gives no result whatever the number of tries, and
`stats_add_listener` gives no result whatever the number of tries. -/
theorem register_retry_never_ends :
    (run_ops flags0 (fun _ => true) (fun _ => 0) stats_empty
        [stats_op.handle (some (cstr "/a")),
         stats_op.set_flags (some (cstr "/a")) none none 6,
         stats_op.set (some (cstr "/a")) (some (cstr "title")) (some (List.replicate 8200 97))]
      = some stats_oversize_child)
      ∧ 8192 < (line_EVENT (cstr "/a") (cstr "title") (List.replicate 8200 97)).length
      ∧ (∀ r : refbuf_t,
          (refbuf_append r 8192
            (line_EVENT (cstr "/a") (cstr "title") (List.replicate 8200 97))).2 < 0)
      ∧ (∃ st1 s1 s2 s3,
          register_begin flags0 stats_oversize_child (listener_new 4 client0) = some st1
          ∧ snapshot_globals 1 4 st1.global_tree snapshot_start = some s1
          ∧ snapshot_new 1 4 st1.source_tree s1 = some s2
          ∧ snapshot_append 1 s2 line_INFO = some s3
          ∧ ∀ fuel s, snapshot_stats fuel 4 st1.source_tree s = none)
      ∧ ∀ fuel, stats_add_listener flags0 fuel stats_oversize_child client0 4 = none := by
  have hlen : 8192 < (line_EVENT (cstr "/a") (cstr "title") (List.replicate 8200 97)).length := by
    simp only [line_EVENT, List.length_append, List.length_replicate]
    omega
  have hb : register_begin flags0 stats_oversize_child (listener_new 4 client0)
      = some { global_tree :=
                [{ name := cstr "stats_connections", value := some [], last_reported := 0,
                   flags := 12 }]
               source_tree := stats_oversize_child.source_tree
               event_listeners := [listener_new 4 client0] } := rfl
  have hst : ∀ fuel s, snapshot_stats fuel 4 stats_oversize_child.source_tree s = none := by
    intro fuel s
    simp only [stats_oversize_child, snapshot_stats]
    rw [if_pos (by decide)]
    simp only [snapshot_children]
    rw [if_pos (by decide), if_neg (by decide)]
    simp only [snapshot_append_oversize _ hlen]
  refine ⟨?_, hlen, refbuf_append_oversize _ hlen, ?_, ?_⟩
  · have h2 := handle_then_visible (cstr "/a")
    simp only [run_ops] at h2 ⊢
    cases h3 : stats_op.run flags0 (fun _ => true) (fun _ => 0) stats_empty
        (stats_op.handle (some (cstr "/a"))) with
    | none => simp [h3] at h2
    | some st1 =>
      simp only [h3] at h2 ⊢
      cases h4 : stats_op.run flags0 (fun _ => true) (fun _ => 0) st1
          (stats_op.set_flags (some (cstr "/a")) none none 6) with
      | none => simp [h4] at h2
      | some st2 =>
        simp only [h4, Option.some.injEq] at h2 ⊢
        subst h2
        simp only [stats_op.run]
        rw [set_title_on_visible]
        rfl
  · exact ⟨_, _, _, _, hb, rfl, rfl, rfl, hst⟩
  · intro fuel
    have hm : (listener_new 4 client0).mask = 4 := rfl
    simp only [stats_add_listener, _register_listener, hb, register_snapshot, hm,
      snapshot_sources, hst]
    cases snapshot_globals fuel 4
        [{ name := cstr "stats_connections", value := some [], last_reported := 0,
           flags := 12 }] snapshot_start with
    | none => rfl
    | some s1 =>
      simp only
      cases snapshot_new fuel 4 stats_oversize_child.source_tree s1 with
      | none => rfl
      | some s2 =>
        simp only
        cases snapshot_append fuel s2 line_INFO <;> rfl

/-- On a name that has no node in its scope, an event with a value is processed in the same
way whatever its action, as long as it is not a remove. -/
theorem process_event_create_action (K : stats_flags) (st : stats_t) (event : stats_event_t)
    (a : Nat) (m : Option CStr) (n v : CStr) (hm : event.source = m)
    (hn : event.name = some n) (hv : event.value = some v)
    (ha : event.action ≠ STATS_EVENT_REMOVE) (ha1 : a ≠ STATS_EVENT_REMOVE)
    (hnode : node_at st m n = none) :
    process_event K st { event with action := a } = process_event K st event := by
  unfold process_event
  cases m with
  | none =>
    simp only [node_at] at hnode
    simp only [hm, ↓reduceIte, process_global_event, ha, ha1, hn, hv, find_node_some, hnode]
  | some mount =>
    have hstat : ∀ (st : stats_t) (src : stats_source_t),
        avl_find stats_node_t.name n src.stats_tree = none →
        process_source_found K st src { event with action := a }
          = process_source_found K st src event := by
      intro st src hf
      simp only [process_source_found, ha, ha1, false_and, ↓reduceIte, process_source_stat, hn,
        find_node_some, hf, hv, ne_eq, not_false_eq_true]
    simp only [node_at] at hnode
    simp only [hm, reduceCtorEq, ↓reduceIte, process_source_event, find_source_some]
    cases hs : avl_find stats_source_t.source mount st.source_tree with
    | none =>
      simp only [ha, ha1, ↓reduceIte]
      exact hstat _ (new_source K mount) rfl
    | some src =>
      simp only [hs] at hnode
      exact hstat st src hnode

theorem fmt_ld_pos (v : Nat) (h : v < 2 ^ 63) : fmt_ld v = utoa v := by
  unfold fmt_ld
  rw [wrap64_id _ (by unfold in_int64 INT64_MIN INT64_MAX; omega)]
  unfold itoa
  have : ¬ ((v : Int) < 0) := by omega
  simp [this]

/-- C38 as stated fails for an amount above `LONG_MAX`: `stats_event_sub (NULL, "x",
18446744073709551615)` on the empty store prints the `unsigned long` with `%ld` and creates
the node `x` with the value `-1`, not the decimal text of the amount;
`stats_event_add` does the same. -/
theorem sub_large_amount_negative :
    stats_event_sub flags0 stats_empty none (some (cstr "x")) 18446744073709551615
        = some { global_tree :=
                  [{ name := cstr "x", value := some (cstr "-1"), last_reported := 0,
                     flags := 12 }]
                 source_tree := []
                 event_listeners := [] }
      ∧ stats_event_add flags0 stats_empty none (some (cstr "x")) 18446744073709551615
        = stats_event_sub flags0 stats_empty none (some (cstr "x")) 18446744073709551615
      ∧ utoa 18446744073709551615 = cstr "18446744073709551615"
      ∧ cstr "-1" ≠ cstr "18446744073709551615" := by
  decide!

/-- C38, amended: for every scope `m` and name `n` with no node and every `v > 0`,
`stats_event_sub (m, n, v)` returns the state `stats_event_add (m, n, v)` returns, in which
the node has the text `%ld` gives for `v`: for `v` in the range of `long` the decimal
digits of `v` with no sign, which `atoll` reads as `+v`. With `v = 0` both calls leave the
state as it was. -/
theorem sub_fresh_creates_positive (K : stats_flags) (st : stats_t) (m : Option CStr)
    (n : CStr) (v : Nat) (hv : 0 < v) (hnode : node_at st m n = none) :
    ∃ st1 node, stats_event_sub K st m (some n) v = some st1
      ∧ stats_event_add K st m (some n) v = some st1
      ∧ node_at st1 m n = some node ∧ node.value = some (fmt_ld v)
      ∧ (v < 2 ^ 63 → node.value = some (utoa v) ∧ atoll (utoa v) = (v : Int))
      ∧ stats_event_add K st m (some n) 0 = some st
      ∧ stats_event_sub K st m (some n) 0 = some st := by
  have hv0 : v ≠ 0 := by omega
  obtain ⟨st1, node, h1, h2, h3⟩ := process_event_create K st
    { build_event K m (some n) (some (fmt_ld v)) with action := STATS_EVENT_ADD }
    m n (fmt_ld v) rfl rfl rfl (by simp only; decide) hnode
  have hsub : stats_event_sub K st m (some n) v = some st1 := by
    rw [← h1]
    simp only [stats_event_sub, hv0, ↓reduceIte]
    exact process_event_create_action K st
      { build_event K m (some n) (some (fmt_ld v)) with action := STATS_EVENT_ADD }
      STATS_EVENT_SUB m n (fmt_ld v) rfl rfl rfl (by simp only; decide) (by decide) hnode
  have hadd : stats_event_add K st m (some n) v = some st1 := by
    rw [← h1]
    simp only [stats_event_add, hv0, ↓reduceIte]
  refine ⟨st1, node, hsub, hadd, h2, h3, ?_, ?_, ?_⟩
  · intro hlt
    refine ⟨by rw [h3, fmt_ld_pos v hlt], ?_⟩
    have : itoa (v : Int) = utoa v := by
      unfold itoa
      have : ¬ ((v : Int) < 0) := by omega
      simp [this]
    rw [← this]
    exact atoll_itoa _ (by unfold in_int64 INT64_MIN INT64_MAX; omega)
  · simp [stats_event_add]
  · simp [stats_event_sub]

/-- C38 amended, at a concrete input: `stats_event_sub ("/a", "n", 5)` on the empty
store. -/
theorem sub_fresh_creates_positive_witness :
    ∃ st1 node, stats_event_sub flags0 stats_empty (some (cstr "/a")) (some (cstr "n")) 5
          = some st1
      ∧ stats_event_add flags0 stats_empty (some (cstr "/a")) (some (cstr "n")) 5 = some st1
      ∧ node_at st1 (some (cstr "/a")) (cstr "n") = some node
      ∧ node.value = some (cstr "5") := by
  obtain ⟨st1, node, h1, h2, h3, _, h5, _⟩ :=
    sub_fresh_creates_positive flags0 stats_empty (some (cstr "/a")) (cstr "n") 5
      (by decide) (by decide)
  exact ⟨st1, node, h1, h2, h3, (h5 (by decide)).1⟩

theorem avl_insert_perm {α : Type} (key : α → CStr) (x : α) (l : List α) :
    (avl_insert key x l).Perm (x :: l) := by
  induction l with
  | nil => simp [avl_insert]
  | cons y ys ih =>
    unfold avl_insert
    split
    · exact List.Perm.refl _
    · exact (List.Perm.cons y ih).trans (List.Perm.swap x y ys)

theorem not_mem_keys_of_avl_find_none {α : Type} (key : α → CStr) (n : CStr) (l : List α)
    (h : avl_find key n l = none) : n ∉ l.map key := by
  induction l with
  | nil => simp
  | cons y ys ih =>
    simp only [avl_find] at h
    split at h
    · simp at h
    · rename_i h0
      simp only [List.map_cons, List.mem_cons, not_or]
      exact ⟨fun e => h0 ((strcmp_eq_zero _ _).2 e), ih h⟩

theorem nodup_keys_avl_insert {α : Type} (key : α → CStr) (x : α) (l : List α)
    (hu : (l.map key).Nodup) (h : avl_find key (key x) l = none) :
    ((avl_insert key x l).map key).Nodup := by
  have hp := (avl_insert_perm key x l).map key
  rw [hp.nodup_iff]
  simp only [List.map_cons, List.nodup_cons]
  exact ⟨not_mem_keys_of_avl_find_none key _ l h, hu⟩

theorem avl_find_filter {α : Type} (key : α → CStr) (p : α → Bool) (n : CStr) (x : α)
    (l : List α) (h : avl_find key n l = some x) (hp : p x = true) :
    avl_find key n (l.filter p) = some x := by
  induction l with
  | nil => simp [avl_find] at h
  | cons y ys ih =>
    simp only [avl_find] at h
    split at h
    · rename_i h0
      simp only [Option.some.injEq] at h
      subst h
      simp [List.filter_cons, hp, avl_find, h0]
    · rename_i h0
      by_cases hy : p y = true
      · simp [List.filter_cons, hy, avl_find, h0, ih h]
      · simp [List.filter_cons, hy, ih h]

/-- The purge drops a source whose mount begins with `/` and whose expiry is below the
mark. -/
theorem purge_drops_expired (K : stats_flags) (fserve_contains : CStr → Int) (st : stats_t)
    (m : CStr) (src : stats_source_t) (mark : Int)
    (hu : (st.source_tree.map stats_source_t.source).Nodup)
    (hf : avl_find stats_source_t.source m st.source_tree = some src)
    (hm : m.head? = some 47) (hx : src.updated < mark) :
    avl_find stats_source_t.source m (stats_purge K fserve_contains st mark).source_tree
      = none := by
  have hk := avl_find_key stats_source_t.source hf
  have hmem := avl_find_mem stats_source_t.source hf
  apply avl_find_none_of_not_mem
  unfold stats_purge
  rw [(purge_foldl_tree K fserve_contains mark st.source_tree st hu).1]
  intro hin
  simp only [List.mem_map, List.mem_filter, List.all_eq_true, Bool.or_eq_true,
    decide_eq_true_eq] at hin
  obtain ⟨s, ⟨_, hall⟩, hs⟩ := hin
  rcases hall src hmem with h1 | h1
  · have hnot : ¬ (mark ≤ src.updated) := by omega
    simp [purge_keeps, hk, hm, hnot] at h1
  · exact h1 (by rw [hs, hk])

/-- The purge keeps a source whose mount begins with `/` and whose expiry is not below the
mark. -/
theorem purge_keeps_fresh (K : stats_flags) (fserve_contains : CStr → Int) (st : stats_t)
    (m : CStr) (src : stats_source_t) (mark : Int)
    (hu : (st.source_tree.map stats_source_t.source).Nodup)
    (hf : avl_find stats_source_t.source m st.source_tree = some src)
    (hm : m.head? = some 47) (hx : mark ≤ src.updated) :
    avl_find stats_source_t.source m (stats_purge K fserve_contains st mark).source_tree
      = some src := by
  have hk := avl_find_key stats_source_t.source hf
  have hmem := avl_find_mem stats_source_t.source hf
  unfold stats_purge
  rw [(purge_foldl_tree K fserve_contains mark st.source_tree st hu).1]
  apply avl_find_filter _ _ _ _ _ hf
  simp only [List.all_eq_true, Bool.or_eq_true, decide_eq_true_eq]
  intro x hxm
  by_cases hxs : src.source = x.source
  · left
    have : x = src := List.inj_on_of_nodup_map hu hxm hmem hxs.symm
    rw [this]
    simp [purge_keeps, hk, hm, hx]
  · right; exact hxs

/-- An event that is not a remove on a mount with no source returns: the source is in the
store afterwards with the expiry 0; it has the flags of a new source, unless the event is a
source-level flags event whose flags differ from them on `STATS_HIDDEN`, which takes
`STATS_HIDDEN` off in the same call. The mounts of the store are those before and the new
one. -/
theorem process_event_new_source (K : stats_flags) (st : stats_t) (ev : stats_event_t)
    (m : CStr) (hsrc : ev.source = some m) (hrem : ev.action ≠ STATS_EVENT_REMOVE)
    (hnew : avl_find stats_source_t.source m st.source_tree = none) :
    ∃ st1 src, process_event K st ev = some st1
      ∧ avl_find stats_source_t.source m st1.source_tree = some src
      ∧ src.updated = 0
      ∧ ((ev.name = none ∧ ev.action &&& STATS_EVENT_HIDDEN ≠ 0
            ∧ ev.flags &&& K.STATS_HIDDEN ≠ K.STATS_HIDDEN
            ∧ src.flags = andNot (K.STATS_SLAVE ||| K.STATS_GENERAL ||| K.STATS_HIDDEN)
                K.STATS_HIDDEN)
          ∨ (¬ (ev.name = none ∧ ev.action &&& STATS_EVENT_HIDDEN ≠ 0
                ∧ ev.flags &&& K.STATS_HIDDEN ≠ K.STATS_HIDDEN)
            ∧ src.flags = K.STATS_SLAVE ||| K.STATS_GENERAL ||| K.STATS_HIDDEN))
      ∧ st1.source_tree.map stats_source_t.source
        = (avl_insert stats_source_t.source (new_source K m) st.source_tree).map
            stats_source_t.source := by
  have hin : avl_find stats_source_t.source m
      (avl_insert stats_source_t.source (new_source K m) st.source_tree)
      = some (new_source K m) :=
    avl_find_insert_self stats_source_t.source (x := new_source K m) hnew
  have hstore : ∀ (x : stats_source_t), x.source = m →
      avl_find stats_source_t.source m
        (avl_store stats_source_t.source m x
          (avl_insert stats_source_t.source (new_source K m) st.source_tree)) = some x :=
    fun x hx => avl_find_store_self stats_source_t.source hin hx
  have hH : (K.STATS_SLAVE ||| K.STATS_GENERAL ||| K.STATS_HIDDEN) &&& K.STATS_HIDDEN
      = K.STATS_HIDDEN := and_or_self_right _ _
  simp only [process_event, hsrc, reduceCtorEq, ↓reduceIte, process_source_event,
    find_source_some, hnew, hrem, process_source_found, false_and, process_source_stat]
  cases hn : ev.name with
  | some n =>
    simp only [find_node_some, new_source, avl_find]
    cases hv : ev.value with
    | none =>
      exact ⟨_, _, rfl, hin, rfl, Or.inr ⟨by simp, rfl⟩, rfl⟩
    | some v =>
      simp only [ne_eq, hrem, not_false_eq_true, ↓reduceIte]
      exact ⟨_, _, rfl, hstore _ rfl, rfl, Or.inr ⟨by simp, rfl⟩,
        map_key_avl_store stats_source_t.source m _ _ rfl⟩
  | none =>
    simp only
    by_cases hh : ev.action &&& STATS_EVENT_HIDDEN ≠ 0
    · simp only [hh, ne_eq, not_false_eq_true, ↓reduceIte, source_flags_event, new_source, hH]
      by_cases he : ev.flags &&& K.STATS_HIDDEN = K.STATS_HIDDEN
      · simp only [he, ↓reduceIte]
        exact ⟨_, _, rfl, hin, rfl, Or.inr ⟨by simp [he], rfl⟩, rfl⟩
      · have hH0 : K.STATS_HIDDEN ≠ 0 := by
          intro e
          rw [e] at he
          simp at he
        simp only [he, ↓reduceIte, hH0, ne_eq, not_false_eq_true, _find_node, show_children]
        exact ⟨_, _, rfl, hstore _ rfl, rfl, Or.inl ⟨trivial, trivial, trivial, rfl⟩,
          map_key_avl_store stats_source_t.source m _ _ rfl⟩
    · simp only [hh, ↓reduceIte]
      exact ⟨_, _, rfl, hin, rfl, Or.inr ⟨by simp [hh], rfl⟩, rfl⟩

/-- C39 as stated fails for a source-level flags event: `stats_event_flags ("/a", NULL,
NULL, GENERAL|SLAVE)` on the empty store creates the source `/a` and makes it visible in the
same call, so that the source has the flags SLAVE|GENERAL, without HIDDEN, and the
expiry 0. -/
theorem implicit_source_made_visible :
    stats_event_flags flags0 stats_empty (some (cstr "/a")) none none 6
      = some { global_tree := []
               source_tree := [{ source := cstr "/a", flags := 6, updated := 0, stats_tree := [] }]
               event_listeners := [] }
      ∧ (6 : Nat) ≠ flags0.STATS_SLAVE ||| flags0.STATS_GENERAL ||| flags0.STATS_HIDDEN := by
  decide

/-- C39, amended: for every store (its mounts distinct), every mount `m` with no source and
every event on `m` that is not a remove, as `stats_event`, `stats_event_flags`,
`stats_event_inc` and the other event calls build it, the event returns and the source `m`
is in the store afterwards with the expiry 0; its flags are SLAVE|GENERAL|HIDDEN, unless
the event is a source-level flags event (null name) whose flags lack `STATS_HIDDEN`, which
takes `STATS_HIDDEN` off in the same call. When the mount begins with `/`, `stats_purge
(mark)` with any `mark > 0` right after the event drops the source; after `stats_handle
(m)` the source has the expiry `LONG_MAX` and stays for every mark up to `LONG_MAX`. -/
theorem implicit_source_expires (K : stats_flags) (fserve_contains : CStr → Int)
    (st : stats_t) (ev : stats_event_t) (m : CStr) (hsrc : ev.source = some m)
    (hrem : ev.action ≠ STATS_EVENT_REMOVE)
    (hu : (st.source_tree.map stats_source_t.source).Nodup)
    (hnew : avl_find stats_source_t.source m st.source_tree = none) :
    ∃ st1 src, process_event K st ev = some st1
      ∧ avl_find stats_source_t.source m st1.source_tree = some src
      ∧ src.updated = 0
      ∧ ((ev.name = none ∧ ev.action &&& STATS_EVENT_HIDDEN ≠ 0
            ∧ ev.flags &&& K.STATS_HIDDEN ≠ K.STATS_HIDDEN
            ∧ src.flags = andNot (K.STATS_SLAVE ||| K.STATS_GENERAL ||| K.STATS_HIDDEN)
                K.STATS_HIDDEN)
          ∨ (¬ (ev.name = none ∧ ev.action &&& STATS_EVENT_HIDDEN ≠ 0
                ∧ ev.flags &&& K.STATS_HIDDEN ≠ K.STATS_HIDDEN)
            ∧ src.flags = K.STATS_SLAVE ||| K.STATS_GENERAL ||| K.STATS_HIDDEN))
      ∧ (m.head? = some 47 → ∀ mark : Int, 0 < mark →
          avl_find stats_source_t.source m
            (stats_purge K fserve_contains st1 mark).source_tree = none)
      ∧ (m.head? = some 47 → ∀ mark : Int, mark ≤ LONG_MAX →
          avl_find stats_source_t.source m
            (stats_purge K fserve_contains (stats_handle K st1 (some m)).1 mark).source_tree
            = some { src with updated := LONG_MAX }) := by
  obtain ⟨st1, src, h1, h2, h3, h4, h5⟩ := process_event_new_source K st ev m hsrc hrem hnew
  have hu1 : (st1.source_tree.map stats_source_t.source).Nodup := by
    rw [h5]
    exact nodup_keys_avl_insert stats_source_t.source (new_source K m) st.source_tree hu hnew
  refine ⟨st1, src, h1, h2, h3, h4, ?_, ?_⟩
  · intro hm mark hmark
    exact purge_drops_expired K fserve_contains st1 m src mark hu1 h2 hm (by omega)
  · intro hm mark hmark
    have hk := avl_find_key stats_source_t.source h2
    have e : (stats_handle K st1 (some m)).1
        = { st1 with
            source_tree :=
              avl_store stats_source_t.source m { src with updated := LONG_MAX }
                st1.source_tree } := by
      simp only [stats_handle, h2]
    rw [e]
    apply purge_keeps_fresh K fserve_contains _ m _ mark
    · simp only
      rw [map_key_avl_store stats_source_t.source m { src with updated := LONG_MAX } _ hk]
      exact hu1
    · exact avl_find_store_self stats_source_t.source h2 hk
    · exact hm
    · exact hmark

/-- C39, amended, at a concrete input: `stats_event_inc ("/a", "n")` on the empty store,
then `stats_purge (1)`. -/
theorem implicit_source_expires_witness :
    ∃ st1 src, stats_event_inc flags0 stats_empty (some (cstr "/a")) (some (cstr "n"))
          = some st1
      ∧ avl_find stats_source_t.source (cstr "/a") st1.source_tree = some src
      ∧ src.updated = 0
      ∧ avl_find stats_source_t.source (cstr "/a")
          (stats_purge flags0 (fun _ => 0) st1 1).source_tree = none := by
  obtain ⟨st1, src, h1, h2, h3, _, h5, _⟩ :=
    implicit_source_expires flags0 (fun _ => 0) stats_empty
      { build_event flags0 (some (cstr "/a")) (some (cstr "n")) (some (cstr "1")) with
        action := STATS_EVENT_INC }
      (cstr "/a") rfl (by decide) (by decide) (by decide)
  exact ⟨st1, src, h1, h2, h3, h5 (by decide) 1 (by decide)⟩

theorem entity_scan_iff : ∀ (p : CStr) (n : Nat) (taken : Bool),
    entity_scan n taken p = true ↔
      ∃ w rest, p = w ++ 59 :: rest ∧ (taken = true ∨ 1 ≤ w.length) ∧ w.length ≤ n
        ∧ ∀ c ∈ w, c ≠ 59 ∧ c ≠ 32 := by
  intro p
  induction p with
  | nil =>
    intro n taken
    cases n <;> simp [entity_scan]
  | cons c cs ih =>
    intro n taken
    cases n with
    | zero =>
      simp only [entity_scan, Bool.and_eq_true, decide_eq_true_eq]
      constructor
      · rintro ⟨ht, hc⟩
        exact ⟨[], cs, by simp [hc], Or.inl ht, by simp, by simp⟩
      · rintro ⟨w, rest, hp, ht, hl, _⟩
        have hw : w = [] := List.length_eq_zero.1 (by omega)
        subst hw
        simp at hp ht
        exact ⟨ht, hp.1⟩
    | succ n =>
      simp only [entity_scan]
      by_cases h59 : c = 59
      · simp only [h59, true_or, ↓reduceIte, decide_True, Bool.and_true]
        constructor
        · intro ht
          exact ⟨[], cs, by simp, Or.inl ht, by simp, by simp⟩
        · rintro ⟨w, rest, hp, ht, _, hw⟩
          cases w with
          | nil => simpa using ht
          | cons x xs =>
            simp at hp
            exact absurd hp.1.symm (hw x (by simp)).1
      · by_cases h32 : c = 32
        · simp only [h32, or_true, ↓reduceIte]
          constructor
          · intro h
            simp at h
          · rintro ⟨w, rest, hp, _, _, hw⟩
            cases w with
            | nil => simp at hp
            | cons x xs =>
              simp at hp
              exact absurd hp.1.symm (hw x (by simp)).2
        · simp only [h59, h32, or_self, ↓reduceIte]
          rw [ih n true]
          constructor
          · rintro ⟨w, rest, hp, _, hl, hw⟩
            refine ⟨c :: w, rest, by simp [hp], Or.inr (by simp), by simpa using hl, ?_⟩
            intro x hx
            rcases List.mem_cons.1 hx with rfl | hx
            · exact ⟨h59, h32⟩
            · exact hw x hx
          · rintro ⟨w, rest, hp, _, hl, hw⟩
            cases w with
            | nil =>
              simp at hp
              exact absurd hp.1 h59
            | cons x xs =>
              simp at hp
              refine ⟨xs, rest, hp.2, Or.inl rfl, by simpa using hl, ?_⟩
              intro y hy
              exact hw y (List.mem_cons_of_mem _ hy)

theorem dropWhile_amp (pre p : CStr) (h : 38 ∉ pre) :
    (pre ++ 38 :: p).dropWhile (· ≠ 38) = 38 :: p := by
  induction pre with
  | nil => simp [List.dropWhile]
  | cons x xs ih =>
    have hx : x ≠ 38 := fun e => h (by simp [e])
    simp only [List.cons_append, List.dropWhile, hx, ne_eq, not_false_eq_true, decide_True]
    exact ih (fun e => h (List.mem_cons_of_mem _ e))

theorem dropWhile_amp_split (v : CStr) :
    (v.dropWhile (· ≠ 38) = [] ∧ 38 ∉ v)
      ∨ ∃ pre p, v = pre ++ 38 :: p ∧ 38 ∉ pre ∧ v.dropWhile (· ≠ 38) = 38 :: p := by
  induction v with
  | nil => left; simp
  | cons x xs ih =>
    by_cases hx : x = 38
    · right
      exact ⟨[], xs, by simp [hx], by simp, by simp [List.dropWhile, hx]⟩
    · rcases ih with ⟨h1, h2⟩ | ⟨pre, p, h1, h2, h3⟩
      · left
        refine ⟨by rw [List.dropWhile_cons_of_pos (by simpa using hx)]; exact h1, ?_⟩
        simp only [List.mem_cons, not_or]
        exact ⟨fun e => hx e.symm, h2⟩
      · right
        refine ⟨x :: pre, p, by simp [h1], ?_,
          by rw [List.dropWhile_cons_of_pos (by simpa using hx)]; exact h3⟩
        simp only [List.mem_cons, not_or]
        exact ⟨fun e => hx e.symm, h2⟩

/-- C40: `contains_xml_entity (value)` returns 1 exactly when the value is not null, has a
`&`, and the text after its first `&` starts with between one and nine bytes, none of them
`;` or a blank, followed by `;`. An entity that comes after an earlier bare `&` is not
seen: `a & b &amp;` gives 0. -/
theorem contains_xml_entity_iff (value : Option CStr) :
    (contains_xml_entity value = true ↔ ∃ v, value = some v ∧ entity_after_first_amp v)
      ∧ contains_xml_entity (some (cstr "&amp;")) = true
      ∧ contains_xml_entity (some (cstr "a & b &amp;")) = false := by
  refine ⟨?_, by decide, by decide⟩
  cases value with
  | none => simp [contains_xml_entity]
  | some v =>
    simp only [contains_xml_entity, Option.some.injEq, exists_eq_left']
    rcases dropWhile_amp_split v with ⟨h1, h2⟩ | ⟨pre, p, h1, h2, h3⟩
    · rw [h1]
      simp only [Bool.false_eq_true, false_iff]
      rintro ⟨pre, w, rest, hv, _⟩
      exact h2 (by rw [hv]; simp)
    · rw [h3]
      simp only
      rw [entity_scan_iff]
      constructor
      · rintro ⟨w, rest, hp, ht, hl, hw⟩
        refine ⟨pre, w, rest, by rw [h1, hp], h2, ?_, hl, hw⟩
        rcases ht with ht | ht
        · simp at ht
        · exact ht
      · rintro ⟨pre1, w, rest, hv, hpre, h1w, h9, hw⟩
        have e := dropWhile_amp pre1 (w ++ 59 :: rest) hpre
        rw [← hv, h3] at e
        simp only [List.cons.injEq, true_and] at e
        exact ⟨w, rest, e, Or.inr h1w, h9, hw⟩

end Icecast
